import Mathlib

/-!
# zif: version comparison, package relation queries and package-array filters

A shallow embedding of parts of `libzif` (`zif-utils.c`, `zif-config.c`,
`zif-package.c`, `zif-package-array.c`, `zif-string-array.c`) and of `libdum`
(`dum-depend-array.c`) together with theorems about them.

Conventions of the embedding:

* a C string is a `List Char` (the terminating NUL is implicit);
* a `NULL` pointer is `none`;
* functions of other libraries (`rpmvercmp` of librpm, `atol` of libc) and the
  parts of zif whose source is not at hand (`zif_depend_satisfies`,
  `zif_depend_get_description`, the `ZifState` progress calls, the
  `ensure_data` loaders of the package subclasses, the key file and the
  monitor behind `ZifConfig`) are parameters of the functions that call them.
-/

namespace Zif

/-! ## Strings -/

/-- A C string, without its terminating NUL. -/
abbrev Str := List Char

/-- Behaviour of `strstr (s, c)` for a one-character needle: the text before the
first occurrence of `c` and the text after it, or `none` when `c` does not
occur. -/
def splitFirst (c : Char) : Str → Option (Str × Str)
  | [] => none
  | x :: xs =>
    if x = c then some ([], xs)
    else
      match splitFirst c xs with
      | none => none
      | some (before, after) => some (x :: before, after)

/-- Behaviour of `g_strrstr (s, c)` for a one-character needle: the text before
the last occurrence of `c` and the text after it, or `none` when `c` does not
occur. -/
def splitLast (c : Char) : Str → Option (Str × Str)
  | [] => none
  | x :: xs =>
    match splitLast c xs with
    | some (before, after) => some (x :: before, after)
    | none => if x = c then some ([], xs) else none

/-! ## zif-utils.c: epoch, version, release -/

/-- The three parts `zif_package_convert_evr` writes through its out
parameters. -/
structure Evr where
  epoch : Option Str
  version : Str
  release : Option Str
  deriving DecidableEq, Repr

/-- Model of `zif_package_convert_evr`: split a possible epoch at the first `:` and then a
possible release at the last `-` of what follows the epoch. -/
def zif_package_convert_evr (evr : Str) : Evr :=
  let ev : Option Str × Str :=
    match splitFirst ':' evr with
    | some (e, rest) => (some e, rest)
    | none => (none, evr)
  match splitLast '-' ev.2 with
  | some (v, r) => { epoch := ev.1, version := v, release := some r }
  | none => { epoch := ev.1, version := ev.2, release := none }

/-- The `compare epoch` statement of `zif_compare_evr`: the value left in `val`
and whether control jumps to `out`. When both epochs are present the result
of `rpmvercmp` is stored and control falls through to the version
comparison. -/
def zif_compare_evr_epoch (rpmvercmp : Str → Str → Int) (atol : Str → Int)
    (ae be : Option Str) : Int × Bool :=
  match ae, be with
  | some x, some y => (rpmvercmp x y, false)
  | _, _ =>
    if (match ae with
        | some x => decide (0 < atol x)
        | none => false) then (1, true)
    else if (match be with
        | some y => decide (0 < atol y)
        | none => false) then (-1, true)
    else (0, false)

/-- Model of `zif_compare_evr`: compare two `[epoch:]version[-release]` strings. -/
def zif_compare_evr (rpmvercmp : Str → Str → Int) (atol : Str → Int) (a b : Str) : Int :=
  -- exactly the same, optimise
  if a = b then 0
  else
    let ea := zif_package_convert_evr a
    let eb := zif_package_convert_evr b
    -- compare epoch
    let ep := zif_compare_evr_epoch rpmvercmp atol ea.epoch eb.epoch
    if ep.2 then ep.1
    else
      -- compare version (this assignment replaces what the epoch left in val)
      let val := rpmvercmp ea.version eb.version
      if val ≠ 0 then val
      else
        -- compare release
        match ea.release, eb.release with
        | some ar, some br => rpmvercmp ar br
        | _, _ => val

/-! ## Concrete models of the library functions

`rpmvercmp` and `atol` are not zif code. The theorems below hold for every
function with the stated properties; these models are the instances used for
concrete evaluations. -/

/-- A segment of a version string: a run of letters or a run of digits (given by
its numeric value, which is what comparing digit runs without their leading
zeros by length and then by `strcmp` amounts to). -/
inductive VerSeg where
  | alpha (s : Str)
  | num (n : Nat)
  deriving DecidableEq, Repr

/-- Add one character to the segment being read. `cur` is the open segment. -/
def verSegments : Option VerSeg → Str → List VerSeg
  | cur, [] => cur.toList
  | cur, c :: cs =>
    if c.isDigit then
      match cur with
      | some (VerSeg.num n) => verSegments (some (VerSeg.num (10 * n + (c.toNat - 48)))) cs
      | some (VerSeg.alpha s) => VerSeg.alpha s :: verSegments (some (VerSeg.num (c.toNat - 48))) cs
      | none => verSegments (some (VerSeg.num (c.toNat - 48))) cs
    else if c.isAlpha then
      match cur with
      | some (VerSeg.alpha s) => verSegments (some (VerSeg.alpha (s ++ [c]))) cs
      | some (VerSeg.num n) => VerSeg.num n :: verSegments (some (VerSeg.alpha [c])) cs
      | none => verSegments (some (VerSeg.alpha [c])) cs
    else
      cur.toList ++ verSegments none cs

/-- Lexicographic comparison of two lists by a three-way comparison of their
elements; a proper prefix is smaller. -/
def lexCmp {α : Type} (f : α → α → Int) : List α → List α → Int
  | [], [] => 0
  | [], _ :: _ => -1
  | _ :: _, [] => 1
  | x :: xs, y :: ys => if f x y ≠ 0 then f x y else lexCmp f xs ys

/-- Three-way comparison of two characters by code. -/
def charCmp (c d : Char) : Int :=
  if c.toNat < d.toNat then -1 else if d.toNat < c.toNat then 1 else 0

/-- Sign of `strcmp`. -/
def strcmpSign (s t : Str) : Int := lexCmp charCmp s t

/-- Three-way comparison of two segments: digit runs by value, letter runs by
`strcmp`, and a digit run is newer than a letter run. -/
def verSegCmp : VerSeg → VerSeg → Int
  | VerSeg.num a, VerSeg.num b => if a < b then -1 else if b < a then 1 else 0
  | VerSeg.alpha s, VerSeg.alpha t => strcmpSign s t
  | VerSeg.num _, VerSeg.alpha _ => 1
  | VerSeg.alpha _, VerSeg.num _ => -1

/-- Model of librpm's `rpmvercmp` (the segment-wise algorithm of §4.2: separators
are skipped, segments are compared in turn, and the string with segments left
over is the newer one). -/
def rpmvercmp (a b : Str) : Int :=
  lexCmp verSegCmp (verSegments none a) (verSegments none b)

/-- Characters `isspace` accepts in the C locale. -/
def isspace (c : Char) : Bool :=
  c = ' ' || c = '\t' || c = '\n' || c = '\x0b' || c = '\x0c' || c = '\r'

/-- Value of the leading decimal digits of a string, continuing from `acc`. -/
def digitsValue : Nat → Str → Nat
  | acc, [] => acc
  | acc, c :: cs => if c.isDigit then digitsValue (10 * acc + (c.toNat - 48)) cs else acc

/-- Model of libc's `atol` for values that fit a `long`: leading white space, an
optional sign, then decimal digits; `0` when there are no digits. -/
def atol (s : Str) : Int :=
  match s.dropWhile isspace with
  | '-' :: r => - (digitsValue 0 r : Int)
  | '+' :: r => (digitsValue 0 r : Int)
  | r => (digitsValue 0 r : Int)

/-- The properties of a three-way comparison that make it a total preorder:
a value compares equal to itself, swapping the arguments negates the result,
and `≤` is transitive. -/
structure IsTotalCmp (cmp : Str → Str → Int) : Prop where
  refl : ∀ x, cmp x x = 0
  antisymm : ∀ x y, cmp y x = - cmp x y
  trans : ∀ x y z, cmp x y ≤ 0 → cmp y z ≤ 0 → cmp x z ≤ 0

/-- The comparison of version and then release that `zif_compare_evr` makes when
the epochs do not decide: the versions, and when they compare equal the
releases if both are present. -/
def evr_compare_version_release (rpmvercmp : Str → Str → Int) (x y : Evr) : Int :=
  if rpmvercmp x.version y.version ≠ 0 then rpmvercmp x.version y.version
  else
    match x.release, y.release with
    | some ar, some br => rpmvercmp ar br
    | _, _ => 0

/-- The string has no epoch that `atol` reads as a positive integer. -/
def no_positive_epoch (atol : Str → Int) (a : Str) : Prop :=
  ∀ e, (zif_package_convert_evr a).epoch = some e → ¬ 0 < atol e

/-! ## GLib containers -/

/-- A GHashTable with string keys (g_str_hash, g_str_equal), as the list of its
entries; a key occurs at most once. -/
abbrev GHashTable (V : Type) := List (Str × V)

/-- Model of `g_hash_table_lookup_extended`: the value stored under the key, or
`none` when the key is not in the table. -/
def g_hash_table_lookup_extended {V : Type} : GHashTable V → Str → Option V
  | [], _ => none
  | (k, v) :: t, key => if k = key then some v else g_hash_table_lookup_extended t key

/-- Model of `g_hash_table_insert`: the value of an existing key is replaced. -/
def g_hash_table_insert {V : Type} (table : GHashTable V) (key : Str) (value : V) :
    GHashTable V :=
  (key, value) :: table.filter (fun e => decide (e.1 ≠ key))

/-- Model of `g_ptr_array_remove_index_fast`: the last element is moved into the
place of the removed one. -/
def g_ptr_array_remove_index_fast {α : Type} (array : List α) (index : Nat) : List α :=
  if index < array.length then
    match array.getLast? with
    | some last => (array.set index last).dropLast
    | none => array
  else array

/-! ## zif-depend.h -/

def ZIF_DEPEND_FLAG_ANY : Nat := 1

def ZIF_DEPEND_FLAG_LESS : Nat := 2

def ZIF_DEPEND_FLAG_GREATER : Nat := 4

def ZIF_DEPEND_FLAG_EQUAL : Nat := 8

def ZIF_DEPEND_FLAG_UNKNOWN : Nat := 0

/-- A ZifDepend object: name, flag (a ZifDependFlag value or an OR of them) and
version. -/
structure ZifDepend where
  name : Str
  flag : Nat
  version : Option Str
  deriving DecidableEq, Repr

/-- The two functions of zif-depend.c that the package queries call; their source
is not at hand, so they are parameters. -/
structure ZifDependApi where
  zif_depend_get_description : ZifDepend → Str
  zif_depend_satisfies : ZifDepend → ZifDepend → Bool

/-- The test `name[0] == '/'` of a file dependency. -/
def is_file_depend (name : Str) : Bool :=
  match name with
  | c :: _ => decide (c = '/')
  | [] => false

/-! ## zif-package.c -/

inductive ZifPackageEnsureType where
  | files | summary | licence | description | url | size | group
  | requires | provides | conflicts | obsoletes | category | cache_filename
  deriving DecidableEq, Repr

/-- A GError, by its message. -/
structure GError where
  message : Str
  deriving DecidableEq, Repr

/-- The private data of a ZifPackage (struct _ZifPackagePrivate). -/
structure ZifPackage where
  package_id_split : Option (List Str)
  package_id : Option Str
  cache_filename : Option Str
  cache_file : Option Str
  summary : Option Str
  description : Option Str
  license : Option Str
  url : Option Str
  category : Option Str
  location_href : Option Str
  group : Option Str
  size : Nat
  time_file : Nat
  files : Option (List Str)
  requires : Option (List ZifDepend)
  provides : List ZifDepend
  provides_set : Bool
  obsoletes : Option (List ZifDepend)
  conflicts : Option (List ZifDepend)
  requires_hash : GHashTable (Option ZifDepend)
  provides_hash : GHashTable (Option ZifDepend)
  obsoletes_hash : GHashTable (Option ZifDepend)
  conflicts_hash : GHashTable (Option ZifDepend)
  requires_any_hash : GHashTable ZifDepend
  provides_any_hash : GHashTable ZifDepend
  obsoletes_any_hash : GHashTable ZifDepend
  conflicts_any_hash : GHashTable ZifDepend
  any_file_requires : Bool
  any_file_provides : Bool
  any_file_obsoletes : Bool
  any_file_conflicts : Bool
  installed : Bool
  deriving DecidableEq, Repr

/-- The class of a package: `ensure_data` is the loader of the subclass, `none`
when the class has none. A loader returns its success and the package as it
left it. -/
structure ZifPackageClass where
  ensure_data : Option (ZifPackage → ZifPackageEnsureType → Except GError Unit × ZifPackage)

/-- Model of `zif_package_init`: an empty provides array and eight empty hash
tables. -/
def zif_package_init : ZifPackage where
  package_id_split := none
  package_id := none
  cache_filename := none
  cache_file := none
  summary := none
  description := none
  license := none
  url := none
  category := none
  location_href := none
  group := none
  size := 0
  time_file := 0
  files := none
  requires := none
  provides := []
  provides_set := false
  obsoletes := none
  conflicts := none
  requires_hash := []
  provides_hash := []
  obsoletes_hash := []
  conflicts_hash := []
  requires_any_hash := []
  provides_any_hash := []
  obsoletes_any_hash := []
  conflicts_any_hash := []
  any_file_requires := false
  any_file_provides := false
  any_file_obsoletes := false
  any_file_conflicts := false
  installed := false

/-- Model of `zif_package_get_id`. -/
def zif_package_get_id (package : ZifPackage) : Option Str :=
  package.package_id

/-- What the conversion `%s` of `g_set_error` prints for a string; glibc prints a
NULL pointer as `(null)`. -/
def printf_s (s : Option Str) : Str :=
  s.getD "(null)".toList

/-- Model of `zif_package_ensure_type_to_string`. -/
def zif_package_ensure_type_to_string : ZifPackageEnsureType → Str
  | ZifPackageEnsureType.files => "files".toList
  | ZifPackageEnsureType.summary => "summary".toList
  | ZifPackageEnsureType.licence => "licence".toList
  | ZifPackageEnsureType.description => "description".toList
  | ZifPackageEnsureType.url => "url".toList
  | ZifPackageEnsureType.size => "size".toList
  | ZifPackageEnsureType.group => "group".toList
  | ZifPackageEnsureType.requires => "requires".toList
  | ZifPackageEnsureType.provides => "provides".toList
  | ZifPackageEnsureType.conflicts => "conflicts".toList
  | ZifPackageEnsureType.obsoletes => "obsoletes".toList
  | _ => "unknown".toList

/-- Model of `zif_package_ensure_data`: fails with `cannot get ... data from ...`
when the class has no loader, and otherwise calls the loader. -/
def zif_package_ensure_data (klass : ZifPackageClass) (package : ZifPackage)
    (type : ZifPackageEnsureType) : Except GError Unit × ZifPackage :=
  match klass.ensure_data with
  | none =>
    (Except.error { message := "cannot get ".toList ++ zif_package_ensure_type_to_string type
        ++ " data from ".toList ++ printf_s (zif_package_get_id package) }, package)
  | some loader => loader package type

/-- What a relation query gives back: `found s` when it returned TRUE with
`*satisfies = s`, `failed e` when it returned FALSE with the error `e`, and
`undefined` when it read the length of a list that is still NULL. -/
inductive ZifQuery where
  | found (satisfies : Option ZifDepend)
  | failed (error : GError)
  | undefined
  deriving DecidableEq, Repr

/-- The statements `zif_package_provides`, `zif_package_requires`,
`zif_package_conflicts` and `zif_package_obsoletes` share once the data is
loaded, on the fields of the relation that is queried: the list, the
`any_file_` flag, the `any` cache and the description cache. Gives the result
and the description cache afterwards. -/
def zif_package_depend_lookup (api : ZifDependApi) (list : Option (List ZifDepend))
    (any_file : Bool) (any_hash : GHashTable ZifDepend)
    (hash : GHashTable (Option ZifDepend)) (depend : ZifDepend) :
    ZifQuery × GHashTable (Option ZifDepend) :=
  -- this is a file depend, but we know there are none
  if is_file_depend depend.name && !any_file then (ZifQuery.found none, hash)
  -- search in the any cache first
  else if depend.flag = ZIF_DEPEND_FLAG_ANY then
    match g_hash_table_lookup_extended any_hash depend.name with
    | some depend_tmp => (ZifQuery.found (some depend_tmp), hash)
    | none => (ZifQuery.found none, hash)
  else
    -- then the description cache
    let depend_id := api.zif_depend_get_description depend
    match g_hash_table_lookup_extended hash depend_id with
    | some depend_tmp => (ZifQuery.found depend_tmp, hash)
    | none =>
      match list with
      | none => (ZifQuery.undefined, hash)
      | some entries =>
        -- find what we are looking for
        let satisfies := entries.find? (fun depend_tmp => api.zif_depend_satisfies depend_tmp depend)
        -- insert into cache
        (ZifQuery.found satisfies, g_hash_table_insert hash depend_id satisfies)

/-- Model of `zif_package_provides`: loads the provides and then the files when
they are not set, and looks the dependency up. -/
def zif_package_provides (api : ZifDependApi) (klass : ZifPackageClass)
    (package : ZifPackage) (depend : ZifDepend) : ZifQuery × ZifPackage :=
  let loaded : Except GError Unit × ZifPackage :=
    if !package.provides_set then zif_package_ensure_data klass package ZifPackageEnsureType.provides
    else (Except.ok (), package)
  match loaded with
  | (Except.error e, package) => (ZifQuery.failed e, package)
  | (Except.ok _, package) =>
    let loaded : Except GError Unit × ZifPackage :=
      if package.files = none then zif_package_ensure_data klass package ZifPackageEnsureType.files
      else (Except.ok (), package)
    match loaded with
    | (Except.error e, package) => (ZifQuery.failed e, package)
    | (Except.ok _, package) =>
      let r := zif_package_depend_lookup api (some package.provides) package.any_file_provides
        package.provides_any_hash package.provides_hash depend
      (r.1, { package with provides_hash := r.2 })

/-- Model of `zif_package_requires`: loads the requires when they are not set, and
looks the dependency up. -/
def zif_package_requires (api : ZifDependApi) (klass : ZifPackageClass)
    (package : ZifPackage) (depend : ZifDepend) : ZifQuery × ZifPackage :=
  let loaded : Except GError Unit × ZifPackage :=
    if package.requires = none then zif_package_ensure_data klass package ZifPackageEnsureType.requires
    else (Except.ok (), package)
  match loaded with
  | (Except.error e, package) => (ZifQuery.failed e, package)
  | (Except.ok _, package) =>
    let r := zif_package_depend_lookup api package.requires package.any_file_requires
      package.requires_any_hash package.requires_hash depend
    (r.1, { package with requires_hash := r.2 })

/-- Model of `zif_package_conflicts`: loads the conflicts when they are not set,
and looks the dependency up. -/
def zif_package_conflicts (api : ZifDependApi) (klass : ZifPackageClass)
    (package : ZifPackage) (depend : ZifDepend) : ZifQuery × ZifPackage :=
  let loaded : Except GError Unit × ZifPackage :=
    if package.conflicts = none then zif_package_ensure_data klass package ZifPackageEnsureType.conflicts
    else (Except.ok (), package)
  match loaded with
  | (Except.error e, package) => (ZifQuery.failed e, package)
  | (Except.ok _, package) =>
    let r := zif_package_depend_lookup api package.conflicts package.any_file_conflicts
      package.conflicts_any_hash package.conflicts_hash depend
    (r.1, { package with conflicts_hash := r.2 })

/-- Model of `zif_package_obsoletes`: loads the obsoletes when they are not set,
and looks the dependency up. -/
def zif_package_obsoletes (api : ZifDependApi) (klass : ZifPackageClass)
    (package : ZifPackage) (depend : ZifDepend) : ZifQuery × ZifPackage :=
  let loaded : Except GError Unit × ZifPackage :=
    if package.obsoletes = none then zif_package_ensure_data klass package ZifPackageEnsureType.obsoletes
    else (Except.ok (), package)
  match loaded with
  | (Except.error e, package) => (ZifQuery.failed e, package)
  | (Except.ok _, package) =>
    let r := zif_package_depend_lookup api package.obsoletes package.any_file_obsoletes
      package.obsoletes_any_hash package.obsoletes_hash depend
    (r.1, { package with obsoletes_hash := r.2 })

/-- The loop `add items to any cache` of the setters: every entry is inserted
under its name. -/
def any_hash_add (table : GHashTable ZifDepend) (entries : List ZifDepend) :
    GHashTable ZifDepend :=
  entries.foldl (fun t depend_tmp => g_hash_table_insert t depend_tmp.name depend_tmp) table

/-- The depend `zif_package_set_files` makes of a file name. -/
def file_depend (filename : Str) : ZifDepend :=
  { name := filename, flag := ZIF_DEPEND_FLAG_ANY, version := none }

/-- Model of `zif_package_set_files`: does nothing when the files are already set;
otherwise every file name becomes a provide with flag ANY. -/
def zif_package_set_files (package : ZifPackage) (files : List Str) : ZifPackage :=
  if package.files.isSome then package
  else
    { package with
      provides_any_hash := any_hash_add package.provides_any_hash (files.map file_depend)
      provides := package.provides ++ files.map file_depend
      any_file_provides := package.any_file_provides || !files.isEmpty
      files := some files }

/-- Model of `zif_package_set_requires`: does nothing when the requires are
already set. -/
def zif_package_set_requires (package : ZifPackage) (requires : List ZifDepend) : ZifPackage :=
  if package.requires.isSome then package
  else
    { package with
      requires_any_hash := any_hash_add package.requires_any_hash requires
      any_file_requires :=
        package.any_file_requires || requires.any (fun depend_tmp => is_file_depend depend_tmp.name)
      requires := some requires }

/-- Model of `zif_package_set_provides`: does nothing when the provides are
already set; the entries are added to the array, which may hold the files. -/
def zif_package_set_provides (package : ZifPackage) (provides : List ZifDepend) : ZifPackage :=
  if package.provides_set then package
  else
    { package with
      provides_set := true
      provides_any_hash := any_hash_add package.provides_any_hash provides
      any_file_provides :=
        package.any_file_provides || provides.any (fun depend_tmp => is_file_depend depend_tmp.name)
      provides := package.provides ++ provides }

/-- Model of `zif_package_set_obsoletes`: does nothing when the obsoletes are
already set. -/
def zif_package_set_obsoletes (package : ZifPackage) (obsoletes : List ZifDepend) : ZifPackage :=
  if package.obsoletes.isSome then package
  else
    { package with
      obsoletes_any_hash := any_hash_add package.obsoletes_any_hash obsoletes
      any_file_obsoletes :=
        package.any_file_obsoletes || obsoletes.any (fun depend_tmp => is_file_depend depend_tmp.name)
      obsoletes := some obsoletes }

/-- Model of `zif_package_set_conflicts`: does nothing when the conflicts are
already set. -/
def zif_package_set_conflicts (package : ZifPackage) (conflicts : List ZifDepend) : ZifPackage :=
  if package.conflicts.isSome then package
  else
    { package with
      conflicts_any_hash := any_hash_add package.conflicts_any_hash conflicts
      any_file_conflicts :=
        package.any_file_conflicts || conflicts.any (fun depend_tmp => is_file_depend depend_tmp.name)
      conflicts := some conflicts }

/-- The package after a sequence of queries of one kind, the results dropped. -/
def zif_package_queries (query : ZifPackage → ZifDepend → ZifQuery × ZifPackage)
    (package : ZifPackage) (depends : List ZifDepend) : ZifPackage :=
  depends.foldl (fun p depend => (query p depend).2) package

/-! ## zif-package-array.c: the four dependency filters

The packages of an array are objects shared with the caller, so an array is a
list of handles into a heap of packages. The ZifState progress calls are not at
hand: each call that can fail asks a parameter for its outcome, given the
calls made so far, and is written to a log. -/

/-- A progress node: the state passed in, or the child made by the k-th
`zif_state_get_child` call on a node. -/
inductive ZifStateNode where
  | root
  | child (parent : ZifStateNode) (k : Nat)
  deriving DecidableEq, Repr

/-- A call of the ZifState interface. -/
inductive ZifStateCall where
  | set_number_steps (state : ZifStateNode) (steps : Nat)
  | get_child (state : ZifStateNode)
  | finished (state : ZifStateNode)
  | done (state : ZifStateNode)
  deriving DecidableEq, Repr

/-- The progress calls made so far, oldest first, each with its outcome. -/
abbrev ZifStateLog := List (ZifStateCall × Bool)

/-- An implementation of ZifState, as far as the filters see it: whether a call
succeeds, given the calls before it. -/
abbrev ZifStateImpl := ZifStateLog → ZifStateCall → Bool

/-- The heap of packages, by handle. -/
abbrev ZifHeap := Nat → ZifPackage

/-- A relation query on the package behind a handle. -/
abbrev ZifHeapQuery := ZifHeap → Nat → ZifDepend → ZifQuery × ZifHeap

/-- Run a package query on the package behind a handle, with the class of that
object, and store the package back. -/
def zif_heap_query (query : ZifPackageClass → ZifPackage → ZifDepend → ZifQuery × ZifPackage)
    (classes : Nat → ZifPackageClass) : ZifHeapQuery :=
  fun heap package depend =>
    let r := query (classes package) (heap package) depend
    (r.1, Function.update heap package r.2)

/-- The variables of a filter that live across loop iterations. -/
structure ZifFilterState where
  array : List Nat
  heap : ZifHeap
  satisfies : Option ZifDepend
  log : ZifStateLog

/-- How a filter ended: `ok` is the return value TRUE, the others are FALSE after
a failed query or progress call, or a query that read a NULL list. -/
inductive ZifFilterStatus where
  | ok
  | query_failed (error : GError)
  | query_undefined
  | state_failed
  deriving DecidableEq, Repr

/-- The loop `try each depend as OR` of the filters, over the depends not yet
tried. -/
def zif_package_array_filter_depends (query : ZifHeapQuery) (state_impl : ZifStateImpl)
    (package : Nat) (state_local : ZifStateNode) :
    List ZifDepend → ZifFilterState → ZifFilterStatus × ZifFilterState
  | [], s => (ZifFilterStatus.ok, s)
  | depend_tmp :: rest, s =>
    let log := s.log ++ [(ZifStateCall.get_child state_local, true)]
    match query s.heap package depend_tmp with
    | (ZifQuery.failed e, heap) =>
      (ZifFilterStatus.query_failed e, { s with heap := heap, log := log })
    | (ZifQuery.undefined, heap) =>
      (ZifFilterStatus.query_undefined, { s with heap := heap, log := log })
    | (ZifQuery.found satisfies, heap) =>
      if satisfies.isSome then
        let ok := state_impl log (ZifStateCall.finished state_local)
        let s1 : ZifFilterState :=
          { array := s.array, heap := heap, satisfies := satisfies,
            log := log ++ [(ZifStateCall.finished state_local, ok)] }
        if ok then (ZifFilterStatus.ok, s1) else (ZifFilterStatus.state_failed, s1)
      else
        let ok := state_impl log (ZifStateCall.done state_local)
        let s1 : ZifFilterState :=
          { array := s.array, heap := heap, satisfies := satisfies,
            log := log ++ [(ZifStateCall.done state_local, ok)] }
        if ok then zif_package_array_filter_depends query state_impl package state_local rest s1
        else (ZifFilterStatus.state_failed, s1)

/-- The loop `remove entries that do not satisfy the dep` of the filters, from
index `i`, `step` iterations having been made; `fuel` bounds the number of
iterations and `none` means it ran out. -/
def zif_package_array_filter_loop (query : ZifHeapQuery) (state_impl : ZifStateImpl)
    (depends : List ZifDepend) :
    Nat → Nat → Nat → ZifFilterState → Option (ZifFilterStatus × ZifFilterState)
  | 0, i, _, s => if i < s.array.length then none else some (ZifFilterStatus.ok, s)
  | fuel + 1, i, step, s =>
    if h : i < s.array.length then
      let package := s.array.get ⟨i, h⟩
      let state_local := ZifStateNode.child ZifStateNode.root step
      let log := s.log ++ [(ZifStateCall.get_child ZifStateNode.root, true),
        (ZifStateCall.set_number_steps state_local depends.length, true)]
      match zif_package_array_filter_depends query state_impl package state_local depends
          { s with log := log } with
      | (ZifFilterStatus.ok, s1) =>
        let ok := state_impl s1.log (ZifStateCall.done ZifStateNode.root)
        let s2 : ZifFilterState :=
          { s1 with log := s1.log ++ [(ZifStateCall.done ZifStateNode.root, ok)] }
        if ok then
          if s2.satisfies = none then
            zif_package_array_filter_loop query state_impl depends fuel i (step + 1)
              { s2 with array := g_ptr_array_remove_index_fast s2.array i }
          else
            zif_package_array_filter_loop query state_impl depends fuel (i + 1) (step + 1) s2
        else some (ZifFilterStatus.state_failed, s2)
      | (status, s1) => some (status, s1)
    else some (ZifFilterStatus.ok, s)

/-- The body of the four filters, which differ in the query they call: at most
one iteration is made for each element of the array at entry. -/
def zif_package_array_filter (query : ZifHeapQuery) (state_impl : ZifStateImpl)
    (heap : ZifHeap) (array : List Nat) (depends : List ZifDepend) :
    Option (ZifFilterStatus × ZifFilterState) :=
  zif_package_array_filter_loop query state_impl depends array.length 0 0
    { array := array, heap := heap, satisfies := none,
      log := [(ZifStateCall.set_number_steps ZifStateNode.root array.length, true)] }

/-- Model of `zif_package_array_filter_provide`. -/
def zif_package_array_filter_provide (api : ZifDependApi) (classes : Nat → ZifPackageClass)
    (state_impl : ZifStateImpl) (heap : ZifHeap) (array : List Nat) (depends : List ZifDepend) :
    Option (ZifFilterStatus × ZifFilterState) :=
  zif_package_array_filter (zif_heap_query (zif_package_provides api) classes)
    state_impl heap array depends

/-- Model of `zif_package_array_filter_require`. -/
def zif_package_array_filter_require (api : ZifDependApi) (classes : Nat → ZifPackageClass)
    (state_impl : ZifStateImpl) (heap : ZifHeap) (array : List Nat) (depends : List ZifDepend) :
    Option (ZifFilterStatus × ZifFilterState) :=
  zif_package_array_filter (zif_heap_query (zif_package_requires api) classes)
    state_impl heap array depends

/-- Model of `zif_package_array_filter_conflict`. -/
def zif_package_array_filter_conflict (api : ZifDependApi) (classes : Nat → ZifPackageClass)
    (state_impl : ZifStateImpl) (heap : ZifHeap) (array : List Nat) (depends : List ZifDepend) :
    Option (ZifFilterStatus × ZifFilterState) :=
  zif_package_array_filter (zif_heap_query (zif_package_conflicts api) classes)
    state_impl heap array depends

/-- Model of `zif_package_array_filter_obsolete`. -/
def zif_package_array_filter_obsolete (api : ZifDependApi) (classes : Nat → ZifPackageClass)
    (state_impl : ZifStateImpl) (heap : ZifHeap) (array : List Nat) (depends : List ZifDepend) :
    Option (ZifFilterStatus × ZifFilterState) :=
  zif_package_array_filter (zif_heap_query (zif_package_obsoletes api) classes)
    state_impl heap array depends

/-! ## Invariants of the caches -/

/-- The `any` cache and the `any_file_` flag of a relation agree with its list:
what the cache holds under a name is an entry of the list with that name,
every entry of the list has its name in the cache, and the flag is set when
an entry is a file dependency. -/
def AnyIndexed (entries : List ZifDepend) (any_hash : GHashTable ZifDepend)
    (any_file : Bool) : Prop :=
  (∀ name e, g_hash_table_lookup_extended any_hash name = some e → e ∈ entries ∧ e.name = name) ∧
  (∀ e ∈ entries, (g_hash_table_lookup_extended any_hash e.name).isSome = true) ∧
  (∀ e ∈ entries, is_file_depend e.name = true → any_file = true)

/-- Every entry of the description cache was stored for a dependency in `asked`,
under its description, and holds the first entry of the list that satisfies
it. -/
def CacheFrom (api : ZifDependApi) (entries : List ZifDepend) (asked : ZifDepend → Prop)
    (hash : GHashTable (Option ZifDepend)) : Prop :=
  ∀ key v, g_hash_table_lookup_extended hash key = some v →
    ∃ d, asked d ∧ key = api.zif_depend_get_description d ∧
      v = entries.find? (fun e => api.zif_depend_satisfies e d)

/-! ## A model of zif-depend.c for concrete evaluations -/

/-- Modelled from the spec: zif_depend_flag_to_string of zif-depend.c, which is not
among the sources; the operators of §4.1. -/
def zif_depend_flag_to_string (flag : Nat) : Str :=
  if flag = ZIF_DEPEND_FLAG_ANY then "~".toList
  else if flag = ZIF_DEPEND_FLAG_LESS then "<".toList
  else if flag = ZIF_DEPEND_FLAG_GREATER then ">".toList
  else if flag = ZIF_DEPEND_FLAG_EQUAL then "=".toList
  else if flag = ZIF_DEPEND_FLAG_LESS + ZIF_DEPEND_FLAG_EQUAL then "<=".toList
  else if flag = ZIF_DEPEND_FLAG_GREATER + ZIF_DEPEND_FLAG_EQUAL then ">=".toList
  else "unknown".toList

/-- Modelled from the spec: zif_depend_get_description of zif-depend.c, which is
not among the sources; the rendered dependency string `name OP version`. -/
def zif_depend_get_description (depend : ZifDepend) : Str :=
  depend.name ++ " ".toList ++ zif_depend_flag_to_string depend.flag ++ " ".toList
    ++ depend.version.getD []

/-- Modelled from the spec: zif_depend_satisfies of zif-depend.c, which is not
among the sources. §4.1: have satisfies need iff the names match and need has
the flag ANY or the comparison of the two versions holds for the operator of
need. -/
def zif_depend_satisfies (got need : ZifDepend) : Bool :=
  decide (got.name = need.name) &&
    (decide (need.flag = ZIF_DEPEND_FLAG_ANY) ||
      match got.version, need.version with
      | some gv, some nv =>
        let c := zif_compare_evr rpmvercmp atol gv nv
        (decide (need.flag / ZIF_DEPEND_FLAG_EQUAL % 2 = 1) && decide (c = 0)) ||
        (decide (need.flag / ZIF_DEPEND_FLAG_GREATER % 2 = 1) && decide (0 < c)) ||
        (decide (need.flag / ZIF_DEPEND_FLAG_LESS % 2 = 1) && decide (c < 0))
      | _, _ => false)

/-- The model of zif-depend.c as the parameter of the package queries. -/
def zif_depend_api : ZifDependApi where
  zif_depend_get_description := zif_depend_get_description
  zif_depend_satisfies := zif_depend_satisfies

/-- The requires of a package have not been set: no list and empty caches, as
`zif_package_init` leaves them. -/
def requires_unset (p : ZifPackage) : Prop :=
  p.requires = none ∧ p.requires_any_hash = [] ∧ p.requires_hash = []

/-- The conflicts of a package have not been set. -/
def conflicts_unset (p : ZifPackage) : Prop :=
  p.conflicts = none ∧ p.conflicts_any_hash = [] ∧ p.conflicts_hash = []

/-- The obsoletes of a package have not been set. -/
def obsoletes_unset (p : ZifPackage) : Prop :=
  p.obsoletes = none ∧ p.obsoletes_any_hash = [] ∧ p.obsoletes_hash = []

/-- Neither the provides nor the files of a package have been set. -/
def provides_unset (p : ZifPackage) : Prop :=
  p.provides_set = false ∧ p.files = none ∧ p.provides = [] ∧
    p.provides_any_hash = [] ∧ p.provides_hash = []

/-- The provides and the files of a package are both set, its `any` cache agrees
with the provides array and its description cache is `hash`-consistent with
the dependencies in `asked`. -/
def provides_loaded (api : ZifDependApi) (asked : ZifDepend → Prop) (p : ZifPackage) : Prop :=
  p.provides_set = true ∧ p.files.isSome = true ∧
    AnyIndexed p.provides p.provides_any_hash p.any_file_provides ∧
    CacheFrom api p.provides asked p.provides_hash

/-! ## What the relation queries are to return -/

/-- The query succeeded, and it returned an entry exactly when some entry of the
list has the name of the dependency; an entry returned is an entry of the
list with that name. -/
def finds_by_name (result : ZifQuery × ZifPackage) (entries : List ZifDepend)
    (depend : ZifDepend) : Prop :=
  ∃ satisfies, result.1 = ZifQuery.found satisfies ∧
    (satisfies.isSome = true ↔ ∃ e ∈ entries, e.name = depend.name) ∧
    ∀ e, satisfies = some e → e ∈ entries ∧ e.name = depend.name

/-- The query on the package succeeds with the first entry of the list, in list
order, that satisfies the dependency (`none` when there is none), and so does
the same query asked again on the package it leaves. -/
def finds_first (api : ZifDependApi) (query : ZifPackage → ZifDepend → ZifQuery × ZifPackage)
    (package : ZifPackage) (entries : List ZifDepend) (depend : ZifDepend) : Prop :=
  (query package depend).1 =
    ZifQuery.found (entries.find? (fun e => api.zif_depend_satisfies e depend)) ∧
  (query (query package depend).2 depend).1 =
    ZifQuery.found (entries.find? (fun e => api.zif_depend_satisfies e depend))

/-! ## Packages and classes for concrete evaluations -/

/-- A class without loader. -/
def class_no_loader : ZifPackageClass := { ensure_data := none }

/-- A class whose loader always fails and leaves the package as it is. -/
def class_failing_loader : ZifPackageClass :=
  { ensure_data := some (fun package _ =>
      (Except.error { message := "no metadata".toList }, package)) }

/-- A package with an id and nothing else set. -/
def package_hal : ZifPackage :=
  { zif_package_init with package_id := some "hal;0.5.8-1;i386;fedora".toList }

def depend_dbus_any : ZifDepend :=
  { name := "dbus".toList, flag := ZIF_DEPEND_FLAG_ANY, version := none }

def depend_dbus_1_2 : ZifDepend :=
  { name := "dbus".toList, flag := ZIF_DEPEND_FLAG_EQUAL, version := some "1.2-1".toList }

def depend_dbus_1_4 : ZifDepend :=
  { name := "dbus".toList, flag := ZIF_DEPEND_FLAG_EQUAL, version := some "1.4-1".toList }

def depend_dbus_newer : ZifDepend :=
  { name := "dbus".toList, flag := ZIF_DEPEND_FLAG_GREATER, version := some "1.3".toList }

def depend_glib_any : ZifDepend :=
  { name := "glib2".toList, flag := ZIF_DEPEND_FLAG_ANY, version := none }

def depend_sh_any : ZifDepend :=
  { name := "/bin/sh".toList, flag := ZIF_DEPEND_FLAG_ANY, version := none }

/-! ## What the filters are to do -/

/-- Every query the filter can make succeeds in every heap that satisfies `inv`,
it finds a match exactly when `matched` says so for the package and the
dependency, and it leaves a heap that satisfies `inv`. -/
def query_stable (query : ZifHeapQuery) (inv : ZifHeap → Prop) (array : List Nat)
    (depends : List ZifDepend) (matched : Nat → ZifDepend → Bool) : Prop :=
  ∀ heap package depend, inv heap → package ∈ array → depend ∈ depends →
    ∃ satisfies heap2, query heap package depend = (ZifQuery.found satisfies, heap2) ∧
      satisfies.isSome = matched package depend ∧ inv heap2

/-- The filter returns; when no progress call of its log failed it returns TRUE;
and when it returns TRUE every package is in the array as often as it was
before if one of the dependencies is matched for it, and not at all
otherwise. -/
def filter_keeps (result : Option (ZifFilterStatus × ZifFilterState)) (array : List Nat)
    (depends : List ZifDepend) (matched : Nat → ZifDepend → Bool) : Prop :=
  ∃ status s, result = some (status, s) ∧
    ((∀ ev ∈ s.log, ev.2 = true) → status = ZifFilterStatus.ok) ∧
    (status = ZifFilterStatus.ok → ∀ package,
      s.array.count package =
        if depends.any (matched package) then array.count package else 0)

/-- Whether a list of entries holds a match for a dependency: an entry of the
same name when the flag is ANY, and otherwise an entry that satisfies it. -/
def entries_match (api : ZifDependApi) (entries : List ZifDepend) (depend : ZifDepend) : Bool :=
  if depend.flag = ZIF_DEPEND_FLAG_ANY then entries.any (fun e => decide (e.name = depend.name))
  else entries.any (fun e => api.zif_depend_satisfies e depend)

/-- Every package of the heap has its requires set to the list `lists` gives for
its handle, with an `any` cache that agrees with the list and a description
cache filled by queries for the dependencies of `depends`. -/
def requires_loaded_heap (api : ZifDependApi) (lists : Nat → List ZifDepend)
    (depends : List ZifDepend) (heap : ZifHeap) : Prop :=
  ∀ package, (heap package).requires = some (lists package) ∧
    AnyIndexed (lists package) (heap package).requires_any_hash
      (heap package).any_file_requires ∧
    CacheFrom api (lists package) (fun d => d ∈ depends) (heap package).requires_hash

/-- The requires of three packages, by handle; every other handle has none. -/
def example_requires : Nat → List ZifDepend
  | 0 => [depend_dbus_1_2, depend_sh_any]
  | 1 => [depend_dbus_1_4]
  | 2 => [depend_glib_any]
  | _ => []

/-- A heap whose packages have their requires set. -/
def example_heap : ZifHeap :=
  fun package => zif_package_set_requires package_hal (example_requires package)

/-- A progress implementation whose calls all succeed. -/
def state_always_ok : ZifStateImpl := fun _ _ => true

/-- Every package of the heap has its provides and files set, the provides array
being the list `lists` gives for its handle, with an `any` cache that agrees
with the array and a description cache filled by queries for the
dependencies of `depends`. -/
def provides_loaded_heap (api : ZifDependApi) (lists : Nat → List ZifDepend)
    (depends : List ZifDepend) (heap : ZifHeap) : Prop :=
  ∀ package, provides_loaded api (fun d => d ∈ depends) (heap package) ∧
    (heap package).provides = lists package

/-- The provides of three packages, by handle; every other handle has none. -/
def example_provides : Nat → List ZifDepend
  | 0 => [depend_dbus_1_2]
  | 1 => [depend_dbus_1_4, depend_glib_any]
  | 2 => [depend_glib_any]
  | _ => []

/-- The files of three packages, by handle; every other handle has none. -/
def example_files : Nat → List Str
  | 0 => ["/bin/sh".toList]
  | 1 => []
  | 2 => ["/usr/bin/gio".toList, "/bin/sh".toList]
  | _ => []

/-- A heap whose packages have their provides and their files set. -/
def example_heap_provides : ZifHeap :=
  fun package =>
    zif_package_set_files (zif_package_set_provides package_hal (example_provides package))
      (example_files package)

/-- The string `[epoch ':'] version ['-' release]` made of the three parts. -/
def evr_join (e : Evr) : Str :=
  (match e.epoch with
    | some x => x ++ [':']
    | none => []) ++ e.version ++
  (match e.release with
    | some r => '-' :: r
    | none => [])

/-! ## zif-package.c: the parts of the package id and zif_package_compare -/

def ZIF_PACKAGE_ID_NAME : Nat := 0

def ZIF_PACKAGE_ID_VERSION : Nat := 1

def ZIF_PACKAGE_ID_ARCH : Nat := 2

def ZIF_PACKAGE_ID_DATA : Nat := 3

/-- Model of `zif_package_get_name`: NULL is `none`; the split id is a
NULL-terminated vector, so that a part it does not have reads as NULL. -/
def zif_package_get_name (package : ZifPackage) : Option Str :=
  match package.package_id_split with
  | none => none
  | some split => split.get? ZIF_PACKAGE_ID_NAME

/-- Model of `zif_package_get_version`. -/
def zif_package_get_version (package : ZifPackage) : Option Str :=
  match package.package_id_split with
  | none => none
  | some split => split.get? ZIF_PACKAGE_ID_VERSION

/-- Model of `zif_package_get_arch`. -/
def zif_package_get_arch (package : ZifPackage) : Option Str :=
  match package.package_id_split with
  | none => none
  | some split => split.get? ZIF_PACKAGE_ID_ARCH

/-- Model of `zif_package_get_data`. -/
def zif_package_get_data (package : ZifPackage) : Option Str :=
  match package.package_id_split with
  | none => none
  | some split => split.get? ZIF_PACKAGE_ID_DATA

def G_MAXINT : Int := 2147483647

/-- Model of `g_strcmp0`: NULL sorts before every string; of the result of
strcmp only the sign is kept. -/
def g_strcmp0 (str1 str2 : Option Str) : Int :=
  match str1, str2 with
  | none, none => 0
  | none, some _ => -1
  | some _, none => 1
  | some a, some b => strcmpSign a b

/-- The call `zif_compare_evr (a, b)` with arguments that may be NULL: the
checks at the head of `zif_compare_evr` return 0 for a NULL argument. -/
def zif_compare_evr_nullable (rpmvercmp : Str → Str → Int) (atol : Str → Int)
    (a b : Option Str) : Int :=
  match a, b with
  | some x, some y => zif_compare_evr rpmvercmp atol x y
  | _, _ => 0

/-- Model of `zif_package_compare` on two packages of the heap; `a == b`
compares the pointers. -/
def zif_package_compare (rpmvercmp : Str → Str → Int) (atol : Str → Int) (heap : ZifHeap)
    (a b : Nat) : Int :=
  -- trivial optimisation
  if a = b then 0
  else
    match (heap a).package_id_split, (heap b).package_id_split with
    | some splita, some splitb =>
      -- check name the same
      if g_strcmp0 (splita.get? ZIF_PACKAGE_ID_NAME) (splitb.get? ZIF_PACKAGE_ID_NAME) ≠ 0 then
        G_MAXINT
      else
        -- do a version compare
        let val := zif_compare_evr_nullable rpmvercmp atol
          (splita.get? ZIF_PACKAGE_ID_VERSION) (splitb.get? ZIF_PACKAGE_ID_VERSION)
        -- if the packages are equal, prefer the same architecture
        if val = 0 then
          g_strcmp0 (splitb.get? ZIF_PACKAGE_ID_ARCH) (splita.get? ZIF_PACKAGE_ID_ARCH)
        else val
    | _, _ => G_MAXINT

/-- The set of ZIF_PACKAGE_COMPARE_FLAG_CHECK_* bits that the array functions
pass to zif_package_compare_full. -/
structure ZifPackageCompareFlags where
  check_version : Bool
  check_arch : Bool
  check_installed : Bool
  check_data : Bool
  deriving DecidableEq, Repr

/-- The functions of zif-package.c and zif-utils.c that the array functions
call and that are not among the sources; the theorems hold for every choice of
them. The comparison is given the heap and the two pointers. -/
structure ZifPackageApi where
  zif_package_compare_full : ZifHeap → Nat → Nat → ZifPackageCompareFlags → Int
  zif_package_get_id_basic : ZifPackage → Str
  zif_package_get_name_arch : ZifPackage → Str
  zif_arch_is_native : Str → Option Str → Bool

/-! ## zif-package-array.c: newest and oldest -/

/-- The flags `CHECK_VERSION | CHECK_ARCH` of zif_package_array_get_newest. -/
def get_newest_flags : ZifPackageCompareFlags :=
  { check_version := true, check_arch := true, check_installed := false, check_data := false }

/-- The loop `find newest in rest of the array` over the elements from index 1. -/
def zif_package_array_get_newest_loop (api : ZifPackageApi) (heap : ZifHeap) :
    List Nat → Nat → Nat
  | [], package_newest => package_newest
  | package_tmp :: rest, package_newest =>
    let retval := api.zif_package_compare_full heap package_tmp package_newest get_newest_flags
    -- if the packages are identical in every way, just choose the 1st package
    if retval = 0 then zif_package_array_get_newest_loop api heap rest package_newest
    else if 0 < retval then zif_package_array_get_newest_loop api heap rest package_tmp
    else zif_package_array_get_newest_loop api heap rest package_newest

/-- Model of `zif_package_array_get_newest`: the package returned or the error
set, and the array after the call. -/
def zif_package_array_get_newest (api : ZifPackageApi) (heap : ZifHeap) (array : List Nat) :
    Except GError Nat × List Nat :=
  match array with
  | [] => (Except.error { message := "nothing in array".toList }, array)
  | first :: rest => (Except.ok (zif_package_array_get_newest_loop api heap rest first), array)

/-- The loop `find oldest in rest of the array` over the elements from index 1. -/
def zif_package_array_get_oldest_loop (rpmvercmp : Str → Str → Int) (atol : Str → Int)
    (heap : ZifHeap) : List Nat → Nat → Nat
  | [], package_oldest => package_oldest
  | package :: rest, package_oldest =>
    let retval := zif_package_compare rpmvercmp atol heap package package_oldest
    if retval < 0 then zif_package_array_get_oldest_loop rpmvercmp atol heap rest package
    else zif_package_array_get_oldest_loop rpmvercmp atol heap rest package_oldest

/-- Model of `zif_package_array_get_oldest`: the package returned or the error
set, and the array after the call. -/
def zif_package_array_get_oldest (rpmvercmp : Str → Str → Int) (atol : Str → Int)
    (heap : ZifHeap) (array : List Nat) : Except GError Nat × List Nat :=
  match array with
  | [] => (Except.error { message := "nothing in array".toList }, array)
  | first :: rest =>
    (Except.ok (zif_package_array_get_oldest_loop rpmvercmp atol heap rest first), array)

/-! ## Concrete instances of the functions that are not among the sources -/

/-- Modelled from the spec: zif_package_compare_full is not among the sources.
The spec describes it as the comparison by name, version, arch, installed and
data, each switched by a flag; the array functions never ask for the name
(zif_package_array_get_newest documents that the name is not used). The model
tests version, arch, installed and data in this order and the first difference
decides. -/
def zif_package_compare_full (rpmvercmp : Str → Str → Int) (atol : Str → Int)
    (a b : ZifPackage) (flags : ZifPackageCompareFlags) : Int :=
  let by_version : Int :=
    if flags.check_version then
      zif_compare_evr_nullable rpmvercmp atol (zif_package_get_version a)
        (zif_package_get_version b)
    else 0
  if by_version ≠ 0 then by_version
  else
    let by_arch : Int :=
      if flags.check_arch then g_strcmp0 (zif_package_get_arch a) (zif_package_get_arch b)
      else 0
    if by_arch ≠ 0 then by_arch
    else
      let by_installed : Int :=
        if flags.check_installed then
          (if a.installed then 1 else 0) - (if b.installed then 1 else 0)
        else 0
      if by_installed ≠ 0 then by_installed
      else if flags.check_data then
        g_strcmp0 (zif_package_get_data a) (zif_package_get_data b)
      else 0

/-- Modelled from the spec: zif_package_get_id_basic is not among the sources.
The spec calls the basic id the `(name,version,release,arch)` of the package;
the model joins the name, the version with its release, and the arch. -/
def zif_package_get_id_basic (package : ZifPackage) : Str :=
  printf_s (zif_package_get_name package) ++ ';' ::
    printf_s (zif_package_get_version package) ++ ';' ::
    printf_s (zif_package_get_arch package)

/-- Modelled from the spec: zif_package_get_name_arch is not among the sources
and the spec only speaks of `name+arch`; the model joins the two with a dot. -/
def zif_package_get_name_arch (package : ZifPackage) : Str :=
  printf_s (zif_package_get_name package) ++ '.' :: printf_s (zif_package_get_arch package)

/-- Modelled from the spec: zif_arch_is_native is not among the sources. The
spec calls architecture compatibility a fixed table by architecture family, in
which i586 is compatible with i386 and not with x86_64; the model has the one
family i386, i486, i586, i686 and makes every architecture compatible with
itself. -/
def zif_arch_is_native (a : Str) (b : Option Str) : Bool :=
  let ix86 : List Str := ["i386".toList, "i486".toList, "i586".toList, "i686".toList]
  match b with
  | none => false
  | some b => decide (a = b) || (decide (a ∈ ix86) && decide (b ∈ ix86))

/-- The instance of the missing functions used for concrete evaluations. -/
def zif_package_api : ZifPackageApi where
  zif_package_compare_full := fun heap a b flags =>
    zif_package_compare_full rpmvercmp atol (heap a) (heap b) flags
  zif_package_get_id_basic := zif_package_get_id_basic
  zif_package_get_name_arch := zif_package_get_name_arch
  zif_arch_is_native := zif_arch_is_native

/-- A package after zif_package_set_id with the id `name;version;arch;data`. -/
def package_with_id (name version arch data : Str) : ZifPackage :=
  { zif_package_init with
    package_id := some (name ++ ';' :: version ++ ';' :: arch ++ ';' :: data)
    package_id_split := some [name, version, arch, data] }

/-- The heap of the example of the spec: foo-1.0-1.i386, foo-1.0-2.i386 and
foo-0.9-1.i386 at 0, 1 and 2. -/
def heap_foo : ZifHeap := fun h =>
  if h = 0 then package_with_id "foo".toList "1.0-1".toList "i386".toList "fedora".toList
  else if h = 1 then package_with_id "foo".toList "1.0-2".toList "i386".toList "fedora".toList
  else package_with_id "foo".toList "0.9-1".toList "i386".toList "fedora".toList

/-- The comparison that zif_package_array_get_newest makes of two packages. -/
def newest_cmp (api : ZifPackageApi) (heap : ZifHeap) (x y : Nat) : Int :=
  api.zif_package_compare_full heap x y get_newest_flags


/-- Three packages foo: 1.0 for i386, 1.0-5 for i386 and 1.0-9 for i686, at 0,
1 and 2. -/
def heap_release : ZifHeap := fun h =>
  if h = 0 then package_with_id "foo".toList "1.0".toList "i386".toList "fedora".toList
  else if h = 1 then package_with_id "foo".toList "1.0-5".toList "i386".toList "fedora".toList
  else package_with_id "foo".toList "1.0-9".toList "i686".toList "fedora".toList


/-! ## zif-package-array.c: the filters without a query -/

/-- Model of `g_hash_table_lookup` on a table whose values are not NULL: the
value stored under the key, or `none` for the NULL returned when there is none. -/
def g_hash_table_lookup {V : Type} (table : GHashTable V) (key : Str) : Option V :=
  g_hash_table_lookup_extended table key

/-- Model of `g_hash_table_remove`. -/
def g_hash_table_remove {V : Type} (table : GHashTable V) (key : Str) : GHashTable V :=
  table.filter (fun e => decide (e.1 ≠ key))

/-- The loop of zif_package_array_filter_duplicates over the packages that are
left, with the table `hash_keep` and the array `array_new` built so far. -/
def zif_package_array_filter_duplicates_loop (api : ZifPackageApi) (heap : ZifHeap) :
    List Nat → GHashTable Str → List Nat → List Nat
  | [], _, array_new => array_new
  | package :: rest, hash_keep, array_new =>
    let key := api.zif_package_get_id_basic (heap package)
    match g_hash_table_lookup hash_keep key with
    | none =>
      zif_package_array_filter_duplicates_loop api heap rest
        (g_hash_table_insert hash_keep key "<keep>".toList) (array_new ++ [package])
    | some _ => zif_package_array_filter_duplicates_loop api heap rest hash_keep array_new

/-- Model of `zif_package_array_filter_duplicates`: the array after the call
(the contents of array_new are copied into it). -/
def zif_package_array_filter_duplicates (api : ZifPackageApi) (heap : ZifHeap)
    (packages : List Nat) : List Nat :=
  zif_package_array_filter_duplicates_loop api heap packages [] []

/-- The flags `CHECK_ARCH | CHECK_VERSION | CHECK_INSTALLED | CHECK_DATA` of
zif_package_array_filter_newest. -/
def filter_newest_flags : ZifPackageCompareFlags :=
  { check_version := true, check_arch := true, check_installed := true, check_data := true }

/-- The variables of the first loop of zif_package_array_filter_newest. -/
structure ZifFilterNewestState where
  ret : Bool
  hash_keep : GHashTable Str
  hash_namearch : GHashTable Nat

/-- The first loop of zif_package_array_filter_newest over the packages that
are left; `none` when a package without a name makes the key of the lookup
NULL, which g_str_hash does not accept. -/
def zif_package_array_filter_newest_loop (api : ZifPackageApi) (heap : ZifHeap) :
    List Nat → ZifFilterNewestState → Option ZifFilterNewestState
  | [], s => some s
  | package :: rest, s =>
    match zif_package_get_name (heap package) with
    | none => none
    | some key =>
      match g_hash_table_lookup s.hash_namearch key with
      | none =>
        -- does not already exist
        zif_package_array_filter_newest_loop api heap rest
          { ret := s.ret
            hash_keep := g_hash_table_insert s.hash_keep
              (api.zif_package_get_id_basic (heap package)) "<keep>".toList
            hash_namearch := g_hash_table_insert s.hash_namearch key package }
      | some package_tmp =>
        let retval := api.zif_package_compare_full heap package package_tmp filter_newest_flags
        -- the new package is the same
        if retval = 0 then zif_package_array_filter_newest_loop api heap rest s
        -- the new package is older
        else if retval < 0 then
          zif_package_array_filter_newest_loop api heap rest { s with ret := true }
        else
          -- remove the old one, track packages
          zif_package_array_filter_newest_loop api heap rest
            { ret := s.ret
              hash_keep := g_hash_table_insert
                (g_hash_table_remove s.hash_keep (api.zif_package_get_id_basic (heap package_tmp)))
                (api.zif_package_get_id_basic (heap package)) "<keep>".toList
              hash_namearch := g_hash_table_insert
                (g_hash_table_remove s.hash_namearch
                  (api.zif_package_get_name_arch (heap package_tmp)))
                key package }

/-- Model of `zif_package_array_filter_newest`: the value returned and the
array after the call. -/
def zif_package_array_filter_newest (api : ZifPackageApi) (heap : ZifHeap)
    (packages : List Nat) : Option (Bool × List Nat) :=
  -- first, filter out any duplicates
  let packages := zif_package_array_filter_duplicates api heap packages
  match zif_package_array_filter_newest_loop api heap packages
      { ret := false, hash_keep := [], hash_namearch := [] } with
  | none => none
  | some s =>
    -- only add packages to array_new in hash_keep
    some (s.ret, packages.filter (fun package =>
      (g_hash_table_lookup s.hash_keep (api.zif_package_get_id_basic (heap package))).isSome))

/-- The loop of zif_package_array_filter_arch from index `i`; `fuel` bounds the
number of iterations and `none` means it ran out. -/
def zif_package_array_filter_arch_loop (api : ZifPackageApi) (heap : ZifHeap) (arch : Str) :
    Nat → Nat → List Nat → Option (List Nat)
  | 0, i, array => if i < array.length then none else some array
  | fuel + 1, i, array =>
    if h : i < array.length then
      let package := array.get ⟨i, h⟩
      let arch_tmp := zif_package_get_arch (heap package)
      if g_strcmp0 arch_tmp (some "noarch".toList) = 0 then
        zif_package_array_filter_arch_loop api heap arch fuel (i + 1) array
      else if ! api.zif_arch_is_native arch arch_tmp then
        zif_package_array_filter_arch_loop api heap arch fuel i
          (g_ptr_array_remove_index_fast array i)
      else zif_package_array_filter_arch_loop api heap arch fuel (i + 1) array
    else some array

/-- Model of `zif_package_array_filter_arch`: the array after the call; every
iteration moves to the next index or makes the array shorter. -/
def zif_package_array_filter_arch (api : ZifPackageApi) (heap : ZifHeap) (array : List Nat)
    (arch : Str) : Option (List Nat) :=
  zif_package_array_filter_arch_loop api heap arch array.length 0 array

/-- The packages that zif_package_array_filter_arch leaves in the array. -/
def arch_kept (api : ZifPackageApi) (heap : ZifHeap) (arch : Str) (package : Nat) : Bool :=
  decide (zif_package_get_arch (heap package) = some "noarch".toList) ||
    api.zif_arch_is_native arch (zif_package_get_arch (heap package))

/-- The elements of a list that are the first with their key, the keys in
`seen` counting as met before; the order is kept. -/
def keep_first {α κ : Type} [DecidableEq κ] (key : α → κ) : List α → List κ → List α
  | [], _ => []
  | x :: xs, seen =>
    if key x ∈ seen then keep_first key xs seen
    else x :: keep_first key xs (key x :: seen)

/-- Packages of several architectures: bar for noarch, i686, x86_64 and i386
at 0, 1, 2 and 3. -/
def heap_arch : ZifHeap := fun h =>
  if h = 0 then package_with_id "bar".toList "1.0-1".toList "noarch".toList "fedora".toList
  else if h = 1 then package_with_id "bar".toList "1.0-1".toList "i686".toList "fedora".toList
  else if h = 2 then package_with_id "bar".toList "1.0-1".toList "x86_64".toList "fedora".toList
  else package_with_id "bar".toList "1.0-1".toList "i386".toList "fedora".toList


/-- The comparison that zif_package_array_filter_newest makes of two packages. -/
def filter_newest_cmp (api : ZifPackageApi) (heap : ZifHeap) (x y : Nat) : Int :=
  api.zif_package_compare_full heap x y filter_newest_flags

/-- What holds of the two tables of zif_package_array_filter_newest when the
packages `pre` have been gone through: an entry of hash_namearch is, under its
name, a package of `pre` than which no package of `pre` of this name compares
newer; every name met has an entry; and hash_keep holds the basic ids of the
entries of hash_namearch. -/
def FilterNewestInv (api : ZifPackageApi) (heap : ZifHeap) (pre : List Nat)
    (s : ZifFilterNewestState) : Prop :=
  (∀ n h, g_hash_table_lookup s.hash_namearch n = some h →
    h ∈ pre ∧ zif_package_get_name (heap h) = some n ∧
    ∀ x ∈ pre, zif_package_get_name (heap x) = some n → filter_newest_cmp api heap x h ≤ 0) ∧
  (∀ x ∈ pre, ∀ n, zif_package_get_name (heap x) = some n →
    ∃ h, g_hash_table_lookup s.hash_namearch n = some h) ∧
  (∀ k, (g_hash_table_lookup s.hash_keep k).isSome = true ↔
    ∃ n h, g_hash_table_lookup s.hash_namearch n = some h ∧
      api.zif_package_get_id_basic (heap h) = k)

/-- The package foo-1.0-1.i386 of the repositories fedora and updates, at 0 and 1. -/
def heap_data : ZifHeap := fun h =>
  if h = 0 then package_with_id "foo".toList "1.0-1".toList "i386".toList "fedora".toList
  else package_with_id "foo".toList "1.0-1".toList "i386".toList "updates".toList


/-- Packages of two names: foo-1.0-1, bar-2.0-1, foo-1.0-2 and bar-0.5-1, all
for i386, at 0, 1, 2 and 3. -/
def heap_names : ZifHeap := fun h =>
  if h = 0 then package_with_id "foo".toList "1.0-1".toList "i386".toList "fedora".toList
  else if h = 1 then package_with_id "bar".toList "2.0-1".toList "i386".toList "fedora".toList
  else if h = 2 then package_with_id "foo".toList "1.0-2".toList "i386".toList "fedora".toList
  else package_with_id "bar".toList "0.5-1".toList "i386".toList "fedora".toList


/-! ## zif-utils.c: package ids, boolean texts, file names -/

/-- The PkPackageId of PackageKit: the four parts of a package id. -/
structure PkPackageId where
  name : Str
  version : Str
  arch : Str
  data : Str
  deriving DecidableEq, Repr

/-- Model of PackageKit's `pk_package_id_new_from_list`: the id of the four
parts. -/
def pk_package_id_new_from_list (name version arch data : Str) : PkPackageId :=
  { name := name, version := version, arch := arch, data := data }

/-- Model of PackageKit's `pk_package_id_to_string`: the parts joined by `;`. -/
def pk_package_id_to_string (id : PkPackageId) : Str :=
  id.name ++ ';' :: id.version ++ ';' :: id.arch ++ ';' :: id.data

/-- Model of `zif_package_id_from_nevra`; `epoch[0]` of an empty epoch is the
NUL and so is not `0`. -/
def zif_package_id_from_nevra (name : Str) (epoch : Option Str)
    (version release arch data : Str) : PkPackageId :=
  -- do we include an epoch?
  let version_compound : Str :=
    match epoch with
    | none => version ++ '-' :: release
    | some e =>
      if e.head? = some '0' then version ++ '-' :: release
      else e ++ ':' :: version ++ '-' :: release
  pk_package_id_new_from_list name version_compound arch data

/-- Model of GLib's `g_ascii_tolower`: the letters `A` to `Z` become `a` to `z`,
every other character stays. -/
def g_ascii_tolower (c : Char) : Char :=
  if 'A'.toNat ≤ c.toNat ∧ c.toNat ≤ 'Z'.toNat then Char.ofNat (c.toNat - 'A'.toNat + 'a'.toNat)
  else c

/-- Model of GLib's `g_ascii_strcasecmp`: the strings are compared character by
character after g_ascii_tolower; of the result only the sign is kept. -/
def g_ascii_strcasecmp : Str → Str → Int
  | [], [] => 0
  | [], _ :: _ => -1
  | _ :: _, [] => 1
  | c1 :: s1, c2 :: s2 =>
    if g_ascii_tolower c1 ≠ g_ascii_tolower c2 then
      charCmp (g_ascii_tolower c1) (g_ascii_tolower c2)
    else g_ascii_strcasecmp s1 s2

/-- Model of `zif_boolean_from_text`. -/
def zif_boolean_from_text (text : Str) : Bool :=
  if g_ascii_strcasecmp text "true".toList = 0 ∨
      g_ascii_strcasecmp text "yes".toList = 0 ∨
      g_ascii_strcasecmp text "1".toList = 0 then true
  else false

/-- Model of GLib's `g_str_has_suffix`. -/
def g_str_has_suffix (str suffix : Str) : Bool :=
  suffix.isSuffixOf str

/-- Model of `zif_file_uncompressed_name`: writing NUL at `len-3` or `len-4`
leaves the characters before that place. -/
def zif_file_uncompressed_name (filename : Str) : Str :=
  -- remove compression extension
  let len := filename.length
  if len > 4 ∧ g_str_has_suffix filename ".gz".toList = true then filename.take (len - 3)
  else if len > 5 ∧ g_str_has_suffix filename ".bz2".toList = true then filename.take (len - 4)
  else filename

/-! ## zif-config.c: times -/

/-- The functions of egg-string.c that zif-config.c calls and that are not among
the sources. `egg_strtouint` gives the number it stored with the return value
TRUE, and `none` for the return value FALSE, after which the value pointed to
is 0 as before the call. -/
structure EggStringApi where
  egg_strlen : Str → Nat → Nat
  egg_strtouint : Str → Option Nat

/-- The number of values of a guint. -/
def GUINT_RANGE : Nat := 4294967296

/-- Model of `zif_config_string_to_time`; the products are taken in guint. -/
def zif_config_string_to_time (egg : EggStringApi) (value : Str) : Nat :=
  -- long enough
  let len := egg.egg_strlen value 10
  if len < 2 then 0
  else
    -- get suffix
    let suffix := value.getD (len - 1) (Char.ofNat 0)
    -- remove suffix
    let value_copy := value.take (len - 1)
    -- convert to number
    match egg.egg_strtouint value_copy with
    | none => 0
    | some timeval =>
      -- seconds, minutes, hours, days
      if suffix = 's' then (timeval * 1) % GUINT_RANGE
      else if suffix = 'm' then (timeval * 60) % GUINT_RANGE
      else if suffix = 'h' then (timeval * (60 * 60)) % GUINT_RANGE
      else if suffix = 'd' then (timeval * (24 * 60 * 60)) % GUINT_RANGE
      else 0

/-- Whether a text is an unsigned decimal number: one digit or more and nothing
else. -/
def is_unsigned_number (text : Str) : Bool :=
  !text.isEmpty && text.all Char.isDigit

/-- What the theorems take of egg-string.c: egg_strlen with the limit 10 gives
the length of the text, and 10 for a longer text; egg_strtouint converts an
unsigned decimal number of at most 9 digits and returns FALSE for a text that
is none. -/
def EggStringSpec (egg : EggStringApi) : Prop :=
  (∀ text, egg.egg_strlen text 10 = min text.length 10) ∧
  (∀ text, is_unsigned_number text = true → text.length ≤ 9 →
    egg.egg_strtouint text = some (digitsValue 0 text)) ∧
  (∀ text, is_unsigned_number text = false → egg.egg_strtouint text = none)

/-- An instance of egg-string.c for concrete evaluations: numbers of ten digits
or more are refused, as too long. -/
def egg_string_api : EggStringApi where
  egg_strlen := fun text len => if text.isEmpty then 0 else max 1 (min text.length len)
  egg_strtouint := fun text =>
    if is_unsigned_number text = true ∧ text.length ≤ 9 then some (digitsValue 0 text) else none


/-! ## zif-package-array.c: find and the best architecture -/

/-- The loop of zif_package_array_find over the packages that are left: the
package at which it breaks, or `none` when it reaches the end. -/
def zif_package_array_find_loop (heap : ZifHeap) (package_id : Str) : List Nat → Option Nat
  | [] => none
  | package_tmp :: rest =>
    if g_strcmp0 (zif_package_get_id (heap package_tmp)) (some package_id) = 0 then
      some package_tmp
    else zif_package_array_find_loop heap package_id rest

/-- Model of `zif_package_array_find`: the package returned or the error set,
and the array after the call. -/
def zif_package_array_find (heap : ZifHeap) (array : List Nat) (package_id : Str) :
    Except GError Nat × List Nat :=
  match zif_package_array_find_loop heap package_id array with
  | some package => (Except.ok package, array)
  | none => (Except.error { message := "failed to find ".toList ++ package_id }, array)

/-- The loop `find the best arch` of zif_package_array_filter_best_arch32 over
the packages that are left, with the best arch so far. -/
def zif_package_array_filter_best_arch32_find (heap : ZifHeap) :
    List Nat → Option Str → Option Str
  | [], best_arch => best_arch
  | package :: rest, best_arch =>
    let arch := zif_package_get_arch (heap package)
    if g_strcmp0 arch (some "x86_64".toList) = 0 ∨ g_strcmp0 arch (some "noarch".toList) = 0 then
      zif_package_array_filter_best_arch32_find heap rest best_arch
    else if g_strcmp0 arch best_arch > 0 then
      zif_package_array_filter_best_arch32_find heap rest arch
    else zif_package_array_filter_best_arch32_find heap rest best_arch

/-- The loop `remove any that are not best` of
zif_package_array_filter_best_arch32 from index `i`; `fuel` bounds the number
of iterations and `none` means it ran out. -/
def zif_package_array_filter_best_arch32_loop (heap : ZifHeap) (best_arch : Option Str) :
    Nat → Nat → List Nat → Option (List Nat)
  | 0, i, array => if i < array.length then none else some array
  | fuel + 1, i, array =>
    if h : i < array.length then
      let package := array.get ⟨i, h⟩
      let arch := zif_package_get_arch (heap package)
      if g_strcmp0 arch best_arch ≠ 0 ∧ g_strcmp0 arch (some "noarch".toList) ≠ 0 then
        zif_package_array_filter_best_arch32_loop heap best_arch fuel i
          (g_ptr_array_remove_index_fast array i)
      -- not compatible with i386
      else if g_strcmp0 arch (some "x86_64".toList) = 0 then
        zif_package_array_filter_best_arch32_loop heap best_arch fuel i
          (g_ptr_array_remove_index_fast array i)
      else zif_package_array_filter_best_arch32_loop heap best_arch fuel (i + 1) array
    else some array

/-- Model of `zif_package_array_filter_best_arch32`: the array after the call. -/
def zif_package_array_filter_best_arch32 (api : ZifPackageApi) (heap : ZifHeap)
    (array : List Nat) : Option (List Nat) :=
  let best_arch := zif_package_array_filter_best_arch32_find heap array none
  -- if no obvious best, skip
  if best_arch = none then zif_package_array_filter_arch api heap array "noarch".toList
  else zif_package_array_filter_best_arch32_loop heap best_arch array.length 0 array

/-- Model of `zif_package_array_filter_best_arch`: the array after the call. -/
def zif_package_array_filter_best_arch (api : ZifPackageApi) (heap : ZifHeap)
    (array : List Nat) (arch : Str) : Option (List Nat) :=
  -- only x86_64 can be installed on x86_64
  if g_strcmp0 (some arch) (some "x86_64".toList) = 0 then
    zif_package_array_filter_arch api heap array arch
  -- just filter to the best 32 bit arch
  else zif_package_array_filter_best_arch32 api heap array

/-- Whether an architecture counts for the best 32 bit arch: it is there and is
neither `x86_64` nor `noarch`. -/
def is_arch32 (arch : Option Str) : Bool :=
  match arch with
  | none => false
  | some a => decide (a ≠ "x86_64".toList) && decide (a ≠ "noarch".toList)

/-- The packages glibc.i386, hal.i386, glibc.i686 of the comment of
zif_package_array_filter_best_arch at 0, 1 and 2, then a glibc.x86_64 and a
noarch package at 3 and 4. -/
def heap_best_arch : ZifHeap := fun h =>
  if h = 0 then package_with_id "glibc".toList "2.12-1".toList "i386".toList "fedora".toList
  else if h = 1 then package_with_id "hal".toList "0.5.8-1".toList "i386".toList "fedora".toList
  else if h = 2 then package_with_id "glibc".toList "2.12-1".toList "i686".toList "fedora".toList
  else if h = 3 then
    package_with_id "glibc".toList "2.12-1".toList "x86_64".toList "fedora".toList
  else package_with_id "tzdata".toList "2010-1".toList "noarch".toList "fedora".toList


/-- The packages that the loop `remove any that are not best` leaves in the
array. -/
def best_arch32_kept (heap : ZifHeap) (best_arch : Option Str) (package : Nat) : Bool :=
  (decide (zif_package_get_arch (heap package) = best_arch) ||
    decide (zif_package_get_arch (heap package) = some "noarch".toList)) &&
  !decide (zif_package_get_arch (heap package) = some "x86_64".toList)


/-! ## zif-package.c: the setters of the fields that are set once -/

/-- Model of `zif_package_set_id`: the return value, the error set, and the
package afterwards. `zif_package_id_check` and `zif_package_id_split` are not
among the sources and are parameters. A failed `g_return_val_if_fail` returns
FALSE and sets no error. -/
def zif_package_set_id (zif_package_id_check : Str → Bool)
    (zif_package_id_split : Str → List Str) (package : ZifPackage) (package_id : Str) :
    (Bool × Option GError) × ZifPackage :=
  if package.package_id.isSome then ((false, none), package)
  -- not a valid package id
  else if !zif_package_id_check package_id then
    ((false, some { message := "not a valid package-id: ".toList ++ package_id }), package)
  else
    ((true, none),
      { package with
        package_id := some package_id
        package_id_split := some (zif_package_id_split package_id) })

/-- Model of `zif_package_set_summary`; a ZifString is the string it holds. -/
def zif_package_set_summary (package : ZifPackage) (summary : Str) : ZifPackage :=
  if package.summary.isSome then package else { package with summary := some summary }

/-- Model of `zif_package_set_description`. -/
def zif_package_set_description (package : ZifPackage) (description : Str) : ZifPackage :=
  if package.description.isSome then package
  else { package with description := some description }

/-- Model of `zif_package_set_license`. -/
def zif_package_set_license (package : ZifPackage) (license : Str) : ZifPackage :=
  if package.license.isSome then package else { package with license := some license }

/-- Model of `zif_package_set_url`. -/
def zif_package_set_url (package : ZifPackage) (url : Str) : ZifPackage :=
  if package.url.isSome then package else { package with url := some url }

/-- Model of `zif_package_set_category`. -/
def zif_package_set_category (package : ZifPackage) (category : Str) : ZifPackage :=
  if package.category.isSome then package else { package with category := some category }

/-- Model of `zif_package_set_group`. -/
def zif_package_set_group (package : ZifPackage) (group : Str) : ZifPackage :=
  if package.group.isSome then package else { package with group := some group }

/-- Model of `zif_package_set_size`: a size of 0 is refused, and 0 is the size
of a package whose size is not set. -/
def zif_package_set_size (package : ZifPackage) (size : Nat) : ZifPackage :=
  if size = 0 then package
  else if package.size ≠ 0 then package
  else { package with size := size }


/-! ## zif-package-array.c: the packages that match a dependency -/

/-- What zif_package_array_depend gives back when the addresses `best_depend` and
`provides` are both supplied: how it ended, the heap, the best dependency and
the array of results as they are at the return. -/
structure ZifArrayDependResult where
  status : ZifFilterStatus
  heap : ZifHeap
  best_depend : Option ZifDepend
  results : List Nat

/-- The loop of zif_package_array_depend over the packages that are left, with
the results and the best dependency so far; `query` is the query the switch on
`type` selects and `zif_depend_compare`, of zif-depend.c, is not among the
sources. A query that fails ends the loop before `*best_depend` is written. -/
def zif_package_array_depend_loop (query : ZifHeapQuery)
    (zif_depend_compare : ZifDepend → ZifDepend → Int) (depend : ZifDepend) :
    List Nat → ZifHeap → List Nat → Option ZifDepend → ZifArrayDependResult
  | [], heap, provides, best_depend_tmp =>
    { status := ZifFilterStatus.ok, heap := heap, best_depend := best_depend_tmp,
      results := provides }
  | package_tmp :: rest, heap, provides, best_depend_tmp =>
    -- does this match
    match query heap package_tmp depend with
    | (ZifQuery.failed error, heap2) =>
      { status := ZifFilterStatus.query_failed error, heap := heap2, best_depend := none,
        results := provides }
    | (ZifQuery.undefined, heap2) =>
      { status := ZifFilterStatus.query_undefined, heap := heap2, best_depend := none,
        results := provides }
    | (ZifQuery.found none, heap2) =>
      zif_package_array_depend_loop query zif_depend_compare depend rest heap2 provides
        best_depend_tmp
    | (ZifQuery.found (some satisfies), heap2) =>
      -- gotcha, but keep looking; ensure we track the best depend
      zif_package_array_depend_loop query zif_depend_compare depend rest heap2
        (provides ++ [package_tmp])
        (match best_depend_tmp with
          | none => some satisfies
          | some best => if zif_depend_compare satisfies best > 0 then some satisfies
            else some best)

/-- The body of `zif_package_array_depend` for the query that `type` selects. -/
def zif_package_array_depend (query : ZifHeapQuery)
    (zif_depend_compare : ZifDepend → ZifDepend → Int) (heap : ZifHeap) (array : List Nat)
    (depend : ZifDepend) : ZifArrayDependResult :=
  zif_package_array_depend_loop query zif_depend_compare depend array heap [] none

/-- Model of `zif_package_array_provide`. -/
def zif_package_array_provide (api : ZifDependApi) (classes : Nat → ZifPackageClass)
    (zif_depend_compare : ZifDepend → ZifDepend → Int) (heap : ZifHeap) (array : List Nat)
    (depend : ZifDepend) : ZifArrayDependResult :=
  zif_package_array_depend (zif_heap_query (zif_package_provides api) classes)
    zif_depend_compare heap array depend

/-- No query for the dependency fails: in every heap that satisfies `inv` the
query of a package of the array succeeds, gives the dependency `answer` names
for the package (none when nothing matches), and leaves a heap that satisfies
`inv`. -/
def query_answers (query : ZifHeapQuery) (inv : ZifHeap → Prop) (array : List Nat)
    (depend : ZifDepend) (answer : Nat → Option ZifDepend) : Prop :=
  ∀ heap package, inv heap → package ∈ array →
    ∃ heap2, query heap package depend = (ZifQuery.found (answer package), heap2) ∧ inv heap2

/-- The best of a list of matched dependencies as the loop tracks it: a later
one takes the place of the best so far when it compares greater. -/
def best_depend_fold (cmp : ZifDepend → ZifDepend → Int) :
    List ZifDepend → Option ZifDepend → Option ZifDepend
  | [], best => best
  | satisfies :: rest, none => best_depend_fold cmp rest (some satisfies)
  | satisfies :: rest, some best =>
    if cmp satisfies best > 0 then best_depend_fold cmp rest (some satisfies)
    else best_depend_fold cmp rest (some best)

/-- Modelled from the spec: zif_depend_compare of zif-depend.c, which is not
among the sources. §4.1: the ordering of dependencies is by name and then by
compare_evr of the versions. -/
def zif_depend_compare (a b : ZifDepend) : Int :=
  if strcmpSign a.name b.name ≠ 0 then strcmpSign a.name b.name
  else zif_compare_evr_nullable rpmvercmp atol a.version b.version

def depend_libfoo_any : ZifDepend :=
  { name := "libfoo".toList, flag := ZIF_DEPEND_FLAG_ANY, version := none }

def depend_libfoo_1_0_1 : ZifDepend :=
  { name := "libfoo".toList, flag := ZIF_DEPEND_FLAG_EQUAL, version := some "1.0-1".toList }

def depend_libfoo_1_0 : ZifDepend :=
  { name := "libfoo".toList, flag := ZIF_DEPEND_FLAG_EQUAL, version := some "1.0".toList }

def depend_libfoo_1_0_9 : ZifDepend :=
  { name := "libfoo".toList, flag := ZIF_DEPEND_FLAG_EQUAL, version := some "1.0-9".toList }

/-- The provides of three packages, by handle: libfoo 1.0-1, libfoo 1.0 and
libfoo 1.0-9; every other handle has none. -/
def libfoo_provides : Nat → List ZifDepend
  | 0 => [depend_libfoo_1_0_1]
  | 1 => [depend_libfoo_1_0]
  | 2 => [depend_libfoo_1_0_9]
  | _ => []

/-- A heap whose packages have the provides of libfoo_provides and no files. -/
def heap_libfoo : ZifHeap :=
  fun package => zif_package_set_files
    (zif_package_set_provides package_hal (libfoo_provides package)) []

/-- What the provides query for `dbus` with the flag ANY finds in the packages
of example_heap_provides. -/
def dbus_answer : Nat → Option ZifDepend
  | 0 => some depend_dbus_1_2
  | 1 => some depend_dbus_1_4
  | _ => none

/-! ## zif-config.c: the configuration -/

/-- A GKeyFile, by the keys of its group `main` and their values. -/
abbrev GKeyFile := List (Str × Str)

/-- What zif-config.c calls outside the sources: GLib's file test and key file,
the watch of zif-monitor.c, and the system information of rpm. A failing call
gives the message of its GError; `g_key_file_get_string` is taken on the group
`main`. -/
structure ZifConfigEnv where
  g_file_test_is_regular : Str → Bool
  zif_monitor_add_watch : Str → Option Str
  g_key_file_load_from_file : GKeyFile → Str → Option Str × GKeyFile
  g_key_file_get_string : GKeyFile → Str → Except Str Str
  rpmGetOsInfo : Option Str
  rpmGetArchInfo : Option Str

/-- The private data of a ZifConfig (struct _ZifConfigPrivate), the monitor
apart; the table of local overrides holds the copies made by g_strdup, NULL
for a NULL value. -/
structure ZifConfig where
  keyfile : GKeyFile
  loaded : Bool
  hash : GHashTable (Option Str)
  deriving DecidableEq, Repr

/-- Model of `zif_config_init`. -/
def zif_config_init : ZifConfig :=
  { keyfile := [], loaded := false, hash := [] }

/-- The pointer `g_hash_table_lookup (config->priv->hash, key)`: NULL when the
key is not in the table, and when the value stored is NULL. -/
def zif_config_lookup (config : ZifConfig) (key : Str) : Option Str :=
  (g_hash_table_lookup config.hash key).join

/-- Model of `zif_config_get_string`: the value returned and the error set. -/
def zif_config_get_string (env : ZifConfigEnv) (config : ZifConfig) (key : Str) :
    Option Str × Option GError :=
  -- not loaded yet
  if !config.loaded then (none, some ⟨"config not loaded".toList⟩)
  else
    -- exists as local override
    match zif_config_lookup config key with
    | some value_tmp => (some value_tmp, none)
    | none =>
      -- get value
      match env.g_key_file_get_string config.keyfile key with
      | Except.ok value => (some value, none)
      | Except.error message =>
        -- special keys
        if key = "reposdir".toList then (some "/etc/yum.repos.d".toList, none)
        else if key = "pidfile".toList then (some "/var/run/yum.pid".toList, none)
        -- special rpmkeys
        else if key = "osinfo".toList then (env.rpmGetOsInfo, none)
        else if key = "archinfo".toList then (env.rpmGetArchInfo, none)
        else (none, some ⟨"failed to read ".toList ++ key ++ ": ".toList ++ message⟩)

/-- Model of `zif_config_get_boolean`. -/
def zif_config_get_boolean (env : ZifConfigEnv) (config : ZifConfig) (key : Str) :
    Bool × Option GError :=
  -- get string value
  match zif_config_get_string env config key with
  | (none, error) => (false, error)
  | (some value, error) =>
    -- convert to bool
    (zif_boolean_from_text value, error)

/-- Model of `zif_config_get_uint`. -/
def zif_config_get_uint (env : ZifConfigEnv) (egg : EggStringApi) (config : ZifConfig)
    (key : Str) : Nat × Option GError :=
  -- get string value
  match zif_config_get_string env config key with
  | (none, error) => (0, error)
  | (some value, error) =>
    -- convert to int
    match egg.egg_strtouint value with
    | some retval => (retval, error)
    | none =>
      (0, some ⟨"failed to convert \x27".toList ++ value ++
        "\x27 to unsigned integer".toList⟩)

/-- Model of `zif_config_get_time`. -/
def zif_config_get_time (env : ZifConfigEnv) (egg : EggStringApi) (config : ZifConfig)
    (key : Str) : Nat × Option GError :=
  -- get string value
  match zif_config_get_string env config key with
  | (none, error) => (0, error)
  | (some value, error) =>
    -- convert to time
    (zif_config_string_to_time egg value, error)

/-- Model of `zif_config_set_filename`: the return value, the error set, and the
config afterwards. A config that is loaded already is refused by the
precondition. -/
def zif_config_set_filename (env : ZifConfigEnv) (config : ZifConfig) (filename : Str) :
    (Bool × Option GError) × ZifConfig :=
  if config.loaded then ((false, none), config)
  -- check file exists
  else if !env.g_file_test_is_regular filename then
    ((false, some ⟨"config file ".toList ++ filename ++ " does not exist".toList⟩), config)
  else
    -- setup watch
    match env.zif_monitor_add_watch filename with
    | some message => ((false, some ⟨"failed to setup watch: ".toList ++ message⟩), config)
    | none =>
      -- load file
      match env.g_key_file_load_from_file config.keyfile filename with
      | (some message, keyfile) =>
        ((false, some ⟨"failed to load config file: ".toList ++ message⟩),
          { config with keyfile := keyfile })
      | (none, keyfile) =>
        -- done
        ((true, none), { config with keyfile := keyfile, loaded := true })

/-- Model of `zif_config_reset_default`. -/
def zif_config_reset_default (config : ZifConfig) : Bool × ZifConfig :=
  (true, { config with hash := [] })

/-- Model of `zif_config_set_local`: the return value, the error set, and the
config afterwards. -/
def zif_config_set_local (config : ZifConfig) (key : Str) (value : Option Str) :
    (Bool × Option GError) × ZifConfig :=
  -- already exists?
  match zif_config_lookup config key with
  | some value_tmp =>
    ((false, some ⟨"already set key ".toList ++ key ++ " to ".toList ++ value_tmp ++
      ", cannot overwrite with ".toList ++ printf_s value⟩), config)
  | none =>
    -- insert into table
    ((true, none), { config with hash := g_hash_table_insert config.hash key value })

/-- Model of `zif_config_file_monitor_cb`. -/
def zif_config_file_monitor_cb (config : ZifConfig) : ZifConfig :=
  { config with loaded := false }

/-- The key file of the self test, `test/etc/yum.conf`, by the two keys the
test reads. -/
def test_yum_conf : GKeyFile :=
  [("cachedir".toList, "../test/cache".toList), ("exactarch".toList, "1".toList)]

/-- An environment for concrete evaluations: the only file is the yum.conf of
the self test, and a key file gives the value stored under a key. -/
def zif_config_env : ZifConfigEnv where
  g_file_test_is_regular := fun filename => decide (filename = "../test/etc/yum.conf".toList)
  zif_monitor_add_watch := fun _ => none
  g_key_file_load_from_file := fun _ _ => (none, test_yum_conf)
  g_key_file_get_string := fun keyfile key =>
    match g_hash_table_lookup keyfile key with
    | some value => Except.ok value
    | none => Except.error "Key file does not have key".toList
  rpmGetOsInfo := some "linux".toList
  rpmGetArchInfo := some "x86_64".toList

/-- A run of zif_config_set_local calls, successful or not, one after the other;
the config after the last. -/
def zif_config_set_locals (config : ZifConfig) : List (Str × Option Str) → ZifConfig
  | [] => config
  | (key, value) :: rest =>
    zif_config_set_locals (zif_config_set_local config key value).2 rest

/-- The config of the self test after zif_config_set_filename. -/
def test_config : ZifConfig :=
  (zif_config_set_filename zif_config_env zif_config_init "../test/etc/yum.conf".toList).2

/-! ## zif-string-array.c and dum-depend-array.c: reference counted arrays -/

/-- A ZifStringArray: the strings and the reference count. The declaration of
the structure is not among the sources (zif-string-array.h names the type
only); the count is taken as an unsigned integer, as the `guint count` of the
ZifString of zif-string.c, and the number of its values is the parameter
`range` of the functions that change it. -/
structure ZifStringArray where
  value : List Str
  count : Nat
  deriving DecidableEq, Repr

/-- Model of `zif_string_array_new`; `none` is the NULL array with nothing to
copy. -/
def zif_string_array_new (value : Option (List Str)) : ZifStringArray :=
  match value with
  -- nothing to copy
  | none => { value := [], count := 1 }
  -- copy
  | some value => { value := value, count := 1 }

/-- Model of `zif_string_array_get_length`. -/
def zif_string_array_get_length (array : ZifStringArray) : Nat :=
  array.value.length

/-- Model of `zif_string_array_ref` on the pointer given, NULL being `none`: the
pointer returned, with the array it points to after the call. -/
def zif_string_array_ref (range : Nat) : Option ZifStringArray → Option ZifStringArray
  | none => none
  | some array => some { array with count := (array.count + 1) % range }

/-- Model of `zif_string_array_unref`: the pointer returned, NULL when the array
was freed. -/
def zif_string_array_unref (range : Nat) : Option ZifStringArray → Option ZifStringArray
  | none => none
  | some array =>
    let count := (array.count + range - 1) % range
    if count = 0 then none else some { array with count := count }

/-- The loop of zif_string_array_unique over the strings that are left, with
the table `hash` and the strings of `new` so far. -/
def zif_string_array_unique_loop : List Str → GHashTable Nat → List Str → List Str
  | [], _, new => new
  | value :: rest, hash, new =>
    match g_hash_table_lookup hash value with
    | none =>
      zif_string_array_unique_loop rest (g_hash_table_insert hash value 1) (new ++ [value])
    | some _ => zif_string_array_unique_loop rest hash new

/-- Model of `zif_string_array_unique`: the new array returned; the array given
is not written to. -/
def zif_string_array_unique (array : ZifStringArray) : ZifStringArray :=
  -- create a new array without duplicates
  { zif_string_array_new none with
    value := zif_string_array_unique_loop array.value [] (zif_string_array_new none).value }

/-- A DumDependArray: the DumDepend objects, by their handles, and the
reference count. The declaration of the structure (dum-depend-array.h) is not
among the sources; the count is taken as that of a ZifStringArray. The
reference counts of the DumDepend objects themselves are left out. -/
structure DumDependArray where
  value : List Nat
  count : Nat
  deriving DecidableEq, Repr

/-- Model of `dum_depend_array_new`. -/
def dum_depend_array_new (value : Option (List Nat)) : DumDependArray :=
  match value with
  -- nothing to copy
  | none => { value := [], count := 1 }
  -- copy
  | some value => { value := value, count := 1 }

/-- Model of `dum_depend_array_ref`. -/
def dum_depend_array_ref (range : Nat) : Option DumDependArray → Option DumDependArray
  | none => none
  | some array => some { array with count := (array.count + 1) % range }

/-- Model of `dum_depend_array_unref`. -/
def dum_depend_array_unref (range : Nat) : Option DumDependArray → Option DumDependArray
  | none => none
  | some array =>
    let count := (array.count + range - 1) % range
    if count = 0 then none else some { array with count := count }

/-! ## zif-package.c: the relation queries without the file-dependency fast path -/

/-- The statements of `zif_package_requires` (and of the three other relation
queries) after the fast path for file dependencies: the `any` cache for the
flag ANY, and else the description cache and the scan of the list with
zif_depend_satisfies. -/
def zif_package_depend_search (api : ZifDependApi) (list : Option (List ZifDepend))
    (any_hash : GHashTable ZifDepend) (hash : GHashTable (Option ZifDepend))
    (depend : ZifDepend) : ZifQuery × GHashTable (Option ZifDepend) :=
  -- search in the any cache first
  if depend.flag = ZIF_DEPEND_FLAG_ANY then
    match g_hash_table_lookup_extended any_hash depend.name with
    | some depend_tmp => (ZifQuery.found (some depend_tmp), hash)
    | none => (ZifQuery.found none, hash)
  else
    -- then the description cache
    let depend_id := api.zif_depend_get_description depend
    match g_hash_table_lookup_extended hash depend_id with
    | some depend_tmp => (ZifQuery.found depend_tmp, hash)
    | none =>
      match list with
      | none => (ZifQuery.undefined, hash)
      | some entries =>
        -- find what we are looking for
        let satisfies := entries.find? (fun depend_tmp => api.zif_depend_satisfies depend_tmp depend)
        -- insert into cache
        (ZifQuery.found satisfies, g_hash_table_insert hash depend_id satisfies)

/-- The query returned absent, the `any` cache has no entry under the name of
the dependency, and the scan of the list with zif_depend_satisfies finds
none: absent is what the lookup in the `any` cache and the scan return. -/
def fast_path_agrees (api : ZifDependApi) (result : ZifQuery) (entries : List ZifDepend)
    (any_hash : GHashTable ZifDepend) (depend : ZifDepend) : Prop :=
  result = ZifQuery.found none ∧
  g_hash_table_lookup_extended any_hash depend.name = none ∧
  entries.find? (fun e => api.zif_depend_satisfies e depend) = none

/-- An earlier dependency with the description of `depend` is satisfied by the
same entries: what the description cache relies on. -/
def description_decides (api : ZifDependApi) (earlier : List ZifDepend) (depend : ZifDepend) :
    Prop :=
  ∀ d2 ∈ earlier,
    api.zif_depend_get_description d2 = api.zif_depend_get_description depend →
    ∀ e, api.zif_depend_satisfies e d2 = api.zif_depend_satisfies e depend

/-- A class whose loader sets the files of a package to `/bin/sh` and has no
other data. -/
def class_files_loader : ZifPackageClass :=
  { ensure_data := some (fun package type =>
      if type = ZifPackageEnsureType.files then
        (Except.ok (), zif_package_set_files package ["/bin/sh".toList])
      else (Except.error { message := "no metadata".toList }, package)) }

/-! ## zif-package-array.c: the progress calls of the filters -/

/-- The number of `zif_state_done` calls on a node in a log. -/
def zif_state_done_calls (state : ZifStateNode) (log : ZifStateLog) : Nat :=
  log.countP (fun call => decide (call.1 = ZifStateCall.done state))

/-- The numbers of steps a node was configured with by
`zif_state_set_number_steps`, in the order of the calls. -/
def zif_state_steps (state : ZifStateNode) (log : ZifStateLog) : List Nat :=
  log.filterMap (fun call =>
    match call.1 with
    | ZifStateCall.set_number_steps node steps => if node = state then some steps else none
    | _ => none)

/-- The calls on the per-package children in a part of a log written from the
iteration `step` on respect the steps: the parent is not configured again, a
child of an earlier iteration is not touched, and every child is configured
once with `m` steps and has at most `m` calls of `zif_state_done`, or is not
touched at all. -/
def steps_respected (m step : Nat) (extra : ZifStateLog) : Prop :=
  zif_state_steps ZifStateNode.root extra = [] ∧
  (∀ k, k < step →
    zif_state_done_calls (ZifStateNode.child ZifStateNode.root k) extra = 0 ∧
    zif_state_steps (ZifStateNode.child ZifStateNode.root k) extra = []) ∧
  (∀ k, zif_state_done_calls (ZifStateNode.child ZifStateNode.root k) extra ≤ m ∧
    (zif_state_steps (ZifStateNode.child ZifStateNode.root k) extra = [m] ∨
      (zif_state_steps (ZifStateNode.child ZifStateNode.root k) extra = [] ∧
        zif_state_done_calls (ZifStateNode.child ZifStateNode.root k) extra = 0)))

/-- A filter run on an array of `n` packages with `m` dependencies returned, the
parent state was configured once, with `n` steps, and has at most `n` calls
of `zif_state_done`, exactly `n` when the filter returned TRUE; every
per-package child was configured once with `m` steps and has at most `m`
calls of `zif_state_done`, or was never made. -/
def filter_steps_kept (result : Option (ZifFilterStatus × ZifFilterState)) (n m : Nat) :
    Prop :=
  ∃ status s, result = some (status, s) ∧
    zif_state_steps ZifStateNode.root s.log = [n] ∧
    zif_state_done_calls ZifStateNode.root s.log ≤ n ∧
    (status = ZifFilterStatus.ok → zif_state_done_calls ZifStateNode.root s.log = n) ∧
    ∀ k, zif_state_done_calls (ZifStateNode.child ZifStateNode.root k) s.log ≤ m ∧
      (zif_state_steps (ZifStateNode.child ZifStateNode.root k) s.log = [m] ∨
        (zif_state_steps (ZifStateNode.child ZifStateNode.root k) s.log = [] ∧
          zif_state_done_calls (ZifStateNode.child ZifStateNode.root k) s.log = 0))

/-! # Theorems -/

/-! ## Lexicographic comparison and the model of rpmvercmp -/

theorem lexCmp_refl {α : Type} (f : α → α → Int) (hf : ∀ x, f x x = 0) (l : List α) :
    lexCmp f l l = 0 := by
  induction l with
  | nil => rfl
  | cons x xs ih => simp [lexCmp, hf, ih]

theorem lexCmp_antisymm {α : Type} (f : α → α → Int) (hf : ∀ x y, f y x = - f x y) :
    ∀ l m : List α, lexCmp f m l = - lexCmp f l m
  | [], [] => by simp [lexCmp]
  | [], _ :: _ => by simp [lexCmp]
  | _ :: _, [] => by simp [lexCmp]
  | x :: xs, y :: ys => by
    have ih := lexCmp_antisymm f hf xs ys
    simp only [lexCmp, hf x y, ih]
    by_cases h : f x y = 0 <;> simp [h]

theorem lexCmp_eq_zero {α : Type} (f : α → α → Int) (hf : ∀ x y, f x y = 0 → x = y) :
    ∀ l m : List α, lexCmp f l m = 0 → l = m
  | [], [], _ => rfl
  | [], _ :: _, h => by simp [lexCmp] at h
  | _ :: _, [], h => by simp [lexCmp] at h
  | x :: xs, y :: ys, h => by
    simp only [lexCmp] at h
    by_cases h0 : f x y = 0
    · simp only [h0, ne_eq, not_true_eq_false, if_false] at h
      rw [hf x y h0, lexCmp_eq_zero f hf xs ys h]
    · simp [h0] at h

theorem lexCmp_trans {α : Type} (f : α → α → Int) (hz : ∀ x y, f x y = 0 → x = y)
    (ha : ∀ x y, f y x = - f x y)
    (ht : ∀ x y z, f x y ≤ 0 → f y z ≤ 0 → f x z ≤ 0) :
    ∀ l m n : List α, lexCmp f l m ≤ 0 → lexCmp f m n ≤ 0 → lexCmp f l n ≤ 0
  | [], _, [], _, _ => by simp [lexCmp]
  | [], _, _ :: _, _, _ => by simp [lexCmp]
  | _ :: _, [], _, h, _ => by simp [lexCmp] at h
  | _ :: _, _ :: _, [], _, h => by simp [lexCmp] at h
  | x :: xs, y :: ys, z :: zs, h1, h2 => by
    simp only [lexCmp] at h1 h2 ⊢
    by_cases hxy : f x y = 0
    · have e := hz x y hxy
      subst e
      simp only [hxy, ne_eq, not_true_eq_false, if_false] at h1
      by_cases hxz : f x z = 0
      · simp only [hxz, ne_eq, not_true_eq_false, if_false] at h2 ⊢
        exact lexCmp_trans f hz ha ht xs ys zs h1 h2
      · simp only [hxz, ne_eq, not_false_eq_true, if_true] at h2 ⊢
        exact h2
    · simp only [hxy, ne_eq, not_false_eq_true, if_true] at h1
      by_cases hyz : f y z = 0
      · have e := hz y z hyz
        subst e
        simp only [hxy, ne_eq, not_false_eq_true, if_true]
        exact h1
      · simp only [hyz, ne_eq, not_false_eq_true, if_true] at h2
        have hxz : f x z ≤ 0 := ht x y z h1 h2
        by_cases hxz0 : f x z = 0
        · exfalso
          have e := hz x z hxz0
          subst e
          have := ha x y
          omega
        · simp only [hxz0, ne_eq, not_false_eq_true, if_true]
          exact hxz

theorem charCmp_eq_zero (c d : Char) (h : charCmp c d = 0) : c = d := by
  unfold charCmp at h
  have e : c.toNat = d.toNat := by
    split_ifs at h <;> omega
  apply Char.ext
  apply UInt32.ext
  exact e

theorem charCmp_antisymm (c d : Char) : charCmp d c = - charCmp c d := by
  unfold charCmp
  split_ifs <;> first | rfl | omega

theorem charCmp_trans (c d e : Char) (h1 : charCmp c d ≤ 0) (h2 : charCmp d e ≤ 0) :
    charCmp c e ≤ 0 := by
  unfold charCmp at *
  split_ifs at * <;> omega

theorem verSegCmp_eq_zero : ∀ s t : VerSeg, verSegCmp s t = 0 → s = t
  | VerSeg.num a, VerSeg.num b, h => by
    simp only [verSegCmp] at h
    have e : a = b := by
      split_ifs at h <;> omega
    rw [e]
  | VerSeg.alpha s, VerSeg.alpha t, h => by
    simp only [verSegCmp, strcmpSign] at h
    rw [lexCmp_eq_zero charCmp charCmp_eq_zero s t h]
  | VerSeg.num _, VerSeg.alpha _, h => by simp [verSegCmp] at h
  | VerSeg.alpha _, VerSeg.num _, h => by simp [verSegCmp] at h

theorem verSegCmp_antisymm : ∀ s t : VerSeg, verSegCmp t s = - verSegCmp s t
  | VerSeg.num a, VerSeg.num b => by
    simp only [verSegCmp]
    split_ifs <;> first | rfl | omega
  | VerSeg.alpha s, VerSeg.alpha t => by
    simp only [verSegCmp, strcmpSign]
    exact lexCmp_antisymm charCmp charCmp_antisymm s t
  | VerSeg.num _, VerSeg.alpha _ => by simp [verSegCmp]
  | VerSeg.alpha _, VerSeg.num _ => by simp [verSegCmp]

theorem verSegCmp_trans : ∀ s t u : VerSeg, verSegCmp s t ≤ 0 → verSegCmp t u ≤ 0 →
    verSegCmp s u ≤ 0
  | VerSeg.num a, VerSeg.num b, VerSeg.num c, h1, h2 => by
    simp only [verSegCmp] at *
    split_ifs at * <;> omega
  | VerSeg.alpha s, VerSeg.alpha t, VerSeg.alpha u, h1, h2 => by
    simp only [verSegCmp, strcmpSign] at *
    exact lexCmp_trans charCmp charCmp_eq_zero charCmp_antisymm charCmp_trans s t u h1 h2
  | VerSeg.num _, VerSeg.alpha _, _, h1, _ => by simp [verSegCmp] at h1
  | VerSeg.num _, VerSeg.num _, VerSeg.alpha _, _, h2 => by simp [verSegCmp] at h2
  | VerSeg.alpha _, VerSeg.num _, VerSeg.alpha _, _, h2 => by simp [verSegCmp] at h2
  | VerSeg.alpha _, VerSeg.num _, VerSeg.num _, _, _ => by simp [verSegCmp]
  | VerSeg.alpha _, VerSeg.alpha _, VerSeg.num _, _, _ => by simp [verSegCmp]

/-- The model of rpmvercmp is a total preorder on version strings. -/
theorem rpmvercmp_isTotalCmp : IsTotalCmp rpmvercmp where
  refl x := by
    unfold rpmvercmp
    apply lexCmp_refl
    intro s
    have h := verSegCmp_antisymm s s
    omega
  antisymm x y := by
    unfold rpmvercmp
    exact lexCmp_antisymm verSegCmp verSegCmp_antisymm _ _
  trans x y z h1 h2 := by
    unfold rpmvercmp at *
    exact lexCmp_trans verSegCmp verSegCmp_eq_zero verSegCmp_antisymm verSegCmp_trans _ _ _ h1 h2

/-! ## zif_compare_evr -/

theorem zif_compare_evr_epoch_swap (cmp : Str → Str → Int) (al : Str → Int)
    (hanti : ∀ x y, cmp y x = - cmp x y) (ae be : Option Str) :
    zif_compare_evr_epoch cmp al be ae =
      (- (zif_compare_evr_epoch cmp al ae be).1, (zif_compare_evr_epoch cmp al ae be).2) := by
  cases ae with
  | none =>
    cases be with
    | none => simp [zif_compare_evr_epoch]
    | some y =>
      by_cases h : 0 < al y <;> simp [zif_compare_evr_epoch, h]
  | some x =>
    cases be with
    | none =>
      by_cases h : 0 < al x <;> simp [zif_compare_evr_epoch, h]
    | some y => simp [zif_compare_evr_epoch, hanti x y]

theorem zif_compare_evr_neg (cmp : Str → Str → Int) (al : Str → Int)
    (hanti : ∀ x y, cmp y x = - cmp x y) (a b : Str) :
    zif_compare_evr cmp al b a = - zif_compare_evr cmp al a b := by
  by_cases hab : a = b
  · subst hab
    simp [zif_compare_evr]
  · have hba : ¬ b = a := fun h => hab h.symm
    simp only [zif_compare_evr, hab, hba, if_false]
    rw [zif_compare_evr_epoch_swap cmp al hanti]
    by_cases hout : (zif_compare_evr_epoch cmp al (zif_package_convert_evr a).epoch
        (zif_package_convert_evr b).epoch).2 = true
    · simp [hout]
    · simp only [hout, if_false]
      rw [hanti (zif_package_convert_evr a).version (zif_package_convert_evr b).version]
      by_cases hv : cmp (zif_package_convert_evr a).version (zif_package_convert_evr b).version = 0
      · simp only [hv, neg_zero, ne_eq, not_true_eq_false, if_false]
        cases (zif_package_convert_evr a).release <;>
          cases (zif_package_convert_evr b).release <;> simp
        exact hanti _ _
      · simp [hv]

theorem zif_compare_evr_plain (cmp : Str → Str → Int) (al : Str → Int)
    (hrefl : ∀ x, cmp x x = 0) (a b : Str)
    (ha : (zif_package_convert_evr a).epoch = none)
    (hb : (zif_package_convert_evr b).epoch = none) :
    zif_compare_evr cmp al a b =
      if cmp (zif_package_convert_evr a).version (zif_package_convert_evr b).version ≠ 0 then
        cmp (zif_package_convert_evr a).version (zif_package_convert_evr b).version
      else
        match (zif_package_convert_evr a).release, (zif_package_convert_evr b).release with
        | some ar, some br => cmp ar br
        | _, _ => 0 := by
  by_cases hab : a = b
  · subst hab
    simp only [zif_compare_evr, if_true, hrefl, ne_eq, not_true_eq_false, if_false]
    cases (zif_package_convert_evr a).release <;> simp [hrefl]
  · simp only [zif_compare_evr, hab, if_false, ha, hb, zif_compare_evr_epoch]
    by_cases hv : cmp (zif_package_convert_evr a).version (zif_package_convert_evr b).version = 0
    · simp only [hv, ne_eq, not_true_eq_false, if_false]
      cases (zif_package_convert_evr a).release <;>
        cases (zif_package_convert_evr b).release <;> simp
    · simp [hv]

theorem cmp_lt_of_lt_of_le {cmp : Str → Str → Int} (hc : IsTotalCmp cmp) (x y z : Str)
    (h1 : cmp x y < 0) (h2 : cmp y z ≤ 0) : cmp x z < 0 := by
  by_contra h
  have hzx : cmp z x ≤ 0 := by
    have := hc.antisymm x z
    omega
  have hyx : cmp y x ≤ 0 := hc.trans y z x h2 hzx
  have := hc.antisymm x y
  omega

theorem cmp_lt_of_le_of_lt {cmp : Str → Str → Int} (hc : IsTotalCmp cmp) (x y z : Str)
    (h1 : cmp x y ≤ 0) (h2 : cmp y z < 0) : cmp x z < 0 := by
  by_contra h
  have hzx : cmp z x ≤ 0 := by
    have := hc.antisymm x z
    omega
  have hzy : cmp z y ≤ 0 := hc.trans z x y hzx h1
  have := hc.antisymm y z
  omega

theorem zif_compare_evr_lex (cmp : Str → Str → Int) (al : Str → Int)
    (hrefl : ∀ x, cmp x x = 0) (a b : Str)
    (hone : (zif_package_convert_evr a).epoch = none ∨ (zif_package_convert_evr b).epoch = none)
    (ha : no_positive_epoch al a) (hb : no_positive_epoch al b) :
    zif_compare_evr cmp al a b =
      evr_compare_version_release cmp (zif_package_convert_evr a) (zif_package_convert_evr b) := by
  by_cases hab : a = b
  · subst hab
    simp only [zif_compare_evr, if_true, evr_compare_version_release, hrefl, ne_eq,
      not_true_eq_false, if_false]
    cases (zif_package_convert_evr a).release <;> simp [hrefl]
  · have hep : zif_compare_evr_epoch cmp al (zif_package_convert_evr a).epoch
        (zif_package_convert_evr b).epoch = (0, false) := by
      unfold no_positive_epoch at ha hb
      cases hea : (zif_package_convert_evr a).epoch with
      | none =>
        cases heb : (zif_package_convert_evr b).epoch with
        | none => simp [zif_compare_evr_epoch]
        | some y => simp [zif_compare_evr_epoch, hb y heb]
      | some x =>
        cases heb : (zif_package_convert_evr b).epoch with
        | none => simp [zif_compare_evr_epoch, ha x hea]
        | some y =>
          rw [hea, heb] at hone
          rcases hone with h | h <;> cases h
    simp only [zif_compare_evr, hab, if_false, hep, evr_compare_version_release]
    by_cases hv : cmp (zif_package_convert_evr a).version (zif_package_convert_evr b).version = 0
    · simp only [hv, ne_eq, not_true_eq_false, if_false]
      cases (zif_package_convert_evr a).release <;>
        cases (zif_package_convert_evr b).release <;> simp
    · simp [hv]

theorem zif_compare_evr_positive_epoch (cmp : Str → Str → Int) (al : Str → Int)
    (a b e : Str) (ha : (zif_package_convert_evr a).epoch = some e) (hpos : 0 < al e)
    (hb : (zif_package_convert_evr b).epoch = none) :
    zif_compare_evr cmp al a b = 1 ∧ zif_compare_evr cmp al b a = -1 := by
  have hab : ¬ a = b := by
    intro h
    rw [h, hb] at ha
    cases ha
  have hba : ¬ b = a := fun h => hab h.symm
  constructor
  · simp [zif_compare_evr, hab, ha, hb, zif_compare_evr_epoch, hpos]
  · simp [zif_compare_evr, hba, ha, hb, zif_compare_evr_epoch, hpos]

/-- The comparison of version and then release is transitive on parts that all
have a release or all have none. -/
theorem evr_compare_version_release_trans (cmp : Str → Str → Int) (hc : IsTotalCmp cmp)
    (x y z : Evr) (hxy : x.release.isSome = y.release.isSome)
    (hyz : y.release.isSome = z.release.isSome)
    (h1 : evr_compare_version_release cmp x y ≤ 0)
    (h2 : evr_compare_version_release cmp y z ≤ 0) :
    evr_compare_version_release cmp x z ≤ 0 := by
  unfold evr_compare_version_release at *
  generalize x.version = av at *
  generalize y.version = bv at *
  generalize z.version = cv at *
  generalize x.release = ar at *
  generalize y.release = br at *
  generalize z.release = cr at *
  by_cases hxy0 : cmp av bv = 0
  · simp only [hxy0, ne_eq, not_true_eq_false, if_false] at h1
    by_cases hyz0 : cmp bv cv = 0
    · simp only [hyz0, ne_eq, not_true_eq_false, if_false] at h2
      have hxz : cmp av cv = 0 := by
        have l1 := hc.trans av bv cv (by omega) (by omega)
        have l2 := hc.trans cv bv av (by have := hc.antisymm bv cv; omega)
          (by have := hc.antisymm av bv; omega)
        have := hc.antisymm av cv
        omega
      simp only [hxz, ne_eq, not_true_eq_false, if_false]
      cases ar <;> cases br <;> cases cr <;> simp at hxy hyz h1 h2 ⊢
      exact hc.trans _ _ _ h1 h2
    · simp only [hyz0, ne_eq, not_false_eq_true, if_true] at h2
      have hlt : cmp av cv < 0 := cmp_lt_of_le_of_lt hc av bv cv (by omega) (by omega)
      have hne : cmp av cv ≠ 0 := by omega
      simp only [hne, ne_eq, not_false_eq_true, if_true]
      omega
  · simp only [hxy0, ne_eq, not_false_eq_true, if_true] at h1
    have hyz1 : cmp bv cv ≤ 0 := by
      by_cases h0 : cmp bv cv = 0
      · omega
      · simp only [h0, ne_eq, not_false_eq_true, if_true] at h2
        exact h2
    have hlt : cmp av cv < 0 := cmp_lt_of_lt_of_le hc av bv cv (by omega) hyz1
    have hne : cmp av cv ≠ 0 := by omega
    simp only [hne, ne_eq, not_false_eq_true, if_true]
    omega

/-- Transitivity of zif_compare_evr on three strings of which at most one has an
epoch and which all have a release or all have none. -/
theorem zif_compare_evr_trans_core (cmp : Str → Str → Int) (al : Str → Int)
    (hc : IsTotalCmp cmp) (a b c : Str)
    (hab1 : (zif_package_convert_evr a).epoch = none ∨ (zif_package_convert_evr b).epoch = none)
    (hbc1 : (zif_package_convert_evr b).epoch = none ∨ (zif_package_convert_evr c).epoch = none)
    (hac1 : (zif_package_convert_evr a).epoch = none ∨ (zif_package_convert_evr c).epoch = none)
    (hab : (zif_package_convert_evr a).release.isSome = (zif_package_convert_evr b).release.isSome)
    (hbc : (zif_package_convert_evr b).release.isSome = (zif_package_convert_evr c).release.isSome)
    (h1 : zif_compare_evr cmp al a b ≤ 0) (h2 : zif_compare_evr cmp al b c ≤ 0) :
    zif_compare_evr cmp al a c ≤ 0 := by
  by_cases pa : no_positive_epoch al a
  · by_cases pb : no_positive_epoch al b
    · by_cases pc : no_positive_epoch al c
      · rw [zif_compare_evr_lex cmp al hc.refl a b hab1 pa pb] at h1
        rw [zif_compare_evr_lex cmp al hc.refl b c hbc1 pb pc] at h2
        rw [zif_compare_evr_lex cmp al hc.refl a c hac1 pa pc]
        exact evr_compare_version_release_trans cmp hc _ _ _ hab hbc h1 h2
      · -- c has a positive epoch, so a has none and c compares greater
        unfold no_positive_epoch at pc
        push_neg at pc
        obtain ⟨e, he, hpos⟩ := pc
        have hca : (zif_package_convert_evr a).epoch = none := by
          rcases hac1 with h | h
          · exact h
          · rw [h] at he
            cases he
        have := (zif_compare_evr_positive_epoch cmp al c a e he hpos hca).2
        omega
    · -- b has a positive epoch, so c has none and b compares greater than c
      unfold no_positive_epoch at pb
      push_neg at pb
      obtain ⟨e, he, hpos⟩ := pb
      have hcc : (zif_package_convert_evr c).epoch = none := by
        rcases hbc1 with h | h
        · rw [h] at he
          cases he
        · exact h
      have := (zif_compare_evr_positive_epoch cmp al b c e he hpos hcc).1
      omega
  · -- a has a positive epoch, so b has none and a compares greater than b
    unfold no_positive_epoch at pa
    push_neg at pa
    obtain ⟨e, he, hpos⟩ := pa
    have hcb : (zif_package_convert_evr b).epoch = none := by
      rcases hab1 with h | h
      · rw [h] at he
        cases he
      · exact h
    have := (zif_compare_evr_positive_epoch cmp al a b e he hpos hcb).1
    omega

/-! ### Claims on zif_compare_evr -/

/-- C5 (evaluation of the code at the failing input): the epochs "2" and "1" compare
as 1 under rpmvercmp, yet zif_compare_evr gives 0 for "2:1.0-1" against "1:1.0-1"
and -1 for "2:1.0-1" against "1:2.0-1": when both strings carry an epoch the
result of comparing the epochs is overwritten by the version comparison. -/
theorem zif_compare_evr_both_epochs_overwritten :
    rpmvercmp "2".toList "1".toList = 1 ∧
    zif_compare_evr rpmvercmp atol "2:1.0-1".toList "1:1.0-1".toList = 0 ∧
    zif_compare_evr rpmvercmp atol "2:1.0-1".toList "1:2.0-1".toList = -1 := by
  decide

/-- C6: when a has an epoch that atol reads as a positive integer and b has no
epoch, zif_compare_evr (a, b) is 1 and zif_compare_evr (b, a) is -1, whatever
the versions and releases are. -/
theorem zif_compare_evr_epoch_against_none (cmp : Str → Str → Int) (al : Str → Int)
    (a b e : Str)
    (ha : (zif_package_convert_evr a).epoch = some e) (hpos : 0 < al e)
    (hb : (zif_package_convert_evr b).epoch = none) :
    zif_compare_evr cmp al a b = 1 ∧ zif_compare_evr cmp al b a = -1 :=
  zif_compare_evr_positive_epoch cmp al a b e ha hpos hb

theorem zif_compare_evr_epoch_against_none_witness :
    (zif_package_convert_evr "1:0.0.1-1".toList).epoch = some "1".toList ∧
    0 < atol "1".toList ∧
    (zif_package_convert_evr "1.0.2-2".toList).epoch = none ∧
    zif_compare_evr rpmvercmp atol "1:0.0.1-1".toList "1.0.2-2".toList = 1 ∧
    zif_compare_evr rpmvercmp atol "1.0.2-2".toList "1:0.0.1-1".toList = -1 :=
  ⟨by decide, by decide, by decide,
    zif_compare_evr_epoch_against_none rpmvercmp atol "1:0.0.1-1".toList "1.0.2-2".toList
      "1".toList (by decide) (by decide) (by decide)⟩

/-- C7: when neither a nor b has an epoch, zif_compare_evr (a, b) is the rpmvercmp
result of the versions when that is not 0, otherwise the rpmvercmp result of the
releases when both have one, otherwise 0 (rpmvercmp gives 0 on equal
arguments). -/
theorem zif_compare_evr_no_epoch (cmp : Str → Str → Int) (al : Str → Int)
    (hrefl : ∀ x, cmp x x = 0) (a b : Str)
    (ha : (zif_package_convert_evr a).epoch = none)
    (hb : (zif_package_convert_evr b).epoch = none) :
    zif_compare_evr cmp al a b =
      if cmp (zif_package_convert_evr a).version (zif_package_convert_evr b).version ≠ 0 then
        cmp (zif_package_convert_evr a).version (zif_package_convert_evr b).version
      else
        match (zif_package_convert_evr a).release, (zif_package_convert_evr b).release with
        | some ar, some br => cmp ar br
        | _, _ => 0 :=
  zif_compare_evr_plain cmp al hrefl a b ha hb

theorem zif_compare_evr_no_epoch_witness :
    (zif_package_convert_evr "1.0.2-1".toList).epoch = none ∧
    (zif_package_convert_evr "1.0.1-1".toList).epoch = none ∧
    zif_compare_evr rpmvercmp atol "1.0.2-1".toList "1.0.1-1".toList =
      rpmvercmp "1.0.2".toList "1.0.1".toList ∧
    zif_compare_evr rpmvercmp atol "1.0.2-1".toList "1.0.1-1".toList = 1 :=
  ⟨by decide, by decide,
    (zif_compare_evr_no_epoch rpmvercmp atol rpmvercmp_isTotalCmp.refl "1.0.2-1".toList
      "1.0.1-1".toList (by decide) (by decide)).trans (by decide),
    by decide⟩

/-- C8 (counterexample): with rpmvercmp a total preorder, "1.0-2" compares equal to
"1.0" and "1.0" compares equal to "1.0-1" (a release is only compared when both
sides have one), but "1.0-2" compares greater than "1.0-1". -/
theorem zif_compare_evr_not_transitive :
    IsTotalCmp rpmvercmp ∧
    zif_compare_evr rpmvercmp atol "1.0-2".toList "1.0".toList = 0 ∧
    zif_compare_evr rpmvercmp atol "1.0".toList "1.0-1".toList = 0 ∧
    zif_compare_evr rpmvercmp atol "1.0-2".toList "1.0-1".toList = 1 ∧
    ¬ (zif_compare_evr rpmvercmp atol "1.0-2".toList "1.0".toList ≤ 0 →
       zif_compare_evr rpmvercmp atol "1.0".toList "1.0-1".toList ≤ 0 →
       zif_compare_evr rpmvercmp atol "1.0-2".toList "1.0-1".toList ≤ 0) :=
  ⟨rpmvercmp_isTotalCmp, by decide, by decide, by decide, by decide⟩

/-- C8 (amended): on version strings of which at most one has an epoch and which
either all have a release or all have none, zif_compare_evr is transitive: if
(a, b) and (b, c) compare as less or equal then so does (a, c), and if they
compare equal then so does (a, c) (rpmvercmp taken as a total preorder). -/
theorem zif_compare_evr_trans_one_epoch (cmp : Str → Str → Int) (al : Str → Int)
    (hc : IsTotalCmp cmp) (a b c : Str)
    (hab1 : (zif_package_convert_evr a).epoch = none ∨ (zif_package_convert_evr b).epoch = none)
    (hbc1 : (zif_package_convert_evr b).epoch = none ∨ (zif_package_convert_evr c).epoch = none)
    (hac1 : (zif_package_convert_evr a).epoch = none ∨ (zif_package_convert_evr c).epoch = none)
    (hab : (zif_package_convert_evr a).release.isSome = (zif_package_convert_evr b).release.isSome)
    (hbc : (zif_package_convert_evr b).release.isSome = (zif_package_convert_evr c).release.isSome) :
    (zif_compare_evr cmp al a b ≤ 0 → zif_compare_evr cmp al b c ≤ 0 →
      zif_compare_evr cmp al a c ≤ 0) ∧
    (zif_compare_evr cmp al a b = 0 → zif_compare_evr cmp al b c = 0 →
      zif_compare_evr cmp al a c = 0) := by
  constructor
  · exact zif_compare_evr_trans_core cmp al hc a b c hab1 hbc1 hac1 hab hbc
  · intro h1 h2
    have l1 := zif_compare_evr_trans_core cmp al hc a b c hab1 hbc1 hac1 hab hbc
      (by omega) (by omega)
    have n1 := zif_compare_evr_neg cmp al hc.antisymm a b
    have n2 := zif_compare_evr_neg cmp al hc.antisymm b c
    have n3 := zif_compare_evr_neg cmp al hc.antisymm a c
    have l2 := zif_compare_evr_trans_core cmp al hc c b a hbc1.symm hab1.symm hac1.symm
      hbc.symm hab.symm (by omega) (by omega)
    omega

theorem zif_compare_evr_trans_one_epoch_witness :
    (zif_compare_evr rpmvercmp atol "1.0.1-1".toList "1.0.2-1".toList ≤ 0 →
      zif_compare_evr rpmvercmp atol "1.0.2-1".toList "1:0.0.1-1".toList ≤ 0 →
      zif_compare_evr rpmvercmp atol "1.0.1-1".toList "1:0.0.1-1".toList ≤ 0) ∧
    (zif_compare_evr rpmvercmp atol "1.0.1-1".toList "1.0.2-1".toList = 0 →
      zif_compare_evr rpmvercmp atol "1.0.2-1".toList "1:0.0.1-1".toList = 0 →
      zif_compare_evr rpmvercmp atol "1.0.1-1".toList "1:0.0.1-1".toList = 0) ∧
    zif_compare_evr rpmvercmp atol "1.0.1-1".toList "1.0.2-1".toList = -1 ∧
    zif_compare_evr rpmvercmp atol "1.0.2-1".toList "1:0.0.1-1".toList = -1 ∧
    zif_compare_evr rpmvercmp atol "1.0.1-1".toList "1:0.0.1-1".toList = -1 :=
  ⟨(zif_compare_evr_trans_one_epoch rpmvercmp atol rpmvercmp_isTotalCmp "1.0.1-1".toList
      "1.0.2-1".toList "1:0.0.1-1".toList (by decide) (by decide) (by decide) (by decide)
      (by decide)).1,
    (zif_compare_evr_trans_one_epoch rpmvercmp atol rpmvercmp_isTotalCmp "1.0.1-1".toList
      "1.0.2-1".toList "1:0.0.1-1".toList (by decide) (by decide) (by decide) (by decide)
      (by decide)).2,
    by decide, by decide, by decide⟩

/-- C9: zif_compare_evr (b, a) is the negation of zif_compare_evr (a, b), given
that rpmvercmp (y, x) is the negation of rpmvercmp (x, y); so swapping the
arguments of a comparison that gives -1 gives 1. -/
theorem zif_compare_evr_antisymm (cmp : Str → Str → Int) (al : Str → Int)
    (hanti : ∀ x y, cmp y x = - cmp x y) (a b : Str) :
    zif_compare_evr cmp al b a = - zif_compare_evr cmp al a b ∧
    (zif_compare_evr cmp al a b = -1 → zif_compare_evr cmp al b a = 1) := by
  have h := zif_compare_evr_neg cmp al hanti a b
  exact ⟨h, fun h1 => by omega⟩

theorem zif_compare_evr_antisymm_witness :
    zif_compare_evr rpmvercmp atol "1:1.0.2-3".toList "1:1.0.2-4".toList = -1 ∧
    zif_compare_evr rpmvercmp atol "1:1.0.2-4".toList "1:1.0.2-3".toList = 1 :=
  ⟨by decide,
    (zif_compare_evr_antisymm rpmvercmp atol rpmvercmp_isTotalCmp.antisymm
      "1:1.0.2-3".toList "1:1.0.2-4".toList).2 (by decide)⟩

/-- C10: for every version string a, zif_compare_evr (a, a) is 0. -/
theorem zif_compare_evr_self (cmp : Str → Str → Int) (al : Str → Int) (a : Str) :
    zif_compare_evr cmp al a a = 0 := by
  simp [zif_compare_evr]

/-! ## Hash tables and the any cache -/

theorem lookup_filter_ne {V : Type} (t : GHashTable V) (k key : Str) (h : key ≠ k) :
    g_hash_table_lookup_extended (t.filter (fun e => decide (e.1 ≠ k))) key =
      g_hash_table_lookup_extended t key := by
  induction t with
  | nil => rfl
  | cons e t ih =>
    obtain ⟨k1, v1⟩ := e
    by_cases h1 : k1 = k
    · have hk : ¬ k1 = key := fun h2 => h (h2.symm.trans h1)
      have e1 : List.filter (fun e => decide (e.1 ≠ k)) ((k1, v1) :: t) =
          List.filter (fun e => decide (e.1 ≠ k)) t := by
        apply List.filter_cons_of_neg
        simp [h1]
      rw [e1, ih]
      simp [g_hash_table_lookup_extended, hk]
    · have e1 : List.filter (fun e => decide (e.1 ≠ k)) ((k1, v1) :: t) =
          (k1, v1) :: List.filter (fun e => decide (e.1 ≠ k)) t := by
        apply List.filter_cons_of_pos
        simp [h1]
      rw [e1]
      simp only [g_hash_table_lookup_extended, ih]

theorem lookup_insert_self {V : Type} (t : GHashTable V) (k : Str) (v : V) :
    g_hash_table_lookup_extended (g_hash_table_insert t k v) k = some v := by
  simp [g_hash_table_insert, g_hash_table_lookup_extended]

theorem lookup_insert_ne {V : Type} (t : GHashTable V) (k key : Str) (v : V) (h : key ≠ k) :
    g_hash_table_lookup_extended (g_hash_table_insert t k v) key =
      g_hash_table_lookup_extended t key := by
  have hk : ¬ k = key := fun h2 => h h2.symm
  simp only [g_hash_table_insert, g_hash_table_lookup_extended, hk, if_false]
  exact lookup_filter_ne t k key h

theorem anyIndexed_insert (l : List ZifDepend) (t : GHashTable ZifDepend) (af : Bool)
    (e : ZifDepend) (h : AnyIndexed l t af) :
    AnyIndexed (l ++ [e]) (g_hash_table_insert t e.name e) (af || is_file_depend e.name) := by
  obtain ⟨h1, h2, h3⟩ := h
  refine ⟨?_, ?_, ?_⟩
  · intro name x hx
    by_cases hn : name = e.name
    · subst hn
      rw [lookup_insert_self] at hx
      cases hx
      simp
    · rw [lookup_insert_ne _ _ _ _ hn] at hx
      obtain ⟨m, n⟩ := h1 name x hx
      exact ⟨List.mem_append_left _ m, n⟩
  · intro x hx
    by_cases hn : x.name = e.name
    · rw [hn, lookup_insert_self]
      rfl
    · rw [lookup_insert_ne _ _ _ _ hn]
      rcases List.mem_append.mp hx with m | m
      · exact h2 x m
      · simp at m
        rw [m] at hn
        exact absurd rfl hn
  · intro x hx hf
    rcases List.mem_append.mp hx with m | m
    · simp [h3 x m hf]
    · simp at m
      rw [m] at hf
      simp [hf]

theorem anyIndexed_add (l : List ZifDepend) :
    ∀ (l0 : List ZifDepend) (t : GHashTable ZifDepend) (af : Bool), AnyIndexed l0 t af →
      AnyIndexed (l0 ++ l) (any_hash_add t l)
        (af || l.any (fun depend_tmp => is_file_depend depend_tmp.name)) := by
  induction l with
  | nil =>
    intro l0 t af h
    simpa [any_hash_add] using h
  | cons e l ih =>
    intro l0 t af h
    have h1 := ih (l0 ++ [e]) (g_hash_table_insert t e.name e) (af || is_file_depend e.name)
      (anyIndexed_insert l0 t af e h)
    simpa [any_hash_add, Bool.or_assoc] using h1

theorem anyIndexed_nil : AnyIndexed [] [] false := by
  refine ⟨?_, ?_, ?_⟩
  · intro name e h
    simp [g_hash_table_lookup_extended] at h
  · intro e h
    cases h
  · intro e h
    cases h

/-! ## The lookup shared by the four relation queries -/

theorem find_congr {α : Type} (f g : α → Bool) :
    ∀ l : List α, (∀ x ∈ l, f x = g x) → l.find? f = l.find? g := by
  intro l
  induction l with
  | nil => intro _; rfl
  | cons x xs ih =>
    intro h
    have hx := h x (List.mem_cons_self x xs)
    have hxs := ih (fun y hy => h y (List.mem_cons_of_mem x hy))
    simp [List.find?, hx, hxs]

theorem depend_lookup_any (api : ZifDependApi) (lst : Option (List ZifDepend))
    (l : List ZifDepend) (af : Bool) (ah : GHashTable ZifDepend)
    (h : GHashTable (Option ZifDepend)) (d : ZifDepend)
    (hidx : AnyIndexed l ah af) (hflag : d.flag = ZIF_DEPEND_FLAG_ANY) :
    ∃ r, zif_package_depend_lookup api lst af ah h d = (ZifQuery.found r, h) ∧
      (r.isSome = true ↔ ∃ e ∈ l, e.name = d.name) ∧
      (∀ e, r = some e → e ∈ l ∧ e.name = d.name) := by
  obtain ⟨h1, h2, h3⟩ := hidx
  by_cases hfast : (is_file_depend d.name && !af) = true
  · refine ⟨none, by simp [zif_package_depend_lookup, hfast], ?_, ?_⟩
    · simp only [Option.isSome_none, Bool.false_eq_true, false_iff]
      rintro ⟨e, he, hn⟩
      simp only [Bool.and_eq_true, Bool.not_eq_true'] at hfast
      have := h3 e he (by rw [hn]; exact hfast.1)
      rw [this] at hfast
      exact absurd hfast.2 (by simp)
    · intro e he
      cases he
  · cases hl : g_hash_table_lookup_extended ah d.name with
    | none =>
      refine ⟨none, by simp [zif_package_depend_lookup, hfast, hflag, hl], ?_, ?_⟩
      · simp only [Option.isSome_none, Bool.false_eq_true, false_iff]
        rintro ⟨e, he, hn⟩
        have := h2 e he
        rw [hn, hl] at this
        cases this
      · intro e he
        cases he
    | some x =>
      refine ⟨some x, by simp [zif_package_depend_lookup, hfast, hflag, hl], ?_, ?_⟩
      · simp only [Option.isSome_some, true_iff]
        exact ⟨x, (h1 _ _ hl).1, (h1 _ _ hl).2⟩
      · intro e he
        cases he
        exact h1 _ _ hl

theorem depend_lookup_cache (api : ZifDependApi) (l : List ZifDepend) (af : Bool)
    (ah : GHashTable ZifDepend) (h : GHashTable (Option ZifDepend)) (d : ZifDepend)
    (asked : ZifDepend → Prop) (hc : CacheFrom api l asked h) (hd : asked d) :
    CacheFrom api l asked (zif_package_depend_lookup api (some l) af ah h d).2 := by
  unfold zif_package_depend_lookup
  split_ifs with h1 h2
  · exact hc
  · cases g_hash_table_lookup_extended ah d.name <;> exact hc
  · cases hl : g_hash_table_lookup_extended h (api.zif_depend_get_description d) with
    | some v => simpa [hl] using hc
    | none =>
      simp only [hl]
      intro key v hkv
      by_cases hk : key = api.zif_depend_get_description d
      · subst hk
        rw [lookup_insert_self] at hkv
        cases hkv
        exact ⟨d, hd, rfl, rfl⟩
      · rw [lookup_insert_ne _ _ _ _ hk] at hkv
        exact hc key v hkv

theorem depend_lookup_scan (api : ZifDependApi) (l : List ZifDepend) (af : Bool)
    (ah : GHashTable ZifDepend) (h : GHashTable (Option ZifDepend)) (d : ZifDepend)
    (asked : ZifDepend → Prop) (hflag : d.flag ≠ ZIF_DEPEND_FLAG_ANY)
    (hfile : ∀ e ∈ l, is_file_depend e.name = true → af = true)
    (hname : ∀ e ∈ l, api.zif_depend_satisfies e d = true → e.name = d.name)
    (hc : CacheFrom api l asked h)
    (hdesc : ∀ d2, asked d2 → api.zif_depend_get_description d2 = api.zif_depend_get_description d →
      ∀ e ∈ l, api.zif_depend_satisfies e d2 = api.zif_depend_satisfies e d) :
    (zif_package_depend_lookup api (some l) af ah h d).1 =
      ZifQuery.found (l.find? (fun e => api.zif_depend_satisfies e d)) := by
  unfold zif_package_depend_lookup
  split_ifs with h1
  · simp only [Bool.and_eq_true, Bool.not_eq_true'] at h1
    cases hf : l.find? (fun e => api.zif_depend_satisfies e d) with
    | none => rfl
    | some e =>
      exfalso
      have hm := List.mem_of_find?_eq_some hf
      have hs := List.find?_some hf
      have hn := hname e hm hs
      have := hfile e hm (by rw [hn]; exact h1.1)
      rw [this] at h1
      exact absurd h1.2 (by simp)
  · cases hl : g_hash_table_lookup_extended h (api.zif_depend_get_description d) with
    | some v =>
      simp only [hl]
      obtain ⟨d2, hq, hk, hv⟩ := hc _ _ hl
      rw [hv]
      congr 1
      exact find_congr _ _ l (hdesc d2 hq hk.symm)
    | none => simp [hl]

/-! ## The four relation queries on a package whose data is loaded -/

theorem zif_package_requires_loaded (api : ZifDependApi) (k : ZifPackageClass) (p : ZifPackage)
    (d : ZifDepend) (l : List ZifDepend) (h : p.requires = some l) :
    zif_package_requires api k p d =
      ((zif_package_depend_lookup api (some l) p.any_file_requires p.requires_any_hash
          p.requires_hash d).1,
        { p with requires_hash := (zif_package_depend_lookup api (some l) p.any_file_requires
          p.requires_any_hash p.requires_hash d).2 }) := by
  simp [zif_package_requires, h]

theorem zif_package_conflicts_loaded (api : ZifDependApi) (k : ZifPackageClass) (p : ZifPackage)
    (d : ZifDepend) (l : List ZifDepend) (h : p.conflicts = some l) :
    zif_package_conflicts api k p d =
      ((zif_package_depend_lookup api (some l) p.any_file_conflicts p.conflicts_any_hash
          p.conflicts_hash d).1,
        { p with conflicts_hash := (zif_package_depend_lookup api (some l) p.any_file_conflicts
          p.conflicts_any_hash p.conflicts_hash d).2 }) := by
  simp [zif_package_conflicts, h]

theorem zif_package_obsoletes_loaded (api : ZifDependApi) (k : ZifPackageClass) (p : ZifPackage)
    (d : ZifDepend) (l : List ZifDepend) (h : p.obsoletes = some l) :
    zif_package_obsoletes api k p d =
      ((zif_package_depend_lookup api (some l) p.any_file_obsoletes p.obsoletes_any_hash
          p.obsoletes_hash d).1,
        { p with obsoletes_hash := (zif_package_depend_lookup api (some l) p.any_file_obsoletes
          p.obsoletes_any_hash p.obsoletes_hash d).2 }) := by
  simp [zif_package_obsoletes, h]

theorem zif_package_provides_loaded (api : ZifDependApi) (k : ZifPackageClass) (p : ZifPackage)
    (d : ZifDepend) (hset : p.provides_set = true) (hfiles : p.files.isSome = true) :
    zif_package_provides api k p d =
      ((zif_package_depend_lookup api (some p.provides) p.any_file_provides p.provides_any_hash
          p.provides_hash d).1,
        { p with provides_hash := (zif_package_depend_lookup api (some p.provides)
          p.any_file_provides p.provides_any_hash p.provides_hash d).2 }) := by
  have hf : ¬ p.files = none := by
    intro h
    rw [h] at hfiles
    cases hfiles
  simp [zif_package_provides, hset, hf]

/-! ## Setting a relation and querying it -/

theorem cacheFrom_nil (api : ZifDependApi) (l : List ZifDepend) (asked : ZifDepend → Prop) :
    CacheFrom api l asked [] := by
  intro key v h
  simp [g_hash_table_lookup_extended] at h

theorem anyIndexed_mono (l : List ZifDepend) (t : GHashTable ZifDepend) (af af2 : Bool)
    (h : AnyIndexed l t af) (hf : af = true → af2 = true) : AnyIndexed l t af2 :=
  ⟨h.1, h.2.1, fun e he hfile => hf (h.2.2 e he hfile)⟩

theorem set_requires_indexed (p0 : ZifPackage) (l : List ZifDepend) (h : requires_unset p0) :
    (zif_package_set_requires p0 l).requires = some l ∧
    AnyIndexed l (zif_package_set_requires p0 l).requires_any_hash
      (zif_package_set_requires p0 l).any_file_requires ∧
    (zif_package_set_requires p0 l).requires_hash = [] := by
  obtain ⟨h1, h2, h3⟩ := h
  have hi := anyIndexed_add l [] [] p0.any_file_requires
    (anyIndexed_mono [] [] false _ anyIndexed_nil (by simp))
  simp only [zif_package_set_requires, h1, Option.isSome_none, Bool.false_eq_true, if_false, h2, h3]
  exact ⟨trivial, by simpa using hi, trivial⟩

theorem set_conflicts_indexed (p0 : ZifPackage) (l : List ZifDepend) (h : conflicts_unset p0) :
    (zif_package_set_conflicts p0 l).conflicts = some l ∧
    AnyIndexed l (zif_package_set_conflicts p0 l).conflicts_any_hash
      (zif_package_set_conflicts p0 l).any_file_conflicts ∧
    (zif_package_set_conflicts p0 l).conflicts_hash = [] := by
  obtain ⟨h1, h2, h3⟩ := h
  have hi := anyIndexed_add l [] [] p0.any_file_conflicts
    (anyIndexed_mono [] [] false _ anyIndexed_nil (by simp))
  simp only [zif_package_set_conflicts, h1, Option.isSome_none, Bool.false_eq_true, if_false, h2, h3]
  exact ⟨trivial, by simpa using hi, trivial⟩

theorem set_obsoletes_indexed (p0 : ZifPackage) (l : List ZifDepend) (h : obsoletes_unset p0) :
    (zif_package_set_obsoletes p0 l).obsoletes = some l ∧
    AnyIndexed l (zif_package_set_obsoletes p0 l).obsoletes_any_hash
      (zif_package_set_obsoletes p0 l).any_file_obsoletes ∧
    (zif_package_set_obsoletes p0 l).obsoletes_hash = [] := by
  obtain ⟨h1, h2, h3⟩ := h
  have hi := anyIndexed_add l [] [] p0.any_file_obsoletes
    (anyIndexed_mono [] [] false _ anyIndexed_nil (by simp))
  simp only [zif_package_set_obsoletes, h1, Option.isSome_none, Bool.false_eq_true, if_false, h2, h3]
  exact ⟨trivial, by simpa using hi, trivial⟩

theorem any_file_depend (files : List Str) (af : Bool)
    (h : (af || files.any (fun f => is_file_depend (file_depend f).name)) = true) :
    (af || !files.isEmpty) = true := by
  cases af with
  | true => rfl
  | false =>
    cases files with
    | nil => simp at h
    | cons f fs => rfl

/-- Setting the provides and then the files leaves both set, the array holding
the provides followed by the file entries. -/
theorem set_provides_files_loaded (api : ZifDependApi) (asked : ZifDepend → Prop)
    (p0 : ZifPackage) (l : List ZifDepend) (files : List Str) (h : provides_unset p0) :
    provides_loaded api asked (zif_package_set_files (zif_package_set_provides p0 l) files) ∧
    (zif_package_set_files (zif_package_set_provides p0 l) files).provides =
      l ++ files.map file_depend := by
  obtain ⟨h1, h2, h3, h4, h5⟩ := h
  have hi := anyIndexed_add l [] [] p0.any_file_provides
    (anyIndexed_mono [] [] false _ anyIndexed_nil (by simp))
  have hj := anyIndexed_add (files.map file_depend) _ _ _ hi
  simp only [List.nil_append, List.any_map] at hj
  have hk := anyIndexed_mono _ _ _
    (p0.any_file_provides || l.any (fun d => is_file_depend d.name) || !files.isEmpty) hj
    (by
      intro hx
      apply any_file_depend
      simpa [Function.comp] using hx)
  simp only [provides_loaded, zif_package_set_files, zif_package_set_provides, h1, h2, h3, h4, h5,
    Bool.false_eq_true, if_false, Option.isSome_none, List.nil_append, Option.isSome_some]
  exact ⟨⟨trivial, trivial, hk, cacheFrom_nil _ _ _⟩, trivial⟩

/-- Setting the files and then the provides leaves both set, the array holding
the file entries followed by the provides. -/
theorem set_files_provides_loaded (api : ZifDependApi) (asked : ZifDepend → Prop)
    (p0 : ZifPackage) (l : List ZifDepend) (files : List Str) (h : provides_unset p0) :
    provides_loaded api asked (zif_package_set_provides (zif_package_set_files p0 files) l) ∧
    (zif_package_set_provides (zif_package_set_files p0 files) l).provides =
      files.map file_depend ++ l := by
  obtain ⟨h1, h2, h3, h4, h5⟩ := h
  have hi := anyIndexed_add (files.map file_depend) [] [] p0.any_file_provides
    (anyIndexed_mono [] [] false _ anyIndexed_nil (by simp))
  simp only [List.nil_append, List.any_map] at hi
  have hk := anyIndexed_mono _ _ _ (p0.any_file_provides || !files.isEmpty) hi
    (by
      intro hx
      apply any_file_depend
      simpa [Function.comp] using hx)
  have hj := anyIndexed_add l _ _ _ hk
  simp only [provides_loaded, zif_package_set_files, zif_package_set_provides, h1, h2, h3, h4, h5,
    Bool.false_eq_true, if_false, Option.isSome_none, List.nil_append, Option.isSome_some]
  exact ⟨⟨trivial, trivial, hj, cacheFrom_nil _ _ _⟩, trivial⟩

theorem requires_queries (api : ZifDependApi) (k : ZifPackageClass) (l : List ZifDepend)
    (asked : ZifDepend → Prop) :
    ∀ (ds : List ZifDepend) (p : ZifPackage), p.requires = some l →
      CacheFrom api l asked p.requires_hash → (∀ d ∈ ds, asked d) →
      ∃ hash, zif_package_queries (zif_package_requires api k) p ds = { p with requires_hash := hash } ∧
        CacheFrom api l asked hash := by
  intro ds
  induction ds with
  | nil =>
    intro p _ hc _
    exact ⟨p.requires_hash, rfl, hc⟩
  | cons d ds ih =>
    intro p hp hc hd
    have hstep := zif_package_requires_loaded api k p d l hp
    have hc1 := depend_lookup_cache api l p.any_file_requires p.requires_any_hash p.requires_hash d asked hc
      (hd d (List.mem_cons_self d ds))
    obtain ⟨hash, hq, hc2⟩ := ih (zif_package_requires api k p d).2 (by rw [hstep]; exact hp)
      (by rw [hstep]; exact hc1) (fun x hx => hd x (List.mem_cons_of_mem d hx))
    rw [hstep] at hq
    refine ⟨hash, ?_, hc2⟩
    simp only [zif_package_queries, List.foldl_cons] at hq ⊢
    rw [hstep, hq]

theorem conflicts_queries (api : ZifDependApi) (k : ZifPackageClass) (l : List ZifDepend)
    (asked : ZifDepend → Prop) :
    ∀ (ds : List ZifDepend) (p : ZifPackage), p.conflicts = some l →
      CacheFrom api l asked p.conflicts_hash → (∀ d ∈ ds, asked d) →
      ∃ hash, zif_package_queries (zif_package_conflicts api k) p ds = { p with conflicts_hash := hash } ∧
        CacheFrom api l asked hash := by
  intro ds
  induction ds with
  | nil =>
    intro p _ hc _
    exact ⟨p.conflicts_hash, rfl, hc⟩
  | cons d ds ih =>
    intro p hp hc hd
    have hstep := zif_package_conflicts_loaded api k p d l hp
    have hc1 := depend_lookup_cache api l p.any_file_conflicts p.conflicts_any_hash p.conflicts_hash d asked hc
      (hd d (List.mem_cons_self d ds))
    obtain ⟨hash, hq, hc2⟩ := ih (zif_package_conflicts api k p d).2 (by rw [hstep]; exact hp)
      (by rw [hstep]; exact hc1) (fun x hx => hd x (List.mem_cons_of_mem d hx))
    rw [hstep] at hq
    refine ⟨hash, ?_, hc2⟩
    simp only [zif_package_queries, List.foldl_cons] at hq ⊢
    rw [hstep, hq]

theorem obsoletes_queries (api : ZifDependApi) (k : ZifPackageClass) (l : List ZifDepend)
    (asked : ZifDepend → Prop) :
    ∀ (ds : List ZifDepend) (p : ZifPackage), p.obsoletes = some l →
      CacheFrom api l asked p.obsoletes_hash → (∀ d ∈ ds, asked d) →
      ∃ hash, zif_package_queries (zif_package_obsoletes api k) p ds = { p with obsoletes_hash := hash } ∧
        CacheFrom api l asked hash := by
  intro ds
  induction ds with
  | nil =>
    intro p _ hc _
    exact ⟨p.obsoletes_hash, rfl, hc⟩
  | cons d ds ih =>
    intro p hp hc hd
    have hstep := zif_package_obsoletes_loaded api k p d l hp
    have hc1 := depend_lookup_cache api l p.any_file_obsoletes p.obsoletes_any_hash p.obsoletes_hash d asked hc
      (hd d (List.mem_cons_self d ds))
    obtain ⟨hash, hq, hc2⟩ := ih (zif_package_obsoletes api k p d).2 (by rw [hstep]; exact hp)
      (by rw [hstep]; exact hc1) (fun x hx => hd x (List.mem_cons_of_mem d hx))
    rw [hstep] at hq
    refine ⟨hash, ?_, hc2⟩
    simp only [zif_package_queries, List.foldl_cons] at hq ⊢
    rw [hstep, hq]

theorem provides_queries (api : ZifDependApi) (k : ZifPackageClass) (asked : ZifDepend → Prop) :
    ∀ (ds : List ZifDepend) (p : ZifPackage), provides_loaded api asked p →
      (∀ d ∈ ds, asked d) →
      ∃ hash, zif_package_queries (zif_package_provides api k) p ds =
          { p with provides_hash := hash } ∧
        CacheFrom api p.provides asked hash := by
  intro ds
  induction ds with
  | nil =>
    intro p hp _
    exact ⟨p.provides_hash, rfl, hp.2.2.2⟩
  | cons d ds ih =>
    intro p hp hd
    obtain ⟨h1, h2, h3, hc⟩ := hp
    have hstep := zif_package_provides_loaded api k p d h1 h2
    have hc1 := depend_lookup_cache api p.provides p.any_file_provides p.provides_any_hash
      p.provides_hash d asked hc (hd d (List.mem_cons_self d ds))
    obtain ⟨hash, hq, hc2⟩ := ih (zif_package_provides api k p d).2
      (by rw [hstep]; exact ⟨h1, h2, h3, hc1⟩)
      (fun x hx => hd x (List.mem_cons_of_mem d hx))
    rw [hstep] at hq hc2
    refine ⟨hash, ?_, hc2⟩
    simp only [zif_package_queries, List.foldl_cons] at hq ⊢
    rw [hstep, hq]

/-- The lookup of a dependency whose flag is not ANY gives the first entry of the
list that satisfies it, the first time and when asked again. -/
theorem depend_lookup_twice (api : ZifDependApi) (l : List ZifDepend) (af : Bool)
    (ah : GHashTable ZifDepend) (h : GHashTable (Option ZifDepend)) (d : ZifDepend)
    (earlier : List ZifDepend) (hflag : d.flag ≠ ZIF_DEPEND_FLAG_ANY)
    (hidx : AnyIndexed l ah af)
    (hname : ∀ e, api.zif_depend_satisfies e d = true → e.name = d.name)
    (hc : CacheFrom api l (fun x => x ∈ d :: earlier) h)
    (hdesc : ∀ d2 ∈ earlier, api.zif_depend_get_description d2 = api.zif_depend_get_description d →
      ∀ e, api.zif_depend_satisfies e d2 = api.zif_depend_satisfies e d) :
    (zif_package_depend_lookup api (some l) af ah h d).1 =
      ZifQuery.found (l.find? (fun e => api.zif_depend_satisfies e d)) ∧
    (zif_package_depend_lookup api (some l) af ah
      (zif_package_depend_lookup api (some l) af ah h d).2 d).1 =
      ZifQuery.found (l.find? (fun e => api.zif_depend_satisfies e d)) := by
  have hd : ∀ d2, d2 ∈ d :: earlier →
      api.zif_depend_get_description d2 = api.zif_depend_get_description d →
      ∀ e ∈ l, api.zif_depend_satisfies e d2 = api.zif_depend_satisfies e d := by
    intro d2 hm heq e _
    rcases List.mem_cons.mp hm with h1 | h1
    · rw [h1]
    · exact hdesc d2 h1 heq e
  have hc1 := depend_lookup_cache api l af ah h d _ hc (List.mem_cons_self d earlier)
  exact ⟨depend_lookup_scan api l af ah h d _ hflag hidx.2.2 (fun e _ => hname e) hc hd,
    depend_lookup_scan api l af ah _ d _ hflag hidx.2.2 (fun e _ => hname e) hc1 hd⟩

theorem requires_queries_view (api : ZifDependApi) (k : ZifPackageClass) (l : List ZifDepend)
    (asked : ZifDepend → Prop) (ds : List ZifDepend) (p : ZifPackage) (hp : p.requires = some l)
    (hidx : AnyIndexed l p.requires_any_hash p.any_file_requires)
    (hc : CacheFrom api l asked p.requires_hash) (hd : ∀ d ∈ ds, asked d) :
    ∃ q, zif_package_queries (zif_package_requires api k) p ds = q ∧ q.requires = some l ∧
      AnyIndexed l q.requires_any_hash q.any_file_requires ∧ CacheFrom api l asked q.requires_hash := by
  obtain ⟨hash, hq, hc2⟩ := requires_queries api k l asked ds p hp hc hd
  exact ⟨_, hq, hp, hidx, hc2⟩

theorem requires_finds_by_name (api : ZifDependApi) (k : ZifPackageClass) (l : List ZifDepend)
    (q : ZifPackage) (dep : ZifDepend) (hp : q.requires = some l)
    (hidx : AnyIndexed l q.requires_any_hash q.any_file_requires)
    (hflag : dep.flag = ZIF_DEPEND_FLAG_ANY) :
    finds_by_name (zif_package_requires api k q dep) l dep := by
  rw [zif_package_requires_loaded api k q dep l hp]
  obtain ⟨r, hr, hiff, hmem⟩ := depend_lookup_any api (some l) l q.any_file_requires
    q.requires_any_hash q.requires_hash dep hidx hflag
  exact ⟨r, by rw [hr], hiff, hmem⟩

theorem requires_finds_first (api : ZifDependApi) (k : ZifPackageClass) (l : List ZifDepend)
    (q : ZifPackage) (dep : ZifDepend) (earlier : List ZifDepend) (hp : q.requires = some l)
    (hidx : AnyIndexed l q.requires_any_hash q.any_file_requires)
    (hc : CacheFrom api l (fun x => x ∈ dep :: earlier) q.requires_hash)
    (hflag : dep.flag ≠ ZIF_DEPEND_FLAG_ANY)
    (hname : ∀ e, api.zif_depend_satisfies e dep = true → e.name = dep.name)
    (hdesc : ∀ d2 ∈ earlier,
      api.zif_depend_get_description d2 = api.zif_depend_get_description dep →
      ∀ e, api.zif_depend_satisfies e d2 = api.zif_depend_satisfies e dep) :
    finds_first api (zif_package_requires api k) q l dep := by
  obtain ⟨t1, t2⟩ := depend_lookup_twice api l q.any_file_requires q.requires_any_hash q.requires_hash dep
    earlier hflag hidx hname hc hdesc
  have e1 := zif_package_requires_loaded api k q dep l hp
  have e2 := zif_package_requires_loaded api k (zif_package_requires api k q dep).2 dep l
    (by rw [e1]; exact hp)
  refine ⟨by rw [e1]; exact t1, ?_⟩
  rw [e2]
  simp only [e1]
  exact t2

theorem conflicts_queries_view (api : ZifDependApi) (k : ZifPackageClass) (l : List ZifDepend)
    (asked : ZifDepend → Prop) (ds : List ZifDepend) (p : ZifPackage) (hp : p.conflicts = some l)
    (hidx : AnyIndexed l p.conflicts_any_hash p.any_file_conflicts)
    (hc : CacheFrom api l asked p.conflicts_hash) (hd : ∀ d ∈ ds, asked d) :
    ∃ q, zif_package_queries (zif_package_conflicts api k) p ds = q ∧ q.conflicts = some l ∧
      AnyIndexed l q.conflicts_any_hash q.any_file_conflicts ∧ CacheFrom api l asked q.conflicts_hash := by
  obtain ⟨hash, hq, hc2⟩ := conflicts_queries api k l asked ds p hp hc hd
  exact ⟨_, hq, hp, hidx, hc2⟩

theorem conflicts_finds_by_name (api : ZifDependApi) (k : ZifPackageClass) (l : List ZifDepend)
    (q : ZifPackage) (dep : ZifDepend) (hp : q.conflicts = some l)
    (hidx : AnyIndexed l q.conflicts_any_hash q.any_file_conflicts)
    (hflag : dep.flag = ZIF_DEPEND_FLAG_ANY) :
    finds_by_name (zif_package_conflicts api k q dep) l dep := by
  rw [zif_package_conflicts_loaded api k q dep l hp]
  obtain ⟨r, hr, hiff, hmem⟩ := depend_lookup_any api (some l) l q.any_file_conflicts
    q.conflicts_any_hash q.conflicts_hash dep hidx hflag
  exact ⟨r, by rw [hr], hiff, hmem⟩

theorem conflicts_finds_first (api : ZifDependApi) (k : ZifPackageClass) (l : List ZifDepend)
    (q : ZifPackage) (dep : ZifDepend) (earlier : List ZifDepend) (hp : q.conflicts = some l)
    (hidx : AnyIndexed l q.conflicts_any_hash q.any_file_conflicts)
    (hc : CacheFrom api l (fun x => x ∈ dep :: earlier) q.conflicts_hash)
    (hflag : dep.flag ≠ ZIF_DEPEND_FLAG_ANY)
    (hname : ∀ e, api.zif_depend_satisfies e dep = true → e.name = dep.name)
    (hdesc : ∀ d2 ∈ earlier,
      api.zif_depend_get_description d2 = api.zif_depend_get_description dep →
      ∀ e, api.zif_depend_satisfies e d2 = api.zif_depend_satisfies e dep) :
    finds_first api (zif_package_conflicts api k) q l dep := by
  obtain ⟨t1, t2⟩ := depend_lookup_twice api l q.any_file_conflicts q.conflicts_any_hash q.conflicts_hash dep
    earlier hflag hidx hname hc hdesc
  have e1 := zif_package_conflicts_loaded api k q dep l hp
  have e2 := zif_package_conflicts_loaded api k (zif_package_conflicts api k q dep).2 dep l
    (by rw [e1]; exact hp)
  refine ⟨by rw [e1]; exact t1, ?_⟩
  rw [e2]
  simp only [e1]
  exact t2

theorem obsoletes_queries_view (api : ZifDependApi) (k : ZifPackageClass) (l : List ZifDepend)
    (asked : ZifDepend → Prop) (ds : List ZifDepend) (p : ZifPackage) (hp : p.obsoletes = some l)
    (hidx : AnyIndexed l p.obsoletes_any_hash p.any_file_obsoletes)
    (hc : CacheFrom api l asked p.obsoletes_hash) (hd : ∀ d ∈ ds, asked d) :
    ∃ q, zif_package_queries (zif_package_obsoletes api k) p ds = q ∧ q.obsoletes = some l ∧
      AnyIndexed l q.obsoletes_any_hash q.any_file_obsoletes ∧ CacheFrom api l asked q.obsoletes_hash := by
  obtain ⟨hash, hq, hc2⟩ := obsoletes_queries api k l asked ds p hp hc hd
  exact ⟨_, hq, hp, hidx, hc2⟩

theorem obsoletes_finds_by_name (api : ZifDependApi) (k : ZifPackageClass) (l : List ZifDepend)
    (q : ZifPackage) (dep : ZifDepend) (hp : q.obsoletes = some l)
    (hidx : AnyIndexed l q.obsoletes_any_hash q.any_file_obsoletes)
    (hflag : dep.flag = ZIF_DEPEND_FLAG_ANY) :
    finds_by_name (zif_package_obsoletes api k q dep) l dep := by
  rw [zif_package_obsoletes_loaded api k q dep l hp]
  obtain ⟨r, hr, hiff, hmem⟩ := depend_lookup_any api (some l) l q.any_file_obsoletes
    q.obsoletes_any_hash q.obsoletes_hash dep hidx hflag
  exact ⟨r, by rw [hr], hiff, hmem⟩

theorem obsoletes_finds_first (api : ZifDependApi) (k : ZifPackageClass) (l : List ZifDepend)
    (q : ZifPackage) (dep : ZifDepend) (earlier : List ZifDepend) (hp : q.obsoletes = some l)
    (hidx : AnyIndexed l q.obsoletes_any_hash q.any_file_obsoletes)
    (hc : CacheFrom api l (fun x => x ∈ dep :: earlier) q.obsoletes_hash)
    (hflag : dep.flag ≠ ZIF_DEPEND_FLAG_ANY)
    (hname : ∀ e, api.zif_depend_satisfies e dep = true → e.name = dep.name)
    (hdesc : ∀ d2 ∈ earlier,
      api.zif_depend_get_description d2 = api.zif_depend_get_description dep →
      ∀ e, api.zif_depend_satisfies e d2 = api.zif_depend_satisfies e dep) :
    finds_first api (zif_package_obsoletes api k) q l dep := by
  obtain ⟨t1, t2⟩ := depend_lookup_twice api l q.any_file_obsoletes q.obsoletes_any_hash q.obsoletes_hash dep
    earlier hflag hidx hname hc hdesc
  have e1 := zif_package_obsoletes_loaded api k q dep l hp
  have e2 := zif_package_obsoletes_loaded api k (zif_package_obsoletes api k q dep).2 dep l
    (by rw [e1]; exact hp)
  refine ⟨by rw [e1]; exact t1, ?_⟩
  rw [e2]
  simp only [e1]
  exact t2

theorem provides_queries_view (api : ZifDependApi) (k : ZifPackageClass)
    (asked : ZifDepend → Prop) (ds : List ZifDepend) (p : ZifPackage)
    (hp : provides_loaded api asked p) (hd : ∀ d ∈ ds, asked d) :
    ∃ q, zif_package_queries (zif_package_provides api k) p ds = q ∧
      provides_loaded api asked q ∧ q.provides = p.provides := by
  obtain ⟨hash, hq, hc2⟩ := provides_queries api k asked ds p hp hd
  exact ⟨_, hq, ⟨hp.1, hp.2.1, hp.2.2.1, hc2⟩, rfl⟩

theorem provides_finds_by_name (api : ZifDependApi) (k : ZifPackageClass)
    (asked : ZifDepend → Prop) (q : ZifPackage) (dep : ZifDepend)
    (hp : provides_loaded api asked q) (hflag : dep.flag = ZIF_DEPEND_FLAG_ANY) :
    finds_by_name (zif_package_provides api k q dep) q.provides dep := by
  rw [zif_package_provides_loaded api k q dep hp.1 hp.2.1]
  obtain ⟨r, hr, hiff, hmem⟩ := depend_lookup_any api (some q.provides) q.provides
    q.any_file_provides q.provides_any_hash q.provides_hash dep hp.2.2.1 hflag
  exact ⟨r, by rw [hr], hiff, hmem⟩

theorem provides_finds_first (api : ZifDependApi) (k : ZifPackageClass)
    (q : ZifPackage) (dep : ZifDepend) (earlier : List ZifDepend)
    (hp : provides_loaded api (fun x => x ∈ dep :: earlier) q)
    (hflag : dep.flag ≠ ZIF_DEPEND_FLAG_ANY)
    (hname : ∀ e, api.zif_depend_satisfies e dep = true → e.name = dep.name)
    (hdesc : ∀ d2 ∈ earlier,
      api.zif_depend_get_description d2 = api.zif_depend_get_description dep →
      ∀ e, api.zif_depend_satisfies e d2 = api.zif_depend_satisfies e dep) :
    finds_first api (zif_package_provides api k) q q.provides dep := by
  obtain ⟨t1, t2⟩ := depend_lookup_twice api q.provides q.any_file_provides q.provides_any_hash
    q.provides_hash dep earlier hflag hp.2.2.1 hname hp.2.2.2 hdesc
  have e1 := zif_package_provides_loaded api k q dep hp.1 hp.2.1
  have e2 := zif_package_provides_loaded api k (zif_package_provides api k q dep).2 dep
    (by rw [e1]; exact hp.1) (by rw [e1]; exact hp.2.1)
  refine ⟨by rw [e1]; exact t1, ?_⟩
  rw [e2]
  simp only [e1]
  exact t2

/-! ## Claims on the relation queries -/

/-- C2 (counterexample): the provides of a package are set with
zif_package_set_provides and hold an entry named dbus, the files are not set
and the class has no loader; zif_package_provides for the dependency dbus with
flag ANY does not succeed, it fails on loading the files. -/
theorem zif_package_provides_any_needs_files :
    (zif_package_set_provides package_hal [depend_dbus_1_2]).provides_set = true ∧
    (zif_package_set_provides package_hal [depend_dbus_1_2]).provides = [depend_dbus_1_2] ∧
    depend_dbus_any.flag = ZIF_DEPEND_FLAG_ANY ∧
    depend_dbus_1_2.name = depend_dbus_any.name ∧
    (zif_package_provides zif_depend_api class_no_loader
      (zif_package_set_provides package_hal [depend_dbus_1_2]) depend_dbus_any).1 =
      ZifQuery.failed
        { message := "cannot get files data from hal;0.5.8-1;i386;fedora".toList } := by
  decide

/-- C2 (amended): for a package whose requires (conflicts, obsoletes) have been set
with zif_package_set_requires (..._conflicts, ..._obsoletes), or whose provides
and files have both been set with zif_package_set_provides and
zif_package_set_files in either order, after any earlier queries of the same
kind, and for a dependency whose flag is ANY: the query succeeds, and it
returns an entry if and only if some entry of the list (for provides: the
provides and the file entries) has the name of the dependency; the entry
returned is an entry of the list with that name. -/
theorem zif_package_relation_any (api : ZifDependApi) (k : ZifPackageClass) (p0 : ZifPackage)
    (l : List ZifDepend) (files : List Str) (earlier : List ZifDepend) (dep : ZifDepend)
    (hflag : dep.flag = ZIF_DEPEND_FLAG_ANY) :
    (requires_unset p0 →
      finds_by_name (zif_package_requires api k
        (zif_package_queries (zif_package_requires api k) (zif_package_set_requires p0 l) earlier)
        dep) l dep) ∧
    (conflicts_unset p0 →
      finds_by_name (zif_package_conflicts api k
        (zif_package_queries (zif_package_conflicts api k) (zif_package_set_conflicts p0 l) earlier)
        dep) l dep) ∧
    (obsoletes_unset p0 →
      finds_by_name (zif_package_obsoletes api k
        (zif_package_queries (zif_package_obsoletes api k) (zif_package_set_obsoletes p0 l) earlier)
        dep) l dep) ∧
    (provides_unset p0 →
      finds_by_name (zif_package_provides api k
        (zif_package_queries (zif_package_provides api k)
          (zif_package_set_files (zif_package_set_provides p0 l) files) earlier)
        dep) (l ++ files.map file_depend) dep ∧
      finds_by_name (zif_package_provides api k
        (zif_package_queries (zif_package_provides api k)
          (zif_package_set_provides (zif_package_set_files p0 files) l) earlier)
        dep) (files.map file_depend ++ l) dep) := by
  refine ⟨?_, ?_, ?_, ?_⟩
  · intro h0
    obtain ⟨h1, h2, h3⟩ := set_requires_indexed p0 l h0
    obtain ⟨q, hq, q1, q2, _⟩ := requires_queries_view api k l (fun _ => True) earlier _ h1 h2
      (by rw [h3]; exact cacheFrom_nil _ _ _) (fun _ _ => trivial)
    rw [hq]
    exact requires_finds_by_name api k l q dep q1 q2 hflag
  · intro h0
    obtain ⟨h1, h2, h3⟩ := set_conflicts_indexed p0 l h0
    obtain ⟨q, hq, q1, q2, _⟩ := conflicts_queries_view api k l (fun _ => True) earlier _ h1 h2
      (by rw [h3]; exact cacheFrom_nil _ _ _) (fun _ _ => trivial)
    rw [hq]
    exact conflicts_finds_by_name api k l q dep q1 q2 hflag
  · intro h0
    obtain ⟨h1, h2, h3⟩ := set_obsoletes_indexed p0 l h0
    obtain ⟨q, hq, q1, q2, _⟩ := obsoletes_queries_view api k l (fun _ => True) earlier _ h1 h2
      (by rw [h3]; exact cacheFrom_nil _ _ _) (fun _ _ => trivial)
    rw [hq]
    exact obsoletes_finds_by_name api k l q dep q1 q2 hflag
  · intro h0
    constructor
    · obtain ⟨hl, hlist⟩ := set_provides_files_loaded api (fun _ => True) p0 l files h0
      obtain ⟨q, hq, q1, q2⟩ := provides_queries_view api k (fun _ => True) earlier _ hl
        (fun _ _ => trivial)
      rw [hq, ← hlist, ← q2]
      exact provides_finds_by_name api k _ q dep q1 hflag
    · obtain ⟨hl, hlist⟩ := set_files_provides_loaded api (fun _ => True) p0 l files h0
      obtain ⟨q, hq, q1, q2⟩ := provides_queries_view api k (fun _ => True) earlier _ hl
        (fun _ _ => trivial)
      rw [hq, ← hlist, ← q2]
      exact provides_finds_by_name api k _ q dep q1 hflag

/-- C3 (counterexample): the provides of a package are set and hold an entry that
satisfies the dependency dbus > 1.3, the files are not set and the class has
no loader; zif_package_provides does not return that entry, it fails on
loading the files. -/
theorem zif_package_provides_scan_needs_files :
    (zif_package_set_provides package_hal [depend_dbus_1_2, depend_dbus_1_4]).provides_set = true ∧
    depend_dbus_newer.flag ≠ ZIF_DEPEND_FLAG_ANY ∧
    (zif_package_set_provides package_hal [depend_dbus_1_2, depend_dbus_1_4]).provides.find?
      (fun e => zif_depend_api.zif_depend_satisfies e depend_dbus_newer) = some depend_dbus_1_4 ∧
    (zif_package_provides zif_depend_api class_no_loader
      (zif_package_set_provides package_hal [depend_dbus_1_2, depend_dbus_1_4])
      depend_dbus_newer).1 =
      ZifQuery.failed
        { message := "cannot get files data from hal;0.5.8-1;i386;fedora".toList } := by
  decide

/-- C3 (amended): for a package whose requires (conflicts, obsoletes) have been set,
or whose provides and files have both been set in either order, a dependency
whose flag is not ANY, and every sequence of earlier queries of the same kind:
the query returns the first entry of the list, in list order, that
zif_depend_satisfies accepts for the dependency, or absent when there is none,
and asking again gives the same answer; given that a dependency is only
satisfied by an entry of the same name, and that an earlier dependency with
the same description is satisfied by the same entries. -/
theorem zif_package_relation_scan (api : ZifDependApi) (k : ZifPackageClass) (p0 : ZifPackage)
    (l : List ZifDepend) (files : List Str) (earlier : List ZifDepend) (dep : ZifDepend)
    (hflag : dep.flag ≠ ZIF_DEPEND_FLAG_ANY)
    (hname : ∀ e, api.zif_depend_satisfies e dep = true → e.name = dep.name)
    (hdesc : ∀ d2 ∈ earlier,
      api.zif_depend_get_description d2 = api.zif_depend_get_description dep →
      ∀ e, api.zif_depend_satisfies e d2 = api.zif_depend_satisfies e dep) :
    (requires_unset p0 →
      finds_first api (zif_package_requires api k)
        (zif_package_queries (zif_package_requires api k) (zif_package_set_requires p0 l) earlier)
        l dep) ∧
    (conflicts_unset p0 →
      finds_first api (zif_package_conflicts api k)
        (zif_package_queries (zif_package_conflicts api k) (zif_package_set_conflicts p0 l) earlier)
        l dep) ∧
    (obsoletes_unset p0 →
      finds_first api (zif_package_obsoletes api k)
        (zif_package_queries (zif_package_obsoletes api k) (zif_package_set_obsoletes p0 l) earlier)
        l dep) ∧
    (provides_unset p0 →
      finds_first api (zif_package_provides api k)
        (zif_package_queries (zif_package_provides api k)
          (zif_package_set_files (zif_package_set_provides p0 l) files) earlier)
        (l ++ files.map file_depend) dep ∧
      finds_first api (zif_package_provides api k)
        (zif_package_queries (zif_package_provides api k)
          (zif_package_set_provides (zif_package_set_files p0 files) l) earlier)
        (files.map file_depend ++ l) dep) := by
  have hask : ∀ d ∈ earlier, (fun x => x ∈ dep :: earlier) d :=
    fun d hd => List.mem_cons_of_mem dep hd
  refine ⟨?_, ?_, ?_, ?_⟩
  · intro h0
    obtain ⟨h1, h2, h3⟩ := set_requires_indexed p0 l h0
    obtain ⟨q, hq, q1, q2, q3⟩ := requires_queries_view api k l (fun x => x ∈ dep :: earlier)
      earlier _ h1 h2 (by rw [h3]; exact cacheFrom_nil _ _ _) hask
    rw [hq]
    exact requires_finds_first api k l q dep earlier q1 q2 q3 hflag hname hdesc
  · intro h0
    obtain ⟨h1, h2, h3⟩ := set_conflicts_indexed p0 l h0
    obtain ⟨q, hq, q1, q2, q3⟩ := conflicts_queries_view api k l (fun x => x ∈ dep :: earlier)
      earlier _ h1 h2 (by rw [h3]; exact cacheFrom_nil _ _ _) hask
    rw [hq]
    exact conflicts_finds_first api k l q dep earlier q1 q2 q3 hflag hname hdesc
  · intro h0
    obtain ⟨h1, h2, h3⟩ := set_obsoletes_indexed p0 l h0
    obtain ⟨q, hq, q1, q2, q3⟩ := obsoletes_queries_view api k l (fun x => x ∈ dep :: earlier)
      earlier _ h1 h2 (by rw [h3]; exact cacheFrom_nil _ _ _) hask
    rw [hq]
    exact obsoletes_finds_first api k l q dep earlier q1 q2 q3 hflag hname hdesc
  · intro h0
    constructor
    · obtain ⟨hl, hlist⟩ := set_provides_files_loaded api (fun x => x ∈ dep :: earlier)
        p0 l files h0
      obtain ⟨q, hq, q1, q2⟩ := provides_queries_view api k _ earlier _ hl hask
      rw [hq, ← hlist, ← q2]
      exact provides_finds_first api k q dep earlier q1 hflag hname hdesc
    · obtain ⟨hl, hlist⟩ := set_files_provides_loaded api (fun x => x ∈ dep :: earlier)
        p0 l files h0
      obtain ⟨q, hq, q1, q2⟩ := provides_queries_view api k _ earlier _ hl hask
      rw [hq, ← hlist, ← q2]
      exact provides_finds_first api k q dep earlier q1 hflag hname hdesc

theorem zif_package_relation_any_witness :
    depend_dbus_any.flag = ZIF_DEPEND_FLAG_ANY ∧
    requires_unset package_hal ∧
    provides_unset package_hal ∧
    finds_by_name (zif_package_requires zif_depend_api class_no_loader
      (zif_package_queries (zif_package_requires zif_depend_api class_no_loader)
        (zif_package_set_requires package_hal [depend_dbus_1_2, depend_dbus_1_4, depend_sh_any])
        [depend_dbus_newer])
      depend_dbus_any) [depend_dbus_1_2, depend_dbus_1_4, depend_sh_any] depend_dbus_any ∧
    finds_by_name (zif_package_provides zif_depend_api class_no_loader
      (zif_package_queries (zif_package_provides zif_depend_api class_no_loader)
        (zif_package_set_files
          (zif_package_set_provides package_hal [depend_dbus_1_2, depend_dbus_1_4, depend_sh_any])
          ["/usr/bin/hal".toList])
        [depend_dbus_newer])
      depend_dbus_any)
      ([depend_dbus_1_2, depend_dbus_1_4, depend_sh_any] ++
        ["/usr/bin/hal".toList].map file_depend) depend_dbus_any ∧
    (zif_package_requires zif_depend_api class_no_loader
      (zif_package_queries (zif_package_requires zif_depend_api class_no_loader)
        (zif_package_set_requires package_hal [depend_dbus_1_2, depend_dbus_1_4, depend_sh_any])
        [depend_dbus_newer])
      depend_dbus_any).1 = ZifQuery.found (some depend_dbus_1_4) :=
  ⟨rfl, ⟨rfl, rfl, rfl⟩, ⟨rfl, rfl, rfl, rfl, rfl⟩,
    (zif_package_relation_any zif_depend_api class_no_loader package_hal
      [depend_dbus_1_2, depend_dbus_1_4, depend_sh_any] ["/usr/bin/hal".toList]
      [depend_dbus_newer] depend_dbus_any rfl).1 ⟨rfl, rfl, rfl⟩,
    ((zif_package_relation_any zif_depend_api class_no_loader package_hal
      [depend_dbus_1_2, depend_dbus_1_4, depend_sh_any] ["/usr/bin/hal".toList]
      [depend_dbus_newer] depend_dbus_any rfl).2.2.2 ⟨rfl, rfl, rfl, rfl, rfl⟩).1,
    by decide⟩

theorem zif_package_relation_scan_witness :
    depend_dbus_newer.flag ≠ ZIF_DEPEND_FLAG_ANY ∧
    requires_unset package_hal ∧
    finds_first zif_depend_api (zif_package_requires zif_depend_api class_no_loader)
      (zif_package_queries (zif_package_requires zif_depend_api class_no_loader)
        (zif_package_set_requires package_hal [depend_dbus_1_2, depend_dbus_1_4, depend_sh_any])
        [depend_dbus_any, depend_dbus_1_2, depend_dbus_newer])
      [depend_dbus_1_2, depend_dbus_1_4, depend_sh_any] depend_dbus_newer ∧
    [depend_dbus_1_2, depend_dbus_1_4, depend_sh_any].find?
      (fun e => zif_depend_api.zif_depend_satisfies e depend_dbus_newer) = some depend_dbus_1_4 :=
  ⟨by decide, ⟨rfl, rfl, rfl⟩,
    (zif_package_relation_scan zif_depend_api class_no_loader package_hal
      [depend_dbus_1_2, depend_dbus_1_4, depend_sh_any] ["/usr/bin/hal".toList]
      [depend_dbus_any, depend_dbus_1_2, depend_dbus_newer] depend_dbus_newer (by decide)
      (by
        intro e h
        simp only [zif_depend_api, zif_depend_satisfies, Bool.and_eq_true, decide_eq_true_eq] at h
        exact h.1)
      (by
        intro d2 hd heq
        simp only [List.mem_cons, List.mem_singleton, List.not_mem_nil, or_false] at hd
        rcases hd with h | h | h
        · rw [h] at heq
          exact absurd heq (by decide)
        · rw [h] at heq
          exact absurd heq (by decide)
        · rw [h]
          intro e
          rfl)).1 ⟨rfl, rfl, rfl⟩,
    by decide⟩

/-- C4: when the list of a relation is not loaded and the class has no loader,
the query returns FALSE with the error `cannot get ... data from ...` and the
package is unchanged; when the loader fails, the query returns FALSE with the
error of the loader and the package is as the loader left it, so the query
itself modifies neither cache. For requires, conflicts, obsoletes and
provides. -/
theorem zif_package_relation_load_failure (api : ZifDependApi) (k : ZifPackageClass)
    (p : ZifPackage) (dep : ZifDepend) :
    (k.ensure_data = none →
      (p.requires = none → zif_package_requires api k p dep =
        (ZifQuery.failed
          { message := "cannot get requires data from ".toList ++ printf_s (zif_package_get_id p) },
          p)) ∧
      (p.conflicts = none → zif_package_conflicts api k p dep =
        (ZifQuery.failed
          { message := "cannot get conflicts data from ".toList ++ printf_s (zif_package_get_id p) },
          p)) ∧
      (p.obsoletes = none → zif_package_obsoletes api k p dep =
        (ZifQuery.failed
          { message := "cannot get obsoletes data from ".toList ++ printf_s (zif_package_get_id p) },
          p)) ∧
      (p.provides_set = false → zif_package_provides api k p dep =
        (ZifQuery.failed
          { message := "cannot get provides data from ".toList ++ printf_s (zif_package_get_id p) },
          p))) ∧
    (∀ loader e p2, k.ensure_data = some loader →
      (p.requires = none → loader p ZifPackageEnsureType.requires = (Except.error e, p2) →
        zif_package_requires api k p dep = (ZifQuery.failed e, p2)) ∧
      (p.conflicts = none → loader p ZifPackageEnsureType.conflicts = (Except.error e, p2) →
        zif_package_conflicts api k p dep = (ZifQuery.failed e, p2)) ∧
      (p.obsoletes = none → loader p ZifPackageEnsureType.obsoletes = (Except.error e, p2) →
        zif_package_obsoletes api k p dep = (ZifQuery.failed e, p2)) ∧
      (p.provides_set = false → loader p ZifPackageEnsureType.provides = (Except.error e, p2) →
        zif_package_provides api k p dep = (ZifQuery.failed e, p2))) := by
  constructor
  · intro hk
    refine ⟨?_, ?_, ?_, ?_⟩
    · intro h
      simp [zif_package_requires, h, zif_package_ensure_data, hk,
        zif_package_ensure_type_to_string]
    · intro h
      simp [zif_package_conflicts, h, zif_package_ensure_data, hk,
        zif_package_ensure_type_to_string]
    · intro h
      simp [zif_package_obsoletes, h, zif_package_ensure_data, hk,
        zif_package_ensure_type_to_string]
    · intro h
      simp [zif_package_provides, h, zif_package_ensure_data, hk,
        zif_package_ensure_type_to_string]
  · intro loader e p2 hk
    refine ⟨?_, ?_, ?_, ?_⟩
    · intro h hl
      simp [zif_package_requires, h, zif_package_ensure_data, hk, hl]
    · intro h hl
      simp [zif_package_conflicts, h, zif_package_ensure_data, hk, hl]
    · intro h hl
      simp [zif_package_obsoletes, h, zif_package_ensure_data, hk, hl]
    · intro h hl
      simp [zif_package_provides, h, zif_package_ensure_data, hk, hl]

theorem zif_package_relation_load_failure_witness :
    zif_package_requires zif_depend_api class_no_loader package_hal depend_dbus_any =
      (ZifQuery.failed
        { message := "cannot get requires data from hal;0.5.8-1;i386;fedora".toList },
        package_hal) ∧
    zif_package_provides zif_depend_api class_failing_loader package_hal depend_dbus_newer =
      (ZifQuery.failed { message := "no metadata".toList }, package_hal) :=
  ⟨((zif_package_relation_load_failure zif_depend_api class_no_loader package_hal
      depend_dbus_any).1 rfl).1 rfl,
    ((zif_package_relation_load_failure zif_depend_api class_failing_loader package_hal
      depend_dbus_newer).2 _ _ _ rfl).2.2.2 rfl rfl⟩

/-! ## The filters -/

theorem remove_fast_split {α : Type} (pre : List α) (x : α) (suf : List α) :
    g_ptr_array_remove_index_fast (pre ++ x :: suf) pre.length =
      pre ++ (match suf.getLast? with
        | none => []
        | some y => y :: suf.dropLast) := by
  rcases List.eq_nil_or_concat suf with h | ⟨L, b, h⟩
  · subst h
    simp [g_ptr_array_remove_index_fast]
  · rw [List.concat_eq_append] at h
    subst h
    have e : pre ++ x :: (L ++ [b]) = (pre ++ x :: L) ++ [b] := by simp
    have e2 : ((pre ++ x :: L) ++ [b]).set pre.length b = (pre ++ b :: L) ++ [b] := by
      simp [List.set_append]
    have hl : pre.length < ((pre ++ x :: L) ++ [b]).length := by simp
    rw [e]
    simp only [g_ptr_array_remove_index_fast, hl, if_true, List.getLast?_concat, e2,
      List.dropLast_concat]

theorem remove_fast_facts {α : Type} (pre : List α) (x : α) (suf : List α) :
    (g_ptr_array_remove_index_fast (pre ++ x :: suf) pre.length).take pre.length = pre ∧
    (g_ptr_array_remove_index_fast (pre ++ x :: suf) pre.length).length =
      pre.length + suf.length ∧
    (∀ y ∈ g_ptr_array_remove_index_fast (pre ++ x :: suf) pre.length, y ∈ pre ++ x :: suf) ∧
    List.Perm ((g_ptr_array_remove_index_fast (pre ++ x :: suf) pre.length).drop pre.length)
      suf := by
  rw [remove_fast_split]
  rcases List.eq_nil_or_concat suf with h | ⟨L, b, h⟩
  · subst h
    simp only [List.getLast?_nil, List.append_nil, List.take_length, List.length_nil,
      Nat.add_zero, List.drop_length, List.Perm.refl, and_true, true_and]
    intro y hy
    exact List.mem_append_left _ hy
  · rw [List.concat_eq_append] at h
    subst h
    simp only [List.getLast?_concat, List.dropLast_concat]
    refine ⟨by simp, by simp, ?_, ?_⟩
    · intro y hy
      simp only [List.mem_append, List.mem_cons, List.mem_singleton, List.not_mem_nil,
        or_false] at hy ⊢
      tauto
    · simp only [List.drop_left]
      exact (List.perm_append_singleton b L).symm

theorem split_at_index {α : Type} (a : List α) (i : Nat) (h : i < a.length) :
    ∃ pre suf, a = pre ++ a.get ⟨i, h⟩ :: suf ∧ pre.length = i ∧ a.take i = pre ∧
      a.drop i = a.get ⟨i, h⟩ :: suf ∧ a.drop (i + 1) = suf ∧
      a.take (i + 1) = pre ++ [a.get ⟨i, h⟩] := by
  refine ⟨a.take i, a.drop (i + 1), by simp, by simp; omega, rfl, by simp, rfl, ?_⟩
  rw [List.take_succ, List.getElem?_eq_getElem h]
  rfl

theorem filter_depends_spec (query : ZifHeapQuery) (st : ZifStateImpl)
    (inv : ZifHeap → Prop) (array : List Nat) (depends : List ZifDepend)
    (matched : Nat → ZifDepend → Bool) (hq : query_stable query inv array depends matched)
    (package : Nat) (hm : package ∈ array) (node : ZifStateNode) :
    ∀ (ds : List ZifDepend) (s : ZifFilterState), (∀ d ∈ ds, d ∈ depends) → inv s.heap →
      ∃ status s2, zif_package_array_filter_depends query st package node ds s = (status, s2) ∧
        inv s2.heap ∧ s2.array = s.array ∧
        (status = ZifFilterStatus.ok ∨
          (status = ZifFilterStatus.state_failed ∧ ∃ ev ∈ s2.log, ev.2 = false)) ∧
        (status = ZifFilterStatus.ok →
          s2.satisfies.isSome = (ds.any (matched package) || (ds.isEmpty && s.satisfies.isSome))) := by
  intro ds
  induction ds with
  | nil =>
    intro s _ hi
    exact ⟨ZifFilterStatus.ok, s, rfl, hi, rfl, Or.inl rfl, fun _ => by simp⟩
  | cons d rest ih =>
    intro s hds hi
    obtain ⟨r, heap2, hr, hrm, hi2⟩ := hq s.heap package d hi hm (hds d (List.mem_cons_self d rest))
    simp only [zif_package_array_filter_depends, hr]
    by_cases hsome : r.isSome = true
    · simp only [hsome, if_true]
      by_cases hok : st (s.log ++ [(ZifStateCall.get_child node, true)])
          (ZifStateCall.finished node) = true
      · simp only [hok, if_true]
        refine ⟨_, _, rfl, hi2, rfl, Or.inl rfl, fun _ => ?_⟩
        simp [hsome, ← hrm]
      · simp only [hok, if_false]
        refine ⟨_, _, rfl, hi2, rfl, Or.inr ⟨rfl, ?_⟩, fun h => by cases h⟩
        exact ⟨(ZifStateCall.finished node, false), by simp [hok], rfl⟩
    · simp only [hsome, if_false]
      by_cases hok : st (s.log ++ [(ZifStateCall.get_child node, true)])
          (ZifStateCall.done node) = true
      · simp only [hok, if_true]
        obtain ⟨status, s2, h1, h2, h3, h4, h5⟩ := ih
          { array := s.array, heap := heap2, satisfies := r,
            log := s.log ++ [(ZifStateCall.get_child node, true)] ++
              [(ZifStateCall.done node, true)] }
          (fun x hx => hds x (List.mem_cons_of_mem d hx)) hi2
        refine ⟨status, s2, h1, h2, h3, h4, fun hst => ?_⟩
        rw [h5 hst]
        have hmf : matched package d = false := by
          rw [← hrm]
          simpa using hsome
        have hrn : r.isSome = false := by simpa using hsome
        simp [hmf, hrn]
      · simp only [hok, if_false]
        refine ⟨_, _, rfl, hi2, rfl, Or.inr ⟨rfl, ?_⟩, fun h => by cases h⟩
        exact ⟨(ZifStateCall.done node, false), by simp [hok], rfl⟩

theorem count_take_drop (a : List Nat) (i : Nat) (hi : ¬ i < a.length) (b : Bool) (h : Nat) :
    a.count h = (a.take i).count h + if b then (a.drop i).count h else 0 := by
  have h1 : a.length ≤ i := Nat.le_of_not_lt hi
  rw [List.take_of_length_le h1, List.drop_of_length_le h1]
  simp

theorem filter_loop_spec (query : ZifHeapQuery) (st : ZifStateImpl)
    (inv : ZifHeap → Prop) (array : List Nat) (depends : List ZifDepend)
    (matched : Nat → ZifDepend → Bool) (hq : query_stable query inv array depends matched) :
    ∀ (fuel i step : Nat) (s : ZifFilterState), inv s.heap → (∀ x ∈ s.array, x ∈ array) →
      s.array.length - i ≤ fuel → (depends = [] → s.satisfies = none) →
      ∃ status s2, zif_package_array_filter_loop query st depends fuel i step s =
          some (status, s2) ∧
        (status = ZifFilterStatus.ok ∨
          (status = ZifFilterStatus.state_failed ∧ ∃ ev ∈ s2.log, ev.2 = false)) ∧
        (status = ZifFilterStatus.ok → ∀ h,
          s2.array.count h = (s.array.take i).count h +
            if depends.any (matched h) then (s.array.drop i).count h else 0) := by
  intro fuel
  induction fuel with
  | zero =>
    intro i step s _ _ hlen _
    have hi : ¬ i < s.array.length := by omega
    refine ⟨ZifFilterStatus.ok, s, by simp [zif_package_array_filter_loop, hi], Or.inl rfl, ?_⟩
    intro _ h
    exact count_take_drop s.array i hi _ h
  | succ fuel ih =>
    intro i step s hinv hmem hlen hsat
    by_cases hi : i < s.array.length
    · obtain ⟨st1, s1, hinner, hinv1, harr1, hst1, hsat1⟩ :=
        filter_depends_spec query st inv array depends matched hq (s.array.get ⟨i, hi⟩)
          (hmem _ (List.get_mem s.array i hi)) (ZifStateNode.child ZifStateNode.root step) depends
          { s with log := s.log ++ [(ZifStateCall.get_child ZifStateNode.root, true),
              (ZifStateCall.set_number_steps (ZifStateNode.child ZifStateNode.root step)
                depends.length, true)] }
          (fun d hd => hd) hinv
      simp only at harr1
      rcases hst1 with hok | ⟨hfail, hev⟩
      · -- the inner loop ended normally
        subst hok
        have hany : s1.satisfies.isSome = depends.any (matched (s.array.get ⟨i, hi⟩)) := by
          rw [hsat1 rfl]
          cases hd : depends with
          | nil => simp [hsat hd]
          | cons d ds => simp
        by_cases hdone : st s1.log (ZifStateCall.done ZifStateNode.root) = true
        · by_cases hnone : s1.satisfies = none
          · -- the package is removed
            obtain ⟨pre, suf, hsplit, hpre, htake, hdrop, _, _⟩ := split_at_index s.array i hi
            have hfacts := remove_fast_facts pre (s.array.get ⟨i, hi⟩) suf
            rw [← hsplit, hpre] at hfacts
            obtain ⟨f1, f2, f3, f4⟩ := hfacts
            obtain ⟨st2, s2, hrec, hst2, hcount⟩ := ih i (step + 1)
              { array := g_ptr_array_remove_index_fast s.array i, heap := s1.heap,
                satisfies := none,
                log := s1.log ++ [(ZifStateCall.done ZifStateNode.root, true)] }
              hinv1 (fun x hx => hmem x (f3 x hx))
              (by
                simp only [f2]
                have : s.array.length = pre.length + (suf.length + 1) := by
                  rw [hsplit]
                  simp
                omega)
              (fun _ => rfl)
            refine ⟨st2, s2, ?_, hst2, ?_⟩
            · rw [zif_package_array_filter_loop]
              simp only [hi, dite_true, hinner, hdone, if_true, hnone, harr1]
              exact hrec
            · intro hst h
              rw [hcount hst h]
              simp only [f1]
              have hm : depends.any (matched (s.array.get ⟨i, hi⟩)) = false := by
                rw [← hany, hnone]
                rfl
              rw [htake, f4.count_eq, hdrop]
              by_cases hmh : depends.any (matched h) = true
              · have hne : ¬ s.array.get ⟨i, hi⟩ = h := by
                  intro he
                  subst he
                  rw [hm] at hmh
                  cases hmh
                simp only [hmh, if_true]
                rw [List.count_cons_of_ne (Ne.symm hne)]
              · simp [hmh]
          · -- the package is kept
            obtain ⟨st2, s2, hrec, hst2, hcount⟩ := ih (i + 1) (step + 1)
              { s1 with log := s1.log ++ [(ZifStateCall.done ZifStateNode.root, true)] }
              hinv1 (by simp only [harr1]; exact hmem)
              (by simp only [harr1]; omega)
              (by
                intro hd
                exfalso
                have h2 : s1.satisfies.isSome = false := by
                  rw [hany, hd]
                  rfl
                cases hs : s1.satisfies with
                | none => exact hnone hs
                | some v =>
                  rw [hs] at h2
                  cases h2)
            refine ⟨st2, s2, ?_, hst2, ?_⟩
            · rw [zif_package_array_filter_loop]
              simp only [hi, dite_true, hinner, hdone, if_true, hnone, if_false]
              exact hrec
            · intro hst h
              rw [hcount hst h]
              simp only [harr1]
              have hm : depends.any (matched (s.array.get ⟨i, hi⟩)) = true := by
                rw [← hany]
                cases hs : s1.satisfies with
                | none => exact absurd hs hnone
                | some v => rfl
              obtain ⟨pre, suf, _, _, htake, hdrop, hdrop1, htake1⟩ :=
                split_at_index s.array i hi
              rw [htake, htake1, hdrop, hdrop1]
              by_cases hx : s.array.get ⟨i, hi⟩ = h
              · subst hx
                rw [if_pos hm, if_pos hm]
                simp only [List.count_append, List.count_cons_self, List.count_nil]
                omega
              · simp only [List.count_append, List.count_cons_of_ne (Ne.symm hx),
                  List.count_nil, Nat.add_zero]
        · -- zif_state_done on the parent failed
          refine ⟨ZifFilterStatus.state_failed,
            { s1 with log := s1.log ++ [(ZifStateCall.done ZifStateNode.root, false)] },
            ?_, Or.inr ⟨rfl, ?_⟩, fun h => by cases h⟩
          · rw [zif_package_array_filter_loop]
            simp only [hi, dite_true, hinner, hdone, if_false]
            rfl
          · exact ⟨(ZifStateCall.done ZifStateNode.root, false), by simp [hdone], rfl⟩
      · -- a progress call of the inner loop failed
        subst hfail
        refine ⟨ZifFilterStatus.state_failed, s1, ?_, Or.inr ⟨rfl, hev⟩, fun h => by cases h⟩
        rw [zif_package_array_filter_loop]
        simp only [hi, dite_true, hinner]
    · refine ⟨ZifFilterStatus.ok, s, by simp [zif_package_array_filter_loop, hi], Or.inl rfl, ?_⟩
      intro _ h
      exact count_take_drop s.array i hi _ h

theorem zif_package_array_filter_spec (query : ZifHeapQuery) (st : ZifStateImpl)
    (inv : ZifHeap → Prop) (heap : ZifHeap) (array : List Nat) (depends : List ZifDepend)
    (matched : Nat → ZifDepend → Bool) (hinv : inv heap)
    (hq : query_stable query inv array depends matched) :
    filter_keeps (zif_package_array_filter query st heap array depends) array depends matched := by
  obtain ⟨status, s2, hrun, hst, hcount⟩ := filter_loop_spec query st inv array depends matched hq
    array.length 0 0
    { array := array, heap := heap, satisfies := none,
      log := [(ZifStateCall.set_number_steps ZifStateNode.root array.length, true)] }
    hinv (fun x hx => hx) (by simp) (fun _ => rfl)
  refine ⟨status, s2, hrun, ?_, ?_⟩
  · intro hall
    rcases hst with h | ⟨_, ev, hev, hfalse⟩
    · exact h
    · rw [hall ev hev] at hfalse
      cases hfalse
  · intro hok h
    have := hcount hok h
    simpa using this

theorem entries_match_any (l : List ZifDepend) (d : ZifDepend) (r : Option ZifDepend)
    (h : r.isSome = true ↔ ∃ e ∈ l, e.name = d.name) :
    r.isSome = l.any (fun e => decide (e.name = d.name)) := by
  rw [Bool.eq_iff_iff, h]
  simp

theorem requires_heap_stable (api : ZifDependApi) (classes : Nat → ZifPackageClass)
    (lists : Nat → List ZifDepend) (array : List Nat) (depends : List ZifDepend)
    (hname : ∀ d ∈ depends, ∀ e, api.zif_depend_satisfies e d = true → e.name = d.name)
    (hdesc : ∀ d ∈ depends, ∀ d2 ∈ depends,
      api.zif_depend_get_description d2 = api.zif_depend_get_description d →
      ∀ e, api.zif_depend_satisfies e d2 = api.zif_depend_satisfies e d) :
    query_stable (zif_heap_query (zif_package_requires api) classes)
      (requires_loaded_heap api lists depends) array depends
      (fun package depend => entries_match api (lists package) depend) := by
  intro heap package d hinv _ hd
  obtain ⟨h1, h2, h3⟩ := hinv package
  have hstep := zif_package_requires_loaded api (classes package) (heap package) d
    (lists package) h1
  have hc := depend_lookup_cache api (lists package) (heap package).any_file_requires
    (heap package).requires_any_hash (heap package).requires_hash d _ h3 hd
  have hinv2 : requires_loaded_heap api lists depends
      (Function.update heap package (zif_package_requires api (classes package)
        (heap package) d).2) := by
    intro x
    by_cases hx : x = package
    · subst hx
      rw [Function.update_same, hstep]
      exact ⟨h1, h2, hc⟩
    · rw [Function.update_noteq hx]
      exact hinv x
  by_cases hflag : d.flag = ZIF_DEPEND_FLAG_ANY
  · obtain ⟨r, hr, hiff, _⟩ := depend_lookup_any api (some (lists package)) (lists package)
      (heap package).any_file_requires (heap package).requires_any_hash
      (heap package).requires_hash d h2 hflag
    refine ⟨r, _, ?_, ?_, hinv2⟩
    · simp only [zif_heap_query]
      rw [hstep, hr]
    · simp only [entries_match, hflag, if_true]
      exact entries_match_any _ _ _ hiff
  · have hr := depend_lookup_scan api (lists package) (heap package).any_file_requires
      (heap package).requires_any_hash (heap package).requires_hash d (fun x => x ∈ depends)
      hflag h2.2.2 (fun e _ => hname d hd e) h3 (fun d2 hd2 heq e _ => hdesc d hd d2 hd2 heq e)
    refine ⟨(lists package).find? (fun e => api.zif_depend_satisfies e d), _, ?_, ?_, hinv2⟩
    · simp only [zif_heap_query]
      rw [hstep, hr]
    · simp only [entries_match, hflag, if_false]
      rw [Bool.eq_iff_iff]
      simp [List.find?_isSome]

theorem provides_heap_stable (api : ZifDependApi) (classes : Nat → ZifPackageClass)
    (lists : Nat → List ZifDepend) (array : List Nat) (depends : List ZifDepend)
    (hname : ∀ d ∈ depends, ∀ e, api.zif_depend_satisfies e d = true → e.name = d.name)
    (hdesc : ∀ d ∈ depends, ∀ d2 ∈ depends,
      api.zif_depend_get_description d2 = api.zif_depend_get_description d →
      ∀ e, api.zif_depend_satisfies e d2 = api.zif_depend_satisfies e d) :
    query_stable (zif_heap_query (zif_package_provides api) classes)
      (provides_loaded_heap api lists depends) array depends
      (fun package depend => entries_match api (lists package) depend) := by
  intro heap package d hinv _ hd
  obtain ⟨⟨h1, h2, h3, h4⟩, hl⟩ := hinv package
  have hstep := zif_package_provides_loaded api (classes package) (heap package) d h1 h2
  have hc := depend_lookup_cache api (heap package).provides (heap package).any_file_provides
    (heap package).provides_any_hash (heap package).provides_hash d _ h4 hd
  have hinv2 : provides_loaded_heap api lists depends
      (Function.update heap package (zif_package_provides api (classes package)
        (heap package) d).2) := by
    intro x
    by_cases hx : x = package
    · subst hx
      rw [Function.update_same, hstep]
      exact ⟨⟨h1, h2, h3, hc⟩, hl⟩
    · rw [Function.update_noteq hx]
      exact hinv x
  by_cases hflag : d.flag = ZIF_DEPEND_FLAG_ANY
  · obtain ⟨r, hr, hiff, _⟩ := depend_lookup_any api (some (heap package).provides)
      (heap package).provides (heap package).any_file_provides (heap package).provides_any_hash
      (heap package).provides_hash d h3 hflag
    refine ⟨r, _, ?_, ?_, hinv2⟩
    · simp only [zif_heap_query]
      rw [hstep, hr]
    · simp only [entries_match, hflag, if_true, ← hl]
      exact entries_match_any _ _ _ hiff
  · have hr := depend_lookup_scan api (heap package).provides (heap package).any_file_provides
      (heap package).provides_any_hash (heap package).provides_hash d (fun x => x ∈ depends)
      hflag h3.2.2 (fun e _ => hname d hd e) h4 (fun d2 hd2 heq e _ => hdesc d hd d2 hd2 heq e)
    refine ⟨(heap package).provides.find? (fun e => api.zif_depend_satisfies e d), _, ?_, ?_,
      hinv2⟩
    · simp only [zif_heap_query]
      rw [hstep, hr]
    · simp only [entries_match, hflag, if_false, ← hl]
      rw [Bool.eq_iff_iff]
      simp [List.find?_isSome]

theorem example_heap_loaded (depends : List ZifDepend) :
    requires_loaded_heap zif_depend_api example_requires depends example_heap := by
  intro package
  obtain ⟨h1, h2, h3⟩ := set_requires_indexed package_hal (example_requires package)
    ⟨rfl, rfl, rfl⟩
  refine ⟨h1, h2, ?_⟩
  simp only [example_heap]
  rw [h3]
  exact cacheFrom_nil _ _ _

theorem example_heap_provides_loaded (depends : List ZifDepend) :
    provides_loaded_heap zif_depend_api
      (fun package => example_provides package ++ (example_files package).map file_depend)
      depends example_heap_provides := by
  intro package
  exact set_provides_files_loaded zif_depend_api _ package_hal (example_provides package)
    (example_files package) ⟨rfl, rfl, rfl, rfl, rfl⟩

theorem example_depends_named :
    ∀ d ∈ [depend_dbus_newer, depend_glib_any, depend_sh_any], ∀ e,
      zif_depend_api.zif_depend_satisfies e d = true → e.name = d.name := by
  intro d _ e h
  simp only [zif_depend_api, zif_depend_satisfies, Bool.and_eq_true, decide_eq_true_eq] at h
  exact h.1

theorem example_depends_described :
    ∀ d ∈ [depend_dbus_newer, depend_glib_any, depend_sh_any],
      ∀ d2 ∈ [depend_dbus_newer, depend_glib_any, depend_sh_any],
      zif_depend_api.zif_depend_get_description d2 = zif_depend_api.zif_depend_get_description d →
      ∀ e, zif_depend_api.zif_depend_satisfies e d2 = zif_depend_api.zif_depend_satisfies e d := by
  intro d hd d2 hd2 heq e
  simp only [List.mem_cons, List.mem_singleton, List.not_mem_nil, or_false] at hd hd2
  rcases hd with h | h | h <;> rcases hd2 with h2 | h2 | h2 <;> subst h <;> subst h2 <;>
    first
    | rfl
    | exact absurd heq (by decide)

/-! ### Claim on the filters -/

/-- C1: for each of zif_package_array_filter_provide, _require, _conflict and
_obsolete, for every array of packages and every list of dependencies, when
every query the filter makes succeeds and finds a match exactly for the
packages and dependencies `matched` names: the call returns; it returns TRUE
when no progress call fails; and when it returns TRUE a package is in the
array as often as before if at least one dependency of the list is matched
for it, and not at all otherwise (so TRUE is returned also when nothing is
left). -/
theorem zif_package_array_filter_keeps_matched (api : ZifDependApi)
    (classes : Nat → ZifPackageClass) (st : ZifStateImpl) (heap : ZifHeap) (array : List Nat)
    (depends : List ZifDepend) (inv : ZifHeap → Prop) (matched : Nat → ZifDepend → Bool)
    (hinv : inv heap) :
    (query_stable (zif_heap_query (zif_package_provides api) classes) inv array depends matched →
      filter_keeps (zif_package_array_filter_provide api classes st heap array depends)
        array depends matched) ∧
    (query_stable (zif_heap_query (zif_package_requires api) classes) inv array depends matched →
      filter_keeps (zif_package_array_filter_require api classes st heap array depends)
        array depends matched) ∧
    (query_stable (zif_heap_query (zif_package_conflicts api) classes) inv array depends matched →
      filter_keeps (zif_package_array_filter_conflict api classes st heap array depends)
        array depends matched) ∧
    (query_stable (zif_heap_query (zif_package_obsoletes api) classes) inv array depends matched →
      filter_keeps (zif_package_array_filter_obsolete api classes st heap array depends)
        array depends matched) :=
  ⟨fun hq => zif_package_array_filter_spec _ st inv heap array depends matched hinv hq,
    fun hq => zif_package_array_filter_spec _ st inv heap array depends matched hinv hq,
    fun hq => zif_package_array_filter_spec _ st inv heap array depends matched hinv hq,
    fun hq => zif_package_array_filter_spec _ st inv heap array depends matched hinv hq⟩

theorem zif_package_array_filter_keeps_matched_witness :
    filter_keeps (zif_package_array_filter_provide zif_depend_api (fun _ => class_no_loader)
        state_always_ok example_heap_provides [0, 1, 2, 1, 3]
        [depend_dbus_newer, depend_glib_any, depend_sh_any])
      [0, 1, 2, 1, 3] [depend_dbus_newer, depend_glib_any, depend_sh_any]
      (fun package depend => entries_match zif_depend_api
        (example_provides package ++ (example_files package).map file_depend) depend) ∧
    filter_keeps (zif_package_array_filter_require zif_depend_api (fun _ => class_no_loader)
        state_always_ok example_heap [0, 1, 2, 1, 3]
        [depend_dbus_newer, depend_glib_any, depend_sh_any])
      [0, 1, 2, 1, 3] [depend_dbus_newer, depend_glib_any, depend_sh_any]
      (fun package depend => entries_match zif_depend_api (example_requires package) depend) ∧
    (zif_package_array_filter_provide zif_depend_api (fun _ => class_no_loader)
        state_always_ok example_heap_provides [0, 1, 2, 1, 3]
        [depend_dbus_newer, depend_glib_any, depend_sh_any]).map
      (fun r => (r.1, r.2.array)) = some (ZifFilterStatus.ok, [0, 1, 2, 1]) ∧
    (zif_package_array_filter_require zif_depend_api (fun _ => class_no_loader)
        state_always_ok example_heap [3, 0, 1, 3, 1]
        [depend_dbus_newer]).map
      (fun r => (r.1, r.2.array)) = some (ZifFilterStatus.ok, [1, 1]) :=
  ⟨(zif_package_array_filter_keeps_matched zif_depend_api (fun _ => class_no_loader)
      state_always_ok example_heap_provides [0, 1, 2, 1, 3]
      [depend_dbus_newer, depend_glib_any, depend_sh_any]
      (provides_loaded_heap zif_depend_api
        (fun package => example_provides package ++ (example_files package).map file_depend)
        [depend_dbus_newer, depend_glib_any, depend_sh_any])
      (fun package depend => entries_match zif_depend_api
        (example_provides package ++ (example_files package).map file_depend) depend)
      (example_heap_provides_loaded _)).1
      (provides_heap_stable zif_depend_api (fun _ => class_no_loader) _ [0, 1, 2, 1, 3]
        [depend_dbus_newer, depend_glib_any, depend_sh_any] example_depends_named
        example_depends_described),
    (zif_package_array_filter_keeps_matched zif_depend_api (fun _ => class_no_loader)
      state_always_ok example_heap [0, 1, 2, 1, 3]
      [depend_dbus_newer, depend_glib_any, depend_sh_any]
      (requires_loaded_heap zif_depend_api example_requires
        [depend_dbus_newer, depend_glib_any, depend_sh_any])
      (fun package depend => entries_match zif_depend_api (example_requires package) depend)
      (example_heap_loaded _)).2.1
      (requires_heap_stable zif_depend_api (fun _ => class_no_loader) example_requires
        [0, 1, 2, 1, 3] [depend_dbus_newer, depend_glib_any, depend_sh_any]
        example_depends_named example_depends_described),
    by decide, by decide⟩

/-! ## zif_package_convert_evr -/

theorem splitFirst_some (c : Char) :
    ∀ (s a b : Str), splitFirst c s = some (a, b) → s = a ++ c :: b ∧ c ∉ a := by
  intro s
  induction s with
  | nil =>
    intro a b h
    simp [splitFirst] at h
  | cons x xs ih =>
    intro a b h
    simp only [splitFirst] at h
    by_cases hx : x = c
    · simp only [hx, if_true, Option.some.injEq, Prod.mk.injEq] at h
      obtain ⟨h1, h2⟩ := h
      subst h1
      subst h2
      simp [hx]
    · simp only [hx, if_false] at h
      cases hr : splitFirst c xs with
      | none => simp [hr] at h
      | some p =>
        obtain ⟨a2, b2⟩ := p
        simp only [hr, Option.some.injEq, Prod.mk.injEq] at h
        obtain ⟨h1, h2⟩ := h
        subst h1
        subst h2
        obtain ⟨e1, e2⟩ := ih a2 b2 hr
        refine ⟨by rw [e1]; simp, ?_⟩
        intro hm
        rcases List.mem_cons.mp hm with h3 | h3
        · exact hx h3.symm
        · exact e2 h3

theorem splitFirst_none (c : Char) : ∀ s : Str, splitFirst c s = none ↔ c ∉ s := by
  intro s
  induction s with
  | nil => simp [splitFirst]
  | cons x xs ih =>
    simp only [splitFirst]
    by_cases hx : x = c
    · simp [hx]
    · simp only [hx, if_false]
      cases hr : splitFirst c xs with
      | none =>
        have := ih.mp hr
        simp only [true_iff, List.mem_cons, not_or]
        exact ⟨fun h => hx h.symm, this⟩
      | some p =>
        obtain ⟨a2, b2⟩ := p
        have hm : c ∈ xs := by
          by_contra hn
          have := ih.mpr hn
          rw [hr] at this
          cases this
        simp [hm]

theorem splitLast_some (c : Char) :
    ∀ (s a b : Str), splitLast c s = some (a, b) → s = a ++ c :: b ∧ c ∉ b := by
  intro s
  induction s with
  | nil =>
    intro a b h
    simp [splitLast] at h
  | cons x xs ih =>
    intro a b h
    simp only [splitLast] at h
    cases hr : splitLast c xs with
    | some p =>
      obtain ⟨a2, b2⟩ := p
      simp only [hr, Option.some.injEq, Prod.mk.injEq] at h
      obtain ⟨h1, h2⟩ := h
      subst h1
      subst h2
      obtain ⟨e1, e2⟩ := ih a2 b2 hr
      exact ⟨by rw [e1]; simp, e2⟩
    | none =>
      simp only [hr] at h
      by_cases hx : x = c
      · simp only [hx, if_true, Option.some.injEq, Prod.mk.injEq] at h
        obtain ⟨h1, h2⟩ := h
        subst h1
        subst h2
        refine ⟨by simp [hx], ?_⟩
        clear ih
        induction xs with
        | nil => simp
        | cons y ys ih2 =>
          simp only [splitLast] at hr
          cases hr2 : splitLast c ys with
          | some p => simp [hr2] at hr
          | none =>
            simp only [hr2] at hr
            by_cases hy : y = c
            · simp [hy] at hr
            · intro hm
              rcases List.mem_cons.mp hm with h3 | h3
              · exact hy h3.symm
              · exact ih2 hr2 h3
      · simp [hx] at h

theorem splitLast_none (c : Char) : ∀ s : Str, splitLast c s = none ↔ c ∉ s := by
  intro s
  induction s with
  | nil => simp [splitLast]
  | cons x xs ih =>
    simp only [splitLast]
    cases hr : splitLast c xs with
    | some p =>
      obtain ⟨a2, b2⟩ := p
      have hm : c ∈ xs := by
        by_contra hn
        have := ih.mpr hn
        rw [hr] at this
        cases this
      simp [hm]
    | none =>
      have hn := ih.mp hr
      by_cases hx : x = c
      · simp [hx]
      · simp only [hx, if_false, true_iff, List.mem_cons, not_or]
        exact ⟨fun h => hx h.symm, hn⟩

/-- C11: zif_package_convert_evr gives as epoch the text before the first `:`
(absent exactly when the string has no `:`), as release the text after the
last `-` of what follows the epoch (absent exactly when that has no `-`) and
as version the text between, and joining the parts again as
[epoch `:`] version [`-` release] gives the string back. -/
theorem zif_package_convert_evr_parts (evr : Str) :
    evr_join (zif_package_convert_evr evr) = evr ∧
    ((zif_package_convert_evr evr).epoch = none ↔ ':' ∉ evr) ∧
    (∀ e, (zif_package_convert_evr evr).epoch = some e → ':' ∉ e) ∧
    ((zif_package_convert_evr evr).release = none ↔
      '-' ∉ evr_join { zif_package_convert_evr evr with epoch := none }) ∧
    (∀ r, (zif_package_convert_evr evr).release = some r → '-' ∉ r) ∧
    zif_package_convert_evr "7:1.0.0-6".toList =
      { epoch := some "7".toList, version := "1.0.0".toList, release := some "6".toList } ∧
    zif_package_convert_evr "1.0.0-6".toList =
      { epoch := none, version := "1.0.0".toList, release := some "6".toList } ∧
    zif_package_convert_evr "1.0.0".toList =
      { epoch := none, version := "1.0.0".toList, release := none } := by
  refine ⟨?_, ?_, ?_, ?_, ?_, by decide, by decide, by decide⟩
  all_goals
    unfold zif_package_convert_evr
    cases hf : splitFirst ':' evr with
    | none =>
      have hn := (splitFirst_none ':' evr).mp hf
      cases hl : splitLast '-' evr with
      | none =>
        have hm := (splitLast_none '-' evr).mp hl
        simp [evr_join, hn, hm, hl]
      | some p =>
        obtain ⟨v, r⟩ := p
        obtain ⟨e1, e2⟩ := splitLast_some '-' evr v r hl
        simp only [hl]
        simp [evr_join, hn, e2, ← e1]
        all_goals (rw [e1]; simp)
    | some q =>
      obtain ⟨e, rest⟩ := q
      obtain ⟨f1, f2⟩ := splitFirst_some ':' evr e rest hf
      cases hl : splitLast '-' rest with
      | none =>
        have hm := (splitLast_none '-' rest).mp hl
        simp [hl, evr_join, f2, hm, f1]
      | some p =>
        obtain ⟨v, r⟩ := p
        obtain ⟨e1, e2⟩ := splitLast_some '-' rest v r hl
        simp only [hl]
        simp [evr_join, f2, e2, f1, e1]

/-! ## zif_package_array_get_newest and zif_package_array_get_oldest -/

theorem get_newest_loop_spec (api : ZifPackageApi) (heap : ZifHeap) (array : List Nat)
    (htotal : ∀ x ∈ array, ∀ y ∈ array,
      newest_cmp api heap x y ≤ 0 ∨ newest_cmp api heap y x ≤ 0)
    (htrans : ∀ x ∈ array, ∀ y ∈ array, ∀ z ∈ array, newest_cmp api heap x y ≤ 0 →
      newest_cmp api heap y z ≤ 0 → newest_cmp api heap x z ≤ 0) :
    ∀ (rest pre : List Nat) (i n : Nat), array = pre ++ rest → pre.get? i = some n →
      (∀ x ∈ pre, newest_cmp api heap x n ≤ 0) →
      (∀ j y, j < i → pre.get? j = some y → ∃ x ∈ pre, 0 < newest_cmp api heap x y) →
      ∃ k, array.get? k = some (zif_package_array_get_newest_loop api heap rest n) ∧
        (∀ x ∈ array,
          newest_cmp api heap x (zif_package_array_get_newest_loop api heap rest n) ≤ 0) ∧
        (∀ j y, j < k → array.get? j = some y → ∃ x ∈ array, 0 < newest_cmp api heap x y) := by
  intro rest
  induction rest with
  | nil =>
    intro pre i n harr hget hmax hleast
    simp only [List.append_nil] at harr
    subst harr
    exact ⟨i, hget, hmax, hleast⟩
  | cons t rest ih =>
    intro pre i n harr hget hmax hleast
    have harr2 : array = (pre ++ [t]) ++ rest := by simp [harr]
    have hi : i < pre.length := by
      by_contra hc
      rw [List.get?_eq_none.mpr (Nat.le_of_not_lt hc)] at hget
      cases hget
    have hpre : ∀ x ∈ pre, x ∈ array := fun x hx => by
      rw [harr]
      exact List.mem_append_left _ hx
    have ht : t ∈ array := by
      rw [harr]
      simp
    have hn : n ∈ array := hpre n (List.get?_mem hget)
    have hold : ∀ j, j < pre.length → (pre ++ [t]).get? j = pre.get? j := fun j hj => by
      simp only [List.get?_eq_getElem?]
      exact List.getElem?_append_left hj
    by_cases hpos : 0 < api.zif_package_compare_full heap t n get_newest_flags
    · have hne : ¬ api.zif_package_compare_full heap t n get_newest_flags = 0 := by omega
      have hstep : zif_package_array_get_newest_loop api heap (t :: rest) n =
          zif_package_array_get_newest_loop api heap rest t := by
        simp only [zif_package_array_get_newest_loop, hne, hpos, if_true, if_false]
      rw [hstep]
      have hnt : newest_cmp api heap n t ≤ 0 := by
        rcases htotal t ht n hn with h | h
        · unfold newest_cmp at h
          omega
        · exact h
      refine ih (pre ++ [t]) pre.length t harr2 (by simp) ?_ ?_
      · intro x hx
        rcases List.mem_append.mp hx with h | h
        · exact htrans x (hpre x h) n hn t ht (hmax x h) hnt
        · simp only [List.mem_singleton] at h
          subst h
          rcases htotal x ht x ht with h2 | h2 <;> exact h2
      · intro j y hj hy
        rw [hold j hj] at hy
        refine ⟨t, by simp, ?_⟩
        by_contra hc
        have h1 : newest_cmp api heap t y ≤ 0 := by omega
        have h2 := htrans t ht y (hpre y (List.get?_mem hy)) n hn h1 (hmax y (List.get?_mem hy))
        unfold newest_cmp at h2
        omega
    · have hstep : zif_package_array_get_newest_loop api heap (t :: rest) n =
          zif_package_array_get_newest_loop api heap rest n := by
        simp only [zif_package_array_get_newest_loop, hpos, if_false, ite_self]
      rw [hstep]
      refine ih (pre ++ [t]) i n harr2 (by rw [hold i hi]; exact hget) ?_ ?_
      · intro x hx
        rcases List.mem_append.mp hx with h | h
        · exact hmax x h
        · simp only [List.mem_singleton] at h
          subst h
          unfold newest_cmp
          omega
      · intro j y hj hy
        rw [hold j (by omega)] at hy
        obtain ⟨x, hx, hxy⟩ := hleast j y hj hy
        exact ⟨x, List.mem_append_left _ hx, hxy⟩

theorem get_newest_spec (api : ZifPackageApi) (heap : ZifHeap) (array : List Nat)
    (hne : array ≠ [])
    (htotal : ∀ x ∈ array, ∀ y ∈ array,
      newest_cmp api heap x y ≤ 0 ∨ newest_cmp api heap y x ≤ 0)
    (htrans : ∀ x ∈ array, ∀ y ∈ array, ∀ z ∈ array, newest_cmp api heap x y ≤ 0 →
      newest_cmp api heap y z ≤ 0 → newest_cmp api heap x z ≤ 0) :
    ∃ i r, (zif_package_array_get_newest api heap array).1 = Except.ok r ∧
      array.get? i = some r ∧
      (∀ x ∈ array, newest_cmp api heap x r ≤ 0) ∧
      (∀ j y, j < i → array.get? j = some y → ∃ x ∈ array, 0 < newest_cmp api heap x y) := by
  cases array with
  | nil => exact absurd rfl hne
  | cons first rest =>
    obtain ⟨k, h1, h2, h3⟩ := get_newest_loop_spec api heap (first :: rest) htotal htrans
      rest [first] 0 first rfl rfl
      (by
        intro x hx
        simp only [List.mem_singleton] at hx
        subst hx
        rcases htotal x (List.mem_cons_self _ _) x (List.mem_cons_self _ _) with h | h <;>
          exact h)
      (by
        intro j y hj
        omega)
    exact ⟨k, _, rfl, h1, h2, h3⟩

/-- C12: ties keep the first-seen element in zif_package_array_get_newest: for
a non-empty array on whose elements compare_full (with the flags of the
function) is a total preorder, the package returned is the element at the least
index i such that no element of the array compares newer than element i, and
it is element 0 if all elements compare equal. -/
theorem zif_package_array_get_newest_first_greatest (api : ZifPackageApi) (heap : ZifHeap)
    (array : List Nat) (hne : array ≠ [])
    (htotal : ∀ x ∈ array, ∀ y ∈ array,
      newest_cmp api heap x y ≤ 0 ∨ newest_cmp api heap y x ≤ 0)
    (htrans : ∀ x ∈ array, ∀ y ∈ array, ∀ z ∈ array, newest_cmp api heap x y ≤ 0 →
      newest_cmp api heap y z ≤ 0 → newest_cmp api heap x z ≤ 0) :
    ∃ i r, (zif_package_array_get_newest api heap array).1 = Except.ok r ∧
      array.get? i = some r ∧
      (∀ x ∈ array, ¬ 0 < newest_cmp api heap x r) ∧
      (∀ j y, j < i → array.get? j = some y → ∃ x ∈ array, 0 < newest_cmp api heap x y) ∧
      ((∀ x ∈ array, ∀ y ∈ array, newest_cmp api heap x y = 0) → i = 0) := by
  obtain ⟨i, r, h1, h2, h3, h4⟩ := get_newest_spec api heap array hne htotal htrans
  refine ⟨i, r, h1, h2, fun x hx => by have := h3 x hx; omega, h4, ?_⟩
  intro hall
  by_contra hi
  cases array with
  | nil => exact absurd rfl hne
  | cons first rest =>
    obtain ⟨x, hx, hxy⟩ := h4 0 first (by omega) rfl
    have := hall x hx first (List.mem_cons_self _ _)
    omega


theorem newest_cmp_foo_total : ∀ x ∈ [0, 1, 2], ∀ y ∈ [0, 1, 2],
    newest_cmp zif_package_api heap_foo x y ≤ 0 ∨ newest_cmp zif_package_api heap_foo y x ≤ 0 := by
  decide

theorem newest_cmp_foo_trans : ∀ x ∈ [0, 1, 2], ∀ y ∈ [0, 1, 2], ∀ z ∈ [0, 1, 2],
    newest_cmp zif_package_api heap_foo x y ≤ 0 → newest_cmp zif_package_api heap_foo y z ≤ 0 →
      newest_cmp zif_package_api heap_foo x z ≤ 0 := by
  decide

theorem zif_package_array_get_newest_first_greatest_witness :
    ([0, 1, 2] : List Nat) ≠ [] ∧
    (zif_package_array_get_newest zif_package_api heap_foo [0, 1, 2]).1 = Except.ok 1 ∧
    ∃ i r, (zif_package_array_get_newest zif_package_api heap_foo [0, 1, 2]).1 = Except.ok r ∧
      [0, 1, 2].get? i = some r ∧
      (∀ x ∈ [0, 1, 2], ¬ 0 < newest_cmp zif_package_api heap_foo x r) ∧
      (∀ j y, j < i → [0, 1, 2].get? j = some y →
        ∃ x ∈ [0, 1, 2], 0 < newest_cmp zif_package_api heap_foo x y) ∧
      ((∀ x ∈ [0, 1, 2], ∀ y ∈ [0, 1, 2], newest_cmp zif_package_api heap_foo x y = 0) →
        i = 0) :=
  ⟨by decide, rfl,
    zif_package_array_get_newest_first_greatest zif_package_api heap_foo [0, 1, 2] (by decide)
      newest_cmp_foo_total newest_cmp_foo_trans⟩


theorem newest_cmp_foo_antisymm : ∀ x ∈ [0, 1, 2], ∀ y ∈ [0, 1, 2],
    (newest_cmp zif_package_api heap_foo x y < 0 ↔
      0 < newest_cmp zif_package_api heap_foo y x) := by
  decide

theorem newest_cmp_foo_strict : ∀ x ∈ [0, 1, 2], ∀ y ∈ [0, 1, 2], x ≠ y →
    newest_cmp zif_package_api heap_foo x y ≠ 0 := by
  decide

/-- C13: zif_package_array_get_newest does not depend on the order of the
input: for a non-empty array whose packages are strictly ordered by the
comparison (antisymmetric in sign, transitive, never 0 on two different
packages), every permutation of the array gives the same package, the one that
compares newer than every other. -/
theorem zif_package_array_get_newest_perm (api : ZifPackageApi) (heap : ZifHeap)
    (array : List Nat) (hne : array ≠ [])
    (hanti : ∀ x ∈ array, ∀ y ∈ array,
      (newest_cmp api heap x y < 0 ↔ 0 < newest_cmp api heap y x))
    (htrans : ∀ x ∈ array, ∀ y ∈ array, ∀ z ∈ array, newest_cmp api heap x y ≤ 0 →
      newest_cmp api heap y z ≤ 0 → newest_cmp api heap x z ≤ 0)
    (hstrict : ∀ x ∈ array, ∀ y ∈ array, x ≠ y → newest_cmp api heap x y ≠ 0) :
    ∃ r ∈ array, (∀ x ∈ array, x ≠ r → 0 < newest_cmp api heap r x) ∧
      ∀ permuted : List Nat, permuted.Perm array →
        (zif_package_array_get_newest api heap permuted).1 = Except.ok r := by
  have htotal : ∀ x ∈ array, ∀ y ∈ array,
      newest_cmp api heap x y ≤ 0 ∨ newest_cmp api heap y x ≤ 0 := by
    intro x hx y hy
    by_cases h : newest_cmp api heap x y ≤ 0
    · exact Or.inl h
    · right
      have := (hanti y hy x hx).mpr (by omega)
      omega
  obtain ⟨i, r, _, h2, h3, _⟩ := get_newest_spec api heap array hne htotal htrans
  have hr : r ∈ array := List.get?_mem h2
  refine ⟨r, hr, ?_, ?_⟩
  · intro x hx hxr
    have h5 := h3 x hx
    have h6 := hstrict x hx r hr hxr
    exact (hanti x hx r hr).mp (by omega)
  · intro permuted hperm
    have hmem : ∀ x, x ∈ permuted ↔ x ∈ array := fun x => hperm.mem_iff
    have hne2 : permuted ≠ [] := by
      intro h
      rw [h] at hperm
      exact hne hperm.symm.eq_nil
    obtain ⟨k, q, g1, g2, g3, _⟩ := get_newest_spec api heap permuted hne2
      (fun x hx y hy => htotal x ((hmem x).mp hx) y ((hmem y).mp hy))
      (fun x hx y hy z hz => htrans x ((hmem x).mp hx) y ((hmem y).mp hy) z ((hmem z).mp hz))
    rw [g1]
    have hq : q ∈ array := (hmem q).mp (List.get?_mem g2)
    by_cases hqr : q = r
    · rw [hqr]
    · exfalso
      have h5 := h3 q hq
      have h6 := g3 r ((hmem r).mpr hr)
      have h7 := hstrict q hq r hr hqr
      have h8 := (hanti q hq r hr).mp (by omega)
      omega

theorem zif_package_array_get_newest_perm_witness :
    ([0, 1, 2] : List Nat) ≠ [] ∧
    ∃ r ∈ [0, 1, 2], (∀ x ∈ [0, 1, 2], x ≠ r → 0 < newest_cmp zif_package_api heap_foo r x) ∧
      ∀ permuted : List Nat, permuted.Perm [0, 1, 2] →
        (zif_package_array_get_newest zif_package_api heap_foo permuted).1 = Except.ok r :=
  ⟨by decide,
    zif_package_array_get_newest_perm zif_package_api heap_foo [0, 1, 2] (by decide)
      newest_cmp_foo_antisymm newest_cmp_foo_trans newest_cmp_foo_strict⟩

theorem get_oldest_loop_spec (rpmvercmp : Str → Str → Int) (atol : Str → Int) (heap : ZifHeap)
    (array : List Nat)
    (htrans : ∀ x ∈ array, ∀ y ∈ array, ∀ z ∈ array,
      zif_package_compare rpmvercmp atol heap x y < 0 →
      zif_package_compare rpmvercmp atol heap y z < 0 →
      zif_package_compare rpmvercmp atol heap x z < 0) :
    ∀ (rest pre : List Nat) (o : Nat), array = pre ++ rest → o ∈ pre →
      (∀ x ∈ pre, ¬ zif_package_compare rpmvercmp atol heap x o < 0) →
      zif_package_array_get_oldest_loop rpmvercmp atol heap rest o ∈ array ∧
      ∀ x ∈ array, ¬ zif_package_compare rpmvercmp atol heap x
        (zif_package_array_get_oldest_loop rpmvercmp atol heap rest o) < 0 := by
  intro rest
  induction rest with
  | nil =>
    intro pre o harr ho hmin
    simp only [List.append_nil] at harr
    subst harr
    exact ⟨ho, hmin⟩
  | cons t rest ih =>
    intro pre o harr ho hmin
    have harr2 : array = (pre ++ [t]) ++ rest := by simp [harr]
    have hpre : ∀ x ∈ pre, x ∈ array := fun x hx => by
      rw [harr]
      exact List.mem_append_left _ hx
    have ht : t ∈ array := by
      rw [harr]
      simp
    by_cases hneg : zif_package_compare rpmvercmp atol heap t o < 0
    · have hstep : zif_package_array_get_oldest_loop rpmvercmp atol heap (t :: rest) o =
          zif_package_array_get_oldest_loop rpmvercmp atol heap rest t := by
        simp only [zif_package_array_get_oldest_loop, hneg, if_true]
      rw [hstep]
      refine ih (pre ++ [t]) t harr2 (by simp) ?_
      intro x hx
      rcases List.mem_append.mp hx with h | h
      · intro hc
        exact hmin x h (htrans x (hpre x h) t ht o (hpre o ho) hc hneg)
      · simp only [List.mem_singleton] at h
        subst h
        simp [zif_package_compare]
    · have hstep : zif_package_array_get_oldest_loop rpmvercmp atol heap (t :: rest) o =
          zif_package_array_get_oldest_loop rpmvercmp atol heap rest o := by
        simp only [zif_package_array_get_oldest_loop, hneg, if_false]
      rw [hstep]
      refine ih (pre ++ [t]) o harr2 (List.mem_append_left _ ho) ?_
      intro x hx
      rcases List.mem_append.mp hx with h | h
      · exact hmin x h
      · simp only [List.mem_singleton] at h
        subst h
        exact hneg

/-- C14, amended: zif_package_array_get_oldest returns the oldest package of a
non-empty array of packages that share one name, provided that `compares
older` (zif_package_compare less than 0) is transitive on the packages of the
array: the package returned is an element of the array and no element compares
older than it. -/
theorem zif_package_array_get_oldest_transitive (rpmvercmp : Str → Str → Int)
    (atol : Str → Int) (heap : ZifHeap) (array : List Nat) (hne : array ≠ [])
    (_hname : ∀ x ∈ array, ∀ y ∈ array,
      zif_package_get_name (heap x) = zif_package_get_name (heap y))
    (htrans : ∀ x ∈ array, ∀ y ∈ array, ∀ z ∈ array,
      zif_package_compare rpmvercmp atol heap x y < 0 →
      zif_package_compare rpmvercmp atol heap y z < 0 →
      zif_package_compare rpmvercmp atol heap x z < 0) :
    ∃ r, (zif_package_array_get_oldest rpmvercmp atol heap array).1 = Except.ok r ∧
      r ∈ array ∧ ∀ x ∈ array, ¬ zif_package_compare rpmvercmp atol heap x r < 0 := by
  cases array with
  | nil => exact absurd rfl hne
  | cons first rest =>
    obtain ⟨h1, h2⟩ := get_oldest_loop_spec rpmvercmp atol heap (first :: rest) htrans
      rest [first] first rfl (by simp)
      (by
        intro x hx
        simp only [List.mem_singleton] at hx
        subst hx
        simp [zif_package_compare])
    exact ⟨_, rfl, h1, h2⟩

theorem zif_package_array_get_oldest_transitive_witness :
    ([0, 1, 2] : List Nat) ≠ [] ∧
    (zif_package_array_get_oldest rpmvercmp atol heap_foo [0, 1, 2]).1 = Except.ok 2 ∧
    ∃ r, (zif_package_array_get_oldest rpmvercmp atol heap_foo [0, 1, 2]).1 = Except.ok r ∧
      r ∈ [0, 1, 2] ∧ ∀ x ∈ [0, 1, 2], ¬ zif_package_compare rpmvercmp atol heap_foo x r < 0 :=
  ⟨by decide, rfl,
    zif_package_array_get_oldest_transitive rpmvercmp atol heap_foo [0, 1, 2] (by decide)
      (by decide) (by decide)⟩

/-- C14, counterexample: of foo 1.0 (i386), foo 1.0-5 (i386) and foo 1.0-9
(i686), in this order, zif_package_array_get_oldest returns foo 1.0-9, and
foo 1.0-5 compares older than it. -/
theorem zif_package_array_get_oldest_not_oldest :
    (∀ x ∈ [0, 1, 2], zif_package_get_name (heap_release x) = some "foo".toList) ∧
    zif_package_array_get_oldest rpmvercmp atol heap_release [0, 1, 2] =
      (Except.ok 2, [0, 1, 2]) ∧
    zif_package_compare rpmvercmp atol heap_release 1 0 = 0 ∧
    zif_package_compare rpmvercmp atol heap_release 2 0 = -1 ∧
    zif_package_compare rpmvercmp atol heap_release 1 2 = -1 := by
  refine ⟨by decide, rfl, by decide, by decide, by decide⟩


theorem get_newest_loop_mem (api : ZifPackageApi) (heap : ZifHeap) :
    ∀ (rest : List Nat) (n : Nat),
      zif_package_array_get_newest_loop api heap rest n ∈ n :: rest := by
  intro rest
  induction rest with
  | nil =>
    intro n
    simp [zif_package_array_get_newest_loop]
  | cons t rest ih =>
    intro n
    simp only [zif_package_array_get_newest_loop]
    have h1 := ih n
    have h2 := ih t
    simp only [List.mem_cons] at h1 h2 ⊢
    split_ifs <;> tauto

theorem get_oldest_loop_mem (rpmvercmp : Str → Str → Int) (atol : Str → Int) (heap : ZifHeap) :
    ∀ (rest : List Nat) (o : Nat),
      zif_package_array_get_oldest_loop rpmvercmp atol heap rest o ∈ o :: rest := by
  intro rest
  induction rest with
  | nil =>
    intro o
    simp [zif_package_array_get_oldest_loop]
  | cons t rest ih =>
    intro o
    simp only [zif_package_array_get_oldest_loop]
    have h1 := ih o
    have h2 := ih t
    simp only [List.mem_cons] at h1 h2 ⊢
    split_ifs <;> tauto

/-- C15: zif_package_array_get_newest and zif_package_array_get_oldest fail,
with the error `nothing in array`, exactly when the array is empty; for a
non-empty array they return an element of the array; the array is the same
after the call. -/
theorem zif_package_array_get_newest_oldest_empty (api : ZifPackageApi)
    (rpmvercmp : Str → Str → Int) (atol : Str → Int) (heap : ZifHeap) (array : List Nat) :
    ((∃ e, (zif_package_array_get_newest api heap array).1 = Except.error e) ↔ array = []) ∧
    (∀ e, (zif_package_array_get_newest api heap array).1 = Except.error e →
      e = { message := "nothing in array".toList }) ∧
    ((∃ r ∈ array, (zif_package_array_get_newest api heap array).1 = Except.ok r) ↔
      array ≠ []) ∧
    (zif_package_array_get_newest api heap array).2 = array ∧
    ((∃ e, (zif_package_array_get_oldest rpmvercmp atol heap array).1 = Except.error e) ↔
      array = []) ∧
    (∀ e, (zif_package_array_get_oldest rpmvercmp atol heap array).1 = Except.error e →
      e = { message := "nothing in array".toList }) ∧
    ((∃ r ∈ array, (zif_package_array_get_oldest rpmvercmp atol heap array).1 = Except.ok r) ↔
      array ≠ []) ∧
    (zif_package_array_get_oldest rpmvercmp atol heap array).2 = array := by
  cases array with
  | nil =>
    simp [zif_package_array_get_newest, zif_package_array_get_oldest]
  | cons first rest =>
    have h1 := get_newest_loop_mem api heap rest first
    have h2 := get_oldest_loop_mem rpmvercmp atol heap rest first
    simp only [zif_package_array_get_newest, zif_package_array_get_oldest]
    refine ⟨by simp, by simp, ?_, trivial, by simp, by simp, ?_, trivial⟩
    · simp only [ne_eq, reduceCtorEq, not_false_eq_true, iff_true]
      exact ⟨_, h1, rfl⟩
    · simp only [ne_eq, reduceCtorEq, not_false_eq_true, iff_true]
      exact ⟨_, h2, rfl⟩


/-! ## zif_package_array_filter_arch -/

theorem g_strcmp0_eq_zero (a b : Option Str) : g_strcmp0 a b = 0 ↔ a = b := by
  cases a with
  | none => cases b <;> simp [g_strcmp0]
  | some x =>
    cases b with
    | none => simp [g_strcmp0]
    | some y =>
      simp only [g_strcmp0, strcmpSign, Option.some.injEq]
      constructor
      · exact lexCmp_eq_zero charCmp charCmp_eq_zero x y
      · intro h
        subst h
        exact lexCmp_refl charCmp (fun c => by simp [charCmp]) x

theorem filter_arch_loop_spec (api : ZifPackageApi) (heap : ZifHeap) (arch : Str) :
    ∀ (fuel i : Nat) (array : List Nat), array.length - i ≤ fuel →
      ∃ out, zif_package_array_filter_arch_loop api heap arch fuel i array = some out ∧
        ∀ h, out.count h = (array.take i).count h +
          if arch_kept api heap arch h then (array.drop i).count h else 0 := by
  intro fuel
  induction fuel with
  | zero =>
    intro i array hlen
    have hi : ¬ i < array.length := by omega
    refine ⟨array, by simp [zif_package_array_filter_arch_loop, hi], ?_⟩
    intro h
    exact count_take_drop array i hi _ h
  | succ fuel ih =>
    intro i array hlen
    by_cases hi : i < array.length
    · obtain ⟨pre, suf, hsplit, hpre, htake, hdrop, hdrop1, htake1⟩ := split_at_index array i hi
      have hkeep : ∀ out : List Nat, (∀ h, out.count h = (array.take (i + 1)).count h +
            if arch_kept api heap arch h then (array.drop (i + 1)).count h else 0) →
          arch_kept api heap arch (array.get ⟨i, hi⟩) = true →
          ∀ h, out.count h = (array.take i).count h +
            if arch_kept api heap arch h then (array.drop i).count h else 0 := by
        intro out hc hk h
        rw [hc h, htake, htake1, hdrop, hdrop1]
        by_cases hx : array.get ⟨i, hi⟩ = h
        · subst hx
          rw [if_pos hk, if_pos hk]
          simp only [List.count_append, List.count_cons_self, List.count_nil]
          omega
        · simp only [List.count_append, List.count_cons_of_ne (Ne.symm hx),
            List.count_nil, Nat.add_zero]
      by_cases hno : g_strcmp0 (zif_package_get_arch (heap (array.get ⟨i, hi⟩)))
          (some "noarch".toList) = 0
      · obtain ⟨out, hrec, hc⟩ := ih (i + 1) array (by omega)
        refine ⟨out, ?_, hkeep out hc ?_⟩
        · rw [zif_package_array_filter_arch_loop]
          simp only [hi, dite_true, hno, if_true]
          exact hrec
        · unfold arch_kept
          rw [(g_strcmp0_eq_zero _ _).mp hno]
          simp
      · by_cases hnat : api.zif_arch_is_native arch
            (zif_package_get_arch (heap (array.get ⟨i, hi⟩))) = true
        · obtain ⟨out, hrec, hc⟩ := ih (i + 1) array (by omega)
          refine ⟨out, ?_, hkeep out hc ?_⟩
          · rw [zif_package_array_filter_arch_loop]
            simp only [hi, dite_true, hno, if_false, hnat, Bool.not_true]
            exact hrec
          · unfold arch_kept
            rw [hnat]
            simp
        · have hfacts := remove_fast_facts pre (array.get ⟨i, hi⟩) suf
          rw [← hsplit, hpre] at hfacts
          obtain ⟨f1, f2, _, f4⟩ := hfacts
          obtain ⟨out, hrec, hc⟩ := ih i (g_ptr_array_remove_index_fast array i)
            (by
              rw [f2]
              have : array.length = pre.length + (suf.length + 1) := by
                rw [hsplit]
                simp
              omega)
          have hnat2 : api.zif_arch_is_native arch
              (zif_package_get_arch (heap (array.get ⟨i, hi⟩))) = false := by
            simpa using hnat
          refine ⟨out, ?_, ?_⟩
          · rw [zif_package_array_filter_arch_loop]
            simp only [hi, dite_true, hno, if_false, hnat2, Bool.not_false, if_true]
            exact hrec
          · intro h
            rw [hc h, f1, htake, f4.count_eq, hdrop]
            have hk : arch_kept api heap arch (array.get ⟨i, hi⟩) = false := by
              have hne : ¬ zif_package_get_arch (heap (array.get ⟨i, hi⟩)) =
                  some "noarch".toList := fun he => hno ((g_strcmp0_eq_zero _ _).mpr he)
              unfold arch_kept
              rw [hnat2, decide_eq_false hne]
              rfl
            by_cases hmh : arch_kept api heap arch h = true
            · have hne : ¬ array.get ⟨i, hi⟩ = h := by
                intro he
                subst he
                rw [hk] at hmh
                cases hmh
              simp only [hmh, if_true]
              rw [List.count_cons_of_ne (Ne.symm hne)]
            · simp [hmh]
    · refine ⟨array, ?_, ?_⟩
      · rw [zif_package_array_filter_arch_loop]
        simp only [hi, dite_false]
      · intro h
        exact count_take_drop array i hi _ h

/-- C20: zif_package_array_filter_arch ends, and afterwards every package
occurs in the array as many times as before if its architecture is `noarch`
or is compatible with the arch asked for (zif_arch_is_native), and does not
occur in it otherwise. -/
theorem zif_package_array_filter_arch_count (api : ZifPackageApi) (heap : ZifHeap)
    (array : List Nat) (arch : Str) :
    ∃ out, zif_package_array_filter_arch api heap array arch = some out ∧
      (∀ package, out.count package =
        if zif_package_get_arch (heap package) = some "noarch".toList ∨
            api.zif_arch_is_native arch (zif_package_get_arch (heap package)) = true
        then array.count package else 0) ∧
      zif_package_array_filter_arch zif_package_api heap_arch [0, 1, 2, 3, 2] "i386".toList =
        some [0, 1, 3] := by
  obtain ⟨out, h1, h2⟩ := filter_arch_loop_spec api heap arch array.length 0 array (by omega)
  refine ⟨out, h1, ?_, by decide⟩
  intro package
  rw [h2 package]
  simp [arch_kept]


/-! ## zif_package_array_filter_duplicates -/

theorem lookup_insert {V : Type} (t : GHashTable V) (k key : Str) (v : V) :
    g_hash_table_lookup (g_hash_table_insert t k v) key =
      if key = k then some v else g_hash_table_lookup t key := by
  unfold g_hash_table_lookup
  by_cases h : key = k
  · subst h
    rw [if_pos rfl]
    exact lookup_insert_self t key v
  · rw [if_neg h]
    exact lookup_insert_ne t k key v h

theorem lookup_remove {V : Type} (t : GHashTable V) (k key : Str) :
    g_hash_table_lookup (g_hash_table_remove t k) key =
      if key = k then none else g_hash_table_lookup t key := by
  unfold g_hash_table_lookup g_hash_table_remove
  by_cases h : key = k
  · subst h
    rw [if_pos rfl]
    induction t with
    | nil => rfl
    | cons e t ih =>
      obtain ⟨k1, v1⟩ := e
      by_cases h1 : k1 = key
      · have e1 : List.filter (fun e => decide (e.1 ≠ key)) ((k1, v1) :: t) =
            List.filter (fun e => decide (e.1 ≠ key)) t := by
          apply List.filter_cons_of_neg
          simp [h1]
        rw [e1, ih]
      · have e1 : List.filter (fun e => decide (e.1 ≠ key)) ((k1, v1) :: t) =
            (k1, v1) :: List.filter (fun e => decide (e.1 ≠ key)) t := by
          apply List.filter_cons_of_pos
          simp [h1]
        rw [e1]
        simp only [g_hash_table_lookup_extended, h1, if_false, ih]
  · rw [if_neg h]
    exact lookup_filter_ne t k key h

theorem keep_first_sublist {α κ : Type} [DecidableEq κ] (key : α → κ) :
    ∀ (xs : List α) (seen : List κ), (keep_first key xs seen).Sublist xs := by
  intro xs
  induction xs with
  | nil =>
    intro seen
    exact List.Sublist.refl _
  | cons x xs ih =>
    intro seen
    simp only [keep_first]
    split_ifs
    · exact (ih seen).cons x
    · exact (ih (key x :: seen)).cons₂ x

theorem keep_first_not_seen {α κ : Type} [DecidableEq κ] (key : α → κ) :
    ∀ (xs : List α) (seen : List κ), ∀ y ∈ keep_first key xs seen, key y ∉ seen := by
  intro xs
  induction xs with
  | nil =>
    intro seen y hy
    simp [keep_first] at hy
  | cons x xs ih =>
    intro seen y hy
    simp only [keep_first] at hy
    split_ifs at hy with h
    · exact ih seen y hy
    · rcases List.mem_cons.mp hy with h1 | h1
      · rw [h1]
        exact h
      · intro hc
        exact ih (key x :: seen) y h1 (List.mem_cons_of_mem _ hc)

theorem keep_first_nodup {α κ : Type} [DecidableEq κ] (key : α → κ) :
    ∀ (xs : List α) (seen : List κ), ((keep_first key xs seen).map key).Nodup := by
  intro xs
  induction xs with
  | nil =>
    intro seen
    simp [keep_first]
  | cons x xs ih =>
    intro seen
    simp only [keep_first]
    split_ifs with h
    · exact ih seen
    · rw [List.map_cons, List.nodup_cons]
      refine ⟨?_, ih (key x :: seen)⟩
      intro hc
      obtain ⟨y, hy, hk⟩ := List.mem_map.mp hc
      exact keep_first_not_seen key xs (key x :: seen) y hy (by rw [hk]; simp)

theorem keep_first_cover {α κ : Type} [DecidableEq κ] (key : α → κ) :
    ∀ (xs : List α) (seen : List κ), ∀ x ∈ xs,
      key x ∈ seen ∨ key x ∈ (keep_first key xs seen).map key := by
  intro xs
  induction xs with
  | nil =>
    intro seen x hx
    cases hx
  | cons a xs ih =>
    intro seen x hx
    simp only [keep_first]
    rcases List.mem_cons.mp hx with h1 | h1
    · subst h1
      split_ifs with h
      · exact Or.inl h
      · right
        simp
    · split_ifs with h
      · exact ih seen x h1
      · rcases ih (key a :: seen) x h1 with h2 | h2
        · rcases List.mem_cons.mp h2 with h3 | h3
          · right
            rw [h3]
            simp
          · exact Or.inl h3
        · right
          rw [List.map_cons]
          exact List.mem_cons_of_mem _ h2

theorem keep_first_first {α κ : Type} [DecidableEq κ] (key : α → κ) :
    ∀ (xs : List α) (seen : List κ), ∀ y ∈ keep_first key xs seen,
      xs.find? (fun x => decide (key x = key y)) = some y := by
  intro xs
  induction xs with
  | nil =>
    intro seen y hy
    simp [keep_first] at hy
  | cons a xs ih =>
    intro seen y hy
    simp only [keep_first] at hy
    split_ifs at hy with h
    · have hn := keep_first_not_seen key xs seen y hy
      have hne : ¬ key a = key y := fun hc => hn (hc ▸ h)
      rw [List.find?_cons_of_neg _ (by simpa using hne)]
      exact ih seen y hy
    · rcases List.mem_cons.mp hy with h1 | h1
      · subst h1
        simp
      · have hn := keep_first_not_seen key xs (key a :: seen) y h1
        have hne : ¬ key a = key y := fun hc => hn (by rw [hc]; simp)
        rw [List.find?_cons_of_neg _ (by simpa using hne)]
        exact ih (key a :: seen) y h1

theorem keep_first_id {α κ : Type} [DecidableEq κ] (key : α → κ) :
    ∀ (xs : List α) (seen : List κ), (xs.map key).Nodup → (∀ x ∈ xs, key x ∉ seen) →
      keep_first key xs seen = xs := by
  intro xs
  induction xs with
  | nil =>
    intro seen _ _
    rfl
  | cons a xs ih =>
    intro seen hn hs
    rw [List.map_cons, List.nodup_cons] at hn
    simp only [keep_first, hs a (List.mem_cons_self _ _), if_false]
    rw [ih (key a :: seen) hn.2]
    intro x hx hc
    rcases List.mem_cons.mp hc with h1 | h1
    · exact hn.1 (by rw [← h1]; exact List.mem_map_of_mem key hx)
    · exact hs x (List.mem_cons_of_mem _ hx) h1

theorem filter_duplicates_loop_eq (api : ZifPackageApi) (heap : ZifHeap) :
    ∀ (rest : List Nat) (hash_keep : GHashTable Str) (array_new : List Nat) (seen : List Str),
      (∀ k, (g_hash_table_lookup hash_keep k).isSome = true ↔ k ∈ seen) →
      zif_package_array_filter_duplicates_loop api heap rest hash_keep array_new =
        array_new ++ keep_first (fun p => api.zif_package_get_id_basic (heap p)) rest seen := by
  intro rest
  induction rest with
  | nil =>
    intro hash_keep array_new seen _
    simp [zif_package_array_filter_duplicates_loop, keep_first]
  | cons p rest ih =>
    intro hash_keep array_new seen hs
    simp only [zif_package_array_filter_duplicates_loop, keep_first]
    cases hl : g_hash_table_lookup hash_keep (api.zif_package_get_id_basic (heap p)) with
    | none =>
      have hns : api.zif_package_get_id_basic (heap p) ∉ seen := by
        intro hc
        have := (hs _).mpr hc
        rw [hl] at this
        cases this
      simp only [hns, if_false]
      rw [ih _ _ (api.zif_package_get_id_basic (heap p) :: seen)]
      · simp
      · intro k
        rw [lookup_insert]
        by_cases hk : k = api.zif_package_get_id_basic (heap p)
        · simp [hk]
        · simp only [hk, if_false, List.mem_cons, false_or]
          exact hs k
    | some v =>
      have hin : api.zif_package_get_id_basic (heap p) ∈ seen := by
        apply (hs _).mp
        rw [hl]
        rfl
      simp only [hin, if_true]
      exact ih hash_keep array_new seen hs

theorem filter_duplicates_eq (api : ZifPackageApi) (heap : ZifHeap) (packages : List Nat) :
    zif_package_array_filter_duplicates api heap packages =
      keep_first (fun p => api.zif_package_get_id_basic (heap p)) packages [] := by
  unfold zif_package_array_filter_duplicates
  rw [filter_duplicates_loop_eq api heap packages [] [] []]
  · simp
  · intro k
    simp [g_hash_table_lookup, g_hash_table_lookup_extended]

theorem zif_package_array_filter_duplicates_facts (api : ZifPackageApi) (heap : ZifHeap)
    (packages : List Nat) :
    zif_package_array_filter_duplicates api heap packages =
      keep_first (fun p => api.zif_package_get_id_basic (heap p)) packages [] ∧
    (zif_package_array_filter_duplicates api heap packages).Sublist packages ∧
    ((zif_package_array_filter_duplicates api heap packages).map
      (fun p => api.zif_package_get_id_basic (heap p))).Nodup ∧
    (∀ x ∈ packages, ∃ y ∈ zif_package_array_filter_duplicates api heap packages,
      api.zif_package_get_id_basic (heap y) = api.zif_package_get_id_basic (heap x)) ∧
    (∀ y ∈ zif_package_array_filter_duplicates api heap packages,
      packages.find? (fun x => decide (api.zif_package_get_id_basic (heap x) =
        api.zif_package_get_id_basic (heap y))) = some y) := by
  rw [filter_duplicates_eq]
  refine ⟨rfl, keep_first_sublist _ _ _, keep_first_nodup _ _ _, ?_, ?_⟩
  · intro x hx
    rcases keep_first_cover (fun p => api.zif_package_get_id_basic (heap p)) packages [] x hx
      with h | h
    · cases h
    · obtain ⟨y, hy, hk⟩ := List.mem_map.mp h
      exact ⟨y, hy, hk⟩
  · intro y hy
    exact keep_first_first (fun p => api.zif_package_get_id_basic (heap p)) packages [] y hy

/-- C16: after zif_package_array_filter_duplicates the array is the
subsequence of the input that keeps, for each basic id, its first occurrence:
the order is kept, no two packages left have the same basic id, every basic id
of the input is still there, and each package left is the first of the input
with its basic id. -/
theorem zif_package_array_filter_duplicates_first (api : ZifPackageApi) (heap : ZifHeap)
    (packages : List Nat) :
    zif_package_array_filter_duplicates api heap packages =
      keep_first (fun p => api.zif_package_get_id_basic (heap p)) packages [] ∧
    (zif_package_array_filter_duplicates api heap packages).Sublist packages ∧
    ((zif_package_array_filter_duplicates api heap packages).map
      (fun p => api.zif_package_get_id_basic (heap p))).Nodup ∧
    (∀ x ∈ packages, ∃ y ∈ zif_package_array_filter_duplicates api heap packages,
      api.zif_package_get_id_basic (heap y) = api.zif_package_get_id_basic (heap x)) ∧
    (∀ y ∈ zif_package_array_filter_duplicates api heap packages,
      packages.find? (fun x => decide (api.zif_package_get_id_basic (heap x) =
        api.zif_package_get_id_basic (heap y))) = some y) :=
  zif_package_array_filter_duplicates_facts api heap packages

/-- C17: zif_package_array_filter_duplicates is idempotent: applying it to its
own result leaves the array as it is. -/
theorem zif_package_array_filter_duplicates_idem (api : ZifPackageApi) (heap : ZifHeap)
    (packages : List Nat) :
    zif_package_array_filter_duplicates api heap
        (zif_package_array_filter_duplicates api heap packages) =
      zif_package_array_filter_duplicates api heap packages := by
  rw [filter_duplicates_eq api heap (zif_package_array_filter_duplicates api heap packages)]
  apply keep_first_id
  · rw [filter_duplicates_eq]
    exact keep_first_nodup _ _ _
  · intro x _ hc
    cases hc


/-! ## zif_package_array_filter_newest -/

theorem filter_newest_loop_spec (api : ZifPackageApi) (heap : ZifHeap) (dedup : List Nat)
    (hname : ∀ x ∈ dedup, ∃ n, zif_package_get_name (heap x) = some n)
    (hinj : ∀ x ∈ dedup, ∀ y ∈ dedup, api.zif_package_get_id_basic (heap x) =
      api.zif_package_get_id_basic (heap y) → x = y)
    (hslip : ∀ x ∈ dedup, ∀ y ∈ dedup,
      zif_package_get_name (heap y) ≠ some (api.zif_package_get_name_arch (heap x)))
    (htotal : ∀ x ∈ dedup, ∀ y ∈ dedup,
      filter_newest_cmp api heap x y ≤ 0 ∨ filter_newest_cmp api heap y x ≤ 0)
    (htrans : ∀ x ∈ dedup, ∀ y ∈ dedup, ∀ z ∈ dedup, filter_newest_cmp api heap x y ≤ 0 →
      filter_newest_cmp api heap y z ≤ 0 → filter_newest_cmp api heap x z ≤ 0) :
    ∀ (rest pre : List Nat) (s : ZifFilterNewestState), dedup = pre ++ rest →
      FilterNewestInv api heap pre s →
      ∃ s2, zif_package_array_filter_newest_loop api heap rest s = some s2 ∧
        FilterNewestInv api heap dedup s2 := by
  intro rest
  induction rest with
  | nil =>
    intro pre s harr hinv
    simp only [List.append_nil] at harr
    subst harr
    exact ⟨s, rfl, hinv⟩
  | cons p rest ih =>
    intro pre s harr hinv
    have harr2 : dedup = (pre ++ [p]) ++ rest := by simp [harr]
    have hpre : ∀ x ∈ pre, x ∈ dedup := fun x hx => by
      rw [harr]
      exact List.mem_append_left _ hx
    have hp : p ∈ dedup := by
      rw [harr]
      simp
    obtain ⟨key, hkey⟩ := hname p hp
    obtain ⟨hN1, hN2, hK⟩ := hinv
    have hpp : filter_newest_cmp api heap p p ≤ 0 := by
      rcases htotal p hp p hp with h | h <;> exact h
    simp only [zif_package_array_filter_newest_loop, hkey]
    cases hl : g_hash_table_lookup s.hash_namearch key with
    | none =>
      -- does not already exist
      simp only []
      apply ih (pre ++ [p]) _ harr2
      refine ⟨?_, ?_, ?_⟩
      · intro n h hlk
        simp only [lookup_insert] at hlk
        by_cases hn : n = key
        · simp only [hn, if_true, Option.some.injEq] at hlk
          subst hlk
          subst hn
          refine ⟨by simp, hkey, ?_⟩
          intro x hx hxn
          rcases List.mem_append.mp hx with h1 | h1
          · obtain ⟨h2, hh2⟩ := hN2 x h1 n hxn
            rw [hl] at hh2
            cases hh2
          · simp only [List.mem_singleton] at h1
            subst h1
            exact hpp
        · simp only [hn, if_false] at hlk
          obtain ⟨g1, g2, g3⟩ := hN1 n h hlk
          refine ⟨List.mem_append_left _ g1, g2, ?_⟩
          intro x hx hxn
          rcases List.mem_append.mp hx with h1 | h1
          · exact g3 x h1 hxn
          · simp only [List.mem_singleton] at h1
            subst h1
            rw [hkey] at hxn
            exact absurd (Option.some.inj hxn).symm hn
      · intro x hx n hxn
        simp only [lookup_insert]
        by_cases hn : n = key
        · simp [hn]
        · simp only [hn, if_false]
          rcases List.mem_append.mp hx with h1 | h1
          · exact hN2 x h1 n hxn
          · simp only [List.mem_singleton] at h1
            subst h1
            rw [hkey] at hxn
            exact absurd (Option.some.inj hxn).symm hn
      · intro k
        simp only [lookup_insert]
        by_cases hk : k = api.zif_package_get_id_basic (heap p)
        · simp only [hk, if_true, Option.isSome_some, true_iff]
          exact ⟨key, p, by simp, rfl⟩
        · simp only [hk, if_false]
          rw [hK k]
          constructor
          · rintro ⟨n, h, g1, g2⟩
            have hn : ¬ n = key := by
              intro hc
              rw [hc, hl] at g1
              cases g1
            exact ⟨n, h, by simp only [hn, if_false]; exact g1, g2⟩
          · rintro ⟨n, h, g1, g2⟩
            by_cases hn : n = key
            · simp only [hn, if_true, Option.some.injEq] at g1
              subst g1
              exact absurd g2.symm hk
            · simp only [hn, if_false] at g1
              exact ⟨n, h, g1, g2⟩
    | some t =>
      simp only []
      obtain ⟨t1, t2, t3⟩ := hN1 key t hl
      have ht : t ∈ dedup := hpre t t1
      by_cases hpos : 0 < api.zif_package_compare_full heap p t filter_newest_flags
      · -- remove the old one, track packages
        have hne : ¬ api.zif_package_compare_full heap p t filter_newest_flags = 0 := by omega
        have hnl : ¬ api.zif_package_compare_full heap p t filter_newest_flags < 0 := by omega
        simp only [hne, hnl, if_false]
        have htp : filter_newest_cmp api heap t p ≤ 0 := by
          rcases htotal p hp t ht with h | h
          · unfold filter_newest_cmp at h
            omega
          · exact h
        have hkeyne : ∀ n h, g_hash_table_lookup s.hash_namearch n = some h →
            ¬ n = api.zif_package_get_name_arch (heap t) := by
          intro n h hlk hc
          obtain ⟨g1, g2, _⟩ := hN1 n h hlk
          exact hslip t ht h (hpre h g1) (by rw [g2, hc])
        have hkna : ¬ key = api.zif_package_get_name_arch (heap t) := hkeyne key t hl
        apply ih (pre ++ [p]) _ harr2
        refine ⟨?_, ?_, ?_⟩
        · intro n h hlk
          simp only [lookup_insert, lookup_remove] at hlk
          by_cases hn : n = key
          · simp only [hn, if_true, Option.some.injEq] at hlk
            subst hlk
            subst hn
            refine ⟨by simp, hkey, ?_⟩
            intro x hx hxn
            rcases List.mem_append.mp hx with h1 | h1
            · exact htrans x (hpre x h1) t ht p hp (t3 x h1 hxn) htp
            · simp only [List.mem_singleton] at h1
              subst h1
              exact hpp
          · simp only [hn, if_false] at hlk
            split_ifs at hlk with hna
            obtain ⟨g1, g2, g3⟩ := hN1 n h hlk
            refine ⟨List.mem_append_left _ g1, g2, ?_⟩
            intro x hx hxn
            rcases List.mem_append.mp hx with h1 | h1
            · exact g3 x h1 hxn
            · simp only [List.mem_singleton] at h1
              subst h1
              rw [hkey] at hxn
              exact absurd (Option.some.inj hxn).symm hn
        · intro x hx n hxn
          simp only [lookup_insert, lookup_remove]
          by_cases hn : n = key
          · simp [hn]
          · simp only [hn, if_false]
            rcases List.mem_append.mp hx with h1 | h1
            · obtain ⟨h, hh⟩ := hN2 x h1 n hxn
              have := hkeyne n h hh
              simp only [this, if_false]
              exact ⟨h, hh⟩
            · simp only [List.mem_singleton] at h1
              subst h1
              rw [hkey] at hxn
              exact absurd (Option.some.inj hxn).symm hn
        · intro k
          simp only [lookup_insert, lookup_remove]
          by_cases hk : k = api.zif_package_get_id_basic (heap p)
          · simp only [hk, if_true, Option.isSome_some, true_iff]
            exact ⟨key, p, by simp, rfl⟩
          · simp only [hk, if_false]
            constructor
            · intro hsome
              by_cases hkt : k = api.zif_package_get_id_basic (heap t)
              · simp [hkt] at hsome
              · simp only [hkt, if_false] at hsome
                obtain ⟨n, h, g1, g2⟩ := (hK k).mp hsome
                have hn : ¬ n = key := by
                  intro hc
                  rw [hc, hl] at g1
                  have := Option.some.inj g1
                  subst this
                  exact hkt g2.symm
                have hna := hkeyne n h g1
                exact ⟨n, h, by simp only [hn, hna, if_false]; exact g1, g2⟩
            · rintro ⟨n, h, g1, g2⟩
              by_cases hn : n = key
              · simp only [hn, if_true, Option.some.injEq] at g1
                subst g1
                exact absurd g2.symm hk
              · simp only [hn, if_false] at g1
                split_ifs at g1 with hna
                have hkt : ¬ k = api.zif_package_get_id_basic (heap t) := by
                  intro hc
                  obtain ⟨q1, q2, _⟩ := hN1 n h g1
                  have := hinj h (hpre h q1) t ht (by rw [g2, hc])
                  subst this
                  rw [t2] at q2
                  exact hn (Option.some.inj q2).symm
                simp only [hkt, if_false]
                exact (hK k).mpr ⟨n, h, g1, g2⟩
      · -- the new package is the same or older: the tables stay
        have hle : filter_newest_cmp api heap p t ≤ 0 := by
          unfold filter_newest_cmp
          omega
        have hinv2 : ∀ r : Bool, FilterNewestInv api heap (pre ++ [p])
            { ret := r, hash_keep := s.hash_keep, hash_namearch := s.hash_namearch } := by
          intro r
          refine ⟨?_, ?_, hK⟩
          · intro n h hlk
            obtain ⟨g1, g2, g3⟩ := hN1 n h hlk
            refine ⟨List.mem_append_left _ g1, g2, ?_⟩
            intro x hx hxn
            rcases List.mem_append.mp hx with h1 | h1
            · exact g3 x h1 hxn
            · simp only [List.mem_singleton] at h1
              subst h1
              rw [hkey] at hxn
              have := Option.some.inj hxn
              subst this
              rw [hl] at hlk
              have := Option.some.inj hlk
              subst this
              exact hle
          · intro x hx n hxn
            rcases List.mem_append.mp hx with h1 | h1
            · exact hN2 x h1 n hxn
            · simp only [List.mem_singleton] at h1
              subst h1
              rw [hkey] at hxn
              have := Option.some.inj hxn
              subst this
              exact ⟨t, hl⟩
        by_cases hz : api.zif_package_compare_full heap p t filter_newest_flags = 0
        · simp only [hz, if_true]
          exact ih (pre ++ [p]) s harr2 (hinv2 s.ret)
        · have hneg : api.zif_package_compare_full heap p t filter_newest_flags < 0 := by omega
          simp only [hz, if_false, hneg, if_true]
          exact ih (pre ++ [p]) _ harr2 (hinv2 true)


/-- C18, amended: with compare_full a total preorder on the packages of the
array (transitive, and of two packages one compares no newer than the other)
and never 0 on two packages of different basic id, with every package named,
one name for each basic id and no name equal to the name.arch key of a
package: zif_package_array_filter_newest ends, and afterwards the array holds
exactly one package for every name of the input and no name twice; each
package left is an input package, in the order of the input, and no package of
the de-duplicated input (zif_package_array_filter_duplicates) of the same name
compares newer than it. -/
theorem zif_package_array_filter_newest_deduplicated (api : ZifPackageApi) (heap : ZifHeap)
    (packages : List Nat)
    (hnamed : ∀ x ∈ packages, zif_package_get_name (heap x) ≠ none)
    (hidname : ∀ x ∈ packages, ∀ y ∈ packages, api.zif_package_get_id_basic (heap x) =
      api.zif_package_get_id_basic (heap y) →
      zif_package_get_name (heap x) = zif_package_get_name (heap y))
    (hslip : ∀ x ∈ packages, ∀ y ∈ packages,
      zif_package_get_name (heap y) ≠ some (api.zif_package_get_name_arch (heap x)))
    (htotal : ∀ x ∈ packages, ∀ y ∈ packages,
      filter_newest_cmp api heap x y ≤ 0 ∨ filter_newest_cmp api heap y x ≤ 0)
    (htrans : ∀ x ∈ packages, ∀ y ∈ packages, ∀ z ∈ packages,
      filter_newest_cmp api heap x y ≤ 0 → filter_newest_cmp api heap y z ≤ 0 →
      filter_newest_cmp api heap x z ≤ 0)
    (_hnz : ∀ x ∈ packages, ∀ y ∈ packages, api.zif_package_get_id_basic (heap x) ≠
      api.zif_package_get_id_basic (heap y) → filter_newest_cmp api heap x y ≠ 0) :
    ∃ ret out, zif_package_array_filter_newest api heap packages = some (ret, out) ∧
      out.Sublist packages ∧
      (out.map (fun p => zif_package_get_name (heap p))).Nodup ∧
      (∀ x ∈ packages, ∃ y ∈ out,
        zif_package_get_name (heap y) = zif_package_get_name (heap x)) ∧
      (∀ y ∈ out, ∀ x ∈ zif_package_array_filter_duplicates api heap packages,
        zif_package_get_name (heap x) = zif_package_get_name (heap y) →
        ¬ 0 < filter_newest_cmp api heap x y) := by
  have hname : ∀ x ∈ packages, ∃ n, zif_package_get_name (heap x) = some n :=
    fun x hx => Option.ne_none_iff_exists'.mp (hnamed x hx)
  obtain ⟨_, hD, hnodup, hcover, _⟩ :=
    zif_package_array_filter_duplicates_facts api heap packages
  have hsub : ∀ x ∈ zif_package_array_filter_duplicates api heap packages, x ∈ packages :=
    fun x hx => hD.subset hx
  have hinj := List.inj_on_of_nodup_map hnodup
  obtain ⟨s, hloop, hN1, hN2, hK⟩ := filter_newest_loop_spec api heap
    (zif_package_array_filter_duplicates api heap packages)
    (fun x hx => hname x (hsub x hx))
    (fun x hx y hy h => hinj hx hy h)
    (fun x hx y hy => hslip x (hsub x hx) y (hsub y hy))
    (fun x hx y hy => htotal x (hsub x hx) y (hsub y hy))
    (fun x hx y hy z hz => htrans x (hsub x hx) y (hsub y hy) z (hsub z hz))
    (zif_package_array_filter_duplicates api heap packages) []
    { ret := false, hash_keep := [], hash_namearch := [] } rfl
    (by
      refine ⟨?_, ?_, ?_⟩
      · intro n h hl
        simp [g_hash_table_lookup, g_hash_table_lookup_extended] at hl
      · intro x hx
        cases hx
      · intro k
        simp [g_hash_table_lookup, g_hash_table_lookup_extended])
  have hkept : ∀ p ∈ (zif_package_array_filter_duplicates api heap packages).filter
      (fun package => (g_hash_table_lookup s.hash_keep
        (api.zif_package_get_id_basic (heap package))).isSome),
      ∃ n, zif_package_get_name (heap p) = some n ∧
        g_hash_table_lookup s.hash_namearch n = some p := by
    intro p hp
    obtain ⟨hp1, hp2⟩ := List.mem_filter.mp hp
    obtain ⟨n, h, g1, g2⟩ := (hK _).mp hp2
    obtain ⟨q1, q2, _⟩ := hN1 n h g1
    have := hinj q1 hp1 g2
    subst this
    exact ⟨n, q2, g1⟩
  have hin : ∀ n h, g_hash_table_lookup s.hash_namearch n = some h →
      h ∈ (zif_package_array_filter_duplicates api heap packages).filter
        (fun package => (g_hash_table_lookup s.hash_keep
          (api.zif_package_get_id_basic (heap package))).isSome) := by
    intro n h hl
    exact List.mem_filter.mpr ⟨(hN1 n h hl).1, (hK _).mpr ⟨n, h, hl, rfl⟩⟩
  refine ⟨s.ret, (zif_package_array_filter_duplicates api heap packages).filter
      (fun package => (g_hash_table_lookup s.hash_keep
        (api.zif_package_get_id_basic (heap package))).isSome),
    by simp only [zif_package_array_filter_newest, hloop], ?_, ?_, ?_, ?_⟩
  · exact (List.filter_sublist _).trans hD
  · apply List.Nodup.map_on
    · intro x hx y hy hxy
      obtain ⟨n, g1, g2⟩ := hkept x hx
      obtain ⟨m, g3, g4⟩ := hkept y hy
      simp only at hxy
      rw [g1, g3] at hxy
      have := Option.some.inj hxy
      subst this
      rw [g2] at g4
      exact Option.some.inj g4
    · exact (List.Nodup.of_map _ hnodup).filter _
  · intro x hx
    obtain ⟨y, hy, hyx⟩ := hcover x hx
    obtain ⟨n, hn⟩ := hname y (hsub y hy)
    obtain ⟨h, hh⟩ := hN2 y hy n hn
    refine ⟨h, hin n h hh, ?_⟩
    rw [(hN1 n h hh).2.1, ← hn]
    exact hidname y (hsub y hy) x hx hyx
  · intro y hy x hx hxy
    obtain ⟨n, g1, g2⟩ := hkept y hy
    have := (hN1 n y g2).2.2 x hx (by rw [hxy, g1])
    omega


theorem zif_package_array_filter_newest_deduplicated_witness :
    zif_package_array_filter_newest zif_package_api heap_names [0, 1, 2, 3] =
      some (true, [1, 2]) ∧
    ∃ ret out, zif_package_array_filter_newest zif_package_api heap_names [0, 1, 2, 3] =
        some (ret, out) ∧
      out.Sublist [0, 1, 2, 3] ∧
      (out.map (fun p => zif_package_get_name (heap_names p))).Nodup ∧
      (∀ x ∈ [0, 1, 2, 3], ∃ y ∈ out,
        zif_package_get_name (heap_names y) = zif_package_get_name (heap_names x)) ∧
      (∀ y ∈ out,
        ∀ x ∈ zif_package_array_filter_duplicates zif_package_api heap_names [0, 1, 2, 3],
        zif_package_get_name (heap_names x) = zif_package_get_name (heap_names y) →
        ¬ 0 < filter_newest_cmp zif_package_api heap_names x y) :=
  ⟨by decide,
    zif_package_array_filter_newest_deduplicated zif_package_api heap_names [0, 1, 2, 3]
      (by decide) (by decide) (by decide) (by decide) (by decide) (by decide)⟩

/-- C18, counterexample: of foo-1.0-1.i386 from the repository fedora and the
same package from updates, which have one basic id, the array keeps the first,
and the second, an input package of the same name, compares newer than it. -/
theorem zif_package_array_filter_newest_drops_newer :
    zif_package_array_filter_newest zif_package_api heap_data [0, 1] = some (false, [0]) ∧
    zif_package_get_name (heap_data 1) = zif_package_get_name (heap_data 0) ∧
    0 < filter_newest_cmp zif_package_api heap_data 1 0 ∧
    (∀ x ∈ [0, 1], ∀ y ∈ [0, 1], ∀ z ∈ [0, 1],
      filter_newest_cmp zif_package_api heap_data x y ≤ 0 →
      filter_newest_cmp zif_package_api heap_data y z ≤ 0 →
      filter_newest_cmp zif_package_api heap_data x z ≤ 0) ∧
    (∀ x ∈ [0, 1], ∀ y ∈ [0, 1],
      zif_package_get_id_basic (heap_data x) ≠ zif_package_get_id_basic (heap_data y) →
      filter_newest_cmp zif_package_api heap_data x y ≠ 0) := by
  refine ⟨by decide, by decide, by decide, by decide, by decide⟩

/-- C19: the value returned by zif_package_array_filter_newest is FALSE on
arrays that the call changes: when foo-1.0-2 comes after foo-1.0-1 and takes
its place, and when one package is in the array twice; it is TRUE when the
package that is dropped comes after the newer one. -/
theorem zif_package_array_filter_newest_return_value :
    zif_package_array_filter_newest zif_package_api heap_foo [0, 1] = some (false, [1]) ∧
    zif_package_array_filter_newest zif_package_api heap_foo [0, 0] = some (false, [0]) ∧
    zif_package_array_filter_newest zif_package_api heap_foo [1, 0] = some (true, [1]) ∧
    (∀ (api : ZifPackageApi) (heap : ZifHeap) (p : Nat),
      zif_package_get_name (heap p) ≠ none →
      zif_package_array_filter_newest api heap [p, p] = some (false, [p])) := by
  refine ⟨by decide, by decide, by decide, ?_⟩
  intro api heap p hp
  obtain ⟨key, hkey⟩ := Option.ne_none_iff_exists'.mp hp
  have hd : zif_package_array_filter_duplicates api heap [p, p] = [p] := by
    rw [filter_duplicates_eq]
    simp [keep_first]
  simp only [zif_package_array_filter_newest, hd, zif_package_array_filter_newest_loop, hkey]
  simp [g_hash_table_lookup, g_hash_table_lookup_extended, g_hash_table_insert]


/-! ## zif_package_id_from_nevra, zif_boolean_from_text, zif_file_uncompressed_name -/

/-- C26: zif_package_id_from_nevra builds the id `name;version-release;arch;data`
when the epoch is absent or begins with the character `0`, and the id
`name;epoch:version-release;arch;data` otherwise; the three ids of
zif_utils_test are as the test expects. -/
theorem zif_package_id_from_nevra_string (name : Str) (epoch : Option Str)
    (version release arch data : Str) :
    pk_package_id_to_string (zif_package_id_from_nevra name epoch version release arch data) =
      (match epoch with
        | none => name ++ ';' :: version ++ '-' :: release ++ ';' :: arch ++ ';' :: data
        | some e =>
          if e.head? = some '0' then
            name ++ ';' :: version ++ '-' :: release ++ ';' :: arch ++ ';' :: data
          else
            name ++ ';' :: e ++ ':' :: version ++ '-' :: release ++ ';' :: arch ++ ';' :: data) ∧
    pk_package_id_to_string (zif_package_id_from_nevra "kernel".toList none
      "0.0.1".toList "1".toList "i386".toList "fedora".toList) =
        "kernel;0.0.1-1;i386;fedora".toList ∧
    pk_package_id_to_string (zif_package_id_from_nevra "kernel".toList (some "0".toList)
      "0.0.1".toList "1".toList "i386".toList "fedora".toList) =
        "kernel;0.0.1-1;i386;fedora".toList ∧
    pk_package_id_to_string (zif_package_id_from_nevra "kernel".toList (some "2".toList)
      "0.0.1".toList "1".toList "i386".toList "fedora".toList) =
        "kernel;2:0.0.1-1;i386;fedora".toList := by
  refine ⟨?_, by decide, by decide, by decide⟩
  cases epoch with
  | none =>
    simp [zif_package_id_from_nevra, pk_package_id_new_from_list, pk_package_id_to_string]
  | some e =>
    by_cases h : e.head? = some '0'
    · simp [zif_package_id_from_nevra, pk_package_id_new_from_list, pk_package_id_to_string, h]
    · simp [zif_package_id_from_nevra, pk_package_id_new_from_list, pk_package_id_to_string, h]

theorem g_ascii_strcasecmp_eq_zero :
    ∀ s t : Str, g_ascii_strcasecmp s t = 0 ↔ s.map g_ascii_tolower = t.map g_ascii_tolower
  | [], [] => by simp [g_ascii_strcasecmp]
  | [], _ :: _ => by simp [g_ascii_strcasecmp]
  | _ :: _, [] => by simp [g_ascii_strcasecmp]
  | c1 :: s1, c2 :: s2 => by
    simp only [g_ascii_strcasecmp, List.map_cons, List.cons.injEq]
    by_cases h : g_ascii_tolower c1 = g_ascii_tolower c2
    · simp only [h, ne_eq, not_true_eq_false, if_false, true_and]
      exact g_ascii_strcasecmp_eq_zero s1 s2
    · simp only [h, ne_eq, not_false_eq_true, if_true, false_and, iff_false]
      intro hc
      exact h (charCmp_eq_zero _ _ hc)

theorem g_ascii_tolower_eq (c : Char) : g_ascii_tolower c = c.toLower := by
  unfold g_ascii_tolower Char.toLower
  by_cases h : 'A'.toNat ≤ c.toNat ∧ c.toNat ≤ 'Z'.toNat
  · have h2 : c.toNat ≥ 65 ∧ c.toNat ≤ 90 := h
    have e : c.toNat - 'A'.toNat + 'a'.toNat = c.toNat + 32 := by
      have h3 : 'A'.toNat = 65 := rfl
      have h4 : 'a'.toNat = 97 := rfl
      omega
    simp only [h, h2, and_self, if_true, e]
  · have h2 : ¬ (c.toNat ≥ 65 ∧ c.toNat ≤ 90) := h
    simp only [h, h2, if_false]

/-- C27: zif_boolean_from_text returns TRUE if and only if the text equals,
ignoring ASCII case (the letters A to Z taken as a to z), `true`, `yes` or
`1`; the texts of zif_utils_test, the empty one among them, give what the test
expects. -/
theorem zif_boolean_from_text_iff (text : Str) :
    (zif_boolean_from_text text = true ↔
      (text.map Char.toLower = "true".toList ∨ text.map Char.toLower = "yes".toList ∨
        text.map Char.toLower = "1".toList)) ∧
    zif_boolean_from_text "1".toList = true ∧
    zif_boolean_from_text "TRUE".toList = true ∧
    zif_boolean_from_text "Yes".toList = true ∧
    zif_boolean_from_text "false".toList = false ∧
    zif_boolean_from_text "".toList = false := by
  refine ⟨?_, by decide, by decide, by decide, by decide, by decide⟩
  have h1 : ("true".toList).map g_ascii_tolower = "true".toList := by decide
  have h2 : ("yes".toList).map g_ascii_tolower = "yes".toList := by decide
  have h3 : ("1".toList).map g_ascii_tolower = "1".toList := by decide
  unfold zif_boolean_from_text
  have h4 : g_ascii_tolower = Char.toLower := funext g_ascii_tolower_eq
  simp only [g_ascii_strcasecmp_eq_zero, h1, h2, h3]
  rw [h4]
  by_cases h : text.map Char.toLower = "true".toList ∨
      text.map Char.toLower = "yes".toList ∨ text.map Char.toLower = "1".toList
  · simp only [h, if_true]
  · simp only [h, if_false]
    simp


theorem g_str_has_suffix_iff (str suffix : Str) :
    g_str_has_suffix str suffix = true ↔ ∃ stem, str = stem ++ suffix := by
  unfold g_str_has_suffix
  rw [List.isSuffixOf_iff_suffix]
  constructor
  · rintro ⟨t, ht⟩
    exact ⟨t, ht.symm⟩
  · rintro ⟨t, ht⟩
    exact ⟨t, ht.symm⟩

/-- C28, amended: zif_file_uncompressed_name removes the suffix `.gz` from a
filename of more than 4 characters that ends in it and the suffix `.bz2` from a
filename of more than 5 characters that ends in it, and returns every other
filename unchanged, the shorter filenames that end in `.gz` or `.bz2` among
them; the two filenames of zif_utils_test give what the test expects. -/
theorem zif_file_uncompressed_name_long (filename : Str) :
    (∀ stem, filename = stem ++ ".gz".toList → 4 < filename.length →
      zif_file_uncompressed_name filename = stem) ∧
    (∀ stem, filename = stem ++ ".bz2".toList → 5 < filename.length →
      zif_file_uncompressed_name filename = stem) ∧
    (¬ (4 < filename.length ∧ ∃ stem, filename = stem ++ ".gz".toList) →
      ¬ (5 < filename.length ∧ ∃ stem, filename = stem ++ ".bz2".toList) →
      zif_file_uncompressed_name filename = filename) ∧
    zif_file_uncompressed_name "/dave/moo.sqlite.gz".toList = "/dave/moo.sqlite".toList ∧
    zif_file_uncompressed_name "/dave/moo.sqlite".toList = "/dave/moo.sqlite".toList ∧
    zif_file_uncompressed_name "/dave/moo.tar.bz2".toList = "/dave/moo.tar".toList := by
  refine ⟨?_, ?_, ?_, by decide, by decide, by decide⟩
  · intro stem hf hlen
    have hs : g_str_has_suffix filename ".gz".toList = true :=
      (g_str_has_suffix_iff _ _).mpr ⟨stem, hf⟩
    have hl : filename.length - 3 = stem.length := by
      rw [hf]
      simp
    simp only [zif_file_uncompressed_name, gt_iff_lt, hlen, hs, and_self, if_true, hl]
    rw [hf]
    exact List.take_left' rfl
  · intro stem hf hlen
    have hs : g_str_has_suffix filename ".bz2".toList = true :=
      (g_str_has_suffix_iff _ _).mpr ⟨stem, hf⟩
    have hn : ¬ g_str_has_suffix filename ".gz".toList = true := by
      intro hc
      obtain ⟨t, ht⟩ := (g_str_has_suffix_iff _ _).mp hc
      rw [hf] at ht
      have := congrArg List.getLast? ht
      simp at this
    have hl : filename.length - 4 = stem.length := by
      rw [hf]
      simp
    have hn2 : g_str_has_suffix filename ".gz".toList = false := by simpa using hn
    simp only [zif_file_uncompressed_name, gt_iff_lt, hlen, hs, hn2, Bool.false_eq_true,
      and_false, and_self, if_true, if_false, hl]
    rw [hf]
    exact List.take_left' rfl
  · intro h1 h2
    rw [← g_str_has_suffix_iff] at h1 h2
    simp only [zif_file_uncompressed_name, gt_iff_lt, h1, h2, if_false]

/-- C28, counterexample: the filenames `a.gz` and `a.bz2` end in `.gz` and in
`.bz2` and are returned unchanged. -/
theorem zif_file_uncompressed_name_short :
    zif_file_uncompressed_name "a.gz".toList = "a.gz".toList ∧
    "a.gz".toList = "a".toList ++ ".gz".toList ∧
    zif_file_uncompressed_name "a.bz2".toList = "a.bz2".toList ∧
    "a.bz2".toList = "a".toList ++ ".bz2".toList := by
  decide


/-! ## zif_config_string_to_time -/

theorem isDigit_value_le (c : Char) (h : c.isDigit = true) : c.toNat - 48 ≤ 9 := by
  unfold Char.isDigit at h
  simp only [Bool.and_eq_true, decide_eq_true_eq] at h
  have h2 : c.val.toNat ≤ 57 := UInt32.le_def.mp h.2
  show c.val.toNat - 48 ≤ 9
  omega

theorem digitsValue_lt : ∀ (text : Str) (acc : Nat),
    digitsValue acc text < (acc + 1) * 10 ^ text.length := by
  intro text
  induction text with
  | nil =>
    intro acc
    simp [digitsValue]
  | cons c cs ih =>
    intro acc
    simp only [digitsValue, List.length_cons]
    have hpos : 0 < 10 ^ cs.length := pow_pos (by decide) _
    by_cases hd : c.isDigit = true
    · simp only [hd, if_true]
      have h1 := ih (10 * acc + (c.toNat - 48))
      have h2 := isDigit_value_le c hd
      have h3 : (10 * acc + (c.toNat - 48) + 1) * 10 ^ cs.length ≤
          (10 * (acc + 1)) * 10 ^ cs.length := Nat.mul_le_mul_right _ (by omega)
      have h4 : (acc + 1) * 10 ^ (cs.length + 1) = (10 * (acc + 1)) * 10 ^ cs.length := by
        rw [pow_succ]
        ring
      omega
    · have hd2 : c.isDigit = false := by simpa using hd
      simp only [hd2, Bool.false_eq_true, if_false]
      have h4 : (acc + 1) * 10 ^ (cs.length + 1) = (acc + 1) * 10 * 10 ^ cs.length := by
        rw [pow_succ]
        ring
      have h5 : (acc + 1) * 10 * 1 ≤ (acc + 1) * 10 * 10 ^ cs.length :=
        Nat.mul_le_mul_left _ hpos
      omega

theorem digitsValue_lt_of_length (text : Str) (h : text.length ≤ 9) :
    digitsValue 0 text < 1000000000 := by
  have h1 := digitsValue_lt text 0
  have h2 : 10 ^ text.length ≤ 10 ^ 9 := Nat.pow_le_pow_right (by decide) h
  have h3 : (10 : Nat) ^ 9 = 1000000000 := by norm_num
  omega

theorem egg_string_api_spec : EggStringSpec egg_string_api := by
  refine ⟨?_, ?_, ?_⟩
  · intro text
    cases text with
    | nil => rfl
    | cons c cs =>
      simp only [egg_string_api, List.isEmpty_cons, Bool.false_eq_true, if_false,
        List.length_cons]
      omega
  · intro text h1 h2
    simp only [egg_string_api, h1, h2, and_self, if_true]
  · intro text h1
    simp only [egg_string_api, h1, Bool.false_eq_true, false_and, if_false]

theorem string_to_time_parts (egg : EggStringApi) (h : EggStringSpec egg) (text : Str)
    (suffix : Char) (hlen : text.length ≤ 9) (hne : text ≠ []) :
    zif_config_string_to_time egg (text ++ [suffix]) =
      match egg.egg_strtouint text with
      | none => 0
      | some timeval =>
        if suffix = 's' then (timeval * 1) % GUINT_RANGE
        else if suffix = 'm' then (timeval * 60) % GUINT_RANGE
        else if suffix = 'h' then (timeval * (60 * 60)) % GUINT_RANGE
        else if suffix = 'd' then (timeval * (24 * 60 * 60)) % GUINT_RANGE
        else 0 := by
  have hpos : 0 < text.length := List.length_pos.mpr hne
  have e1 : egg.egg_strlen (text ++ [suffix]) 10 = text.length + 1 := by
    rw [h.1]
    simp only [List.length_append, List.length_singleton]
    omega
  have e2 : ¬ text.length + 1 < 2 := by omega
  have e3 : (text ++ [suffix]).getD (text.length + 1 - 1) (Char.ofNat 0) = suffix := by
    simp [List.getD]
  have e4 : (text ++ [suffix]).take (text.length + 1 - 1) = text := by
    simp
  simp only [zif_config_string_to_time, e1, e2, if_false, e3, e4]


/-- C29, amended: for an unsigned decimal number N written in at most 9 digits
zif_config_string_to_time gives N for `Ns`, and for `Nm`, `Nh` and `Nd` the
products N*60, N*60*60 and N*60*60*24 in guint, that is modulo 2^32: the
products themselves whenever they are below 2^32. -/
theorem zif_config_string_to_time_number (egg : EggStringApi) (h : EggStringSpec egg)
    (number : Str) (hnum : is_unsigned_number number = true) (hlen : number.length ≤ 9) :
    zif_config_string_to_time egg (number ++ ['s']) = digitsValue 0 number ∧
    zif_config_string_to_time egg (number ++ ['m']) =
      (digitsValue 0 number * 60) % GUINT_RANGE ∧
    zif_config_string_to_time egg (number ++ ['h']) =
      (digitsValue 0 number * (60 * 60)) % GUINT_RANGE ∧
    zif_config_string_to_time egg (number ++ ['d']) =
      (digitsValue 0 number * (60 * 60 * 24)) % GUINT_RANGE ∧
    (digitsValue 0 number * 60 < GUINT_RANGE →
      zif_config_string_to_time egg (number ++ ['m']) = digitsValue 0 number * 60) ∧
    (digitsValue 0 number * (60 * 60) < GUINT_RANGE →
      zif_config_string_to_time egg (number ++ ['h']) = digitsValue 0 number * (60 * 60)) ∧
    (digitsValue 0 number * (60 * 60 * 24) < GUINT_RANGE →
      zif_config_string_to_time egg (number ++ ['d']) =
        digitsValue 0 number * (60 * 60 * 24)) := by
  have hne : number ≠ [] := by
    intro hc
    rw [hc] at hnum
    cases hnum
  have hv := h.2.1 number hnum hlen
  have hb := digitsValue_lt_of_length number hlen
  have es := string_to_time_parts egg h number 's' hlen hne
  have em := string_to_time_parts egg h number 'm' hlen hne
  have eh := string_to_time_parts egg h number 'h' hlen hne
  have ed := string_to_time_parts egg h number 'd' hlen hne
  rw [hv] at es em eh ed
  have c1 : ¬ 'm' = 's' := by decide
  have c2 : ¬ 'h' = 's' := by decide
  have c3 : ¬ 'h' = 'm' := by decide
  have c4 : ¬ 'd' = 's' := by decide
  have c5 : ¬ 'd' = 'm' := by decide
  have c6 : ¬ 'd' = 'h' := by decide
  simp only [if_true] at es
  simp only [c1, if_false, if_true] at em
  simp only [c2, c3, if_false, if_true] at eh
  simp only [c4, c5, c6, if_false, if_true] at ed
  have hs : zif_config_string_to_time egg (number ++ ['s']) = digitsValue 0 number := by
    rw [es, Nat.mul_one]
    apply Nat.mod_eq_of_lt
    unfold GUINT_RANGE
    omega
  refine ⟨hs, em, eh, ed, ?_, ?_, ?_⟩
  · intro hlt
    rw [em]
    exact Nat.mod_eq_of_lt hlt
  · intro hlt
    rw [eh]
    exact Nat.mod_eq_of_lt hlt
  · intro hlt
    rw [ed]
    exact Nat.mod_eq_of_lt hlt

theorem zif_config_string_to_time_number_witness :
    is_unsigned_number "10".toList = true ∧ "10".toList.length ≤ 9 ∧
    zif_config_string_to_time egg_string_api "10s".toList = 10 ∧
    zif_config_string_to_time egg_string_api "10m".toList = 600 ∧
    zif_config_string_to_time egg_string_api "10h".toList = 36000 ∧
    zif_config_string_to_time egg_string_api "10d".toList = 864000 ∧
    zif_config_string_to_time egg_string_api ("10".toList ++ ['d']) =
      (digitsValue 0 "10".toList * (60 * 60 * 24)) % GUINT_RANGE :=
  ⟨by decide, by decide, by decide, by decide, by decide, by decide,
    (zif_config_string_to_time_number egg_string_api egg_string_api_spec "10".toList
      (by decide) (by decide)).2.2.2.1⟩

/-- C29, counterexample: `49711d` gives 63104 and not 49711*60*60*24, which is
4295030400 and does not fit a guint. -/
theorem zif_config_string_to_time_wraps :
    is_unsigned_number "49711".toList = true ∧ "49711".toList.length ≤ 9 ∧
    digitsValue 0 "49711".toList = 49711 ∧
    zif_config_string_to_time egg_string_api "49711d".toList = 63104 ∧
    49711 * 60 * 60 * 24 = 4295030400 := by
  decide

/-- C30, amended: zif_config_string_to_time returns 0 for every invalid time
text of at most 10 characters: the empty text, a text of one character, a text
whose last character is not one of s, m, h, d (a number with no suffix among
them), and a text whose part before the last character is not an unsigned
decimal number. -/
theorem zif_config_string_to_time_invalid (egg : EggStringApi) (h : EggStringSpec egg)
    (value : Str) (hshort : value.length ≤ 10)
    (hinvalid : value.length < 2 ∨
      (∀ c, value.getLast? = some c → c ≠ 's' ∧ c ≠ 'm' ∧ c ≠ 'h' ∧ c ≠ 'd') ∨
      is_unsigned_number value.dropLast = false) :
    zif_config_string_to_time egg value = 0 := by
  by_cases hlen : value.length < 2
  · have e1 : egg.egg_strlen value 10 = value.length := by
      rw [h.1]
      omega
    simp only [zif_config_string_to_time, e1, hlen, if_true]
  · have hne : value ≠ [] := by
      intro hc
      rw [hc] at hlen
      simp at hlen
    have hsplit : value = value.dropLast ++ [value.getLast hne] :=
      (List.dropLast_append_getLast hne).symm
    have hdl : value.dropLast.length = value.length - 1 := List.length_dropLast value
    have hdne : value.dropLast ≠ [] := by
      intro hc
      rw [hc] at hdl
      simp at hdl
      omega
    have hparts := string_to_time_parts egg h value.dropLast (value.getLast hne)
      (by omega) hdne
    rw [← hsplit] at hparts
    rw [hparts]
    rcases hinvalid with h1 | h2 | h3
    · exact absurd h1 hlen
    · obtain ⟨n1, n2, n3, n4⟩ := h2 (value.getLast hne) (List.getLast?_eq_getLast value hne)
      cases egg.egg_strtouint value.dropLast with
      | none => rfl
      | some timeval => simp only [n1, n2, n3, n4, if_false]
    · rw [h.2.2 value.dropLast h3]

theorem zif_config_string_to_time_invalid_witness :
    "10d10s".toList.length ≤ 10 ∧ is_unsigned_number "10d10s".toList.dropLast = false ∧
    zif_config_string_to_time egg_string_api "10d10s".toList = 0 ∧
    zif_config_string_to_time egg_string_api "".toList = 0 ∧
    zif_config_string_to_time egg_string_api "10".toList = 0 ∧
    zif_config_string_to_time egg_string_api "10f".toList = 0 :=
  ⟨by decide, by decide,
    zif_config_string_to_time_invalid egg_string_api egg_string_api_spec "10d10s".toList
      (by decide) (Or.inr (Or.inr (by decide))),
    by decide, by decide, by decide⟩

/-- C30, counterexample: the text `123456789s0` of 11 characters does not end
in one of s, m, h, d, and the part before its last character is not a number;
it is read as its first 10 characters and gives 123456789. -/
theorem zif_config_string_to_time_long_text :
    "123456789s0".toList.getLast? = some '0' ∧
    is_unsigned_number "123456789s0".toList.dropLast = false ∧
    zif_config_string_to_time egg_string_api "123456789s0".toList = 123456789 := by
  decide


/-! ## zif_package_array_find -/

theorem find_loop_eq (heap : ZifHeap) (package_id : Str) (array : List Nat) :
    zif_package_array_find_loop heap package_id array =
      array.find? (fun p => decide (zif_package_get_id (heap p) = some package_id)) := by
  induction array with
  | nil => rfl
  | cons p rest ih =>
    simp only [zif_package_array_find_loop, List.find?_cons]
    by_cases h : zif_package_get_id (heap p) = some package_id
    · have h0 := (g_strcmp0_eq_zero _ _).mpr h
      rw [if_pos h0]
      simp only [h, decide_True]
    · have h0 : ¬ g_strcmp0 (zif_package_get_id (heap p)) (some package_id) = 0 :=
        fun hc => h ((g_strcmp0_eq_zero _ _).mp hc)
      simp only [h0, if_false, h, decide_False, ih]

/-- C22: zif_package_array_find returns the first package of the array whose
id string equals package_id; it fails, with the error `failed to find` and the
id, exactly when no package of the array has that id; the array is the same
after the call. -/
theorem zif_package_array_find_first (heap : ZifHeap) (array : List Nat) (package_id : Str) :
    (zif_package_array_find heap array package_id).1 =
      (match array.find? (fun p => decide (zif_package_get_id (heap p) = some package_id)) with
        | some p => Except.ok p
        | none => Except.error { message := "failed to find ".toList ++ package_id }) ∧
    ((∃ e, (zif_package_array_find heap array package_id).1 = Except.error e) ↔
      ∀ p ∈ array, zif_package_get_id (heap p) ≠ some package_id) ∧
    (zif_package_array_find heap array package_id).2 = array ∧
    (zif_package_array_find heap_foo [0, 1, 2, 1] "foo;1.0-2;i386;fedora".toList).1 =
      Except.ok 1 := by
  have hloop := find_loop_eq heap package_id array
  refine ⟨?_, ?_, ?_, rfl⟩
  · simp only [zif_package_array_find, hloop]
    cases array.find? (fun p => decide (zif_package_get_id (heap p) = some package_id)) <;> rfl
  · simp only [zif_package_array_find, hloop]
    cases hf : array.find? (fun p => decide (zif_package_get_id (heap p) = some package_id)) with
    | none =>
      refine ⟨fun _ p hp => ?_, fun _ => ⟨_, rfl⟩⟩
      have := List.find?_eq_none.mp hf p hp
      simpa using this
    | some q =>
      simp only [reduceCtorEq, exists_false, false_iff]
      intro hall
      have h1 := List.find?_some hf
      have h2 := List.mem_of_find?_eq_some hf
      exact hall q h2 (by simpa using h1)
  · simp only [zif_package_array_find]
    cases zif_package_array_find_loop heap package_id array <;> rfl


/-! ## zif_package_array_filter_best_arch -/

theorem strcmpSign_antisymm (a b : Str) : strcmpSign b a = - strcmpSign a b :=
  lexCmp_antisymm charCmp (fun x y => charCmp_antisymm x y) a b

theorem strcmpSign_trans (a b c : Str) (h1 : strcmpSign a b ≤ 0) (h2 : strcmpSign b c ≤ 0) :
    strcmpSign a c ≤ 0 :=
  lexCmp_trans charCmp charCmp_eq_zero (fun x y => charCmp_antisymm x y) charCmp_trans
    a b c h1 h2

theorem g_strcmp0_antisymm (a b : Option Str) : g_strcmp0 b a = - g_strcmp0 a b := by
  cases a <;> cases b <;> simp [g_strcmp0]
  exact strcmpSign_antisymm _ _

theorem g_strcmp0_trans (a b c : Option Str) (h1 : g_strcmp0 a b ≤ 0)
    (h2 : g_strcmp0 b c ≤ 0) : g_strcmp0 a c ≤ 0 := by
  cases a <;> cases b <;> cases c <;> simp [g_strcmp0] at h1 h2 ⊢
  exact strcmpSign_trans _ _ _ h1 h2

theorem is_arch32_iff (arch : Option Str) :
    is_arch32 arch = true ↔ ¬ (g_strcmp0 arch (some "x86_64".toList) = 0 ∨
      g_strcmp0 arch (some "noarch".toList) = 0) ∧ arch ≠ none := by
  rw [g_strcmp0_eq_zero, g_strcmp0_eq_zero]
  cases arch with
  | none => simp [is_arch32]
  | some a => simp [is_arch32]

theorem best_arch32_find_spec (heap : ZifHeap) :
    ∀ (rest : List Nat) (best : Option Str),
      (zif_package_array_filter_best_arch32_find heap rest best = best ∨
        ∃ p ∈ rest, is_arch32 (zif_package_get_arch (heap p)) = true ∧
          zif_package_get_arch (heap p) =
            zif_package_array_filter_best_arch32_find heap rest best) ∧
      g_strcmp0 best (zif_package_array_filter_best_arch32_find heap rest best) ≤ 0 ∧
      ∀ p ∈ rest, is_arch32 (zif_package_get_arch (heap p)) = true →
        g_strcmp0 (zif_package_get_arch (heap p))
          (zif_package_array_filter_best_arch32_find heap rest best) ≤ 0 := by
  intro rest
  induction rest with
  | nil =>
    intro best
    refine ⟨Or.inl rfl, ?_, ?_⟩
    · have := (g_strcmp0_eq_zero best best).mpr rfl
      simp only [zif_package_array_filter_best_arch32_find]
      omega
    · intro p hp
      cases hp
  | cons q rest ih =>
    intro best
    by_cases hskip : g_strcmp0 (zif_package_get_arch (heap q)) (some "x86_64".toList) = 0 ∨
        g_strcmp0 (zif_package_get_arch (heap q)) (some "noarch".toList) = 0
    · have hstep : zif_package_array_filter_best_arch32_find heap (q :: rest) best =
          zif_package_array_filter_best_arch32_find heap rest best := by
        simp only [zif_package_array_filter_best_arch32_find, hskip, if_true]
      rw [hstep]
      obtain ⟨h1, h2, h3⟩ := ih best
      refine ⟨?_, h2, ?_⟩
      · rcases h1 with h | ⟨p, hp, hp2⟩
        · exact Or.inl h
        · exact Or.inr ⟨p, List.mem_cons_of_mem _ hp, hp2⟩
      · intro p hp h32
        rcases List.mem_cons.mp hp with h | h
        · subst h
          exact absurd hskip ((is_arch32_iff _).mp h32).1
        · exact h3 p h h32
    · by_cases hgt : g_strcmp0 (zif_package_get_arch (heap q)) best > 0
      · have hstep : zif_package_array_filter_best_arch32_find heap (q :: rest) best =
            zif_package_array_filter_best_arch32_find heap rest
              (zif_package_get_arch (heap q)) := by
          simp only [zif_package_array_filter_best_arch32_find, hskip, if_false, hgt, if_true]
        rw [hstep]
        obtain ⟨h1, h2, h3⟩ := ih (zif_package_get_arch (heap q))
        have hq32 : is_arch32 (zif_package_get_arch (heap q)) = true := by
          rw [is_arch32_iff]
          refine ⟨hskip, ?_⟩
          intro hn
          rw [hn] at hgt
          cases best <;> simp [g_strcmp0] at hgt
        have hbq : g_strcmp0 best (zif_package_get_arch (heap q)) ≤ 0 := by
          have := g_strcmp0_antisymm (zif_package_get_arch (heap q)) best
          omega
        refine ⟨Or.inr ?_, g_strcmp0_trans _ _ _ hbq h2, ?_⟩
        · rcases h1 with h | ⟨p, hp, hp2⟩
          · exact ⟨q, List.mem_cons_self _ _, hq32, h.symm⟩
          · exact ⟨p, List.mem_cons_of_mem _ hp, hp2⟩
        · intro p hp h32
          rcases List.mem_cons.mp hp with h | h
          · subst h
            exact h2
          · exact h3 p h h32
      · have hstep : zif_package_array_filter_best_arch32_find heap (q :: rest) best =
            zif_package_array_filter_best_arch32_find heap rest best := by
          simp only [zif_package_array_filter_best_arch32_find, hskip, if_false, hgt]
        rw [hstep]
        obtain ⟨h1, h2, h3⟩ := ih best
        refine ⟨?_, h2, ?_⟩
        · rcases h1 with h | ⟨p, hp, hp2⟩
          · exact Or.inl h
          · exact Or.inr ⟨p, List.mem_cons_of_mem _ hp, hp2⟩
        · intro p hp h32
          rcases List.mem_cons.mp hp with h | h
          · subst h
            exact g_strcmp0_trans _ _ _ (by omega) h2
          · exact h3 p h h32


theorem best_arch32_loop_spec (heap : ZifHeap) (best_arch : Option Str) :
    ∀ (fuel i : Nat) (array : List Nat), array.length - i ≤ fuel →
      ∃ out, zif_package_array_filter_best_arch32_loop heap best_arch fuel i array = some out ∧
        ∀ h, out.count h = (array.take i).count h +
          if best_arch32_kept heap best_arch h then (array.drop i).count h else 0 := by
  intro fuel
  induction fuel with
  | zero =>
    intro i array hlen
    have hi : ¬ i < array.length := by omega
    refine ⟨array, by simp [zif_package_array_filter_best_arch32_loop, hi], ?_⟩
    intro h
    exact count_take_drop array i hi _ h
  | succ fuel ih =>
    intro i array hlen
    by_cases hi : i < array.length
    · obtain ⟨pre, suf, hsplit, hpre, htake, hdrop, hdrop1, htake1⟩ := split_at_index array i hi
      have hfacts := remove_fast_facts pre (array.get ⟨i, hi⟩) suf
      rw [← hsplit, hpre] at hfacts
      obtain ⟨f1, f2, _, f4⟩ := hfacts
      have hremove : ∀ out : List Nat,
          (∀ h, out.count h = ((g_ptr_array_remove_index_fast array i).take i).count h +
            if best_arch32_kept heap best_arch h then
              ((g_ptr_array_remove_index_fast array i).drop i).count h else 0) →
          best_arch32_kept heap best_arch (array.get ⟨i, hi⟩) = false →
          ∀ h, out.count h = (array.take i).count h +
            if best_arch32_kept heap best_arch h then (array.drop i).count h else 0 := by
        intro out hc hk h
        rw [hc h, f1, htake, f4.count_eq, hdrop]
        by_cases hmh : best_arch32_kept heap best_arch h = true
        · have hne : ¬ array.get ⟨i, hi⟩ = h := by
            intro he
            subst he
            rw [hk] at hmh
            cases hmh
          simp only [hmh, if_true]
          rw [List.count_cons_of_ne (Ne.symm hne)]
        · simp [hmh]
      have hfuel : (g_ptr_array_remove_index_fast array i).length - i ≤ fuel := by
        rw [f2]
        have : array.length = pre.length + (suf.length + 1) := by
          rw [hsplit]
          simp
        omega
      by_cases hnot : g_strcmp0 (zif_package_get_arch (heap (array.get ⟨i, hi⟩))) best_arch ≠ 0 ∧
          g_strcmp0 (zif_package_get_arch (heap (array.get ⟨i, hi⟩)))
            (some "noarch".toList) ≠ 0
      · obtain ⟨out, hrec, hc⟩ := ih i (g_ptr_array_remove_index_fast array i) hfuel
        refine ⟨out, ?_, hremove out hc ?_⟩
        · rw [zif_package_array_filter_best_arch32_loop]
          simp only [hi, dite_true]
          rw [if_pos hnot]
          exact hrec
        · have n1 : ¬ zif_package_get_arch (heap (array.get ⟨i, hi⟩)) = best_arch :=
            fun he => hnot.1 ((g_strcmp0_eq_zero _ _).mpr he)
          have n2 : ¬ zif_package_get_arch (heap (array.get ⟨i, hi⟩)) = some "noarch".toList :=
            fun he => hnot.2 ((g_strcmp0_eq_zero _ _).mpr he)
          unfold best_arch32_kept
          rw [decide_eq_false n1, decide_eq_false n2]
          rfl
      · by_cases h64 : g_strcmp0 (zif_package_get_arch (heap (array.get ⟨i, hi⟩)))
            (some "x86_64".toList) = 0
        · obtain ⟨out, hrec, hc⟩ := ih i (g_ptr_array_remove_index_fast array i) hfuel
          refine ⟨out, ?_, hremove out hc ?_⟩
          · rw [zif_package_array_filter_best_arch32_loop]
            simp only [hi, dite_true]
            rw [if_neg hnot, if_pos h64]
            exact hrec
          · unfold best_arch32_kept
            rw [decide_eq_true ((g_strcmp0_eq_zero _ _).mp h64)]
            simp
        · obtain ⟨out, hrec, hc⟩ := ih (i + 1) array (by omega)
          have hk : best_arch32_kept heap best_arch (array.get ⟨i, hi⟩) = true := by
            have n3 : ¬ zif_package_get_arch (heap (array.get ⟨i, hi⟩)) =
                some "x86_64".toList := fun he => h64 ((g_strcmp0_eq_zero _ _).mpr he)
            have hor : zif_package_get_arch (heap (array.get ⟨i, hi⟩)) = best_arch ∨
                zif_package_get_arch (heap (array.get ⟨i, hi⟩)) = some "noarch".toList := by
              by_contra hc2
              apply hnot
              constructor
              · intro he
                exact hc2 (Or.inl ((g_strcmp0_eq_zero _ _).mp he))
              · intro he
                exact hc2 (Or.inr ((g_strcmp0_eq_zero _ _).mp he))
            unfold best_arch32_kept
            rw [decide_eq_false n3]
            rcases hor with he | he
            · rw [decide_eq_true he]
              rfl
            · rw [decide_eq_true he]
              simp
          refine ⟨out, ?_, ?_⟩
          · rw [zif_package_array_filter_best_arch32_loop]
            simp only [hi, dite_true]
            rw [if_neg hnot, if_neg h64]
            exact hrec
          · intro h
            rw [hc h, htake, htake1, hdrop, hdrop1]
            by_cases hx : array.get ⟨i, hi⟩ = h
            · subst hx
              rw [if_pos hk, if_pos hk]
              simp only [List.count_append, List.count_cons_self, List.count_nil]
              omega
            · simp only [List.count_append, List.count_cons_of_ne (Ne.symm hx),
                List.count_nil, Nat.add_zero]
    · refine ⟨array, ?_, ?_⟩
      · rw [zif_package_array_filter_best_arch32_loop]
        simp only [hi, dite_false]
      · intro h
        exact count_take_drop array i hi _ h


/-- C21: for a target arch other than `x86_64` and an array with a package
whose architecture is neither `x86_64` nor `noarch`, with B the
lexicographically greatest such architecture of the array:
zif_package_array_filter_best_arch ends, and afterwards every package occurs
in the array as many times as before if its architecture is B or `noarch`, and
does not occur in it otherwise; no x86_64 package remains. -/
theorem zif_package_array_filter_best_arch_32 (api : ZifPackageApi) (heap : ZifHeap)
    (array : List Nat) (arch : Str) (harch : arch ≠ "x86_64".toList)
    (hsome : ∃ p ∈ array, is_arch32 (zif_package_get_arch (heap p)) = true) :
    ∃ best out,
      is_arch32 (some best) = true ∧
      (∃ p ∈ array, zif_package_get_arch (heap p) = some best) ∧
      (∀ p ∈ array, ∀ a, zif_package_get_arch (heap p) = some a → is_arch32 (some a) = true →
        strcmpSign a best ≤ 0) ∧
      zif_package_array_filter_best_arch api heap array arch = some out ∧
      (∀ package, out.count package =
        if zif_package_get_arch (heap package) = some best ∨
            zif_package_get_arch (heap package) = some "noarch".toList
        then array.count package else 0) ∧
      (∀ package ∈ out, zif_package_get_arch (heap package) ≠ some "x86_64".toList) := by
  obtain ⟨h1, _, h3⟩ := best_arch32_find_spec heap array none
  obtain ⟨p0, hp0, hp032⟩ := hsome
  have hp0le := h3 p0 hp0 hp032
  cases hbest : zif_package_array_filter_best_arch32_find heap array none with
  | none =>
    exfalso
    rw [hbest] at hp0le
    cases ha : zif_package_get_arch (heap p0) with
    | none =>
      rw [ha] at hp032
      cases hp032
    | some a =>
      rw [ha] at hp0le
      simp [g_strcmp0] at hp0le
  | some best =>
    rw [hbest] at h1 h3
    have hfrom : ∃ p ∈ array, is_arch32 (zif_package_get_arch (heap p)) = true ∧
        zif_package_get_arch (heap p) = some best := by
      rcases h1 with h | h
      · cases h
      · exact h
    obtain ⟨q, hq, hq32, hqa⟩ := hfrom
    have hb32 : is_arch32 (some best) = true := by
      rw [← hqa]
      exact hq32
    have hb64 : best ≠ "x86_64".toList := by
      intro hc
      rw [hc] at hb32
      revert hb32
      decide
    obtain ⟨out, hout, hcount⟩ := best_arch32_loop_spec heap (some best) array.length 0 array
      (by omega)
    have hkept : ∀ package, best_arch32_kept heap (some best) package = true ↔
        (zif_package_get_arch (heap package) = some best ∨
          zif_package_get_arch (heap package) = some "noarch".toList) := by
      intro package
      unfold best_arch32_kept
      constructor
      · intro hk
        simp only [Bool.and_eq_true, Bool.or_eq_true, decide_eq_true_eq] at hk
        exact hk.1
      · intro hk
        have n64 : ¬ zif_package_get_arch (heap package) = some "x86_64".toList := by
          intro hc
          rcases hk with h | h
          · rw [hc] at h
            exact hb64 (Option.some.inj h).symm
          · rw [hc] at h
            revert h
            decide
        rw [decide_eq_false n64]
        rcases hk with h | h
        · rw [decide_eq_true h]
          rfl
        · rw [decide_eq_true h]
          simp
    have hcount2 : ∀ package, out.count package =
        if zif_package_get_arch (heap package) = some best ∨
            zif_package_get_arch (heap package) = some "noarch".toList
        then array.count package else 0 := by
      intro package
      rw [hcount package]
      simp only [List.take_zero, List.count_nil, Nat.zero_add, List.drop_zero]
      by_cases hk : zif_package_get_arch (heap package) = some best ∨
          zif_package_get_arch (heap package) = some "noarch".toList
      · rw [if_pos ((hkept package).mpr hk), if_pos hk]
      · have hk2 : ¬ best_arch32_kept heap (some best) package = true :=
          fun hc => hk ((hkept package).mp hc)
        rw [if_neg hk2, if_neg hk]
    refine ⟨best, out, hb32, ⟨q, hq, hqa⟩, ?_, ?_, hcount2, ?_⟩
    · intro p hp a ha ha32
      have := h3 p hp (by rw [ha]; exact ha32)
      rw [ha] at this
      exact this
    · have hne : ¬ g_strcmp0 (some arch) (some "x86_64".toList) = 0 := by
        intro hc
        exact harch (Option.some.inj ((g_strcmp0_eq_zero _ _).mp hc))
      simp only [zif_package_array_filter_best_arch, hne, if_false,
        zif_package_array_filter_best_arch32, hbest, reduceCtorEq]
      exact hout
    · intro package hp hc
      have hpos : 0 < out.count package := List.count_pos_iff.mpr hp
      rw [hcount2 package] at hpos
      split_ifs at hpos with hk
      · rcases hk with h | h
        · rw [hc] at h
          exact hb64 (Option.some.inj h).symm
        · rw [hc] at h
          revert h
          decide
      · omega

theorem zif_package_array_filter_best_arch_32_witness :
    "i686".toList ≠ "x86_64".toList ∧
    zif_package_array_filter_best_arch zif_package_api heap_best_arch [0, 1, 2] "i686".toList =
      some [2] ∧
    zif_package_array_filter_best_arch zif_package_api heap_best_arch [0, 1, 2, 3, 4]
      "i686".toList = some [4, 2] ∧
    ∃ best out,
      is_arch32 (some best) = true ∧
      (∃ p ∈ [0, 1, 2, 3, 4], zif_package_get_arch (heap_best_arch p) = some best) ∧
      (∀ p ∈ [0, 1, 2, 3, 4], ∀ a, zif_package_get_arch (heap_best_arch p) = some a →
        is_arch32 (some a) = true → strcmpSign a best ≤ 0) ∧
      zif_package_array_filter_best_arch zif_package_api heap_best_arch [0, 1, 2, 3, 4]
        "i686".toList = some out ∧
      (∀ package, out.count package =
        if zif_package_get_arch (heap_best_arch package) = some best ∨
            zif_package_get_arch (heap_best_arch package) = some "noarch".toList
        then [0, 1, 2, 3, 4].count package else 0) ∧
      (∀ package ∈ out,
        zif_package_get_arch (heap_best_arch package) ≠ some "x86_64".toList) :=
  ⟨by decide, by decide, by decide,
    zif_package_array_filter_best_arch_32 zif_package_api heap_best_arch [0, 1, 2, 3, 4]
      "i686".toList (by decide) ⟨0, by decide, by decide⟩⟩


/-! ## The setters -/

/-- C24: the fields of a package are set once: for a package whose id is set
zif_package_set_id returns FALSE and leaves the package, its id with it, as it
is; and the setters of summary, description, license, url, category, group,
size, files, requires, provides, obsoletes and conflicts leave the whole
package as it is when the field is already set. The setter of an unset field
does set it. -/
theorem zif_package_set_once (package : ZifPackage) :
    (∀ (check : Str → Bool) (split : Str → List Str) (package_id : Str),
      package.package_id ≠ none →
      (zif_package_set_id check split package package_id).1.1 = false ∧
      (zif_package_set_id check split package package_id).2 = package) ∧
    (∀ summary, package.summary ≠ none → zif_package_set_summary package summary = package) ∧
    (∀ description, package.description ≠ none →
      zif_package_set_description package description = package) ∧
    (∀ license, package.license ≠ none → zif_package_set_license package license = package) ∧
    (∀ url, package.url ≠ none → zif_package_set_url package url = package) ∧
    (∀ category, package.category ≠ none →
      zif_package_set_category package category = package) ∧
    (∀ group, package.group ≠ none → zif_package_set_group package group = package) ∧
    (∀ size, package.size ≠ 0 → zif_package_set_size package size = package) ∧
    (∀ files, package.files ≠ none → zif_package_set_files package files = package) ∧
    (∀ requires, package.requires ≠ none →
      zif_package_set_requires package requires = package) ∧
    (∀ provides, package.provides_set = true →
      zif_package_set_provides package provides = package) ∧
    (∀ obsoletes, package.obsoletes ≠ none →
      zif_package_set_obsoletes package obsoletes = package) ∧
    (∀ conflicts, package.conflicts ≠ none →
      zif_package_set_conflicts package conflicts = package) ∧
    (zif_package_set_id (fun _ => true) (fun _ => []) package_hal
      "dbus;1.2-1;i386;fedora".toList).2.package_id = package_hal.package_id ∧
    (zif_package_set_summary (zif_package_set_summary zif_package_init "first".toList)
      "second".toList).summary = some "first".toList ∧
    (zif_package_set_size (zif_package_set_size zif_package_init 100) 200).size = 100 := by
  refine ⟨?_, ?_, ?_, ?_, ?_, ?_, ?_, ?_, ?_, ?_, ?_, ?_, ?_, by decide, by decide, by decide⟩
  · intro check split package_id h
    have hs : package.package_id.isSome = true := Option.isSome_iff_ne_none.mpr h
    simp only [zif_package_set_id, hs, if_true, and_self]
  · intro v h
    simp only [zif_package_set_summary, Option.isSome_iff_ne_none.mpr h, if_true]
  · intro v h
    simp only [zif_package_set_description, Option.isSome_iff_ne_none.mpr h, if_true]
  · intro v h
    simp only [zif_package_set_license, Option.isSome_iff_ne_none.mpr h, if_true]
  · intro v h
    simp only [zif_package_set_url, Option.isSome_iff_ne_none.mpr h, if_true]
  · intro v h
    simp only [zif_package_set_category, Option.isSome_iff_ne_none.mpr h, if_true]
  · intro v h
    simp only [zif_package_set_group, Option.isSome_iff_ne_none.mpr h, if_true]
  · intro v h
    simp only [zif_package_set_size, h, ne_eq, not_false_eq_true, if_true, ite_self]
  · intro v h
    simp only [zif_package_set_files, Option.isSome_iff_ne_none.mpr h, if_true]
  · intro v h
    simp only [zif_package_set_requires, Option.isSome_iff_ne_none.mpr h, if_true]
  · intro v h
    simp only [zif_package_set_provides, h, if_true]
  · intro v h
    simp only [zif_package_set_obsoletes, Option.isSome_iff_ne_none.mpr h, if_true]
  · intro v h
    simp only [zif_package_set_conflicts, Option.isSome_iff_ne_none.mpr h, if_true]


/-! ## zif_package_array_provide -/

theorem depend_loop_spec (query : ZifHeapQuery) (cmp : ZifDepend → ZifDepend → Int)
    (inv : ZifHeap → Prop) (array : List Nat) (depend : ZifDepend)
    (answer : Nat → Option ZifDepend) (hq : query_answers query inv array depend answer) :
    ∀ (rest : List Nat) (heap : ZifHeap) (provides : List Nat) (best : Option ZifDepend),
      inv heap → (∀ p ∈ rest, p ∈ array) →
      (zif_package_array_depend_loop query cmp depend rest heap provides best).status =
        ZifFilterStatus.ok ∧
      inv (zif_package_array_depend_loop query cmp depend rest heap provides best).heap ∧
      (zif_package_array_depend_loop query cmp depend rest heap provides best).results =
        provides ++ rest.filter (fun p => (answer p).isSome) ∧
      (zif_package_array_depend_loop query cmp depend rest heap provides best).best_depend =
        best_depend_fold cmp (rest.filterMap answer) best := by
  intro rest
  induction rest with
  | nil =>
    intro heap provides best hinv _
    simp [zif_package_array_depend_loop, best_depend_fold, hinv]
  | cons p rest ih =>
    intro heap provides best hinv hmem
    obtain ⟨heap2, hr, hinv2⟩ := hq heap p hinv (hmem p (List.mem_cons_self _ _))
    have hmem2 : ∀ q ∈ rest, q ∈ array := fun q hq2 => hmem q (List.mem_cons_of_mem _ hq2)
    cases ha : answer p with
    | none =>
      rw [ha] at hr
      have hstep : zif_package_array_depend_loop query cmp depend (p :: rest) heap provides
          best = zif_package_array_depend_loop query cmp depend rest heap2 provides best := by
        simp only [zif_package_array_depend_loop, hr]
      rw [hstep]
      obtain ⟨h1, h2, h3, h4⟩ := ih heap2 provides best hinv2 hmem2
      refine ⟨h1, h2, ?_, ?_⟩
      · rw [h3]
        simp [List.filter_cons, ha]
      · rw [h4]
        simp [List.filterMap_cons, ha]
    | some s =>
      rw [ha] at hr
      cases best with
      | none =>
        have hstep : zif_package_array_depend_loop query cmp depend (p :: rest) heap provides
            none = zif_package_array_depend_loop query cmp depend rest heap2 (provides ++ [p])
              (some s) := by
          simp only [zif_package_array_depend_loop, hr]
        rw [hstep]
        obtain ⟨h1, h2, h3, h4⟩ := ih heap2 (provides ++ [p]) (some s) hinv2 hmem2
        refine ⟨h1, h2, ?_, ?_⟩
        · rw [h3]
          simp [List.filter_cons, ha]
        · rw [h4]
          simp only [List.filterMap_cons, ha, best_depend_fold]
      | some b =>
        have hstep : zif_package_array_depend_loop query cmp depend (p :: rest) heap provides
            (some b) = zif_package_array_depend_loop query cmp depend rest heap2
              (provides ++ [p]) (if cmp s b > 0 then some s else some b) := by
          simp only [zif_package_array_depend_loop, hr]
        rw [hstep]
        obtain ⟨h1, h2, h3, h4⟩ := ih heap2 (provides ++ [p])
          (if cmp s b > 0 then some s else some b) hinv2 hmem2
        refine ⟨h1, h2, ?_, ?_⟩
        · rw [h3]
          simp [List.filter_cons, ha]
        · rw [h4]
          simp only [List.filterMap_cons, ha, best_depend_fold]
          split_ifs <;> rfl

theorem best_depend_fold_some (cmp : ZifDepend → ZifDepend → Int) :
    ∀ (rest : List ZifDepend) (b : ZifDepend),
      ∃ r, best_depend_fold cmp rest (some b) = some r := by
  intro rest
  induction rest with
  | nil =>
    intro b
    exact ⟨b, rfl⟩
  | cons s rest ih =>
    intro b
    simp only [best_depend_fold]
    split_ifs
    · exact ih s
    · exact ih b

theorem best_depend_fold_none (cmp : ZifDepend → ZifDepend → Int) (ms : List ZifDepend) :
    best_depend_fold cmp ms none = none ↔ ms = [] := by
  cases ms with
  | nil => simp [best_depend_fold]
  | cons s rest =>
    obtain ⟨r, hr⟩ := best_depend_fold_some cmp rest s
    simp [best_depend_fold, hr]

theorem best_depend_fold_spec (cmp : ZifDepend → ZifDepend → Int) (ms : List ZifDepend)
    (htotal : ∀ x ∈ ms, ∀ y ∈ ms, cmp x y ≤ 0 ∨ cmp y x ≤ 0)
    (htrans : ∀ x ∈ ms, ∀ y ∈ ms, ∀ z ∈ ms, cmp x y ≤ 0 → cmp y z ≤ 0 → cmp x z ≤ 0) :
    ∀ (rest pre : List ZifDepend) (i : Nat) (b : ZifDepend), ms = pre ++ rest →
      pre.get? i = some b → (∀ x ∈ pre, cmp x b ≤ 0) →
      (∀ j y, j < i → pre.get? j = some y → ∃ x ∈ pre, 0 < cmp x y) →
      ∃ k r, best_depend_fold cmp rest (some b) = some r ∧ ms.get? k = some r ∧
        (∀ x ∈ ms, cmp x r ≤ 0) ∧
        (∀ j y, j < k → ms.get? j = some y → ∃ x ∈ ms, 0 < cmp x y) := by
  intro rest
  induction rest with
  | nil =>
    intro pre i b harr hget hmax hleast
    simp only [List.append_nil] at harr
    subst harr
    exact ⟨i, b, rfl, hget, hmax, hleast⟩
  | cons t rest ih =>
    intro pre i b harr hget hmax hleast
    have harr2 : ms = (pre ++ [t]) ++ rest := by simp [harr]
    have hi : i < pre.length := by
      by_contra hc
      rw [List.get?_eq_none.mpr (Nat.le_of_not_lt hc)] at hget
      cases hget
    have hpre : ∀ x ∈ pre, x ∈ ms := fun x hx => by
      rw [harr]
      exact List.mem_append_left _ hx
    have ht : t ∈ ms := by
      rw [harr]
      simp
    have hb : b ∈ ms := hpre b (List.get?_mem hget)
    have hold : ∀ j, j < pre.length → (pre ++ [t]).get? j = pre.get? j := fun j hj => by
      simp only [List.get?_eq_getElem?]
      exact List.getElem?_append_left hj
    by_cases hpos : cmp t b > 0
    · have hstep : best_depend_fold cmp (t :: rest) (some b) =
          best_depend_fold cmp rest (some t) := by
        simp only [best_depend_fold, hpos, if_true]
      rw [hstep]
      have hbt : cmp b t ≤ 0 := by
        rcases htotal t ht b hb with h | h
        · omega
        · exact h
      refine ih (pre ++ [t]) pre.length t harr2 (by simp) ?_ ?_
      · intro x hx
        rcases List.mem_append.mp hx with h | h
        · exact htrans x (hpre x h) b hb t ht (hmax x h) hbt
        · simp only [List.mem_singleton] at h
          subst h
          rcases htotal x ht x ht with h2 | h2 <;> exact h2
      · intro j y hj hy
        rw [hold j hj] at hy
        refine ⟨t, by simp, ?_⟩
        by_contra hc
        have h1 : cmp t y ≤ 0 := by omega
        have h2 := htrans t ht y (hpre y (List.get?_mem hy)) b hb h1 (hmax y (List.get?_mem hy))
        omega
    · have hstep : best_depend_fold cmp (t :: rest) (some b) =
          best_depend_fold cmp rest (some b) := by
        simp only [best_depend_fold, hpos, if_false]
      rw [hstep]
      refine ih (pre ++ [t]) i b harr2 (by rw [hold i hi]; exact hget) ?_ ?_
      · intro x hx
        rcases List.mem_append.mp hx with h | h
        · exact hmax x h
        · simp only [List.mem_singleton] at h
          subst h
          omega
      · intro j y hj hy
        rw [hold j (by omega)] at hy
        obtain ⟨x, hx, hxy⟩ := hleast j y hj hy
        exact ⟨x, List.mem_append_left _ hx, hxy⟩


theorem example_heap_provides_answers :
    query_answers (zif_heap_query (zif_package_provides zif_depend_api) (fun _ => class_no_loader))
      (fun heap => heap = example_heap_provides) [0, 1, 2] depend_dbus_any dbus_answer := by
  intro heap package hinv hmem
  subst hinv
  have hcases : package = 0 ∨ package = 1 ∨ package = 2 := by simpa using hmem
  have hall : ∀ p ∈ [0, 1, 2],
      zif_package_provides zif_depend_api class_no_loader (example_heap_provides p)
        depend_dbus_any = (ZifQuery.found (dbus_answer p), example_heap_provides p) := by
    decide
  refine ⟨example_heap_provides, ?_, rfl⟩
  simp only [zif_heap_query]
  rw [hall package hmem]
  simp only [Function.update_eq_self]

/-- C23, amended: when no package query fails, zif_package_array_provide
returns TRUE with results equal to the subsequence, in array order, of the
packages whose provides query matches the dependency; best_depend is absent
if and only if results is empty; and with zif_depend_compare a total preorder
on the matched dependencies, best_depend is the matched dependency that is
greatest under it, the earliest one that none compares greater than. -/
theorem zif_package_array_provide_best (api : ZifDependApi) (classes : Nat → ZifPackageClass)
    (cmp : ZifDepend → ZifDepend → Int) (inv : ZifHeap → Prop) (heap : ZifHeap)
    (array : List Nat) (depend : ZifDepend) (answer : Nat → Option ZifDepend)
    (hq : query_answers (zif_heap_query (zif_package_provides api) classes) inv array depend
      answer)
    (hinv : inv heap) :
    (zif_package_array_provide api classes cmp heap array depend).status = ZifFilterStatus.ok ∧
    (zif_package_array_provide api classes cmp heap array depend).results =
      array.filter (fun p => (answer p).isSome) ∧
    ((zif_package_array_provide api classes cmp heap array depend).best_depend = none ↔
      (zif_package_array_provide api classes cmp heap array depend).results = []) ∧
    ((∀ x ∈ array.filterMap answer, ∀ y ∈ array.filterMap answer,
        cmp x y ≤ 0 ∨ cmp y x ≤ 0) →
      (∀ x ∈ array.filterMap answer, ∀ y ∈ array.filterMap answer,
        ∀ z ∈ array.filterMap answer, cmp x y ≤ 0 → cmp y z ≤ 0 → cmp x z ≤ 0) →
      ∀ best, (zif_package_array_provide api classes cmp heap array depend).best_depend =
        some best →
      ∃ i, (array.filterMap answer).get? i = some best ∧
        (∀ x ∈ array.filterMap answer, ¬ 0 < cmp x best) ∧
        (∀ j y, j < i → (array.filterMap answer).get? j = some y →
          ∃ x ∈ array.filterMap answer, 0 < cmp x y)) := by
  obtain ⟨h1, _, h3, h4⟩ := depend_loop_spec _ cmp inv array depend answer hq array heap []
    none hinv (fun p hp => hp)
  simp only [List.nil_append] at h3
  simp only [zif_package_array_provide, zif_package_array_depend]
  refine ⟨h1, h3, ?_, ?_⟩
  · rw [h4, h3, best_depend_fold_none]
    simp only [List.filterMap_eq_nil_iff, List.filter_eq_nil_iff]
    constructor
    · intro h p hp
      simp [h p hp]
    · intro h p hp
      have := h p hp
      simpa using this
  · intro htotal htrans best hbest
    rw [h4] at hbest
    cases hms : array.filterMap answer with
    | nil =>
      rw [hms] at hbest
      simp [best_depend_fold] at hbest
    | cons first rest =>
      rw [hms] at hbest htotal htrans
      simp only [best_depend_fold] at hbest
      obtain ⟨k, r, g1, g2, g3, g4⟩ := best_depend_fold_spec cmp (first :: rest) htotal htrans
        rest [first] 0 first rfl rfl
        (by
          intro x hx
          simp only [List.mem_singleton] at hx
          subst hx
          rcases htotal x (List.mem_cons_self _ _) x (List.mem_cons_self _ _) with h | h <;>
            exact h)
        (by
          intro j y hj
          omega)
      rw [g1] at hbest
      have := Option.some.inj hbest
      subst this
      exact ⟨k, g2, fun x hx => by have := g3 x hx; omega, g4⟩

theorem zif_package_array_provide_best_witness :
    (zif_package_array_provide zif_depend_api (fun _ => class_no_loader) zif_depend_compare
      example_heap_provides [0, 1, 2] depend_dbus_any).status = ZifFilterStatus.ok ∧
    (zif_package_array_provide zif_depend_api (fun _ => class_no_loader) zif_depend_compare
      example_heap_provides [0, 1, 2] depend_dbus_any).results = [0, 1] ∧
    (zif_package_array_provide zif_depend_api (fun _ => class_no_loader) zif_depend_compare
      example_heap_provides [0, 1, 2] depend_dbus_any).best_depend = some depend_dbus_1_4 ∧
    (∀ best, (zif_package_array_provide zif_depend_api (fun _ => class_no_loader)
        zif_depend_compare example_heap_provides [0, 1, 2] depend_dbus_any).best_depend =
        some best →
      ∃ i, ([0, 1, 2].filterMap dbus_answer).get? i = some best ∧
        (∀ x ∈ [0, 1, 2].filterMap dbus_answer, ¬ 0 < zif_depend_compare x best) ∧
        (∀ j y, j < i → ([0, 1, 2].filterMap dbus_answer).get? j = some y →
          ∃ x ∈ [0, 1, 2].filterMap dbus_answer, 0 < zif_depend_compare x y)) :=
  ⟨by decide, by decide, by decide,
    (zif_package_array_provide_best zif_depend_api (fun _ => class_no_loader)
      zif_depend_compare (fun heap => heap = example_heap_provides) example_heap_provides
      [0, 1, 2] depend_dbus_any dbus_answer example_heap_provides_answers rfl).2.2.2
      (by decide) (by decide)⟩

/-- C23, counterexample: of three packages that provide libfoo 1.0-1, libfoo
1.0 and libfoo 1.0-9, in this order, best_depend is libfoo 1.0-9; libfoo 1.0,
which comes before it, compares equal to it, and no matched dependency
compares greater than libfoo 1.0. -/
theorem zif_package_array_provide_later_equal :
    (zif_package_array_provide zif_depend_api (fun _ => class_no_loader) zif_depend_compare
      heap_libfoo [0, 1, 2] depend_libfoo_any).status = ZifFilterStatus.ok ∧
    (zif_package_array_provide zif_depend_api (fun _ => class_no_loader) zif_depend_compare
      heap_libfoo [0, 1, 2] depend_libfoo_any).results = [0, 1, 2] ∧
    (zif_package_array_provide zif_depend_api (fun _ => class_no_loader) zif_depend_compare
      heap_libfoo [0, 1, 2] depend_libfoo_any).best_depend = some depend_libfoo_1_0_9 ∧
    (∀ p ∈ [0, 1, 2], (zif_package_provides zif_depend_api class_no_loader (heap_libfoo p)
      depend_libfoo_any).1 = ZifQuery.found ((libfoo_provides p).head?)) ∧
    zif_depend_compare depend_libfoo_1_0 depend_libfoo_1_0_9 = 0 ∧
    zif_depend_compare depend_libfoo_1_0_9 depend_libfoo_1_0 = 0 ∧
    (∀ x ∈ [depend_libfoo_1_0_1, depend_libfoo_1_0, depend_libfoo_1_0_9],
      ¬ 0 < zif_depend_compare x depend_libfoo_1_0) := by
  refine ⟨by decide, by decide, by decide, by decide, by decide, by decide, by decide⟩

/-! ## zif-config.c: local overrides -/

theorem zif_config_lookup_insert (config : ZifConfig) (k key : Str) (value : Option Str) :
    zif_config_lookup { config with hash := g_hash_table_insert config.hash k value } key =
      if key = k then value else zif_config_lookup config key := by
  unfold zif_config_lookup
  simp only [lookup_insert]
  by_cases h : key = k
  · simp only [h, if_true]
    rfl
  · simp only [h, if_false]

theorem zif_config_set_local_facts (config : ZifConfig) (k : Str) (value : Option Str) :
    (zif_config_set_local config k value).2.loaded = config.loaded ∧
    (zif_config_set_local config k value).2.keyfile = config.keyfile ∧
    (∀ key v, zif_config_lookup config key = some v →
      zif_config_lookup (zif_config_set_local config k value).2 key = some v) := by
  unfold zif_config_set_local
  cases hl : zif_config_lookup config k with
  | some value_tmp => exact ⟨rfl, rfl, fun _ _ h => h⟩
  | none =>
    refine ⟨rfl, rfl, fun key v h => ?_⟩
    simp only []
    rw [zif_config_lookup_insert]
    have hne : key ≠ k := by
      intro e
      rw [e, hl] at h
      exact Option.noConfusion h
    rw [if_neg hne]
    exact h

/-- C31: zif_config_set_local returns TRUE exactly when the lookup of the key in
the table of local overrides gives NULL, that is when the key has no override
yet; then the key has the value given and no other key changes. When it
returns FALSE the config, and so the override of the key and every other
override, is as before, and the error names the override that stays. -/
theorem zif_config_set_local_once (config : ZifConfig) (key : Str) (value : Option Str) :
    ((zif_config_set_local config key value).1.1 = true ↔
      zif_config_lookup config key = none) ∧
    ((zif_config_set_local config key value).1.1 = false →
      (zif_config_set_local config key value).2 = config ∧
      (∀ other, zif_config_lookup (zif_config_set_local config key value).2 other =
        zif_config_lookup config other) ∧
      ∃ value_tmp, zif_config_lookup config key = some value_tmp ∧
        (zif_config_set_local config key value).1.2 =
          some ⟨"already set key ".toList ++ key ++ " to ".toList ++ value_tmp ++
            ", cannot overwrite with ".toList ++ printf_s value⟩) ∧
    ((zif_config_set_local config key value).1.1 = true →
      (zif_config_set_local config key value).1.2 = none ∧
      zif_config_lookup (zif_config_set_local config key value).2 key = value ∧
      ∀ other, other ≠ key →
        zif_config_lookup (zif_config_set_local config key value).2 other =
          zif_config_lookup config other) := by
  unfold zif_config_set_local
  cases hl : zif_config_lookup config key with
  | some value_tmp =>
    refine ⟨⟨fun h => Bool.noConfusion h, fun h => Option.noConfusion h⟩,
      fun _ => ⟨rfl, fun _ => rfl, value_tmp, rfl, rfl⟩, fun h => Bool.noConfusion h⟩
  | none =>
    refine ⟨⟨fun _ => rfl, fun _ => rfl⟩, fun h => Bool.noConfusion h, fun _ => ⟨rfl, ?_, ?_⟩⟩
    · simp only []
      rw [zif_config_lookup_insert, if_pos rfl]
    · intro other hne
      simp only []
      rw [zif_config_lookup_insert, if_neg hne]

theorem zif_config_set_locals_facts (overrides : List (Str × Option Str)) :
    ∀ config : ZifConfig,
    (zif_config_set_locals config overrides).loaded = config.loaded ∧
    (zif_config_set_locals config overrides).keyfile = config.keyfile ∧
    (∀ key v, zif_config_lookup config key = some v →
      zif_config_lookup (zif_config_set_locals config overrides) key = some v) := by
  induction overrides with
  | nil => exact fun config => ⟨rfl, rfl, fun _ _ h => h⟩
  | cons kv rest ih =>
    intro config
    obtain ⟨k, value⟩ := kv
    obtain ⟨h1, h2, h3⟩ := zif_config_set_local_facts config k value
    obtain ⟨i1, i2, i3⟩ := ih (zif_config_set_local config k value).2
    unfold zif_config_set_locals
    exact ⟨i1.trans h1, i2.trans h2, fun key v h => i3 key v (h3 key v h)⟩

theorem zif_config_get_string_override (env : ZifConfigEnv) (config : ZifConfig)
    (key v : Str) (hloaded : config.loaded = true)
    (h : zif_config_lookup config key = some v) :
    zif_config_get_string env config key = (some v, none) := by
  unfold zif_config_get_string
  simp only [hloaded, Bool.not_true, Bool.false_eq_true, if_false, h]

theorem zif_config_reset_default_eq (c config : ZifConfig)
    (h1 : c.keyfile = config.keyfile) (h2 : c.loaded = config.loaded)
    (h3 : config.hash = []) : (zif_config_reset_default c).2 = config := by
  cases c
  cases config
  simp only at h1 h2 h3
  subst h1
  subst h2
  subst h3
  rfl

/-- C32: on a loaded config that has no override yet, after any run of
zif_config_set_local calls, a zif_config_set_local (k, v) of a string v that
succeeds makes zif_config_get_string (k) return v, and so it stays over any
later run of zif_config_set_local calls; after zif_config_reset_default
zif_config_get_string returns for every key what it returned before the first
override was set, which comes from the config file. -/
theorem zif_config_override_shadows (env : ZifConfigEnv) (config : ZifConfig)
    (before later : List (Str × Option Str)) (k v : Str)
    (hloaded : config.loaded = true) (hnone : config.hash = [])
    (hset : (zif_config_set_local (zif_config_set_locals config before) k (some v)).1.1 =
      true) :
    zif_config_get_string env
      (zif_config_set_local (zif_config_set_locals config before) k (some v)).2 k =
        (some v, none) ∧
    zif_config_get_string env
      (zif_config_set_locals
        (zif_config_set_local (zif_config_set_locals config before) k (some v)).2 later) k =
        (some v, none) ∧
    (zif_config_reset_default
      (zif_config_set_locals
        (zif_config_set_local (zif_config_set_locals config before) k (some v)).2
          later)).1 = true ∧
    ∀ key, zif_config_get_string env
      (zif_config_reset_default
        (zif_config_set_locals
          (zif_config_set_local (zif_config_set_locals config before) k (some v)).2
            later)).2 key =
      zif_config_get_string env config key := by
  obtain ⟨b1, b2, _⟩ := zif_config_set_locals_facts before config
  obtain ⟨s1, s2, _⟩ := zif_config_set_local_facts (zif_config_set_locals config before) k
    (some v)
  obtain ⟨l1, l2, l3⟩ := zif_config_set_locals_facts later
    (zif_config_set_local (zif_config_set_locals config before) k (some v)).2
  have hk := ((zif_config_set_local_once (zif_config_set_locals config before) k
    (some v)).2.2 hset).2.1
  refine ⟨?_, ?_, rfl, ?_⟩
  · exact zif_config_get_string_override env _ k v (by rw [s1, b1, hloaded]) hk
  · exact zif_config_get_string_override env _ k v (by rw [l1, s1, b1, hloaded])
      (l3 k v hk)
  · intro key
    have hc : (zif_config_reset_default
        (zif_config_set_locals
          (zif_config_set_local (zif_config_set_locals config before) k (some v)).2
            later)).2 = config :=
      zif_config_reset_default_eq _ _ (l2.trans (s2.trans b2)) (l1.trans (s1.trans b1)) hnone
    rw [hc]

theorem zif_config_override_shadows_witness :
    test_config.loaded = true ∧ test_config.hash = [] ∧
    zif_config_get_string zif_config_env test_config "cachedir".toList =
      (some "../test/cache".toList, none) ∧
    (zif_config_set_local test_config "cachedir".toList (some "/tmp/cache".toList)).1.1 =
      true ∧
    zif_config_get_string zif_config_env
      (zif_config_set_local test_config "cachedir".toList (some "/tmp/cache".toList)).2
        "cachedir".toList = (some "/tmp/cache".toList, none) ∧
    ∀ key, zif_config_get_string zif_config_env
      (zif_config_reset_default
        (zif_config_set_local test_config "cachedir".toList
          (some "/tmp/cache".toList)).2).2 key =
      zif_config_get_string zif_config_env test_config key :=
  ⟨by decide, by decide, by decide, by decide,
    (zif_config_override_shadows zif_config_env test_config [] [] "cachedir".toList
      "/tmp/cache".toList (by decide) (by decide) (by decide)).1,
    (zif_config_override_shadows zif_config_env test_config [] [] "cachedir".toList
      "/tmp/cache".toList (by decide) (by decide) (by decide)).2.2.2⟩

/-- C33: on a config that is not loaded zif_config_get_string returns NULL with
the error `config not loaded` for every key, whatever the local overrides;
zif_config_get_boolean returns FALSE and zif_config_get_uint and
zif_config_get_time return 0, with that error. A new config is not loaded, it
stays so when zif_config_set_filename fails and under zif_config_set_local and
zif_config_reset_default, and it is so again after the file-changed
callback. -/
theorem zif_config_not_loaded (env : ZifConfigEnv) (egg : EggStringApi) (config : ZifConfig)
    (key : Str) (h : config.loaded = false) :
    zif_config_get_string env config key = (none, some ⟨"config not loaded".toList⟩) ∧
    zif_config_get_boolean env config key = (false, some ⟨"config not loaded".toList⟩) ∧
    zif_config_get_uint env egg config key = (0, some ⟨"config not loaded".toList⟩) ∧
    zif_config_get_time env egg config key = (0, some ⟨"config not loaded".toList⟩) ∧
    zif_config_init.loaded = false ∧
    (∀ filename, (zif_config_set_filename env config filename).1.1 = false →
      (zif_config_set_filename env config filename).2.loaded = false) ∧
    (∀ k value, (zif_config_set_local config k value).2.loaded = false) ∧
    (zif_config_reset_default config).2.loaded = false ∧
    ∀ other : ZifConfig, (zif_config_file_monitor_cb other).loaded = false := by
  have hs : zif_config_get_string env config key =
      (none, some ⟨"config not loaded".toList⟩) := by
    unfold zif_config_get_string
    simp only [h, Bool.not_false, if_true]
  refine ⟨hs, ?_, ?_, ?_, rfl, ?_, ?_, h, fun _ => rfl⟩
  · unfold zif_config_get_boolean
    rw [hs]
  · unfold zif_config_get_uint
    rw [hs]
  · unfold zif_config_get_time
    rw [hs]
  · intro filename hret
    unfold zif_config_set_filename at hret ⊢
    simp only [h, Bool.false_eq_true, if_false] at hret ⊢
    split_ifs at hret ⊢ with h1
    · exact h
    · cases h2 : env.zif_monitor_add_watch filename with
      | some message => exact h
      | none =>
        rw [h2] at hret
        simp only at hret ⊢
        cases h3 : env.g_key_file_load_from_file config.keyfile filename with
        | mk message keyfile =>
          rw [h3] at hret
          cases message with
          | some m => rfl
          | none => exact Bool.noConfusion hret
  · intro k value
    rw [(zif_config_set_local_facts config k value).1, h]

theorem zif_config_not_loaded_witness :
    (zif_config_set_local zif_config_init "cachedir".toList
      (some "/tmp/cache".toList)).2.loaded = false ∧
    zif_config_lookup (zif_config_set_local zif_config_init "cachedir".toList
      (some "/tmp/cache".toList)).2 "cachedir".toList = some "/tmp/cache".toList ∧
    zif_config_get_string zif_config_env
      (zif_config_set_local zif_config_init "cachedir".toList (some "/tmp/cache".toList)).2
      "cachedir".toList = (none, some ⟨"config not loaded".toList⟩) :=
  ⟨by decide, by decide,
    (zif_config_not_loaded zif_config_env egg_string_api
      (zif_config_set_local zif_config_init "cachedir".toList (some "/tmp/cache".toList)).2
      "cachedir".toList (by decide)).1⟩

/-! ## Reference counted arrays -/

theorem zif_string_array_ref_iterate (range : Nat) :
    ∀ (n : Nat) (array : ZifStringArray), array.count < range →
      Nat.iterate (zif_string_array_ref range) n (some array) =
        some { array with count := (array.count + n) % range } := by
  intro n
  induction n with
  | zero =>
    intro array h
    simp only [Function.iterate_zero, id_eq, Nat.add_zero, Nat.mod_eq_of_lt h]
  | succ n ih =>
    intro array h
    have hr : 0 < range := by omega
    rw [Function.iterate_succ_apply]
    simp only [zif_string_array_ref]
    rw [ih _ (Nat.mod_lt _ hr)]
    simp only [Nat.mod_add_mod]
    rw [Nat.add_assoc, Nat.add_comm 1 n]

theorem zif_string_array_unref_iterate (range : Nat) :
    ∀ (n : Nat) (array : ZifStringArray), n < array.count → array.count < range →
      Nat.iterate (zif_string_array_unref range) n (some array) =
        some { array with count := array.count - n } := by
  intro n
  induction n with
  | zero =>
    intro array _ _
    rfl
  | succ n ih =>
    intro array h1 h2
    rw [Function.iterate_succ_apply]
    have hc : (array.count + range - 1) % range = array.count - 1 := by
      have e : array.count + range - 1 = (array.count - 1) + range := by omega
      rw [e, Nat.add_mod_right]
      exact Nat.mod_eq_of_lt (by omega)
    have hne : ¬ array.count - 1 = 0 := by omega
    simp only [zif_string_array_unref, hc, hne, if_false]
    rw [ih _ (by simp only; omega) (by simp only; omega)]
    simp only [Nat.sub_sub, Nat.add_comm 1 n]

theorem zif_string_array_unref_none (range : Nat) :
    ∀ n : Nat, Nat.iterate (zif_string_array_unref range) n none = none := by
  intro n
  induction n with
  | zero => rfl
  | succ n ih =>
    rw [Function.iterate_succ_apply]
    exact ih

theorem zif_string_array_unref_last (range : Nat) (array : ZifStringArray)
    (h1 : array.count = 1) :
    zif_string_array_unref range (some array) = none := by
  have hc : (array.count + range - 1) % range = 0 := by
    rw [h1, Nat.add_sub_cancel_left, Nat.mod_self]
  simp only [zif_string_array_unref, hc, if_true]

theorem dum_depend_array_ref_iterate (range : Nat) :
    ∀ (n : Nat) (array : DumDependArray), array.count < range →
      Nat.iterate (dum_depend_array_ref range) n (some array) =
        some { array with count := (array.count + n) % range } := by
  intro n
  induction n with
  | zero =>
    intro array h
    simp only [Function.iterate_zero, id_eq, Nat.add_zero, Nat.mod_eq_of_lt h]
  | succ n ih =>
    intro array h
    have hr : 0 < range := by omega
    rw [Function.iterate_succ_apply]
    simp only [dum_depend_array_ref]
    rw [ih _ (Nat.mod_lt _ hr)]
    simp only [Nat.mod_add_mod]
    rw [Nat.add_assoc, Nat.add_comm 1 n]

theorem dum_depend_array_unref_iterate (range : Nat) :
    ∀ (n : Nat) (array : DumDependArray), n < array.count → array.count < range →
      Nat.iterate (dum_depend_array_unref range) n (some array) =
        some { array with count := array.count - n } := by
  intro n
  induction n with
  | zero =>
    intro array _ _
    rfl
  | succ n ih =>
    intro array h1 h2
    rw [Function.iterate_succ_apply]
    have hc : (array.count + range - 1) % range = array.count - 1 := by
      have e : array.count + range - 1 = (array.count - 1) + range := by omega
      rw [e, Nat.add_mod_right]
      exact Nat.mod_eq_of_lt (by omega)
    have hne : ¬ array.count - 1 = 0 := by omega
    simp only [dum_depend_array_unref, hc, hne, if_false]
    rw [ih _ (by simp only; omega) (by simp only; omega)]
    simp only [Nat.sub_sub, Nat.add_comm 1 n]

theorem dum_depend_array_unref_last (range : Nat) (array : DumDependArray)
    (h1 : array.count = 1) :
    dum_depend_array_unref range (some array) = none := by
  have hc : (array.count + range - 1) % range = 0 := by
    rw [h1, Nat.add_sub_cancel_left, Nat.mod_self]
  simp only [dum_depend_array_unref, hc, if_true]

/-- C34, corrected: with a count of `range` values (2^32 for a guint) and
n + 1 below `range`: a new array made from NULL has count 1 and length 0;
zif_string_array_ref raises a count below range - 1 by one, and
zif_string_array_unref lowers a count above 0 by one, returning the array when
the count stays above 0 and NULL when it reaches 0; n refs followed by n
unrefs of a new array leave the count at 1, and one more unref returns NULL.
The same holds of DumDependArray. -/
theorem zif_string_array_ref_unref (range n : Nat) (hn : n + 1 < range) :
    ((zif_string_array_new none).count = 1 ∧
      zif_string_array_get_length (zif_string_array_new none) = 0 ∧
      (∀ array : ZifStringArray, array.count + 1 < range →
        zif_string_array_ref range (some array) =
          some { array with count := array.count + 1 }) ∧
      (∀ array : ZifStringArray, 0 < array.count → array.count < range →
        zif_string_array_unref range (some array) =
          if array.count - 1 = 0 then none
          else some { array with count := array.count - 1 }) ∧
      (∀ value,
        Nat.iterate (zif_string_array_unref range) n
          (Nat.iterate (zif_string_array_ref range) n (some (zif_string_array_new value))) =
          some (zif_string_array_new value)) ∧
      ∀ value,
        zif_string_array_unref range
          (Nat.iterate (zif_string_array_unref range) n
            (Nat.iterate (zif_string_array_ref range) n
              (some (zif_string_array_new value)))) = none) ∧
    ((dum_depend_array_new none).count = 1 ∧
      (dum_depend_array_new none).value.length = 0 ∧
      (∀ array : DumDependArray, array.count + 1 < range →
        dum_depend_array_ref range (some array) =
          some { array with count := array.count + 1 }) ∧
      (∀ array : DumDependArray, 0 < array.count → array.count < range →
        dum_depend_array_unref range (some array) =
          if array.count - 1 = 0 then none
          else some { array with count := array.count - 1 }) ∧
      (∀ value,
        Nat.iterate (dum_depend_array_unref range) n
          (Nat.iterate (dum_depend_array_ref range) n (some (dum_depend_array_new value))) =
          some (dum_depend_array_new value)) ∧
      ∀ value,
        dum_depend_array_unref range
          (Nat.iterate (dum_depend_array_unref range) n
            (Nat.iterate (dum_depend_array_ref range) n
              (some (dum_depend_array_new value)))) = none) := by
  have hsub : ∀ c : Nat, 0 < c → c < range → (c + range - 1) % range = c - 1 := by
    intro c h1 h2
    have e : c + range - 1 = (c - 1) + range := by omega
    rw [e, Nat.add_mod_right]
    exact Nat.mod_eq_of_lt (by omega)
  have hz : ∀ value, (zif_string_array_new value).count = 1 := by
    intro value
    cases value <;> rfl
  have hd : ∀ value, (dum_depend_array_new value).count = 1 := by
    intro value
    cases value <;> rfl
  have hzn : ∀ value,
      Nat.iterate (zif_string_array_unref range) n
        (Nat.iterate (zif_string_array_ref range) n (some (zif_string_array_new value))) =
        some (zif_string_array_new value) := by
    intro value
    rw [zif_string_array_ref_iterate range n _ (by rw [hz]; omega), hz,
      Nat.mod_eq_of_lt (by omega),
      zif_string_array_unref_iterate range n _ (by simp only; omega) (by simp only; omega)]
    simp only [Nat.add_sub_cancel]
    cases value <;> rfl
  have hdn : ∀ value,
      Nat.iterate (dum_depend_array_unref range) n
        (Nat.iterate (dum_depend_array_ref range) n (some (dum_depend_array_new value))) =
        some (dum_depend_array_new value) := by
    intro value
    rw [dum_depend_array_ref_iterate range n _ (by rw [hd]; omega), hd,
      Nat.mod_eq_of_lt (by omega),
      dum_depend_array_unref_iterate range n _ (by simp only; omega) (by simp only; omega)]
    simp only [Nat.add_sub_cancel]
    cases value <;> rfl
  refine ⟨⟨rfl, rfl, ?_, ?_, hzn, ?_⟩, ⟨rfl, rfl, ?_, ?_, hdn, ?_⟩⟩
  · intro array h
    simp only [zif_string_array_ref, Nat.mod_eq_of_lt h]
  · intro array h1 h2
    simp only [zif_string_array_unref, hsub _ h1 h2]
  · intro value
    rw [hzn]
    exact zif_string_array_unref_last range _ (hz value)
  · intro array h
    simp only [dum_depend_array_ref, Nat.mod_eq_of_lt h]
  · intro array h1 h2
    simp only [dum_depend_array_unref, hsub _ h1 h2]
  · intro value
    rw [hdn]
    exact dum_depend_array_unref_last range _ (hd value)

theorem zif_string_array_ref_unref_witness :
    3 + 1 < GUINT_RANGE ∧
    Nat.iterate (zif_string_array_unref GUINT_RANGE) 3
      (Nat.iterate (zif_string_array_ref GUINT_RANGE) 3
        (some (zif_string_array_new none))) = some { value := [], count := 1 } ∧
    zif_string_array_unref GUINT_RANGE
      (Nat.iterate (zif_string_array_unref GUINT_RANGE) 3
        (Nat.iterate (zif_string_array_ref GUINT_RANGE) 3
          (some (zif_string_array_new none)))) = none ∧
    dum_depend_array_unref GUINT_RANGE
      (Nat.iterate (dum_depend_array_unref GUINT_RANGE) 3
        (Nat.iterate (dum_depend_array_ref GUINT_RANGE) 3
          (some (dum_depend_array_new none)))) = none :=
  ⟨by decide,
    (zif_string_array_ref_unref GUINT_RANGE 3 (by decide)).1.2.2.2.2.1 none,
    (zif_string_array_ref_unref GUINT_RANGE 3 (by decide)).1.2.2.2.2.2 none,
    (zif_string_array_ref_unref GUINT_RANGE 3 (by decide)).2.2.2.2.2.2 none⟩

/-- C34, counterexample: with a guint count, zif_string_array_ref at the count
4294967295 gives the count 0 and not 4294967296; after 4294967296 refs of a
new array the count is 1 again, the first unref that follows returns NULL, and
so do 4294967296 unrefs. -/
theorem zif_string_array_ref_wraps :
    zif_string_array_ref GUINT_RANGE (some { value := [], count := 4294967295 }) =
      some { value := [], count := 0 } ∧
    Nat.iterate (zif_string_array_ref GUINT_RANGE) 4294967296
      (some (zif_string_array_new none)) = some (zif_string_array_new none) ∧
    zif_string_array_unref GUINT_RANGE
      (Nat.iterate (zif_string_array_ref GUINT_RANGE) 4294967296
        (some (zif_string_array_new none))) = none ∧
    Nat.iterate (zif_string_array_unref GUINT_RANGE) 4294967296
      (Nat.iterate (zif_string_array_ref GUINT_RANGE) 4294967296
        (some (zif_string_array_new none))) = none := by
  have h : Nat.iterate (zif_string_array_ref GUINT_RANGE) 4294967296
      (some (zif_string_array_new none)) = some (zif_string_array_new none) := by
    rw [zif_string_array_ref_iterate GUINT_RANGE 4294967296 _ (by decide)]
    rfl
  have hu : zif_string_array_unref GUINT_RANGE (some (zif_string_array_new none)) = none :=
    zif_string_array_unref_last GUINT_RANGE _ rfl
  refine ⟨by decide, h, ?_, ?_⟩
  · rw [h, hu]
  · rw [h]
    have e : (4294967296 : Nat) = 4294967295 + 1 := by decide
    rw [e, Function.iterate_succ_apply, hu]
    exact zif_string_array_unref_none GUINT_RANGE 4294967295

/-! ## zif_string_array_unique -/

theorem string_array_unique_loop_eq :
    ∀ (rest : List Str) (hash : GHashTable Nat) (new seen : List Str),
      (∀ k, (g_hash_table_lookup hash k).isSome = true ↔ k ∈ seen) →
      zif_string_array_unique_loop rest hash new = new ++ keep_first id rest seen := by
  intro rest
  induction rest with
  | nil =>
    intro hash new seen _
    simp [zif_string_array_unique_loop, keep_first]
  | cons value rest ih =>
    intro hash new seen hs
    simp only [zif_string_array_unique_loop, keep_first, id_eq]
    cases hl : g_hash_table_lookup hash value with
    | none =>
      have hns : value ∉ seen := by
        intro hc
        have := (hs _).mpr hc
        rw [hl] at this
        cases this
      simp only [hns, if_false]
      rw [ih _ _ (value :: seen)]
      · simp
      · intro k
        rw [lookup_insert]
        by_cases hk : k = value
        · simp [hk]
        · simp only [hk, if_false, List.mem_cons, false_or]
          exact hs k
    | some v =>
      have hin : value ∈ seen := by
        apply (hs _).mp
        rw [hl]
        rfl
      simp only [hin, if_true]
      exact ih hash new seen hs

theorem string_array_unique_eq (array : ZifStringArray) :
    (zif_string_array_unique array).value = keep_first id array.value [] := by
  unfold zif_string_array_unique
  simp only [zif_string_array_new]
  rw [string_array_unique_loop_eq array.value [] [] []]
  · simp
  · intro k
    simp [g_hash_table_lookup, g_hash_table_lookup_extended]

theorem keep_first_index {α : Type} [DecidableEq α] [BEq α] [LawfulBEq α] :
    ∀ (xs seen : List α),
      List.Pairwise (fun x y => xs.indexOf x < xs.indexOf y) (keep_first id xs seen) := by
  intro xs
  induction xs with
  | nil =>
    intro seen
    simp [keep_first]
  | cons a xs ih =>
    intro seen
    have hstep : ∀ seen2 : List α, a ∈ seen2 →
        List.Pairwise (fun x y => (a :: xs).indexOf x < (a :: xs).indexOf y)
          (keep_first id xs seen2) := by
      intro seen2 ha
      refine (ih seen2).imp_of_mem ?_
      intro x y hx hy hlt
      have hxa : x ≠ a := fun e =>
        keep_first_not_seen id xs seen2 x hx (by rw [id_eq, e]; exact ha)
      have hya : y ≠ a := fun e =>
        keep_first_not_seen id xs seen2 y hy (by rw [id_eq, e]; exact ha)
      have e1 : (a == x) = false := beq_false_of_ne (Ne.symm hxa)
      have e2 : (a == y) = false := beq_false_of_ne (Ne.symm hya)
      simp only [List.indexOf_cons, e1, e2, cond_false]
      exact Nat.succ_lt_succ hlt
    simp only [keep_first, id_eq]
    split_ifs with h
    · exact hstep seen h
    · rw [List.pairwise_cons]
      refine ⟨?_, hstep (a :: seen) (List.mem_cons_self _ _)⟩
      intro y hy
      have hya : y ≠ a := fun e =>
        keep_first_not_seen id xs (a :: seen) y hy
          (by rw [id_eq, e]; exact List.mem_cons_self _ _)
      have e2 : (a == y) = false := beq_false_of_ne (Ne.symm hya)
      simp only [List.indexOf_cons, e2, cond_false, beq_self_eq_true, cond_true]
      exact Nat.succ_pos _

/-- C35: the array zif_string_array_unique returns is a new array of count 1 in
which every string of the array given occurs, no string occurs twice, and no
other string occurs; its strings stand in the order of their first places in the array
given, of which it is a sublist; the array given is an argument that is only
read; and zif_string_array_unique of the result gives an equal array. -/
theorem zif_string_array_unique_first (array : ZifStringArray) :
    (∀ s, s ∈ (zif_string_array_unique array).value ↔ s ∈ array.value) ∧
    (zif_string_array_unique array).value.Nodup ∧
    (zif_string_array_unique array).value.Sublist array.value ∧
    List.Pairwise (fun x y => array.value.indexOf x < array.value.indexOf y)
      (zif_string_array_unique array).value ∧
    (zif_string_array_unique array).count = 1 ∧
    zif_string_array_unique (zif_string_array_unique array) =
      zif_string_array_unique array ∧
    zif_string_array_unique
      (zif_string_array_new (some ["a".toList, "b".toList, "a".toList, "c".toList,
        "b".toList])) =
      zif_string_array_new (some ["a".toList, "b".toList, "c".toList]) := by
  have he := string_array_unique_eq array
  have hnd : (zif_string_array_unique array).value.Nodup := by
    have := keep_first_nodup id array.value []
    rw [List.map_id] at this
    rw [he]
    exact this
  have hsub : (zif_string_array_unique array).value.Sublist array.value := by
    rw [he]
    exact keep_first_sublist id array.value []
  refine ⟨?_, hnd, hsub, ?_, rfl, ?_, by decide⟩
  · intro s
    refine ⟨fun h => hsub.subset h, fun hs => ?_⟩
    rcases keep_first_cover id array.value [] s hs with h | h
    · cases h
    · rw [List.map_id] at h
      rw [he]
      exact h
  · rw [he]
    exact keep_first_index array.value []
  · have h2 := string_array_unique_eq (zif_string_array_unique array)
    have h3 : keep_first id (zif_string_array_unique array).value [] =
        (zif_string_array_unique array).value :=
      keep_first_id id _ [] (by rw [List.map_id]; exact hnd) (fun _ _ h => by cases h)
    rw [h3] at h2
    cases hu : zif_string_array_unique (zif_string_array_unique array) with
    | mk value count =>
      cases hv : zif_string_array_unique array with
      | mk value2 count2 =>
        have c1 : (zif_string_array_unique (zif_string_array_unique array)).count = 1 := rfl
        have c2 : (zif_string_array_unique array).count = 1 := rfl
        rw [hu] at h2 c1
        rw [hv] at h2 c2
        simp only at h2 c1 c2
        rw [h2, c1, c2]

/-! ## The fast path for file dependencies -/

theorem depend_search_eq (api : ZifDependApi) (lst : Option (List ZifDepend))
    (ah : GHashTable ZifDepend) (h : GHashTable (Option ZifDepend)) (d : ZifDepend) :
    zif_package_depend_search api lst ah h d =
      zif_package_depend_lookup api lst true ah h d := by
  unfold zif_package_depend_search zif_package_depend_lookup
  simp only [Bool.not_true, Bool.and_false, Bool.false_eq_true, if_false]

theorem depend_lookup_fast_path (api : ZifDependApi) (lst : Option (List ZifDepend))
    (af : Bool) (ah : GHashTable ZifDepend) (h : GHashTable (Option ZifDepend))
    (d : ZifDepend) :
    zif_package_depend_lookup api lst af ah h d =
      if (is_file_depend d.name && !af) = true then (ZifQuery.found none, h)
      else zif_package_depend_search api lst ah h d := by
  unfold zif_package_depend_search zif_package_depend_lookup
  rfl

theorem depend_lookup_file_core (api : ZifDependApi) (l : List ZifDepend) (af : Bool)
    (ah : GHashTable ZifDepend) (h : GHashTable (Option ZifDepend)) (d : ZifDepend)
    (earlier : List ZifDepend) (hidx : AnyIndexed l ah af)
    (hc : CacheFrom api l (fun x => x ∈ earlier) h)
    (hfile : is_file_depend d.name = true) (hl : ∀ e ∈ l, is_file_depend e.name = false)
    (hname : ∀ e, api.zif_depend_satisfies e d = true → e.name = d.name) :
    ((af = false ∨ description_decides api earlier d) →
      fast_path_agrees api (zif_package_depend_lookup api (some l) af ah h d).1 l ah d) ∧
    (description_decides api earlier d →
      (zif_package_depend_search api (some l) ah h d).1 = ZifQuery.found none) := by
  have hne : ∀ e ∈ l, e.name ≠ d.name := by
    intro e he heq
    have := hl e he
    rw [heq, hfile] at this
    exact Bool.noConfusion this
  have hfind : l.find? (fun e => api.zif_depend_satisfies e d) = none := by
    rw [List.find?_eq_none]
    intro e he hs
    exact hne e he (hname e hs)
  have hlook : g_hash_table_lookup_extended ah d.name = none := by
    cases hq : g_hash_table_lookup_extended ah d.name with
    | none => rfl
    | some e =>
      obtain ⟨h1, h2⟩ := hidx.1 _ _ hq
      exact absurd h2 (hne e h1)
  have hgen : description_decides api earlier d → ∀ af2 : Bool, AnyIndexed l ah af2 →
      (zif_package_depend_lookup api (some l) af2 ah h d).1 = ZifQuery.found none := by
    intro hdesc af2 hidx2
    by_cases hflag : d.flag = ZIF_DEPEND_FLAG_ANY
    · obtain ⟨r, hr, hiff, _⟩ := depend_lookup_any api (some l) l af2 ah h d hidx2 hflag
      rw [hr]
      cases r with
      | none => rfl
      | some e =>
        obtain ⟨e2, he2, hn2⟩ := hiff.mp rfl
        exact absurd hn2 (hne e2 he2)
    · rw [depend_lookup_scan api l af2 ah h d (fun x => x ∈ earlier) hflag hidx2.2.2
        (fun e _ => hname e) hc (fun d2 h2 heq e _ => hdesc d2 h2 heq e), hfind]
  refine ⟨fun hcase => ⟨?_, hlook, hfind⟩, fun hdesc => ?_⟩
  · rcases hcase with h0 | hdesc
    · rw [depend_lookup_fast_path, h0]
      simp only [hfile, Bool.not_false, Bool.and_self, if_true]
    · exact hgen hdesc af hidx
  · rw [depend_search_eq]
    exact hgen hdesc true ⟨hidx.1, hidx.2.1, fun _ _ _ => rfl⟩

theorem any_file_false (l : List ZifDepend) (hl : ∀ e ∈ l, is_file_depend e.name = false) :
    l.any (fun depend_tmp => is_file_depend depend_tmp.name) = false := by
  rw [List.any_eq_false]
  intro e he
  rw [hl e he]
  exact Bool.false_ne_true

theorem set_requires_no_file (p0 : ZifPackage) (l : List ZifDepend) (h : requires_unset p0)
    (hf : p0.any_file_requires = false) (hl : ∀ e ∈ l, is_file_depend e.name = false) :
    (zif_package_set_requires p0 l).any_file_requires = false := by
  unfold zif_package_set_requires
  simp only [h.1, Option.isSome_none, Bool.false_eq_true, if_false, hf, any_file_false l hl,
    Bool.or_self]

theorem set_conflicts_no_file (p0 : ZifPackage) (l : List ZifDepend) (h : conflicts_unset p0)
    (hf : p0.any_file_conflicts = false) (hl : ∀ e ∈ l, is_file_depend e.name = false) :
    (zif_package_set_conflicts p0 l).any_file_conflicts = false := by
  unfold zif_package_set_conflicts
  simp only [h.1, Option.isSome_none, Bool.false_eq_true, if_false, hf, any_file_false l hl,
    Bool.or_self]

theorem set_obsoletes_no_file (p0 : ZifPackage) (l : List ZifDepend) (h : obsoletes_unset p0)
    (hf : p0.any_file_obsoletes = false) (hl : ∀ e ∈ l, is_file_depend e.name = false) :
    (zif_package_set_obsoletes p0 l).any_file_obsoletes = false := by
  unfold zif_package_set_obsoletes
  simp only [h.1, Option.isSome_none, Bool.false_eq_true, if_false, hf, any_file_false l hl,
    Bool.or_self]

theorem set_provides_no_file (p0 : ZifPackage) (l : List ZifDepend) (h : provides_unset p0)
    (hf : p0.any_file_provides = false) (hl : ∀ e ∈ l, is_file_depend e.name = false) :
    (zif_package_set_files (zif_package_set_provides p0 l) []).any_file_provides = false ∧
    (zif_package_set_provides (zif_package_set_files p0 []) l).any_file_provides = false := by
  unfold zif_package_set_files zif_package_set_provides
  simp only [h.1, h.2.1, Option.isSome_none, Bool.false_eq_true, if_false, hf,
    any_file_false l hl, Bool.or_self, List.isEmpty_nil, Bool.not_true, and_self]

/-- C36, corrected: for a dependency whose name begins with a slash and a new
package whose requires (conflicts, obsoletes) have been set and have no entry
whose name begins with a slash, after any earlier queries of the same kind,
the query returns absent, the any cache has no entry under the name and the
scan with zif_depend_satisfies finds none, given that the dependency is only
satisfied by an entry of the same name; the statements after the fast path
return absent as well, given that an earlier dependency with the same
description is satisfied by the same entries. For provides the same holds
when the provides and the files have both been set, in either order, and
give no such entry: without files on a new package, or given the condition on
the descriptions. -/
theorem zif_package_fast_path (api : ZifDependApi) (k : ZifPackageClass) (p0 : ZifPackage)
    (l : List ZifDepend) (files : List Str) (earlier : List ZifDepend) (dep : ZifDepend)
    (hfile : is_file_depend dep.name = true)
    (hl : ∀ e ∈ l, is_file_depend e.name = false)
    (hname : ∀ e, api.zif_depend_satisfies e dep = true → e.name = dep.name) :
    (requires_unset p0 → p0.any_file_requires = false →
      fast_path_agrees api
        (zif_package_requires api k
          (zif_package_queries (zif_package_requires api k) (zif_package_set_requires p0 l)
            earlier) dep).1 l
        (zif_package_queries (zif_package_requires api k) (zif_package_set_requires p0 l)
            earlier).requires_any_hash dep ∧
      (description_decides api earlier dep →
        (zif_package_depend_search api (some l)
          (zif_package_queries (zif_package_requires api k) (zif_package_set_requires p0 l)
            earlier).requires_any_hash
          (zif_package_queries (zif_package_requires api k) (zif_package_set_requires p0 l)
            earlier).requires_hash dep).1 = ZifQuery.found none)) ∧
    (conflicts_unset p0 → p0.any_file_conflicts = false →
      fast_path_agrees api
        (zif_package_conflicts api k
          (zif_package_queries (zif_package_conflicts api k) (zif_package_set_conflicts p0 l)
            earlier) dep).1 l
        (zif_package_queries (zif_package_conflicts api k) (zif_package_set_conflicts p0 l)
            earlier).conflicts_any_hash dep ∧
      (description_decides api earlier dep →
        (zif_package_depend_search api (some l)
          (zif_package_queries (zif_package_conflicts api k) (zif_package_set_conflicts p0 l)
            earlier).conflicts_any_hash
          (zif_package_queries (zif_package_conflicts api k) (zif_package_set_conflicts p0 l)
            earlier).conflicts_hash dep).1 = ZifQuery.found none)) ∧
    (obsoletes_unset p0 → p0.any_file_obsoletes = false →
      fast_path_agrees api
        (zif_package_obsoletes api k
          (zif_package_queries (zif_package_obsoletes api k) (zif_package_set_obsoletes p0 l)
            earlier) dep).1 l
        (zif_package_queries (zif_package_obsoletes api k) (zif_package_set_obsoletes p0 l)
            earlier).obsoletes_any_hash dep ∧
      (description_decides api earlier dep →
        (zif_package_depend_search api (some l)
          (zif_package_queries (zif_package_obsoletes api k) (zif_package_set_obsoletes p0 l)
            earlier).obsoletes_any_hash
          (zif_package_queries (zif_package_obsoletes api k) (zif_package_set_obsoletes p0 l)
            earlier).obsoletes_hash dep).1 = ZifQuery.found none)) ∧
    (provides_unset p0 → (∀ f ∈ files, is_file_depend f = false) →
      ((((files = [] ∧ p0.any_file_provides = false) ∨ description_decides api earlier dep) →
        fast_path_agrees api
          (zif_package_provides api k
            (zif_package_queries (zif_package_provides api k) (zif_package_set_files (zif_package_set_provides p0 l) files)
            earlier) dep).1 (l ++ files.map file_depend)
          (zif_package_queries (zif_package_provides api k) (zif_package_set_files (zif_package_set_provides p0 l) files)
            earlier).provides_any_hash dep) ∧
      (description_decides api earlier dep →
        (zif_package_depend_search api (some (l ++ files.map file_depend))
          (zif_package_queries (zif_package_provides api k) (zif_package_set_files (zif_package_set_provides p0 l) files)
            earlier).provides_any_hash
          (zif_package_queries (zif_package_provides api k) (zif_package_set_files (zif_package_set_provides p0 l) files)
            earlier).provides_hash dep).1 = ZifQuery.found none)) ∧
      ((((files = [] ∧ p0.any_file_provides = false) ∨ description_decides api earlier dep) →
        fast_path_agrees api
          (zif_package_provides api k
            (zif_package_queries (zif_package_provides api k) (zif_package_set_provides (zif_package_set_files p0 files) l)
            earlier) dep).1 (files.map file_depend ++ l)
          (zif_package_queries (zif_package_provides api k) (zif_package_set_provides (zif_package_set_files p0 files) l)
            earlier).provides_any_hash dep) ∧
      (description_decides api earlier dep →
        (zif_package_depend_search api (some (files.map file_depend ++ l))
          (zif_package_queries (zif_package_provides api k) (zif_package_set_provides (zif_package_set_files p0 files) l)
            earlier).provides_any_hash
          (zif_package_queries (zif_package_provides api k) (zif_package_set_provides (zif_package_set_files p0 files) l)
            earlier).provides_hash dep).1 = ZifQuery.found none))) := by
  have hask : ∀ d ∈ earlier, (fun x => x ∈ earlier) d := fun d hd => hd
  refine ⟨?_, ?_, ?_, ?_⟩
  · intro h0 hf0
    obtain ⟨h1, h2, h3⟩ := set_requires_indexed p0 l h0
    have hflag := set_requires_no_file p0 l h0 hf0 hl
    obtain ⟨hash, hq, hcache⟩ := requires_queries api k l (fun x => x ∈ earlier) earlier _ h1
      (by rw [h3]; exact cacheFrom_nil _ _ _) hask
    rw [hq, zif_package_requires_loaded api k
      { zif_package_set_requires p0 l with requires_hash := hash } dep l h1]
    have core := depend_lookup_file_core api l (zif_package_set_requires p0 l).any_file_requires
      (zif_package_set_requires p0 l).requires_any_hash hash dep earlier h2 hcache hfile hl hname
    exact ⟨core.1 (Or.inl hflag), core.2⟩
  · intro h0 hf0
    obtain ⟨h1, h2, h3⟩ := set_conflicts_indexed p0 l h0
    have hflag := set_conflicts_no_file p0 l h0 hf0 hl
    obtain ⟨hash, hq, hcache⟩ := conflicts_queries api k l (fun x => x ∈ earlier) earlier _ h1
      (by rw [h3]; exact cacheFrom_nil _ _ _) hask
    rw [hq, zif_package_conflicts_loaded api k
      { zif_package_set_conflicts p0 l with conflicts_hash := hash } dep l h1]
    have core := depend_lookup_file_core api l (zif_package_set_conflicts p0 l).any_file_conflicts
      (zif_package_set_conflicts p0 l).conflicts_any_hash hash dep earlier h2 hcache hfile hl hname
    exact ⟨core.1 (Or.inl hflag), core.2⟩
  · intro h0 hf0
    obtain ⟨h1, h2, h3⟩ := set_obsoletes_indexed p0 l h0
    have hflag := set_obsoletes_no_file p0 l h0 hf0 hl
    obtain ⟨hash, hq, hcache⟩ := obsoletes_queries api k l (fun x => x ∈ earlier) earlier _ h1
      (by rw [h3]; exact cacheFrom_nil _ _ _) hask
    rw [hq, zif_package_obsoletes_loaded api k
      { zif_package_set_obsoletes p0 l with obsoletes_hash := hash } dep l h1]
    have core := depend_lookup_file_core api l (zif_package_set_obsoletes p0 l).any_file_obsoletes
      (zif_package_set_obsoletes p0 l).obsoletes_any_hash hash dep earlier h2 hcache hfile hl hname
    exact ⟨core.1 (Or.inl hflag), core.2⟩
  · intro h0 hfiles
    have hlf : ∀ e ∈ files.map file_depend, is_file_depend e.name = false := by
      intro e he
      obtain ⟨f, hf, rfl⟩ := List.mem_map.mp he
      exact hfiles f hf
    constructor
    · obtain ⟨hld, hlist⟩ := set_provides_files_loaded api (fun x => x ∈ earlier) p0 l files h0
      obtain ⟨hash, hq, hcache⟩ := provides_queries api k (fun x => x ∈ earlier) earlier _ hld
        hask
      have hlp : ∀ e ∈ (zif_package_set_files (zif_package_set_provides p0 l) files).provides,
          is_file_depend e.name = false := by
        intro e he
        rw [hlist] at he
        rcases List.mem_append.mp he with h | h
        · exact hl e h
        · exact hlf e h
      have core := depend_lookup_file_core api
        (zif_package_set_files (zif_package_set_provides p0 l) files).provides
        (zif_package_set_files (zif_package_set_provides p0 l) files).any_file_provides
        (zif_package_set_files (zif_package_set_provides p0 l) files).provides_any_hash hash dep earlier
        hld.2.2.1 hcache hfile hlp hname
      rw [hq, ← hlist, zif_package_provides_loaded api k
        { zif_package_set_files (zif_package_set_provides p0 l) files with provides_hash := hash } dep hld.1 hld.2.1]
      refine ⟨fun hcase => core.1 ?_, core.2⟩
      rcases hcase with ⟨hnil, hf0⟩ | hdesc
      · left
        subst hnil
        exact (set_provides_no_file p0 l h0 hf0 hl).1
      · exact Or.inr hdesc
    · obtain ⟨hld, hlist⟩ := set_files_provides_loaded api (fun x => x ∈ earlier) p0 l files h0
      obtain ⟨hash, hq, hcache⟩ := provides_queries api k (fun x => x ∈ earlier) earlier _ hld
        hask
      have hlp : ∀ e ∈ (zif_package_set_provides (zif_package_set_files p0 files) l).provides,
          is_file_depend e.name = false := by
        intro e he
        rw [hlist] at he
        rcases List.mem_append.mp he with h | h
        · exact hlf e h
        · exact hl e h
      have core := depend_lookup_file_core api
        (zif_package_set_provides (zif_package_set_files p0 files) l).provides
        (zif_package_set_provides (zif_package_set_files p0 files) l).any_file_provides
        (zif_package_set_provides (zif_package_set_files p0 files) l).provides_any_hash hash dep earlier
        hld.2.2.1 hcache hfile hlp hname
      rw [hq, ← hlist, zif_package_provides_loaded api k
        { zif_package_set_provides (zif_package_set_files p0 files) l with provides_hash := hash } dep hld.1 hld.2.1]
      refine ⟨fun hcase => core.1 ?_, core.2⟩
      rcases hcase with ⟨hnil, hf0⟩ | hdesc
      · left
        subst hnil
        exact (set_provides_no_file p0 l h0 hf0 hl).2
      · exact Or.inr hdesc

theorem zif_package_fast_path_witness :
    is_file_depend depend_sh_any.name = true ∧
    (∀ e ∈ [depend_dbus_1_2, depend_dbus_1_4], is_file_depend e.name = false) ∧
    requires_unset package_hal ∧ package_hal.any_file_requires = false ∧
    fast_path_agrees zif_depend_api
      (zif_package_requires zif_depend_api class_no_loader
        (zif_package_queries (zif_package_requires zif_depend_api class_no_loader)
          (zif_package_set_requires package_hal [depend_dbus_1_2, depend_dbus_1_4])
          [depend_dbus_newer]) depend_sh_any).1 [depend_dbus_1_2, depend_dbus_1_4]
      (zif_package_queries (zif_package_requires zif_depend_api class_no_loader)
        (zif_package_set_requires package_hal [depend_dbus_1_2, depend_dbus_1_4])
        [depend_dbus_newer]).requires_any_hash depend_sh_any ∧
    (zif_package_provides zif_depend_api class_no_loader
      (zif_package_queries (zif_package_provides zif_depend_api class_no_loader)
        (zif_package_set_files
          (zif_package_set_provides package_hal [depend_dbus_1_2, depend_dbus_1_4])
          ["COPYING".toList]) [depend_dbus_newer]) depend_sh_any).1 = ZifQuery.found none :=
  ⟨by decide, by decide, ⟨rfl, rfl, rfl⟩, rfl,
    ((zif_package_fast_path zif_depend_api class_no_loader package_hal
      [depend_dbus_1_2, depend_dbus_1_4] ["COPYING".toList] [depend_dbus_newer]
      depend_sh_any (by decide) (by decide)
      (by
        intro e h
        simp only [zif_depend_api, zif_depend_satisfies, Bool.and_eq_true, decide_eq_true_eq] at h
        exact h.1)).1 ⟨rfl, rfl, rfl⟩ rfl).1,
    by decide⟩

/-- C36, counterexample: the provides of a package are set to one entry named
dbus, so no entry begins with a slash, and the files are not set; for the
dependency `/bin/sh` zif_package_provides loads the files first: with a loader
that sets the file `/bin/sh` it returns that file as a provide and not
absent, and without a loader it fails. -/
theorem zif_package_provides_fast_path_loads_files :
    (zif_package_set_provides package_hal [depend_dbus_1_2]).provides_set = true ∧
    (zif_package_set_provides package_hal [depend_dbus_1_2]).provides = [depend_dbus_1_2] ∧
    is_file_depend depend_dbus_1_2.name = false ∧
    is_file_depend depend_sh_any.name = true ∧
    (zif_package_set_provides package_hal [depend_dbus_1_2]).any_file_provides = false ∧
    (zif_package_provides zif_depend_api class_files_loader
      (zif_package_set_provides package_hal [depend_dbus_1_2]) depend_sh_any).1 =
      ZifQuery.found (some (file_depend "/bin/sh".toList)) ∧
    (zif_package_provides zif_depend_api class_no_loader
      (zif_package_set_provides package_hal [depend_dbus_1_2]) depend_sh_any).1 =
      ZifQuery.failed
        { message := "cannot get files data from hal;0.5.8-1;i386;fedora".toList } := by
  decide

/-! ## The progress calls of the filters -/

theorem done_calls_append (st : ZifStateNode) (a b : ZifStateLog) :
    zif_state_done_calls st (a ++ b) = zif_state_done_calls st a + zif_state_done_calls st b := by
  unfold zif_state_done_calls
  exact List.countP_append _ _ _

theorem steps_append (st : ZifStateNode) (a b : ZifStateLog) :
    zif_state_steps st (a ++ b) = zif_state_steps st a ++ zif_state_steps st b := by
  unfold zif_state_steps
  exact List.filterMap_append _ _ _

theorem remove_fast_length {α : Type} (array : List α) (i : Nat) (h : i < array.length) :
    (g_ptr_array_remove_index_fast array i).length = array.length - 1 := by
  unfold g_ptr_array_remove_index_fast
  rw [if_pos h]
  cases hl : array.getLast? with
  | none =>
    rw [List.getLast?_eq_none_iff] at hl
    subst hl
    cases h
  | some last => simp

theorem filter_depends_log (query : ZifHeapQuery) (impl : ZifStateImpl) (package : Nat)
    (node : ZifStateNode) :
    ∀ (ds : List ZifDepend) (s : ZifFilterState),
      ∃ extra,
        (zif_package_array_filter_depends query impl package node ds s).2.log =
          s.log ++ extra ∧
        (zif_package_array_filter_depends query impl package node ds s).2.array = s.array ∧
        zif_state_done_calls node extra ≤ ds.length ∧
        (∀ other, other ≠ node → zif_state_done_calls other extra = 0) ∧
        (∀ st, zif_state_steps st extra = []) := by
  intro ds
  induction ds with
  | nil =>
    intro s
    refine ⟨[], ?_, ?_, Nat.zero_le _, fun _ _ => rfl, fun _ => rfl⟩
    · simp [zif_package_array_filter_depends]
    · simp [zif_package_array_filter_depends]
  | cons d rest ih =>
    intro s
    have hgc : ∀ st, zif_state_done_calls st [(ZifStateCall.get_child node, true)] = 0 :=
      fun _ => rfl
    have hfin : ∀ st ok, zif_state_done_calls st [(ZifStateCall.finished node, ok)] = 0 :=
      fun _ _ => rfl
    have hdone : ∀ ok, zif_state_done_calls node [(ZifStateCall.done node, ok)] = 1 := by
      intro ok
      simp [zif_state_done_calls]
    have hdone2 : ∀ other ok, other ≠ node →
        zif_state_done_calls other [(ZifStateCall.done node, ok)] = 0 := by
      intro other ok hne
      simp [zif_state_done_calls, Ne.symm hne]
    simp only [zif_package_array_filter_depends]
    cases hq : query s.heap package d with
    | mk r heap =>
      cases r with
      | failed e =>
        exact ⟨[(ZifStateCall.get_child node, true)], rfl, rfl, by rw [hgc]; exact Nat.zero_le _,
          fun _ _ => rfl, fun _ => rfl⟩
      | undefined =>
        exact ⟨[(ZifStateCall.get_child node, true)], rfl, rfl, by rw [hgc]; exact Nat.zero_le _,
          fun _ _ => rfl, fun _ => rfl⟩
      | found sat =>
        simp only []
        by_cases hs : sat.isSome = true
        · simp only [hs, if_true]
          refine ⟨[(ZifStateCall.get_child node, true),
            (ZifStateCall.finished node,
              impl (s.log ++ [(ZifStateCall.get_child node, true)])
                (ZifStateCall.finished node))], ?_, ?_, ?_, fun _ _ => rfl, fun _ => rfl⟩
          · split_ifs <;> simp
          · split_ifs <;> rfl
          · exact Nat.zero_le _
        · simp only [hs, Bool.false_eq_true, if_false]
          by_cases hok : impl (s.log ++ [(ZifStateCall.get_child node, true)])
              (ZifStateCall.done node) = true
          · simp only [hok, if_true]
            obtain ⟨extra, h1, h2, h3, h4, h5⟩ := ih
              { array := s.array, heap := heap, satisfies := sat,
                log := s.log ++ [(ZifStateCall.get_child node, true)] ++
                  [(ZifStateCall.done node, true)] }
            refine ⟨[(ZifStateCall.get_child node, true)] ++
              [(ZifStateCall.done node, true)] ++ extra, ?_, h2, ?_, ?_, ?_⟩
            · rw [h1]
              simp
            · rw [done_calls_append, done_calls_append, hgc, hdone, List.length_cons]
              omega
            · intro other hne
              rw [done_calls_append, done_calls_append, hgc, hdone2 other true hne,
                h4 other hne]
            · intro st
              rw [steps_append, h5 st]
              rfl
          · simp only [hok, Bool.false_eq_true, if_false]
            refine ⟨[(ZifStateCall.get_child node, true)] ++
              [(ZifStateCall.done node, false)], ?_, trivial, ?_, ?_, fun _ => rfl⟩
            · have hf : impl (s.log ++ [(ZifStateCall.get_child node, true)])
                  (ZifStateCall.done node) = false := by
                simpa using hok
              simp [hf]
            · rw [done_calls_append, hgc, hdone, List.length_cons]
              omega
            · intro other hne
              rw [done_calls_append, hgc, hdone2 other false hne]

theorem steps_respected_nil (m step : Nat) : steps_respected m step [] :=
  ⟨rfl, fun _ _ => ⟨rfl, rfl⟩, fun _ => ⟨Nat.zero_le _, Or.inr ⟨rfl, rfl⟩⟩⟩

theorem steps_respected_iteration (m step : Nat) (ex1 tail rest : ZifStateLog)
    (h1 : zif_state_done_calls (ZifStateNode.child ZifStateNode.root step) ex1 ≤ m)
    (h2 : ∀ other, other ≠ ZifStateNode.child ZifStateNode.root step →
      zif_state_done_calls other ex1 = 0)
    (h3 : ∀ st, zif_state_steps st ex1 = [])
    (ht : ∀ k, zif_state_done_calls (ZifStateNode.child ZifStateNode.root k) tail = 0)
    (ht2 : ∀ st, zif_state_steps st tail = [])
    (hx : steps_respected m (step + 1) rest) :
    steps_respected m step
      ([(ZifStateCall.get_child ZifStateNode.root, true),
        (ZifStateCall.set_number_steps (ZifStateNode.child ZifStateNode.root step) m, true)] ++
        ex1 ++ tail ++ rest) := by
  obtain ⟨x1, x2, x3⟩ := hx
  have hp : ∀ st, zif_state_done_calls st
      [(ZifStateCall.get_child ZifStateNode.root, true),
        (ZifStateCall.set_number_steps (ZifStateNode.child ZifStateNode.root step) m, true)] =
      0 := fun _ => rfl
  have hp1 : zif_state_steps ZifStateNode.root
      [(ZifStateCall.get_child ZifStateNode.root, true),
        (ZifStateCall.set_number_steps (ZifStateNode.child ZifStateNode.root step) m, true)] =
      [] := rfl
  have hp2 : zif_state_steps (ZifStateNode.child ZifStateNode.root step)
      [(ZifStateCall.get_child ZifStateNode.root, true),
        (ZifStateCall.set_number_steps (ZifStateNode.child ZifStateNode.root step) m, true)] =
      [m] := by
    simp [zif_state_steps]
  have hp3 : ∀ k, k ≠ step → zif_state_steps (ZifStateNode.child ZifStateNode.root k)
      [(ZifStateCall.get_child ZifStateNode.root, true),
        (ZifStateCall.set_number_steps (ZifStateNode.child ZifStateNode.root step) m, true)] =
      [] := by
    intro k hk
    simp [zif_state_steps, Ne.symm hk]
  have hne : ∀ k, k ≠ step →
      ZifStateNode.child ZifStateNode.root k ≠ ZifStateNode.child ZifStateNode.root step := by
    intro k hk he
    injection he with _ he2
    exact hk he2
  refine ⟨?_, ?_, ?_⟩
  · rw [steps_append, steps_append, steps_append, hp1, h3, ht2, x1]
    rfl
  · intro k hk
    have hks : k ≠ step := by omega
    rw [done_calls_append, done_calls_append, done_calls_append, hp, h2 _ (hne k hks), ht,
      steps_append, steps_append, steps_append, hp3 k hks, h3, ht2,
      (x2 k (by omega)).1, (x2 k (by omega)).2]
    exact ⟨rfl, rfl⟩
  · intro k
    by_cases hks : k = step
    · subst hks
      rw [done_calls_append, done_calls_append, done_calls_append, hp, ht,
        steps_append, steps_append, steps_append, hp2, h3, ht2,
        (x2 k (by omega)).1, (x2 k (by omega)).2]
      exact ⟨by omega, Or.inl rfl⟩
    · rw [done_calls_append, done_calls_append, done_calls_append, hp, h2 _ (hne k hks), ht,
        steps_append, steps_append, steps_append, hp3 k hks, h3, ht2]
      simp only [Nat.zero_add, List.nil_append]
      exact x3 k

theorem filter_loop_log (query : ZifHeapQuery) (impl : ZifStateImpl)
    (depends : List ZifDepend) :
    ∀ (fuel i step : Nat) (s : ZifFilterState), s.array.length - i ≤ fuel →
      ∃ status s2 extra,
        zif_package_array_filter_loop query impl depends fuel i step s = some (status, s2) ∧
        s2.log = s.log ++ extra ∧
        zif_state_done_calls ZifStateNode.root extra ≤ s.array.length - i ∧
        (status = ZifFilterStatus.ok →
          zif_state_done_calls ZifStateNode.root extra = s.array.length - i) ∧
        steps_respected depends.length step extra := by
  intro fuel
  induction fuel with
  | zero =>
    intro i step s hfuel
    have hi : ¬ i < s.array.length := by omega
    refine ⟨ZifFilterStatus.ok, s, [], ?_, by simp, Nat.zero_le _, fun _ => ?_,
      steps_respected_nil _ _⟩
    · simp [zif_package_array_filter_loop, hi]
    · have : s.array.length - i = 0 := by omega
      rw [this]
      rfl
  | succ fuel ih =>
    intro i step s hfuel
    have hroot : ZifStateNode.root ≠ ZifStateNode.child ZifStateNode.root step :=
      fun h => ZifStateNode.noConfusion h
    have hpre : zif_state_done_calls ZifStateNode.root
        [(ZifStateCall.get_child ZifStateNode.root, true),
          (ZifStateCall.set_number_steps (ZifStateNode.child ZifStateNode.root step)
            depends.length, true)] = 0 := rfl
    have htail : ∀ b, zif_state_done_calls ZifStateNode.root
        [(ZifStateCall.done ZifStateNode.root, b)] = 1 := by
      intro b
      simp [zif_state_done_calls]
    have htail1 : ∀ b k, zif_state_done_calls (ZifStateNode.child ZifStateNode.root k)
        [(ZifStateCall.done ZifStateNode.root, b)] = 0 := by
      intro b k
      simp [zif_state_done_calls]
    have htail2 : ∀ b st, zif_state_steps st [(ZifStateCall.done ZifStateNode.root, b)] = [] :=
      fun _ _ => rfl
    by_cases hi : i < s.array.length
    · obtain ⟨ex1, h1, h2, h3, h4, h5⟩ := filter_depends_log query impl
        (s.array.get ⟨i, hi⟩) (ZifStateNode.child ZifStateNode.root step) depends
        { s with log := s.log ++ [(ZifStateCall.get_child ZifStateNode.root, true),
            (ZifStateCall.set_number_steps (ZifStateNode.child ZifStateNode.root step)
              depends.length, true)] }
      cases hinner : zif_package_array_filter_depends query impl (s.array.get ⟨i, hi⟩)
          (ZifStateNode.child ZifStateNode.root step) depends
          { s with log := s.log ++ [(ZifStateCall.get_child ZifStateNode.root, true),
              (ZifStateCall.set_number_steps (ZifStateNode.child ZifStateNode.root step)
                depends.length, true)] } with
      | mk st s1 =>
        rw [hinner] at h1 h2
        simp only at h1 h2
        have hstop : st ≠ ZifFilterStatus.ok →
            ∃ status s2 extra,
              zif_package_array_filter_loop query impl depends (fuel + 1) i step s =
                some (status, s2) ∧
              s2.log = s.log ++ extra ∧
              zif_state_done_calls ZifStateNode.root extra ≤ s.array.length - i ∧
              (status = ZifFilterStatus.ok →
                zif_state_done_calls ZifStateNode.root extra = s.array.length - i) ∧
              steps_respected depends.length step extra := by
          intro hst
          refine ⟨st, s1, [(ZifStateCall.get_child ZifStateNode.root, true),
            (ZifStateCall.set_number_steps (ZifStateNode.child ZifStateNode.root step)
              depends.length, true)] ++ ex1 ++ [] ++ [], ?_, ?_, ?_, fun h => absurd h hst,
            steps_respected_iteration _ _ ex1 [] [] h3 h4 h5 (fun _ => rfl) (fun _ => rfl)
              (steps_respected_nil _ _)⟩
          · rw [zif_package_array_filter_loop]
            simp only [hi, dite_true, hinner]
          · rw [h1]
            simp
          · rw [done_calls_append, done_calls_append, done_calls_append, hpre,
              h4 _ hroot]
            exact Nat.zero_le _
        cases st with
        | query_failed e => exact hstop (fun h => ZifFilterStatus.noConfusion h)
        | query_undefined => exact hstop (fun h => ZifFilterStatus.noConfusion h)
        | state_failed => exact hstop (fun h => ZifFilterStatus.noConfusion h)
        | ok =>
          by_cases hdone : impl s1.log (ZifStateCall.done ZifStateNode.root) = true
          · by_cases hnone : s1.satisfies = none
            · -- the package is removed
              obtain ⟨st2, s2, extra, hrec, hlog, hle, heq, hresp⟩ := ih i (step + 1)
                { array := g_ptr_array_remove_index_fast s1.array i, heap := s1.heap,
                  satisfies := s1.satisfies,
                  log := s1.log ++ [(ZifStateCall.done ZifStateNode.root, true)] }
                (by
                  simp only [h2]
                  rw [remove_fast_length _ _ hi]
                  omega)
              simp only [h2] at hle heq
              rw [remove_fast_length _ _ hi] at hle heq
              refine ⟨st2, s2, [(ZifStateCall.get_child ZifStateNode.root, true),
                (ZifStateCall.set_number_steps (ZifStateNode.child ZifStateNode.root step)
                  depends.length, true)] ++ ex1 ++
                  [(ZifStateCall.done ZifStateNode.root, true)] ++ extra, ?_, ?_, ?_, ?_,
                steps_respected_iteration _ _ ex1 _ extra h3 h4 h5 (htail1 true)
                  (htail2 true) hresp⟩
              · rw [zif_package_array_filter_loop]
                simp only [hi, dite_true, hinner, hdone, if_true, hnone]
                rw [hnone] at hrec
                exact hrec
              · rw [hlog]
                simp only [h1, List.append_assoc]
              · rw [done_calls_append, done_calls_append, done_calls_append, hpre,
                  h4 _ hroot, htail]
                omega
              · intro hok
                rw [done_calls_append, done_calls_append, done_calls_append, hpre,
                  h4 _ hroot, htail, heq hok]
                omega
            · -- the package is kept
              obtain ⟨st2, s2, extra, hrec, hlog, hle, heq, hresp⟩ := ih (i + 1) (step + 1)
                { s1 with log := s1.log ++ [(ZifStateCall.done ZifStateNode.root, true)] }
                (by
                  simp only [h2]
                  omega)
              simp only [h2] at hle heq
              refine ⟨st2, s2, [(ZifStateCall.get_child ZifStateNode.root, true),
                (ZifStateCall.set_number_steps (ZifStateNode.child ZifStateNode.root step)
                  depends.length, true)] ++ ex1 ++
                  [(ZifStateCall.done ZifStateNode.root, true)] ++ extra, ?_, ?_, ?_, ?_,
                steps_respected_iteration _ _ ex1 _ extra h3 h4 h5 (htail1 true)
                  (htail2 true) hresp⟩
              · rw [zif_package_array_filter_loop]
                simp only [hi, dite_true, hinner, hdone, if_true, hnone, if_false]
                exact hrec
              · rw [hlog]
                simp only [h1, List.append_assoc]
              · rw [done_calls_append, done_calls_append, done_calls_append, hpre,
                  h4 _ hroot, htail]
                omega
              · intro hok
                rw [done_calls_append, done_calls_append, done_calls_append, hpre,
                  h4 _ hroot, htail, heq hok]
                omega
          · -- zif_state_done on the parent failed
            refine ⟨ZifFilterStatus.state_failed,
              { s1 with log := s1.log ++ [(ZifStateCall.done ZifStateNode.root, false)] },
              [(ZifStateCall.get_child ZifStateNode.root, true),
                (ZifStateCall.set_number_steps (ZifStateNode.child ZifStateNode.root step)
                  depends.length, true)] ++ ex1 ++
                  [(ZifStateCall.done ZifStateNode.root, false)] ++ [], ?_, ?_, ?_,
              fun h => ZifFilterStatus.noConfusion h,
              steps_respected_iteration _ _ ex1 _ [] h3 h4 h5 (htail1 false)
                (htail2 false) (steps_respected_nil _ _)⟩
            · rw [zif_package_array_filter_loop]
              simp only [hi, dite_true, hinner, hdone, if_false]
              have hf : impl s1.log (ZifStateCall.done ZifStateNode.root) = false := by
                simpa using hdone
              simp [hf]
            · simp only [h1, List.append_assoc, List.append_nil]
            · rw [done_calls_append, done_calls_append, done_calls_append, hpre,
                h4 _ hroot, htail]
              have : zif_state_done_calls ZifStateNode.root [] = 0 := rfl
              omega
    · refine ⟨ZifFilterStatus.ok, s, [], ?_, by simp, Nat.zero_le _, fun _ => ?_,
        steps_respected_nil _ _⟩
      · simp [zif_package_array_filter_loop, hi]
      · have : s.array.length - i = 0 := by omega
        rw [this]
        rfl

theorem zif_package_array_filter_log (query : ZifHeapQuery) (impl : ZifStateImpl)
    (heap : ZifHeap) (array : List Nat) (depends : List ZifDepend) :
    filter_steps_kept (zif_package_array_filter query impl heap array depends)
      array.length depends.length := by
  obtain ⟨status, s2, extra, hrun, hlog, hle, heq, hresp⟩ := filter_loop_log query impl
    depends array.length 0 0
    { array := array, heap := heap, satisfies := none,
      log := [(ZifStateCall.set_number_steps ZifStateNode.root array.length, true)] }
    (by simp)
  simp only [Nat.sub_zero] at hle heq hlog
  have hp : ∀ st, zif_state_done_calls st
      [(ZifStateCall.set_number_steps ZifStateNode.root array.length, true)] = 0 :=
    fun _ => rfl
  have hp1 : zif_state_steps ZifStateNode.root
      [(ZifStateCall.set_number_steps ZifStateNode.root array.length, true)] =
      [array.length] := by
    simp [zif_state_steps]
  have hp2 : ∀ k, zif_state_steps (ZifStateNode.child ZifStateNode.root k)
      [(ZifStateCall.set_number_steps ZifStateNode.root array.length, true)] = [] := by
    intro k
    simp [zif_state_steps]
  refine ⟨status, s2, hrun, ?_, ?_, ?_, ?_⟩
  · rw [hlog, steps_append, hp1, hresp.1]
    rfl
  · rw [hlog, done_calls_append, hp]
    omega
  · intro hok
    rw [hlog, done_calls_append, hp, heq hok]
    omega
  · intro k
    rw [hlog, done_calls_append, steps_append, hp, hp2]
    simp only [Nat.zero_add, List.nil_append]
    exact hresp.2.2 k


/-- C37: each of the four filters, on an array of n packages with m
dependencies, returns, configures the parent state once with n steps and
calls zif_state_done on it at most n times, exactly n times when it returns
TRUE; each per-package child is configured once with m steps and has at most
m calls of zif_state_done. In the example of five packages and three
dependencies the parent has five such calls and the children 2, 0, 1, 0 and
3; when zif_state_done fails on the parent the run ends after one call. -/
theorem zif_package_array_filter_steps (api : ZifDependApi) (classes : Nat → ZifPackageClass)
    (state_impl : ZifStateImpl) (heap : ZifHeap) (array : List Nat)
    (depends : List ZifDepend) :
    filter_steps_kept
      (zif_package_array_filter_provide api classes state_impl heap array depends)
      array.length depends.length ∧
    filter_steps_kept
      (zif_package_array_filter_require api classes state_impl heap array depends)
      array.length depends.length ∧
    filter_steps_kept
      (zif_package_array_filter_conflict api classes state_impl heap array depends)
      array.length depends.length ∧
    filter_steps_kept
      (zif_package_array_filter_obsolete api classes state_impl heap array depends)
      array.length depends.length ∧
    (zif_package_array_filter_provide zif_depend_api (fun _ => class_no_loader)
        state_always_ok example_heap_provides [0, 1, 2, 1, 3]
        [depend_dbus_newer, depend_glib_any, depend_sh_any]).map
      (fun r => (r.1, zif_state_done_calls ZifStateNode.root r.2.log,
        (List.range 5).map (fun k =>
          zif_state_done_calls (ZifStateNode.child ZifStateNode.root k) r.2.log))) =
      some (ZifFilterStatus.ok, 5, [2, 0, 1, 0, 3]) ∧
    (zif_package_array_filter_provide zif_depend_api (fun _ => class_no_loader)
        (fun _ call => decide (call ≠ ZifStateCall.done ZifStateNode.root))
        example_heap_provides [0, 1, 2, 1, 3]
        [depend_dbus_newer, depend_glib_any, depend_sh_any]).map
      (fun r => (r.1, zif_state_done_calls ZifStateNode.root r.2.log)) =
      some (ZifFilterStatus.state_failed, 1) :=
  ⟨zif_package_array_filter_log _ state_impl heap array depends,
    zif_package_array_filter_log _ state_impl heap array depends,
    zif_package_array_filter_log _ state_impl heap array depends,
    zif_package_array_filter_log _ state_impl heap array depends,
    by decide, by decide⟩

end Zif
